import Mathlib

/-!
# ADCore: NDArray pool, arrays and attributes

A shallow embedding of `ADApp/ADSrc/NDArray.cpp`.

Conventions of the embedding

* Objects created with `new NDArray` live in a heap (`World.arrays`); the address of an
  array is its index in that heap.  The pool itself has an address (`NDArrayPool.self`),
  the value of `this`, against which `owner` is compared.
* The `ELLLIST` free list is the list of the addresses of its nodes, first node first:
  `ellFirst` is the head, `ellAdd` appends at the tail, `ellDelete` unlinks the node.
* C `int` quantities are mathematical integers (`Int`): signed overflow is undefined in C
  and is not modelled; the theorems about the byte counts `alloc` computes assume that
  they fit an `int` (`fitsInt`).  `maxMemory` is a `size_t`; the comparison against it is done
  after the usual arithmetic conversion to `size_t` (`toSizeT`).
* A function returns `none` where the C code has no defined behaviour: it dereferences an
  address at which there is no array, reads past the end of an array, or uses the
  `NDArrayInfo_t` that `getInfo` left unwritten.
* A data buffer is the list of its bytes, `none` is the `NULL` pointer.  Integer elements
  are little-endian; floating-point elements are kept as bit patterns and the
  floating-point conversions and additions are a parameter (`FloatOps`).
* `callocMustSucceed` succeeds: running out of memory is not modelled.
* A method of the pool runs under the pool mutex; a history of the pool is a sequence of
  calls (`PoolOp`, `runWith`), each applied to the state the previous one left.  The
  calls of two threads interleave as whole calls, in the order of a schedule
  (`runThreads`).
-/

namespace ADCore

/-! ## Data model -/

/-- Modelled from the spec: the constant `ND_ARRAY_MAX_DIMS` of `NDArray.h`, which is not
among the sources; the spec gives "MAX_DIMS is a compile-time cap, e.g. 10". -/
def ND_ARRAY_MAX_DIMS : Nat := 10

/-- Modelled from the spec: the status codes `ND_SUCCESS` and `ND_ERROR` of `NDArray.h`
(not among the sources); only their being different matters. -/
inductive NDStatus where
  | ND_SUCCESS
  | ND_ERROR
  deriving DecidableEq, Repr

/-- The element kinds `NDDataType_t`, in the order of the `switch` of `NDArray::getInfo`.
`other` stands for any value of the enum variable that is none of the eight enumerators
(the `default:` branches of the source). -/
inductive NDDataType where
  | NDInt8
  | NDUInt8
  | NDInt16
  | NDUInt16
  | NDInt32
  | NDUInt32
  | NDFloat32
  | NDFloat64
  | other (code : Int)
  deriving DecidableEq, Repr

/-- The kinds of attribute values `NDAttrDataType_t`; `other` is any value outside the
enumerators. -/
inductive NDAttrDataType where
  | NDAttrInt8
  | NDAttrUInt8
  | NDAttrInt16
  | NDAttrUInt16
  | NDAttrInt32
  | NDAttrUInt32
  | NDAttrFloat32
  | NDAttrFloat64
  | NDAttrString
  | NDAttrUndefined
  | other (code : Int)
  deriving DecidableEq, Repr

/-- The structure `NDDimension_t`. -/
structure NDDimension where
  size : Int
  offset : Int
  binning : Int
  reverse : Int
  deriving DecidableEq, Repr

/-- The structure `NDArrayInfo_t`. -/
structure NDArrayInfo where
  nElements : Int
  bytesPerElement : Int
  totalBytes : Int
  deriving DecidableEq, Repr

/-- The class `NDAttribute`.  A C string is the list of its bytes before the terminating
0 (`none` is the `NULL` pointer); `value` is the storage of the union `NDAttrValue`, as
bytes. -/
structure NDAttribute where
  pName : List Nat
  pDescription : Option (List Nat)
  dataType : NDAttrDataType
  value : List Nat
  pString : Option (List Nat)
  deriving DecidableEq, Repr

/-- The class `NDArray`.  `owner` is the address of the owning pool (`none` is `NULL`),
`timeStamp` is the bit pattern of the `double` (it is only ever copied), `dims` is the
array `dims[ND_ARRAY_MAX_DIMS]`, `pData` the data buffer. -/
structure NDArray where
  referenceCount : Int
  owner : Option Nat
  uniqueId : Int
  timeStamp : Nat
  ndims : Int
  dims : List NDDimension
  dataType : NDDataType
  dataSize : Int
  pData : Option (List Nat)
  attributeList : List NDAttribute
  deriving DecidableEq, Repr

/-- The class `NDArrayPool`; `self` is the address of the pool object. -/
structure NDArrayPool where
  self : Nat
  maxBuffers : Int
  numBuffers : Int
  maxMemory : Nat
  memorySize : Int
  numFree : Int
  freeList : List Nat
  deriving DecidableEq, Repr

/-- The program state seen by the pool: the heap of `NDArray` objects and the pool. -/
structure World where
  arrays : List NDArray
  pool : NDArrayPool
  deriving DecidableEq, Repr

/-- An all-zero dimension descriptor (what `memset(dims, 0, ...)` leaves). -/
def NDDimension.zero : NDDimension :=
  { size := 0, offset := 0, binning := 0, reverse := 0 }

/-- The constructor `NDArray::NDArray()`: every field 0, no attributes. -/
def NDArray.new : NDArray :=
  { referenceCount := 0, owner := none, uniqueId := 0, timeStamp := 0, ndims := 0,
    dims := List.replicate ND_ARRAY_MAX_DIMS NDDimension.zero,
    dataType := NDDataType.NDInt8, dataSize := 0, pData := none, attributeList := [] }

/-- The constructor `NDArrayPool::NDArrayPool(maxBuffers, maxMemory)`. -/
def NDArrayPool.new (self : Nat) (maxBuffers : Int) (maxMemory : Nat) : NDArrayPool :=
  { self := self, maxBuffers := maxBuffers, numBuffers := 0, maxMemory := maxMemory,
    memorySize := 0, numFree := 0, freeList := [] }

/-- A freshly constructed pool on an empty heap. -/
def World.init (self : Nat) (maxBuffers : Int) (maxMemory : Nat) : World :=
  { arrays := [], pool := NDArrayPool.new self maxBuffers maxMemory }

/-- The conversion of an integer to `size_t` (64 bits). -/
def toSizeT (x : Int) : Int := x % 2 ^ 64

/-! ## NDArray::getInfo and NDArray::initDimension -/

/-- The `switch` of `NDArray::getInfo`: `sizeof` of the element kind; `none` is the
`default:` branch, which returns `ND_ERROR` without writing `pInfo`. -/
def bytesPerElement : NDDataType → Option Int
  | NDDataType.NDInt8 => some 1
  | NDDataType.NDUInt8 => some 1
  | NDDataType.NDInt16 => some 2
  | NDDataType.NDUInt16 => some 2
  | NDDataType.NDInt32 => some 4
  | NDDataType.NDUInt32 => some 4
  | NDDataType.NDFloat32 => some 4
  | NDDataType.NDFloat64 => some 8
  | NDDataType.other _ => none

/-- The product of the sizes of the given descriptors, as the loop
`for (i=0; i<ndims; i++) nElements *= dims[i].size` computes it from 1. -/
def sizeProduct (ds : List NDDimension) : Int :=
  ds.foldl (fun acc d => acc * d.size) 1

/-- The integer `x` is a value of the C type `int` (32 bits, two's complement). -/
def fitsInt (x : Int) : Bool := decide (-(2 ^ 31) ≤ x) && decide (x < 2 ^ 31)

/-- The method `NDArray::getInfo`.  `none` when no usable `NDArrayInfo_t` results: the
element kind is not supported (ND_ERROR, `pInfo` unwritten) or `ndims` exceeds the length
of `dims` (the loop reads past the array).  The products are taken in the integers; the
code takes them in `int`, and the two agree when `totalBytes` satisfies `fitsInt` (the
element size is at least 1, so `nElements` then fits as well).  The theorems that name a
byte count computed by `alloc` assume this. -/
def NDArray.getInfo (a : NDArray) : Option NDArrayInfo :=
  match bytesPerElement a.dataType with
  | none => none
  | some bpe =>
    if a.ndims.toNat ≤ a.dims.length then
      let n := sizeProduct (a.dims.take a.ndims.toNat)
      some { nElements := n, bytesPerElement := bpe, totalBytes := n * bpe }
    else none

/-- The method `NDArray::initDimension`. -/
def NDArray.initDimension (size : Int) : NDDimension :=
  { size := size, offset := 0, binning := 1, reverse := 0 }

/-! ## NDArrayPool::alloc -/

/-- Lines 91-97 of `alloc`: `dims` zeroed, then the first `min ndims ND_ARRAY_MAX_DIMS`
descriptors set from the caller's `dims`. -/
def allocDims (ndims : Int) (dims : List Int) : List NDDimension :=
  (List.range ND_ARRAY_MAX_DIMS).map fun (i : Nat) =>
    if (i : Int) < ndims then
      { size := dims.getD i 0, offset := 0, binning := 1, reverse := 0 }
    else NDDimension.zero

/-- Lines 68-83 of `alloc`: the head of the free list, or a newly constructed array put
on the free list when the list is empty and `maxBuffers` allows it, or no array. -/
def allocFind (w : World) : World × Option Nat :=
  match w.pool.freeList.head? with
  | some p => (w, some p)
  | none =>
    if 0 < w.pool.maxBuffers ∧ w.pool.numBuffers ≥ w.pool.maxBuffers then (w, none)
    else
      ({ arrays := w.arrays ++ [NDArray.new],
         pool := { w.pool with
           numBuffers := w.pool.numBuffers + 1,
           freeList := w.pool.freeList ++ [w.arrays.length],
           numFree := w.pool.numFree + 1 } },
       some w.arrays.length)

/-- Lines 134-139 of `alloc`: reference count 1, node unlinked from the free list. -/
def allocFinish (w : World) (p : Nat) (a : NDArray) : World :=
  { arrays := w.arrays.set p { a with referenceCount := 1 },
    pool := { w.pool with
      freeList := w.pool.freeList.erase p,
      numFree := w.pool.numFree - 1 } }

/-- Lines 107-133 of `alloc`, for the selected array `a` at address `p` whose fields are
already initialised and with `dataSize` already defaulted: adopt the caller's buffer, or
keep the current buffer when it is big enough, or free it and allocate a zeroed one
unless `maxMemory` would be exceeded. -/
def allocBuffer (w : World) (p : Nat) (a : NDArray) (dataSize : Int)
    (pData : Option (List Nat)) : World × Option Nat :=
  match pData with
  | some buf => (allocFinish w p { a with pData := some buf }, some p)
  | none =>
    if a.dataSize < dataSize then
      let memorySize := w.pool.memorySize - a.dataSize
      if 0 < w.pool.maxMemory ∧ toSizeT (memorySize + dataSize) > w.pool.maxMemory then
        ({ arrays := w.arrays.set p { a with pData := none },
           pool := { w.pool with memorySize := memorySize } }, none)
      else
        (allocFinish
          { arrays := w.arrays,
            pool := { w.pool with memorySize := memorySize + dataSize } }
          p { a with pData := some (List.replicate dataSize.toNat 0), dataSize := dataSize },
         some p)
    else (allocFinish w p a, some p)

/-- Lines 88-97 of `alloc`: the fields of the selected array `a0` set from the arguments. -/
def allocInit (self : Nat) (a0 : NDArray) (ndims : Int) (dims : List Int)
    (dataType : NDDataType) : NDArray :=
  { a0 with owner := some self, dataType := dataType, ndims := ndims,
            dims := allocDims ndims dims }

/-- Line 99 of `alloc`: `if (dataSize == 0) dataSize = arrayInfo.totalBytes`. -/
def allocSize (dataSize totalBytes : Int) : Int :=
  if dataSize = 0 then totalBytes else dataSize

/-- The method `NDArrayPool::alloc(ndims, dims, dataType, dataSize, pData)`.  The result
is the new state and the returned pointer (`none` is `NULL`). -/
def NDArrayPool.alloc (w : World) (ndims : Int) (dims : List Int) (dataType : NDDataType)
    (dataSize : Int) (pData : Option (List Nat)) : Option (World × Option Nat) :=
  match allocFind w with
  | (w1, none) => some (w1, none)
  | (w1, some p) =>
    match w1.arrays[p]? with
    | none => none
    | some a0 =>
      if min ndims.toNat ND_ARRAY_MAX_DIMS ≤ dims.length then
        let a := allocInit w1.pool.self a0 ndims dims dataType
        match a.getInfo with
        | none => none
        | some arrayInfo =>
          if arrayInfo.totalBytes > allocSize dataSize arrayInfo.totalBytes then
            some ({ w1 with arrays := w1.arrays.set p a }, none)
          else some (allocBuffer w1 p a (allocSize dataSize arrayInfo.totalBytes) pData)
      else none

/-! ## NDArrayPool::reserve and NDArrayPool::release -/

/-- The method `NDArrayPool::reserve`. -/
def NDArrayPool.reserve (w : World) (pArray : Nat) : Option (World × NDStatus) :=
  match w.arrays[pArray]? with
  | none => none
  | some a =>
    if a.owner ≠ some w.pool.self then some (w, NDStatus.ND_ERROR)
    else
      some ({ w with arrays :=
                w.arrays.set pArray { a with referenceCount := a.referenceCount + 1 } },
            NDStatus.ND_SUCCESS)

/-- The method `NDArrayPool::release`. -/
def NDArrayPool.release (w : World) (pArray : Nat) : Option (World × NDStatus) :=
  match w.arrays[pArray]? with
  | none => none
  | some a =>
    if a.owner ≠ some w.pool.self then some (w, NDStatus.ND_ERROR)
    else
      let a1 := { a with referenceCount := a.referenceCount - 1 }
      let arrays := w.arrays.set pArray a1
      if a1.referenceCount = 0 then
        some ({ arrays := arrays,
                pool := { w.pool with
                  freeList := w.pool.freeList ++ [pArray],
                  numFree := w.pool.numFree + 1 } },
              NDStatus.ND_SUCCESS)
      else some ({ w with arrays := arrays }, NDStatus.ND_SUCCESS)

/-! ## NDAttribute -/

/-- The constructor `NDAttribute::NDAttribute(pName)`: the name copied, no description,
no string, kind undefined.  The union `value` is not initialised by the constructor; it
is taken as 8 zero bytes. -/
def NDAttribute.new (pName : List Nat) : NDAttribute :=
  { pName := pName, pDescription := none, dataType := NDAttrDataType.NDAttrUndefined,
    value := List.replicate 8 0, pString := none }

/-- The `sizeof` of the member of the union `NDAttrValue` used by a numeric kind;
`none` for the string kind, the undefined kind and values outside the enumeration. -/
def attrSize : NDAttrDataType → Option Nat
  | NDAttrDataType.NDAttrInt8 => some 1
  | NDAttrDataType.NDAttrUInt8 => some 1
  | NDAttrDataType.NDAttrInt16 => some 2
  | NDAttrDataType.NDAttrUInt16 => some 2
  | NDAttrDataType.NDAttrInt32 => some 4
  | NDAttrDataType.NDAttrUInt32 => some 4
  | NDAttrDataType.NDAttrFloat32 => some 4
  | NDAttrDataType.NDAttrFloat64 => some 8
  | _ => none

/-- The C string found at a pointer, given the bytes readable from that pointer on: the
bytes before the first 0; `none` when there is no terminator. -/
def cString (mem : List Nat) : Option (List Nat) :=
  if 0 ∈ mem then some (mem.takeWhile (fun b => b ≠ 0)) else none

/-- The bytes `strncpy(dest, src, n)` writes: the string, then zeros up to `n` bytes, cut
at `n` bytes. -/
def strncpy (src : List Nat) (n : Nat) : List Nat :=
  (src ++ List.replicate (n - src.length) 0).take n

/-- The C library `toupper` on a byte, in the C locale. -/
def toupper (c : Nat) : Nat :=
  if 97 ≤ c ∧ c ≤ 122 then c - 32 else c

/-- Modelled from the spec: `epicsStrCaseCmp(a, b) == 0` of EPICS base, which is not among
the sources; "name comparison is case-insensitive". -/
def epicsStrCaseEq (a b : List Nat) : Bool :=
  a.map toupper == b.map toupper

/-- The method `NDAttribute::setDescription`.  `none`: `strcmp` is handed a `NULL`
description while one is stored. -/
def NDAttribute.setDescription (attr : NDAttribute) (pDescription : Option (List Nat)) :
    Option (NDAttribute × NDStatus) :=
  match attr.pDescription with
  | some cur =>
    match pDescription with
    | none => none
    | some d =>
      if cur = d then some (attr, NDStatus.ND_SUCCESS)
      else some ({ attr with pDescription := some d }, NDStatus.ND_SUCCESS)
  | none => some ({ attr with pDescription := pDescription }, NDStatus.ND_SUCCESS)

/-- The method `NDAttribute::setValue(dataType, pValue)`; `pValue` is `none` for `NULL`
and otherwise the bytes readable at the pointer.  `none`: the value or the string
extends past the readable bytes. -/
def NDAttribute.setValue (attr : NDAttribute) (dataType : NDAttrDataType)
    (pValue : Option (List Nat)) : Option (NDAttribute × NDStatus) :=
  let prevDataType := attr.dataType
  let attr1 := { attr with dataType := dataType }
  match pValue with
  | none =>
    if dataType ≠ NDAttrDataType.NDAttrUndefined then some (attr1, NDStatus.ND_ERROR)
    else some ({ attr1 with pString := none }, NDStatus.ND_SUCCESS)
  | some mem =>
    if dataType = NDAttrDataType.NDAttrString then
      match cString mem with
      | none => none
      | some s =>
        if prevDataType = NDAttrDataType.NDAttrString ∧ attr1.pString = some s then
          some (attr1, NDStatus.ND_SUCCESS)
        else some ({ attr1 with pString := some s }, NDStatus.ND_SUCCESS)
    else
      let attr2 := { attr1 with pString := none }
      match attrSize dataType with
      | some k =>
        if k ≤ mem.length then
          some ({ attr2 with value := mem.take k ++ attr2.value.drop k }, NDStatus.ND_SUCCESS)
        else none
      | none =>
        if dataType = NDAttrDataType.NDAttrUndefined then some (attr2, NDStatus.ND_SUCCESS)
        else some (attr2, NDStatus.ND_ERROR)

/-- The method `NDAttribute::getValue(dataType, pValue, dataSize)`: the status and the
bytes written to `pValue`. -/
def NDAttribute.getValue (attr : NDAttribute) (dataType : NDAttrDataType) (dataSize : Nat) :
    NDStatus × List Nat :=
  if dataType ≠ attr.dataType then (NDStatus.ND_ERROR, [])
  else
    match attrSize attr.dataType with
    | some k => (NDStatus.ND_SUCCESS, attr.value.take k)
    | none =>
      if attr.dataType = NDAttrDataType.NDAttrString then
        match attr.pString with
        | none => (NDStatus.ND_ERROR, [])
        | some s =>
          (NDStatus.ND_SUCCESS, strncpy s (if dataSize = 0 then s.length + 1 else dataSize))
      else (NDStatus.ND_ERROR, [])

/-! ## The attribute list of an NDArray

A pointer to an attribute of an array is its position in the attribute list. -/

/-- The method `NDArray::findAttribute`. -/
def NDArray.findAttribute (a : NDArray) (pName : List Nat) : Option Nat :=
  a.attributeList.findIdx? (fun attr => epicsStrCaseEq attr.pName pName)

/-- The method `NDArray::addAttribute(pName)`. -/
def NDArray.addAttribute (a : NDArray) (pName : List Nat) : NDArray × Nat :=
  match a.findAttribute pName with
  | some i => (a, i)
  | none =>
    ({ a with attributeList := a.attributeList ++ [NDAttribute.new pName] },
     a.attributeList.length)

/-- The method `NDArray::addAttribute(pName, dataType, pValue)`. -/
def NDArray.addAttributeValue (a : NDArray) (pName : List Nat) (dataType : NDAttrDataType)
    (pValue : Option (List Nat)) : Option (NDArray × Nat) :=
  match a.addAttribute pName with
  | (a1, i) =>
    match a1.attributeList[i]? with
    | none => none
    | some attr =>
      match attr.setValue dataType pValue with
      | none => none
      | some (attr1, _) => some ({ a1 with attributeList := a1.attributeList.set i attr1 }, i)

/-- The method `NDArray::addAttribute(pName, pDescription, dataType, pValue)`. -/
def NDArray.addAttributeDesc (a : NDArray) (pName : List Nat)
    (pDescription : Option (List Nat)) (dataType : NDAttrDataType)
    (pValue : Option (List Nat)) : Option (NDArray × Nat) :=
  match a.addAttribute pName with
  | (a1, i) =>
    match a1.attributeList[i]? with
    | none => none
    | some attr =>
      match attr.setDescription pDescription with
      | none => none
      | some (attr1, _) =>
        match attr1.setValue dataType pValue with
        | none => none
        | some (attr2, _) =>
          some ({ a1 with attributeList := a1.attributeList.set i attr2 }, i)

/-- The pointer `copyAttributes` and `addAttribute(NDAttribute *)` hand to `setValue`:
the string (with its terminator) for the string kind, the union otherwise. -/
def NDAttribute.valuePointer (attr : NDAttribute) : Option (List Nat) :=
  if attr.dataType = NDAttrDataType.NDAttrString then attr.pString.map (fun s => s ++ [0])
  else some attr.value

/-- The method `NDArray::addAttribute(NDAttribute *pIn)`. -/
def NDArray.addAttributeFrom (a : NDArray) (pIn : NDAttribute) : Option (NDArray × Nat) :=
  a.addAttributeDesc pIn.pName pIn.pDescription pIn.dataType pIn.valuePointer

/-- The method `NDArray::deleteAttribute`. -/
def NDArray.deleteAttribute (a : NDArray) (pName : List Nat) : NDArray × NDStatus :=
  match a.findAttribute pName with
  | none => (a, NDStatus.ND_ERROR)
  | some i => ({ a with attributeList := a.attributeList.eraseIdx i }, NDStatus.ND_SUCCESS)

/-- The method `NDArray::clearAttributes`. -/
def NDArray.clearAttributes (a : NDArray) : NDArray :=
  { a with attributeList := [] }

/-- The method `NDArray::copyAttributes(pOut)`: every attribute of `a`, in order, is
added to `out`. -/
def NDArray.copyAttributes (a : NDArray) (out : NDArray) : Option NDArray :=
  a.attributeList.foldlM
    (fun o attr =>
      (o.addAttributeDesc attr.pName attr.pDescription attr.dataType attr.valuePointer).map
        Prod.fst)
    out

/-- The method `NDArray::numAttributes`. -/
def NDArray.numAttributes (a : NDArray) : Nat := a.attributeList.length

/-! ## Typed access to data buffers -/

/-- The floating-point operations of the platform, on bit patterns: `cast tin tout v` is
the conversion `(tout)v` when one of the kinds is a floating-point kind, `add t x y` the
sum `x + y` in the floating-point kind `t`. -/
structure FloatOps where
  cast : NDDataType → NDDataType → Int → Int
  add : NDDataType → Int → Int → Int

/-- Width in bits and signedness of the integer kinds; `none` for the other kinds. -/
def intKind : NDDataType → Option (Nat × Bool)
  | NDDataType.NDInt8 => some (8, true)
  | NDDataType.NDUInt8 => some (8, false)
  | NDDataType.NDInt16 => some (16, true)
  | NDDataType.NDUInt16 => some (16, false)
  | NDDataType.NDInt32 => some (32, true)
  | NDDataType.NDUInt32 => some (32, false)
  | _ => none

/-- The value of an integer reduced modulo `2^bits` and read in the given signedness. -/
def wrapInt (bits : Nat) (signed : Bool) (v : Int) : Int :=
  let m := v % 2 ^ bits
  if signed ∧ m ≥ 2 ^ (bits - 1) then m - 2 ^ bits else m

/-- The number a little-endian byte sequence stands for. -/
def decodeLE (bytes : List Nat) : Nat :=
  bytes.foldr (fun b acc => b + 256 * acc) 0

/-- The `k` little-endian bytes of a number. -/
def encodeLE (k : Nat) (v : Nat) : List Nat :=
  (List.range k).map (fun i => v / 256 ^ i % 256)

/-- The element of kind `t` at element index `i` of a buffer: an integer for the integer
kinds, the bit pattern for the floating-point kinds.  `none` when the element does not lie
within the buffer or the kind has no size. -/
def readElem (t : NDDataType) (buf : List Nat) (i : Int) : Option Int :=
  match bytesPerElement t with
  | none => none
  | some bpe =>
    if 0 ≤ i ∧ (i.toNat + 1) * bpe.toNat ≤ buf.length then
      let raw : Int := decodeLE ((buf.drop (i.toNat * bpe.toNat)).take bpe.toNat)
      match intKind t with
      | some (bits, signed) => some (wrapInt bits signed raw)
      | none => some raw
    else none

/-- The buffer after the element of kind `t` at element index `i` is written. -/
def writeElem (t : NDDataType) (buf : List Nat) (i : Int) (v : Int) : Option (List Nat) :=
  match bytesPerElement t with
  | none => none
  | some bpe =>
    if 0 ≤ i ∧ (i.toNat + 1) * bpe.toNat ≤ buf.length then
      some (buf.take (i.toNat * bpe.toNat)
        ++ encodeLE bpe.toNat (v % 2 ^ (8 * bpe.toNat)).toNat
        ++ buf.drop ((i.toNat + 1) * bpe.toNat))
    else none

/-- The conversion `(dataTypeOut)x` of an element of kind `tin`. -/
def castElem (F : FloatOps) (tin tout : NDDataType) (v : Int) : Int :=
  match intKind tin, intKind tout with
  | some _, some (bits, signed) => wrapInt bits signed v
  | _, _ => F.cast tin tout v

/-- The sum `x + y` stored in an element of kind `t`. -/
def addElem (F : FloatOps) (t : NDDataType) (x y : Int) : Int :=
  match intKind t with
  | some (bits, signed) => wrapInt bits signed (x + y)
  | none => F.add t x y

/-- The bytes `memcpy(dest, src, n)` leaves in `dest`; `none` when `n` bytes do not lie
within both buffers. -/
def memcpy (dest src : List Nat) (n : Int) : Option (List Nat) :=
  if 0 ≤ n ∧ n.toNat ≤ src.length ∧ n.toNat ≤ dest.length then
    some (src.take n.toNat ++ dest.drop n.toNat)
  else none

/-- The bytes `memset(dest, 0, n)` leaves in `dest`. -/
def memsetZero (dest : List Nat) (n : Int) : Option (List Nat) :=
  if 0 ≤ n ∧ n.toNat ≤ dest.length then
    some (List.replicate n.toNat 0 ++ dest.drop n.toNat)
  else none

/-! ## The conversion kernel -/

/-- The template `convertType<dataTypeIn, dataTypeOut>`: `nElements` elements of the
output assigned from the input, each converted. -/
def convertType (F : FloatOps) (tin tout : NDDataType) (inBuf outBuf : List Nat)
    (nElements : Int) : Option (List Nat) :=
  (List.range nElements.toNat).foldlM
    (fun out i =>
      match readElem tin inBuf i with
      | none => none
      | some v => writeElem tout out i (castElem F tin tout v))
    outBuf

/-- The template `convertTypeSwitch<dataTypeOut>`: the status and the output buffer.  The
`default:` branch returns `ND_ERROR` and converts nothing. -/
def convertTypeSwitch (F : FloatOps) (tin tout : NDDataType) (inBuf outBuf : List Nat)
    (nElements : Int) : Option (NDStatus × List Nat) :=
  match tin with
  | NDDataType.other _ => some (NDStatus.ND_ERROR, outBuf)
  | _ => (convertType F tin tout inBuf outBuf nElements).map (fun b => (NDStatus.ND_SUCCESS, b))

/-- The product of the sizes of the first `dim` descriptors (`inStep`, `outStep`). -/
def stepOf (dims : List NDDimension) (dim : Nat) : Int :=
  sizeProduct (dims.take dim)

/-- The inner loop `for (bin=0; bin<binning; bin++) { body; pDIn += inc; }` of
`convertDim`, with `n` iterations left: the final `pDIn` and output buffer. -/
def binLoop (body : Int → Int → List Nat → Option (List Nat)) (inc pDOut : Int) :
    Nat → Int → List Nat → Option (Int × List Nat)
  | 0, pDIn, buf => some (pDIn, buf)
  | n + 1, pDIn, buf =>
    match body pDIn pDOut buf with
    | none => none
    | some buf1 => binLoop body inc pDOut n (pDIn + inc) buf1

/-- The outer loop `for (out=0; out<size; out++) { inner loop; pDOut += outStep; }` of
`convertDim`, with `n` iterations left. -/
def outLoop (body : Int → Int → List Nat → Option (List Nat)) (inc outStep : Int)
    (binning : Nat) : Nat → Int → Int → List Nat → Option (List Nat)
  | 0, _, _, buf => some buf
  | n + 1, pDIn, pDOut, buf =>
    match binLoop body inc pDOut binning pDIn buf with
    | none => none
    | some (pDIn1, buf1) => outLoop body inc outStep binning n pDIn1 (pDOut + outStep) buf1

/-- The innermost statement `*pDOut += (dataTypeOut)*pDIn` of `convertDim`. -/
def accumulate (F : FloatOps) (tin tout : NDDataType) (inBuf : List Nat)
    (pDIn pDOut : Int) (outBuf : List Nat) : Option (List Nat) :=
  match readElem tin inBuf pDIn, readElem tout outBuf pDOut with
  | some x, some y => writeElem tout outBuf pDOut (addElem F tout y (castElem F tin tout x))
  | _, _ => none

/-- One level of `convertDim`: the steps, offset and direction computed for dimension
`dim`, then the two loops around `body`. -/
def convertLevel (inDims outDims : List NDDimension) (dim : Nat)
    (body : Int → Int → List Nat → Option (List Nat))
    (pDIn pDOut : Int) (outBuf : List Nat) : Option (List Nat) :=
  match outDims[dim]? with
  | none => none
  | some od =>
    let inStep := stepOf inDims dim
    let outStep := stepOf outDims dim
    let inOffset :=
      if od.reverse ≠ 0 then od.offset + (od.size * od.binning - 1) else od.offset
    let inDir : Int := if od.reverse ≠ 0 then -1 else 1
    let inc := inDir * inStep
    outLoop body inc outStep od.binning.toNat od.size.toNat (pDIn + inOffset * inStep) pDOut
      outBuf

/-- The template `convertDim<dataTypeIn, dataTypeOut>(pIn, pOut, pDataIn, pDataOut, dim)`,
with `pDIn` and `pDOut` as element indices into the input and output buffers; the result
is the output buffer. -/
def convertDim (F : FloatOps) (tin tout : NDDataType) (inDims outDims : List NDDimension)
    (inBuf : List Nat) : Nat → Int → Int → List Nat → Option (List Nat)
  | 0, pDIn, pDOut, outBuf =>
    convertLevel inDims outDims 0 (accumulate F tin tout inBuf) pDIn pDOut outBuf
  | d + 1, pDIn, pDOut, outBuf =>
    convertLevel inDims outDims (d + 1) (convertDim F tin tout inDims outDims inBuf d)
      pDIn pDOut outBuf

/-- The template `convertDimensionSwitch<dataTypeOut>`: the status and the output buffer;
the `default:` branch returns `ND_ERROR` and converts nothing.  `none` also when `dim`
is negative (`dims[dim]` is read out of bounds). -/
def convertDimensionSwitch (F : FloatOps) (tin tout : NDDataType)
    (inDims outDims : List NDDimension) (inBuf outBuf : List Nat)
    (pDataIn pDataOut : Int) (dim : Int) : Option (NDStatus × List Nat) :=
  match tin with
  | NDDataType.other _ => some (NDStatus.ND_ERROR, outBuf)
  | _ =>
    if 0 ≤ dim then
      (convertDim F tin tout inDims outDims inBuf dim.toNat pDataIn pDataOut outBuf).map
        (fun b => (NDStatus.ND_SUCCESS, b))
    else none

/-- The function `convertDimension`: the result of `convertDimensionSwitch` is dropped,
the status is `ND_ERROR` only in the `default:` branch of the switch on the output kind. -/
def convertDimension (F : FloatOps) (tin tout : NDDataType)
    (inDims outDims : List NDDimension) (inBuf outBuf : List Nat)
    (pDataIn pDataOut : Int) (dim : Int) : Option (NDStatus × List Nat) :=
  match tout with
  | NDDataType.other _ => some (NDStatus.ND_ERROR, outBuf)
  | _ =>
    (convertDimensionSwitch F tin tout inDims outDims inBuf outBuf pDataIn pDataOut dim).map
      (fun r => (NDStatus.ND_SUCCESS, r.2))

/-! ## NDArrayPool::copy and NDArrayPool::convert -/

/-- Modelled from the spec: the numeric value of a status code.  `NDArray.h`, which
defines `ND_SUCCESS` and `ND_ERROR`, is not among the sources; the spec only names the two
outcomes, and the values taken are the usual ones of the header, 0 for success and -1 for
an error. -/
def NDStatus.toInt : NDStatus → Int
  | NDStatus.ND_SUCCESS => 0
  | NDStatus.ND_ERROR => -1

/-- The array at address `p` replaced. -/
def World.setArray (w : World) (p : Nat) (a : NDArray) : World :=
  { w with arrays := w.arrays.set p a }

/-- Lines 168-181 of `copy`, with the output array at address `q`: identity fields,
dimensions and element kind copied, the data copied when asked, the attributes of the
output cleared and those of the input copied. -/
def copyInto (w : World) (pIn q : Nat) (copyData : Int) : Option (World × Nat) :=
  match w.arrays[pIn]?, w.arrays[q]? with
  | some aIn, some aOut0 =>
    let aOut1 : NDArray :=
      { aOut0 with uniqueId := aIn.uniqueId, timeStamp := aIn.timeStamp,
                   ndims := aIn.ndims, dims := aIn.dims, dataType := aIn.dataType }
    let copied : Option NDArray :=
      if copyData ≠ 0 then
        match aIn.getInfo with
        | none => none
        | some arrayInfo =>
          let numCopy :=
            if aOut1.dataSize < arrayInfo.totalBytes then aOut1.dataSize
            else arrayInfo.totalBytes
          match aOut1.pData, aIn.pData with
          | some dest, some src =>
            (memcpy dest src numCopy).map (fun b => { aOut1 with pData := some b })
          | _, _ => if numCopy = 0 then some aOut1 else none
      else some aOut1
    match copied with
    | none => none
    | some aOut2 =>
      let aOut3 := aOut2.clearAttributes
      let aSrc := if q = pIn then aOut3 else aIn
      match aSrc.copyAttributes aOut3 with
      | none => none
      | some aOut4 => some (w.setArray q aOut4, q)
  | _, _ => none

/-- The method `NDArrayPool::copy(pIn, pOut, copyData)`; `pOut = none` is `NULL`.  The
result is the new state and the returned pointer.  `none`: an address without array, a
failed allocation (the `NULL` output is dereferenced), `ndims` beyond the local
`dimSizeOut`, or a `memcpy` outside the buffers. -/
def NDArrayPool.copy (w : World) (pIn : Nat) (pOut : Option Nat) (copyData : Int) :
    Option (World × Nat) :=
  match w.arrays[pIn]? with
  | none => none
  | some aIn0 =>
    match pOut with
    | some q => copyInto w pIn q copyData
    | none =>
      if aIn0.ndims ≤ ND_ARRAY_MAX_DIMS then
        match NDArrayPool.alloc w aIn0.ndims
            ((aIn0.dims.take aIn0.ndims.toNat).map (fun d => d.size)) aIn0.dataType 0 none with
        | some (w1, some q) => copyInto w1 pIn q copyData
        | _ => none
      else none

/-- The first loop of `convert` (lines 438-450) over the template descriptors and the
input descriptors: the output descriptors with `size` divided by `binning`, and whether
the dimensions are unchanged.  `some none` is the return of `ND_ERROR` for a size `<= 0`;
`none` is a division by zero or a read past the input descriptors. -/
def convertTemplate : List NDDimension → List NDDimension →
    Option (Option (List NDDimension × Bool))
  | [], _ => some (some ([], true))
  | d :: ds, ins =>
    if d.binning = 0 then none
    else
      let size := d.size.tdiv d.binning
      if size ≤ 0 then some none
      else
        match ins with
        | [] => none
        | x :: xs =>
          let changed : Bool :=
            decide (x.size ≠ size) || decide (d.offset ≠ 0) || decide (d.binning ≠ 1)
              || decide (d.reverse ≠ 0)
          match convertTemplate ds xs with
          | none => none
          | some none => some none
          | some (some (rest, unchanged)) =>
            some (some ({ d with size := size } :: rest, unchanged && !changed))

/-- The last loop of `convert` (lines 517-521) over the output descriptors, the input
descriptors and the descriptors computed from the template. -/
def composeDims : List NDDimension → List NDDimension → List NDDimension → List NDDimension
  | o :: os, x :: xs, c :: cs =>
    { o with offset := x.offset + c.offset, binning := x.binning * c.binning,
             reverse := if x.reverse ≠ 0 then (if o.reverse ≠ 0 then 0 else 1) else o.reverse }
      :: composeDims os xs cs
  | os, _, _ => os

/-- The bytes of the C string "ColorMode". -/
def colorModeName : List Nat := [67, 111, 108, 111, 114, 77, 111, 100, 101]

/-- The data phase of `convert` (lines 470-514) on the buffers of the input and of the
output: a plain copy, a conversion of the element kind, or the zeroing of the output
followed by `convertDimension`.  The result tells whether `convert` returns at once
(line 475) and gives the output buffer. -/
def convertData (F : FloatOps) (aIn aOut : NDArray) (dimsUnchanged : Bool)
    (arrayInfo : NDArrayInfo) (src dest : List Nat) : Option (Bool × List Nat) :=
  if dimsUnchanged then
    if aIn.dataType = aOut.dataType then
      (memcpy dest src arrayInfo.totalBytes).map (fun b => (true, b))
    else
      match aOut.dataType with
      | NDDataType.other _ => some (false, dest)
      | _ =>
        (convertTypeSwitch F aIn.dataType aOut.dataType src dest arrayInfo.nElements).map
          (fun r => (false, r.2))
  else
    match memsetZero dest arrayInfo.totalBytes with
    | none => none
    | some zeroed =>
      (convertDimension F aIn.dataType aOut.dataType aIn.dims aOut.dims src zeroed 0 0
        (aIn.ndims - 1)).map (fun r => (false, r.2))

/-- Lines 461-533 of `convert`, with the allocated output array at address `q`, the
descriptors `dimsOutCopy` computed from the template and the flag `dimsUnchanged`. -/
def convertInto (F : FloatOps) (w : World) (pIn q : Nat) (dimsOutCopy : List NDDimension)
    (dimsUnchanged : Bool) : Option (World × Option Nat × NDStatus) :=
  match w.arrays[pIn]?, w.arrays[q]? with
  | some aIn, some aOut0 =>
    if q = pIn then none
    else
      let aOut1 : NDArray :=
        { aOut0 with timeStamp := aIn.timeStamp, uniqueId := aIn.uniqueId,
                     dims := dimsOutCopy ++ aOut0.dims.drop aIn.ndims.toNat }
      match aIn.copyAttributes aOut1 with
      | none => none
      | some aOut2 =>
        match aOut2.getInfo, aIn.pData, aOut2.pData with
        | some arrayInfo, some src, some dest =>
          match convertData F aIn aOut2 dimsUnchanged arrayInfo src dest with
          | none => none
          | some (true, b) =>
            some (w.setArray q { aOut2 with pData := some b }, some q, NDStatus.ND_SUCCESS)
          | some (false, b) =>
            let aOut3 : NDArray :=
              { aOut2 with
                pData := some b,
                dims := composeDims aOut2.dims (aIn.dims.take aIn.ndims.toNat) dimsOutCopy }
            match aOut3.findAttribute colorModeName with
            | none => some (w.setArray q aOut3, some q, NDStatus.ND_SUCCESS)
            | some i =>
              match aOut3.attributeList[i]? with
              | none => none
              | some attr =>
                if (attr.getValue NDAttrDataType.NDAttrInt32 0).1.toInt ≠ 0 then none
                else some (w.setArray q aOut3, some q, NDStatus.ND_SUCCESS)
        | _, _, _ => none
  | _, _ => none

/-- The method `NDArrayPool::convert(pIn, ppOut, dataTypeOut, dimsOut)`.  The result is
the new state, the pointer left in `*ppOut` and the returned status.  `none`: an address
without array, a negative `ndims` or one beyond `ND_ARRAY_MAX_DIMS`, a template shorter
than `ndims`, a division by zero, an output that is the input itself, an access outside
a buffer, or the use of the `colorMode` that a failed `getValue` left unwritten. -/
def NDArrayPool.convert (F : FloatOps) (w : World) (pIn : Nat) (dataTypeOut : NDDataType)
    (dimsOut : List NDDimension) : Option (World × Option Nat × NDStatus) :=
  match w.arrays[pIn]? with
  | none => none
  | some aIn0 =>
    if 0 ≤ aIn0.ndims ∧ aIn0.ndims ≤ ND_ARRAY_MAX_DIMS ∧ aIn0.ndims.toNat ≤ dimsOut.length then
      match convertTemplate (dimsOut.take aIn0.ndims.toNat) aIn0.dims with
      | none => none
      | some none => some (w, none, NDStatus.ND_ERROR)
      | some (some (dimsOutCopy, dimsUnchanged)) =>
        match NDArrayPool.alloc w aIn0.ndims (dimsOutCopy.map (fun d => d.size))
            dataTypeOut 0 none with
        | none => none
        | some (w1, none) => some (w1, none, NDStatus.ND_ERROR)
        | some (w1, some q) => convertInto F w1 pIn q dimsOutCopy dimsUnchanged
    else none

/-! ## Sequences of pool operations -/

/-- A call of one of the methods of the pool. -/
inductive PoolOp where
  | alloc (ndims : Int) (dims : List Int) (dataType : NDDataType) (dataSize : Int)
      (pData : Option (List Nat))
  | reserve (pArray : Nat)
  | release (pArray : Nat)
  | copy (pIn : Nat) (pOut : Option Nat) (copyData : Int)
  | convert (pIn : Nat) (dataTypeOut : NDDataType) (dimsOut : List NDDimension)
  deriving DecidableEq, Repr

/-- The state after a call; `none` when the call has no defined behaviour. -/
def PoolOp.apply (F : FloatOps) (w : World) : PoolOp → Option World
  | PoolOp.alloc ndims dims dataType dataSize pData =>
    (NDArrayPool.alloc w ndims dims dataType dataSize pData).map Prod.fst
  | PoolOp.reserve pArray => (NDArrayPool.reserve w pArray).map Prod.fst
  | PoolOp.release pArray => (NDArrayPool.release w pArray).map Prod.fst
  | PoolOp.copy pIn pOut copyData => (NDArrayPool.copy w pIn pOut copyData).map Prod.fst
  | PoolOp.convert pIn dataTypeOut dimsOut =>
    (NDArrayPool.convert F w pIn dataTypeOut dimsOut).map Prod.fst

/-- The state after a sequence of calls, each of which has to satisfy the condition
`ok` in the state it is made in; `none` when a call does not satisfy it or has no defined
behaviour. -/
def runWith (ok : World → PoolOp → Bool) (F : FloatOps) : World → List PoolOp → Option World
  | w, [] => some w
  | w, op :: ops =>
    if ok w op then
      match op.apply F w with
      | none => none
      | some w1 => runWith ok F w1 ops
    else none

/-- Every call is allowed. -/
def anyUse (_ : World) (_ : PoolOp) : Bool := true

/-- The state after a sequence of calls. -/
def run (F : FloatOps) (w : World) (ops : List PoolOp) : Option World :=
  runWith anyUse F w ops

/-- The array at `pArray` has a reference count above 0. -/
def inUse (w : World) (pArray : Nat) : Bool :=
  match w.arrays[pArray]? with
  | some a => decide (0 < a.referenceCount)
  | none => false

/-- Calls of `alloc`, `reserve` and `release`, the last two only on arrays whose reference
count is above 0 at the time of the call. -/
def validUse (w : World) : PoolOp → Bool
  | PoolOp.alloc _ _ _ _ _ => true
  | PoolOp.reserve pArray => inUse w pArray
  | PoolOp.release pArray => inUse w pArray
  | _ => false

/-- As `validUse`, and `alloc` is never given an external buffer. -/
def validUseOwnBuffers (w : World) : PoolOp → Bool
  | PoolOp.alloc _ _ _ _ pData => pData.isNone
  | PoolOp.reserve pArray => inUse w pArray
  | PoolOp.release pArray => inUse w pArray
  | _ => false

/-- The byte counts of a call of `alloc` (the requested `dataSize` and the count required
by the dimensions and the element kind) fit the C type `int`. -/
def PoolOp.bytesFitInt : PoolOp → Bool
  | PoolOp.alloc ndims dims dataType dataSize _ =>
    fitsInt dataSize &&
      (match bytesPerElement dataType with
       | some bpe => fitsInt ((dims.take ndims.toNat).prod * bpe)
       | none => true)
  | _ => true

/-- Calls of `alloc` without external buffer, with byte counts that fit an `int`, and
calls of `release`. -/
def allocReleaseOwnBuffers (_ : World) (op : PoolOp) : Bool :=
  match op with
  | PoolOp.alloc _ _ _ _ pData => pData.isNone && op.bytesFitInt
  | PoolOp.release _ => true
  | _ => false

/-- The floating-point operations left unspecified: every result is the bit pattern 0. -/
def FloatOps.zero : FloatOps :=
  { cast := fun _ _ _ => 0, add := fun _ _ _ => 0 }

/-! ## A worked scenario

The states of scenario 1 of the spec: a fresh pool, the pool after
`alloc(2, [4,3], NDInt16, 0, NULL)`, and the pool after the release of that array. -/

/-- The 4 x 3 array of 16-bit integers, as `alloc` returns it from a fresh pool. -/
def demoArray : NDArray :=
  { NDArray.new with
    referenceCount := 1, owner := some 7, ndims := 2, dims := allocDims 2 [4, 3],
    dataType := NDDataType.NDInt16, dataSize := 24, pData := some (List.replicate 24 0) }

/-- A fresh pool at address 7, without limits. -/
def demoFresh : World := World.init 7 0 0

/-- The pool after the first allocation: one array, in use. -/
def demoInUse : World :=
  { arrays := [demoArray],
    pool := { NDArrayPool.new 7 0 0 with numBuffers := 1, memorySize := 24 } }

/-- The pool after the release: the array is back on the free list. -/
def demoFree : World :=
  { arrays := [{ demoArray with referenceCount := 0 }],
    pool := { NDArrayPool.new 7 0 0 with
      numBuffers := 1, memorySize := 24, numFree := 1, freeList := [0] } }

/-- The memory invariant: the counter is within the cap and no array has a negative
`dataSize`. -/
def MemInv (maxMemory : Nat) (w : World) : Prop :=
  w.pool.maxMemory = maxMemory ∧ w.pool.memorySize ≤ maxMemory ∧
    ∀ a ∈ w.arrays, 0 ≤ a.dataSize

/-- On a pool limited to 30 bytes: a 24-byte array is allocated and released. -/
def demoMemOps : List PoolOp :=
  [PoolOp.alloc 1 [12] NDDataType.NDInt16 0 none, PoolOp.release 0]

/-- The state after `demoMemOps` on a fresh pool with `maxMemory = 30`: the array is on
the free list, `memorySize = 24`. -/
def demoMemFree : World :=
  (runWith allocReleaseOwnBuffers FloatOps.zero (World.init 7 0 30) demoMemOps).getD demoFresh

/-- The state after a further `alloc(1, [16], NDInt16, 0, NULL)`, which asks for 32 bytes
and fails on the memory limit. -/
def demoMemFailed : World :=
  ((NDArrayPool.alloc demoMemFree 1 [16] NDDataType.NDInt16 0 none).map Prod.fst).getD
    demoFresh

/-- The free-list invariant on a heap and a free list: no node is linked twice, every
array on the free list has reference count 0, and every array with reference count 0 is
on the free list. -/
def ListInvOn (arrays : List NDArray) (freeList : List Nat) : Prop :=
  freeList.Nodup ∧
    (∀ p ∈ freeList, ∃ a, arrays[p]? = some a ∧ a.referenceCount = 0) ∧
    (∀ (p : Nat) (a : NDArray), arrays[p]? = some a → a.referenceCount = 0 →
      p ∈ freeList)

/-- The free-list invariant of a state. -/
def ListInv (w : World) : Prop := ListInvOn w.arrays w.pool.freeList

/-- The buffer invariant on a heap: an array in use has a `dataSize` of at least the bytes
its dimensions and element kind require; no `dataSize` is negative and a buffer holds
exactly `dataSize` bytes. -/
def DataInvOn (arrays : List NDArray) : Prop :=
  (∀ (p : Nat) (a : NDArray), arrays[p]? = some a → 0 < a.referenceCount →
    ∃ info, a.getInfo = some info ∧ info.totalBytes ≤ a.dataSize) ∧
  (∀ a ∈ arrays, 0 ≤ a.dataSize ∧
    ∀ buf, a.pData = some buf → (buf.length : Int) = a.dataSize)

/-- The state after `alloc(1, [24], NDInt8, 24, pData)` on a fresh pool, with `pData` a
caller's buffer of 24 bytes. -/
def demoExternal : World :=
  (run FloatOps.zero demoFresh
    [PoolOp.alloc 1 [24] NDDataType.NDInt8 24 (some (List.replicate 24 0))]).getD demoFresh

/-- A sequence of calls in which `reserve` and `release` meet arrays in use only: an
array is allocated, reserved and released once; an `alloc` with a `dataSize` that is too
small fails on a newly constructed array; that array is then allocated; the first array
is released. -/
def demoUseOps : List PoolOp :=
  [PoolOp.alloc 2 [4, 3] NDDataType.NDInt16 0 none,
   PoolOp.reserve 0,
   PoolOp.release 0,
   PoolOp.alloc 1 [100] NDDataType.NDInt8 50 none,
   PoolOp.alloc 1 [8] NDDataType.NDInt8 0 none,
   PoolOp.release 0]

/-- The state after `demoUseOps` on a fresh pool: array 0 is free, array 1 is in use. -/
def demoUseFinal : World :=
  (runWith validUseOwnBuffers FloatOps.zero demoFresh demoUseOps).getD demoFresh

/-- A 24-byte array is allocated and released, an `alloc` of 100 bytes with
`dataSize = 50` fails on its size check, and the array, still on the free list, is
reserved. -/
def demoReserveOps : List PoolOp :=
  [PoolOp.alloc 2 [4, 3] NDDataType.NDInt16 0 none,
   PoolOp.release 0,
   PoolOp.alloc 1 [100] NDDataType.NDInt8 50 none,
   PoolOp.reserve 0]

/-- The state after `demoReserveOps` on a fresh pool. -/
def demoReserved : World :=
  (run FloatOps.zero demoFresh demoReserveOps).getD demoFresh

/-- A pool limited to two buffers, and a sequence of calls that uses both. -/
def demoCapOps : List PoolOp :=
  [PoolOp.alloc 2 [4, 3] NDDataType.NDInt16 0 none,
   PoolOp.copy 0 none 1,
   PoolOp.release 1,
   PoolOp.convert 0 NDDataType.NDUInt16
     [{ size := 4, offset := 0, binning := 2, reverse := 0 },
      { size := 3, offset := 0, binning := 1, reverse := 0 }],
   PoolOp.reserve 0,
   PoolOp.release 0]

/-- The state after `demoCapOps` on a fresh pool with `maxBuffers = 2`. -/
def demoCapFinal : World :=
  (run FloatOps.zero (World.init 7 2 0) demoCapOps).getD demoFresh

/-- A pool at address 7 and two arrays it does not own: array 0 belongs to a pool at
address 3, array 1 has no owner. -/
def demoForeign : World :=
  { arrays := [{ NDArray.new with referenceCount := 2, owner := some 3 },
               { NDArray.new with referenceCount := 1 }],
    pool := NDArrayPool.new 7 0 0 }

/-- Modelled from the spec: the colour modes `NDColorModeMono`, `NDColorModeRGB1`,
`NDColorModeRGB2` and `NDColorModeRGB3` of the enumeration `NDColorMode_t` of `NDArray.h`,
which is not among the sources; the spec names "Mono" and "RGB1/RGB2/RGB3", the numbers
are the positions in the enumeration (Mono, Bayer, RGB1, RGB2, RGB3) and only their being
different matters. -/
def NDColorModeMono : Nat := 0

/-- Modelled from the spec: see `NDColorModeMono`. -/
def NDColorModeRGB1 : Nat := 2

/-- Modelled from the spec: see `NDColorModeMono`. -/
def NDColorModeRGB2 : Nat := 3

/-- Modelled from the spec: see `NDColorModeMono`. -/
def NDColorModeRGB3 : Nat := 4

/-- An 8-element array of 8-bit integers is allocated and a region of 4 elements starting
at offset 2 is converted out of it: array 1 has `dims[0] = {size 4, offset 2, binning 1,
reverse 0}`. -/
def demoRegionOps : List PoolOp :=
  [PoolOp.alloc 1 [8] NDDataType.NDInt8 0 none,
   PoolOp.convert 0 NDDataType.NDInt8 [{ size := 4, offset := 2, binning := 1, reverse := 0 }]]

/-- The state after `demoRegionOps` on a fresh pool. -/
def demoRegion : World :=
  (run FloatOps.zero demoFresh demoRegionOps).getD demoFresh

/-- The array at address `p` with an attribute added by
`addAttribute(pName, dataType, pValue)`. -/
def World.withAttribute (w : World) (p : Nat) (pName : List Nat) (dataType : NDAttrDataType)
    (pValue : Option (List Nat)) : World :=
  match w.arrays[p]? with
  | none => w
  | some a =>
    match a.addAttributeValue pName dataType pValue with
    | none => w
    | some (a1, _) => w.setArray p a1

/-- A 3 x 2 array of unsigned 8-bit integers carrying the attribute "ColorMode" of kind
`NDAttrInt32` with the value `NDColorModeRGB1`. -/
def demoColor : World :=
  ((run FloatOps.zero demoFresh [PoolOp.alloc 2 [3, 2] NDDataType.NDUInt8 0 none]).getD
    demoFresh).withAttribute 0 colorModeName NDAttrDataType.NDAttrInt32
      (some (encodeLE 4 NDColorModeRGB1))

/-- The result of converting the array of `demoColor` with a template that keeps one
element of axis 0: `dims[0].size` becomes 1. -/
def demoColorConverted : Option (World × Option Nat × NDStatus) :=
  NDArrayPool.convert FloatOps.zero demoColor 0 NDDataType.NDUInt8
    [{ size := 1, offset := 0, binning := 1, reverse := 0 },
     { size := 2, offset := 0, binning := 1, reverse := 0 }]

/-- The array of `demoColor`. -/
def demoColorArray : NDArray := demoColor.arrays.getD 0 NDArray.new

/-- The state after `copy(pIn, NULL, 1)` of the array of `demoColor`. -/
def demoColorCopied : World :=
  ((NDArrayPool.copy demoColor 0 none 1).map Prod.fst).getD demoFresh

/-! ## The layout of the elements and the effect of `convertDim`

Definitions used to state what the conversion kernel computes. -/

/-- The element index of the multi-index `idx` over the first `n` dimensions of an array
with descriptors `dims`: the sum of `idx d` times the step of dimension `d`, which is the
product of the sizes of the dimensions before `d` (the `inStep` and `outStep` of
`convertDim`). -/
def flatIndex (dims : List NDDimension) (idx : Nat → Int) : Nat → Int
  | 0 => 0
  | n + 1 => flatIndex dims idx n + idx n * stepOf dims n

/-- A multi-index lies within the sizes of the first `n` descriptors. -/
def validIndex (dims : List NDDimension) (idx : Nat → Int) (n : Nat) : Prop :=
  ∀ e, e < n → ∃ d, dims[e]? = some d ∧ 0 ≤ idx e ∧ idx e < d.size

/-- The sum of the `n` values `f p`, `f (p + inc)`, `f (p + 2 * inc)`, and so on; `none`
when one of them is `none`. -/
def sumLoop (f : Int → Option Int) (inc : Int) : Nat → Int → Option Int
  | 0, _ => some 0
  | n + 1, p =>
    match f p, sumLoop f inc n (p + inc) with
    | some a, some r => some (a + r)
    | _, _ => none

/-- The sum of the input elements that `convertDim`, over the first `m` dimensions and
started at the input position `pDIn`, adds into the output element of multi-index `idx`:
for each dimension, the `binning` positions counted from that of `idx` in the direction
of the dimension.  `none` when one of the elements lies outside the input buffer. -/
def gather (tin : NDDataType) (inDims outDims : List NDDimension) (inBuf : List Nat)
    (idx : Nat → Int) : Nat → Int → Option Int
  | 0, pDIn => readElem tin inBuf pDIn
  | m + 1, pDIn =>
    match outDims[m]? with
    | none => none
    | some od =>
      let inStep := stepOf inDims m
      let inOffset :=
        if od.reverse ≠ 0 then od.offset + (od.size * od.binning - 1) else od.offset
      let inDir : Int := if od.reverse ≠ 0 then -1 else 1
      let inc := inDir * inStep
      sumLoop (gather tin inDims outDims inBuf idx m) inc od.binning.toNat
        (pDIn + inOffset * inStep + idx m * od.binning.toNat * inc)

/-- What a level of `convertDim` over the first `m` dimensions does to the output buffer,
for integer kinds: the elements outside the block of the output that starts at `pDOut`
stay as they are, and the element of multi-index `idx` in the block grows by the sum
`gather` describes, reduced to the output kind. -/
def LevelSpec (tin tout : NDDataType) (inDims outDims : List NDDimension)
    (inBuf : List Nat) (bits : Nat) (signed : Bool) (m : Nat)
    (body : Int → Int → List Nat → Option (List Nat)) : Prop :=
  ∀ (pDIn pDOut : Int) (buf out : List Nat), body pDIn pDOut buf = some out →
    (∀ J : Int, (J < pDOut ∨ pDOut + stepOf outDims m ≤ J) →
      readElem tout out J = readElem tout buf J) ∧
    (∀ idx : Nat → Int, validIndex outDims idx m →
      ∀ y, readElem tout buf (pDOut + flatIndex outDims idx m) = some y →
        ∃ g, gather tin inDims outDims inBuf idx m pDIn = some g ∧
          readElem tout out (pDOut + flatIndex outDims idx m)
            = some (wrapInt bits signed (y + g)))

/-- A 4 x 3 array of unsigned 8-bit integers whose element `(i0, i1)` is `10 * i0 + i1`,
allocated on a buffer of the caller. -/
def demoBinIn : World :=
  (run FloatOps.zero demoFresh
    [PoolOp.alloc 2 [4, 3] NDDataType.NDUInt8 0
      (some [0, 10, 20, 30, 1, 11, 21, 31, 2, 12, 22, 32])]).getD demoFresh

/-- The array of `demoBinIn`. -/
def demoBinArray : NDArray := demoBinIn.arrays.getD 0 NDArray.new

/-- The template that bins axis 0 of the array of `demoBinIn` by 2. -/
def demoBinTemplate : List NDDimension :=
  [{ size := 4, offset := 0, binning := 2, reverse := 0 },
   { size := 3, offset := 0, binning := 1, reverse := 0 }]

/-- The bytes of the C string "Gain". -/
def gainName : List Nat := [71, 97, 105, 110]

/-- The bytes of the C string "Stale". -/
def staleName : List Nat := [83, 116, 97, 108, 101]

/-- Two arrays of 4 signed 8-bit integers are allocated; array 0 is given the attribute
"Gain" and array 1 the attribute "Stale", both of kind `NDAttrInt32`; array 1 is then
released, so that it waits on the free list with its attribute. -/
def demoRecycle : World :=
  ((NDArrayPool.release
    ((((run FloatOps.zero demoFresh
        [PoolOp.alloc 1 [4] NDDataType.NDInt8 0 none,
         PoolOp.alloc 1 [4] NDDataType.NDInt8 0 none]).getD demoFresh).withAttribute 0
        gainName NDAttrDataType.NDAttrInt32 (some (encodeLE 4 3))).withAttribute 1
        staleName NDAttrDataType.NDAttrInt32 (some (encodeLE 4 7))) 1).map Prod.fst).getD
    demoFresh

/-- The names of the attributes of the array at address `p`. -/
def World.attributeNames (w : World) (p : Nat) : Option (List (List Nat)) :=
  w.arrays[p]?.map (fun a => a.attributeList.map (fun t => t.pName))

/-- The array of `demoInUse` after its field `dataType` was set to the value 99, which is
none of the element kinds. -/
def demoUnsupported : World :=
  demoInUse.setArray 0 { demoArray with dataType := NDDataType.other 99 }

/-- An attribute that was given the 32-bit integer 7 and then the string "abcd". -/
def demoString : NDAttribute :=
  ((((NDAttribute.new gainName).setValue NDAttrDataType.NDAttrInt32 (some [7, 0, 0, 0])).bind
    (fun r => r.1.setValue NDAttrDataType.NDAttrString (some [97, 98, 99, 100, 0]))).map
    Prod.fst).getD (NDAttribute.new gainName)

/-- An array of 3 signed 16-bit integers holding 300, -1 and 5, allocated on a buffer of
the caller. -/
def demoCastIn : World :=
  (run FloatOps.zero demoFresh
    [PoolOp.alloc 1 [3] NDDataType.NDInt16 0 (some [44, 1, 255, 255, 5, 0])]).getD demoFresh

/-- The array of `demoCastIn`. -/
def demoCastArray : NDArray := demoCastIn.arrays.getD 0 NDArray.new

/-- The state after the array of `demoCastIn` is converted to unsigned 8-bit integers with
its own descriptors as template. -/
def demoCast : World :=
  ((NDArrayPool.convert FloatOps.zero demoCastIn 0 NDDataType.NDUInt8 demoCastArray.dims).map
    Prod.fst).getD demoFresh

/-- A newly constructed attribute named "Gain". -/
def demoAttr : NDAttribute := NDAttribute.new gainName

/-- The bytes of the C string "Bar". -/
def barName : List Nat := [66, 97, 114]

/-- The bytes of the C string "foo". -/
def fooLower : List Nat := [102, 111, 111]

/-- The bytes of the C string "Foo". -/
def fooMixed : List Nat := [70, 111, 111]

/-- The bytes of the C string "FOO". -/
def fooUpper : List Nat := [70, 79, 79]

/-- An array without data that was given the attributes "Bar" with the 32-bit value 1 and
then "foo" with the 32-bit value 2. -/
def demoNamed : NDArray :=
  (((NDArray.new.addAttributeValue barName NDAttrDataType.NDAttrInt32 (some [1, 0, 0, 0])).bind
    (fun r => r.1.addAttributeValue fooLower NDAttrDataType.NDAttrInt32
      (some [2, 0, 0, 0]))).map Prod.fst).getD NDArray.new

/-- The array `demoNamed` after `addAttribute("Foo", NDAttrInt32, &5)`. -/
def demoTwice1 : NDArray :=
  ((demoNamed.addAttributeValue fooMixed NDAttrDataType.NDAttrInt32 (some [5, 0, 0, 0])).map
    Prod.fst).getD NDArray.new

/-- The array `demoTwice1` after `addAttribute("FOO", NDAttrInt32, &9)`. -/
def demoTwice2 : NDArray :=
  ((demoTwice1.addAttributeValue fooUpper NDAttrDataType.NDAttrInt32 (some [9, 0, 0, 0])).map
    Prod.fst).getD NDArray.new

/-! ## Sequences of operations on the attributes of an array -/

/-- A call of one of the methods that change the attribute list of an array: the four
overloads of `addAttribute`, `deleteAttribute`, `clearAttributes`, and `copyAttributes`
called on the array `src` with this array as output. -/
inductive AttrOp where
  | add (pName : List Nat)
  | addValue (pName : List Nat) (dataType : NDAttrDataType) (pValue : Option (List Nat))
  | addDesc (pName : List Nat) (pDescription : Option (List Nat))
      (dataType : NDAttrDataType) (pValue : Option (List Nat))
  | addFrom (pIn : NDAttribute)
  | delete (pName : List Nat)
  | clear
  | copyFrom (src : NDArray)

/-- The array after a call; `none` when the call has no defined behaviour. -/
def AttrOp.apply (a : NDArray) : AttrOp → Option NDArray
  | AttrOp.add pName => some (a.addAttribute pName).1
  | AttrOp.addValue pName dataType pValue =>
    (a.addAttributeValue pName dataType pValue).map Prod.fst
  | AttrOp.addDesc pName pDescription dataType pValue =>
    (a.addAttributeDesc pName pDescription dataType pValue).map Prod.fst
  | AttrOp.addFrom pIn => (a.addAttributeFrom pIn).map Prod.fst
  | AttrOp.delete pName => some (a.deleteAttribute pName).1
  | AttrOp.clear => some a.clearAttributes
  | AttrOp.copyFrom src => src.copyAttributes a

/-- The array after a sequence of calls. -/
def runAttr : NDArray → List AttrOp → Option NDArray
  | a, [] => some a
  | a, op :: ops =>
    match op.apply a with
    | none => none
    | some a1 => runAttr a1 ops

/-- A sequence of calls that adds "Bar" and "foo", deletes "bar", copies the attributes of
`demoNamed` in, and sets "FOO" and "Foo" with two other overloads. -/
def demoAttrOps : List AttrOp :=
  [AttrOp.addValue barName NDAttrDataType.NDAttrInt32 (some [1, 0, 0, 0]),
   AttrOp.add fooLower,
   AttrOp.delete [98, 97, 114],
   AttrOp.copyFrom demoNamed,
   AttrOp.addDesc fooUpper (some gainName) NDAttrDataType.NDAttrString
     (some [97, 98, 99, 100, 0]),
   AttrOp.addFrom { NDAttribute.new fooMixed with pDescription := some barName }]

/-- The array after `demoAttrOps` on a new array. -/
def demoAttrFinal : NDArray := (runAttr NDArray.new demoAttrOps).getD NDArray.new

/-- The counter invariant of a state: `numFree` is the length of the free list and
`numBuffers` is the number of arrays the pool has constructed. -/
def CountInv (w : World) : Prop :=
  w.pool.numFree = (w.pool.freeList.length : Int) ∧
    w.pool.numBuffers = (w.arrays.length : Int)

/-- A sequence in which `alloc` succeeds and fails in each of its three ways, on a pool
limited to 2 arrays and 30 bytes: a 24-byte array is allocated, reserved and released
twice; an `alloc` with a `dataSize` that is too small fails; an `alloc` of 32 bytes fails
on the memory limit; two arrays are allocated; a third `alloc` fails on the limit of
arrays. -/
def demoCountOps : List PoolOp :=
  [PoolOp.alloc 1 [12] NDDataType.NDInt16 0 none,
   PoolOp.reserve 0,
   PoolOp.release 0,
   PoolOp.release 0,
   PoolOp.alloc 1 [100] NDDataType.NDInt8 50 none,
   PoolOp.alloc 1 [16] NDDataType.NDInt16 0 none,
   PoolOp.alloc 1 [2] NDDataType.NDInt8 0 none,
   PoolOp.alloc 1 [2] NDDataType.NDInt8 0 none,
   PoolOp.alloc 1 [2] NDDataType.NDInt8 0 none,
   PoolOp.release 1]

/-- The state after `demoCountOps` on a fresh pool with `maxBuffers = 2` and
`maxMemory = 30`. -/
def demoCountFinal : World :=
  (runWith validUse FloatOps.zero (World.init 7 2 30) demoCountOps).getD demoFresh

/-- Line 439 of `convert`, `dimsOutCopy[i].size = dimsOutCopy[i].size/dimsOutCopy[i].binning`,
over a template: the descriptors `convert` stores in the output array before it converts
the data. -/
def dividedDims (tmpl : List NDDimension) : List NDDimension :=
  tmpl.map (fun d => { d with size := d.size.tdiv d.binning })

/-- The inner loop of `convertDim` with the positions `body` visits recorded instead of
executed: the pairs of an input and an output element index, in the order of the loop. -/
def binAccesses (body : Int → Int → List (Int × Int)) (inc pDOut : Int) :
    Nat → Int → List (Int × Int)
  | 0, _ => []
  | n + 1, pDIn => body pDIn pDOut ++ binAccesses body inc pDOut n (pDIn + inc)

/-- The outer loop of `convertDim`, recorded as in `binAccesses`. -/
def outAccesses (body : Int → Int → List (Int × Int)) (inc outStep : Int) (binning : Nat) :
    Nat → Int → Int → List (Int × Int)
  | 0, _, _ => []
  | n + 1, pDIn, pDOut =>
    binAccesses body inc pDOut binning pDIn
      ++ outAccesses body inc outStep binning n (pDIn + binning * inc) (pDOut + outStep)

/-- One level of `convertDim`, recorded as in `binAccesses`: the steps, offset and
direction are those `convertLevel` computes. -/
def levelAccesses (inDims outDims : List NDDimension) (dim : Nat)
    (body : Int → Int → List (Int × Int)) (pDIn pDOut : Int) : List (Int × Int) :=
  match outDims[dim]? with
  | none => []
  | some od =>
    let inStep := stepOf inDims dim
    let outStep := stepOf outDims dim
    let inOffset :=
      if od.reverse ≠ 0 then od.offset + (od.size * od.binning - 1) else od.offset
    let inDir : Int := if od.reverse ≠ 0 then -1 else 1
    let inc := inDir * inStep
    outAccesses body inc outStep od.binning.toNat od.size.toNat (pDIn + inOffset * inStep)
      pDOut

/-- The accesses of `convertDim` started at dimension `dim` with the element indices
`pDIn` and `pDOut`: each pair is the index of the input element read and the index of the
output element read and written by one execution of `*pDOut += (dataTypeOut)*pDIn`. -/
def convertDimAccesses (inDims outDims : List NDDimension) :
    Nat → Int → Int → List (Int × Int)
  | 0, pDIn, pDOut =>
    levelAccesses inDims outDims 0 (fun i o => [(i, o)]) pDIn pDOut
  | d + 1, pDIn, pDOut =>
    levelAccesses inDims outDims (d + 1) (convertDimAccesses inDims outDims d) pDIn pDOut

/-- The input index that belongs to the output index `j` and the bin `c` along an axis
with descriptor `od`, written after the specification and not after the code:
`offset + j * binning + c` without reversal, and
`offset + size * binning - 1 - (j * binning + c)` with reversal. -/
def specBinPosition (od : NDDimension) (j c : Int) : Int :=
  if od.reverse ≠ 0 then od.offset + od.size * od.binning - 1 - (j * od.binning + c)
  else od.offset + j * od.binning + c

/-- The sum that the output element of multi-index `j` of an array of `n` dimensions
receives, written after the specification and not after the code (the code's side is
`gather`, which follows the pointers): the sum over all bins `c` of the first `m` axes,
each `c e` below the binning of axis `e`, of the input element at the multi-index `x` with
`x e = specBinPosition od (j e) (c e)`; the entries of `x` for the other axes are given.  The
element is read at the element index `flatIndex inDims x n`; `none` when one of the
elements lies outside the input buffer. -/
def specBinnedSum (tin : NDDataType) (inDims outDims : List NDDimension) (inBuf : List Nat)
    (n : Nat) (j : Nat → Int) : Nat → (Nat → Int) → Option Int
  | 0, x => readElem tin inBuf (flatIndex inDims x n)
  | m + 1, x =>
    match outDims[m]? with
    | none => none
    | some od =>
      sumLoop
        (fun c => specBinnedSum tin inDims outDims inBuf n j m
          (Function.update x m (specBinPosition od (j m) c)))
        1 od.binning.toNat 0

/-- An array of 4 signed 8-bit integers on a buffer of the caller that holds 6 bytes. -/
def demoWideIn : World :=
  (run FloatOps.zero demoFresh
    [PoolOp.alloc 1 [4] NDDataType.NDInt8 6 (some [1, 2, 3, 4, 99, 98])]).getD demoFresh

/-- The array of `demoWideIn`. -/
def demoWideArray : NDArray := demoWideIn.arrays.getD 0 NDArray.new

/-- An array of 4 signed 8-bit integers on a buffer of 4 bytes. -/
def demoNarrowIn : World :=
  (run FloatOps.zero demoFresh
    [PoolOp.alloc 1 [4] NDDataType.NDInt8 0 (some [1, 2, 3, 4])]).getD demoFresh

/-- A template that asks for 4 elements from offset 2, which an axis of 4 elements does not
have. -/
def demoBeyondTemplate : List NDDimension :=
  [{ size := 4, offset := 2, binning := 1, reverse := 0 }]

/-- An array without data that was given the attribute "Gain" with the description "Bar"
and the 32-bit value 3. -/
def demoDescribed : NDArray :=
  ((NDArray.new.addAttributeDesc gainName (some barName) NDAttrDataType.NDAttrInt32
    (some [3, 0, 0, 0])).map Prod.fst).getD NDArray.new

/-- An array without data that was given the attribute "Gain" with the 32-bit value 5 by
`addAttribute(pName, dataType, pValue)`, which sets no description. -/
def demoPlain : NDArray :=
  ((NDArray.new.addAttributeValue gainName NDAttrDataType.NDAttrInt32
    (some [5, 0, 0, 0])).map Prod.fst).getD NDArray.new

/-- The attribute `b` has the description, the kind and the value of the attribute `s`:
every call of `getValue` gives the same status and the same bytes on both. -/
def sameContent (s b : NDAttribute) : Prop :=
  b.pDescription = s.pDescription ∧ b.dataType = s.dataType ∧
    ∀ ty n, b.getValue ty n = s.getValue ty n

/-- An array without data with the attributes "Foo" (32-bit value 5, no description) and
"Gain" (32-bit value 3). -/
def demoDest : NDArray :=
  (runAttr NDArray.new
    [AttrOp.addValue fooMixed NDAttrDataType.NDAttrInt32 (some [5, 0, 0, 0]),
     AttrOp.addValue gainName NDAttrDataType.NDAttrInt32 (some [3, 0, 0, 0])]).getD
    NDArray.new

/-- The array `demoDest` after the attributes of `demoNamed` ("Bar" with the value 1,
"foo" with the value 2) were copied to it. -/
def demoDestCopied : NDArray := (demoNamed.copyAttributes demoDest).getD NDArray.new

/-- The state after the 4 x 3 array of `demoBinIn`, whose 12 bytes are
`0, 10, 20, 30, 1, 11, 21, 31, 2, 12, 22, 32`, is converted to its own element kind with
its own descriptors as template. -/
def demoIdentityData : World :=
  ((NDArrayPool.convert FloatOps.zero demoBinIn 0 demoBinArray.dataType
    demoBinArray.dims).map Prod.fst).getD demoFresh

/-- On a pool limited to 30 bytes: a 24-byte array is allocated and released; three calls
of `alloc` for 100 bytes fail on the memory limit, each subtracting the 24 bytes of the
array again; a call for 2 bytes then takes the array from the free list. -/
def demoStaleOps : List PoolOp :=
  [PoolOp.alloc 1 [12] NDDataType.NDInt16 0 none,
   PoolOp.release 0,
   PoolOp.alloc 1 [100] NDDataType.NDInt8 0 none,
   PoolOp.alloc 1 [100] NDDataType.NDInt8 0 none,
   PoolOp.alloc 1 [100] NDDataType.NDInt8 0 none,
   PoolOp.alloc 1 [2] NDDataType.NDInt8 0 none]

/-- The state after `demoStaleOps` on a fresh pool with `maxMemory = 30`. -/
def demoStale : World :=
  (runWith validUse FloatOps.zero (World.init 7 0 30) demoStaleOps).getD demoFresh

/-- On a pool limited to 30 bytes: an array of 4 bytes and an array of 24 bytes are
allocated, the second is released, and a call of `alloc` for 32 bytes fails on the memory
limit. -/
def demoNullOps : List PoolOp :=
  [PoolOp.alloc 1 [4] NDDataType.NDInt8 0 none,
   PoolOp.alloc 1 [12] NDDataType.NDInt16 0 none,
   PoolOp.release 1,
   PoolOp.alloc 1 [16] NDDataType.NDInt16 0 none]

/-- The state after `demoNullOps` on a fresh pool with `maxMemory = 30`. -/
def demoNull : World :=
  (runWith validUse FloatOps.zero (World.init 7 0 30) demoNullOps).getD demoFresh

/-- The 4 x 3 array of `demoBinIn` with the attribute "Gain" of kind `NDAttrInt32` and
value 3. -/
def demoCopySrc : World :=
  demoBinIn.withAttribute 0 gainName NDAttrDataType.NDAttrInt32 (some [3, 0, 0, 0])

/-- The array of `demoCopySrc`. -/
def demoCopyArray : NDArray := demoCopySrc.arrays.getD 0 NDArray.new

/-- The state after `copy(A, NULL, 1)` on the array of `demoCopySrc`. -/
def demoCopied : World :=
  ((NDArrayPool.copy demoCopySrc 0 none 1).map Prod.fst).getD demoFresh

/-- The call `alloc(ndims, dims, dataType, dataSize, NULL)` ends in the failure of
lines 121-124: the array it selected passes the size check of line 100, its buffer has to
grow (line 113), and the memory limit would be exceeded. -/
def NDArrayPool.memoryLimitHit (w : World) (ndims : Int) (dims : List Int)
    (dataType : NDDataType) (dataSize : Int) : Bool :=
  match allocFind w with
  | (_, none) => false
  | (w1, some p) =>
    match w1.arrays[p]? with
    | none => false
    | some a0 =>
      match (allocInit w1.pool.self a0 ndims dims dataType).getInfo with
      | none => false
      | some info =>
        decide (¬ info.totalBytes > allocSize dataSize info.totalBytes) &&
          decide (a0.dataSize < allocSize dataSize info.totalBytes) &&
          decide (0 < w1.pool.maxMemory ∧
            toSizeT (w1.pool.memorySize - a0.dataSize
              + allocSize dataSize info.totalBytes) > w1.pool.maxMemory)

/-- As `validUseOwnBuffers`, with byte counts that fit an `int`, and no call of `alloc`
fails on the memory limit. -/
def validUseWithinLimits (w : World) (op : PoolOp) : Bool :=
  match op with
  | PoolOp.alloc ndims dims dataType dataSize pData =>
    pData.isNone && op.bytesFitInt &&
      !(NDArrayPool.memoryLimitHit w ndims dims dataType dataSize)
  | PoolOp.reserve pArray => inUse w pArray
  | PoolOp.release pArray => inUse w pArray
  | _ => false

/-- An array without buffer has `dataSize = 0`. -/
def NullInv (w : World) : Prop :=
  ∀ a ∈ w.arrays, a.pData = none → a.dataSize = 0

/-- On a pool limited to 30 bytes: a 24-byte array is allocated and released, an `alloc`
for 32 bytes fails on the memory limit, and an `alloc` for 24 bytes follows. -/
def demoHandedOps : List PoolOp :=
  [PoolOp.alloc 1 [12] NDDataType.NDInt16 0 none,
   PoolOp.release 0,
   PoolOp.alloc 1 [16] NDDataType.NDInt16 0 none,
   PoolOp.alloc 1 [12] NDDataType.NDInt16 0 none]

/-- The state after `demoHandedOps` on a fresh pool with `maxMemory = 30`. -/
def demoHanded : World :=
  (runWith validUseOwnBuffers FloatOps.zero (World.init 7 0 30) demoHandedOps).getD demoFresh

/-- The arguments of one call of `alloc`. -/
structure AllocRequest where
  ndims : Int
  dims : List Int
  dataType : NDDataType
  dataSize : Int
  pData : Option (List Nat)
  deriving DecidableEq, Repr

/-- The call of `alloc` with these arguments has defined behaviour: a supported element
kind, `ndims` within `ND_ARRAY_MAX_DIMS` and within the caller's `dims`, byte counts that
fit an `int`. -/
def AllocRequest.valid (r : AllocRequest) : Bool :=
  (bytesPerElement r.dataType).isSome && decide (r.ndims ≤ ND_ARRAY_MAX_DIMS) &&
    decide (r.ndims.toNat ≤ r.dims.length) &&
    (PoolOp.alloc r.ndims r.dims r.dataType r.dataSize r.pData).bytesFitInt

/-- A thread that runs the loop body `pArray = alloc(...); if (pArray) release(pArray);`
once for each request of `todo`; `held` is the array it has allocated and not yet
released. -/
structure Thread where
  held : Option Nat
  todo : List AllocRequest
  deriving DecidableEq, Repr

/-- The thread has left its loop. -/
def Thread.finished (t : Thread) : Bool := t.held.isNone && t.todo.isEmpty

/-- The calls the thread still has to make, at most: two for each iteration left and one
for an array it holds. -/
def Thread.callsLeft (t : Thread) : Nat :=
  2 * t.todo.length + (if t.held.isSome then 1 else 0)

/-- The next call of a thread on the pool: `release` of the array it holds, or else
`alloc` with the next request, whose result it then holds; a thread that has left its
loop does nothing. -/
def Thread.step (w : World) (t : Thread) : Option (World × Thread) :=
  match t.held with
  | some p => (NDArrayPool.release w p).map (fun r => (r.1, { t with held := none }))
  | none =>
    match t.todo with
    | [] => some (w, t)
    | req :: rest =>
      (NDArrayPool.alloc w req.ndims req.dims req.dataType req.dataSize req.pData).map
        (fun r => (r.1, { held := r.2, todo := rest }))

/-- Modelled from the spec: the mutex `listLock` (`epicsMutexLock`, `epicsMutexUnlock` of
EPICS base, which are not among the sources); "One mutex per Pool, guarding the free
list, `num_buffers`, `num_free`, `memory_size`, and the per-array `ref_count`".  `alloc`
and `release` hold it from their first statement to their last (lines 66-140 and
224-235), so a concurrent execution of two threads is an interleaving of whole calls: the
schedule tells, step by step, which thread makes its next call (`false` the first thread,
`true` the second). -/
def runThreads : World → Thread → Thread → List Bool → Option (World × Thread × Thread)
  | w, a, b, [] => some (w, a, b)
  | w, a, b, false :: s =>
    match a.step w with
    | none => none
    | some (w1, a1) => runThreads w1 a1 b s
  | w, a, b, true :: s =>
    match b.step w with
    | none => none
    | some (w1, b1) => runThreads w1 a b1 s

/-- The array a thread holds is an array of the pool with reference count 1. -/
def HeldOk (w : World) (t : Thread) : Prop :=
  ∀ p, t.held = some p →
    ∃ x, w.arrays[p]? = some x ∧ x.referenceCount = 1 ∧ x.owner = some w.pool.self

/-- The invariant of a run of two threads on a pool with `maxBuffers = M`: the free-list
and counter invariants, `numBuffers` within `M`, and the arrays with a reference count
other than 0 are exactly the arrays the threads hold, which are different arrays. -/
def ThreadsInv (M : Int) (w : World) (a b : Thread) : Prop :=
  ListInv w ∧ CountInv w ∧ w.pool.maxBuffers = M ∧ w.pool.numBuffers ≤ M ∧
    (∀ r ∈ a.todo, r.valid = true) ∧ (∀ r ∈ b.todo, r.valid = true) ∧
    HeldOk w a ∧ HeldOk w b ∧
    (∀ (p : Nat) (x : NDArray), w.arrays[p]? = some x →
      x.referenceCount = 0 ∨ a.held = some p ∨ b.held = some p) ∧
    (∀ p, a.held = some p → b.held ≠ some p)

/-- A request for a 4 x 3 array of 16-bit integers. -/
def demoRequest : AllocRequest :=
  { ndims := 2, dims := [4, 3], dataType := NDDataType.NDInt16, dataSize := 0, pData := none }

/-- A request for 100 bytes. -/
def demoBigRequest : AllocRequest :=
  { ndims := 1, dims := [100], dataType := NDDataType.NDInt8, dataSize := 0, pData := none }

/-- A schedule in which the two threads overlap: both hold an array at the same time. -/
def demoSchedule : List Bool :=
  [false, true, true, false, false, true, true, false, true, true, false, false]

/-- The state after `demoSchedule` on a fresh pool with `maxBuffers = 8`, the first thread
running 3 iterations and the second 3 iterations. -/
def demoThreadsFinal : World × Thread × Thread :=
  (runThreads (World.init 7 8 0)
    { held := none, todo := [demoRequest, demoBigRequest, demoRequest] }
    { held := none, todo := [demoBigRequest, demoRequest, demoRequest] }
    demoSchedule).getD (demoFresh, { held := none, todo := [] }, { held := none, todo := [] })

/-! ## Auxiliary facts about `alloc` -/

theorem allocFind_some {w w1 : World} {p : Nat} (h : allocFind w = (w1, some p)) :
    (w.pool.freeList.head? = some p ∧ w1 = w) ∨
    (w.pool.freeList = [] ∧
      ¬ (0 < w.pool.maxBuffers ∧ w.pool.numBuffers ≥ w.pool.maxBuffers) ∧
      p = w.arrays.length ∧
      w1 = { arrays := w.arrays ++ [NDArray.new],
             pool := { w.pool with
               numBuffers := w.pool.numBuffers + 1,
               freeList := w.pool.freeList ++ [w.arrays.length],
               numFree := w.pool.numFree + 1 } }) := by
  unfold allocFind at h
  split at h
  · rename_i q hq
    simp only [Prod.mk.injEq, Option.some.injEq] at h
    left
    rw [← h.1, ← h.2]
    exact ⟨hq, rfl⟩
  · rename_i hq
    split at h
    · simp at h
    · rename_i hcap
      simp only [Prod.mk.injEq, Option.some.injEq] at h
      right
      refine ⟨List.head?_eq_none_iff.mp hq, hcap, h.2.symm, h.1.symm⟩

theorem allocFind_none {w w1 : World} (h : allocFind w = (w1, none)) :
    w1 = w ∧ w.pool.freeList = [] ∧
      (0 < w.pool.maxBuffers ∧ w.pool.numBuffers ≥ w.pool.maxBuffers) := by
  unfold allocFind at h
  split at h
  · simp at h
  · rename_i hq
    split at h
    · rename_i hcap
      simp only [Prod.mk.injEq, and_true] at h
      exact ⟨h.symm, List.head?_eq_none_iff.mp hq, hcap⟩
    · simp at h

theorem allocFind_head {w w1 : World} {p : Nat} (h : allocFind w = (w1, some p)) :
    w1.pool.freeList.head? = some p := by
  rcases allocFind_some h with ⟨h1, h2⟩ | ⟨h1, -, h3, h4⟩
  · rw [h2]; exact h1
  · rw [h4, h3]; simp [h1]

theorem allocFind_self {w w1 : World} {r : Option Nat} (h : allocFind w = (w1, r)) :
    w1.pool.self = w.pool.self := by
  cases r with
  | none => rw [(allocFind_none h).1]
  | some p =>
    rcases allocFind_some h with ⟨-, h2⟩ | ⟨-, -, -, h4⟩
    · rw [h2]
    · rw [h4]

theorem allocFind_nodup {w w1 : World} {r : Option Nat} (h : allocFind w = (w1, r))
    (hn : w.pool.freeList.Nodup) : w1.pool.freeList.Nodup := by
  cases r with
  | none => rw [(allocFind_none h).1]; exact hn
  | some p =>
    rcases allocFind_some h with ⟨-, h2⟩ | ⟨h1, -, -, h4⟩
    · rw [h2]; exact hn
    · rw [h4]; simp [h1]

/-- What a call of `alloc` that returns went through: no array could be selected, or the
selected array failed the size check, or the buffer phase decided. -/
theorem alloc_cases {w w' : World} {ndims : Int} {dims : List Int} {dataType : NDDataType}
    {dataSize : Int} {pData : Option (List Nat)} {r : Option Nat}
    (h : NDArrayPool.alloc w ndims dims dataType dataSize pData = some (w', r)) :
    (allocFind w = (w', none) ∧ r = none) ∨
    ∃ w1 p a0 info,
      allocFind w = (w1, some p) ∧ w1.arrays[p]? = some a0 ∧
      min ndims.toNat ND_ARRAY_MAX_DIMS ≤ dims.length ∧
      (allocInit w1.pool.self a0 ndims dims dataType).getInfo = some info ∧
      ((info.totalBytes > allocSize dataSize info.totalBytes ∧ r = none ∧
          w' = { w1 with
            arrays := w1.arrays.set p (allocInit w1.pool.self a0 ndims dims dataType) }) ∨
       (¬ info.totalBytes > allocSize dataSize info.totalBytes ∧
          allocBuffer w1 p (allocInit w1.pool.self a0 ndims dims dataType)
            (allocSize dataSize info.totalBytes) pData = (w', r))) := by
  unfold NDArrayPool.alloc at h
  split at h
  · rename_i w1 hf
    simp only [Option.some.injEq, Prod.mk.injEq] at h
    left
    rw [← h.1, ← h.2]
    exact ⟨hf, rfl⟩
  · rename_i w1 p hf
    right
    split at h
    · simp at h
    · rename_i a0 ha0
      split at h
      · rename_i hlen
        simp only at h
        split at h
        · simp at h
        · rename_i info hinfo
          refine ⟨w1, p, a0, info, hf, ha0, hlen, hinfo, ?_⟩
          split at h
          · rename_i hsmall
            simp only [Option.some.injEq, Prod.mk.injEq] at h
            left
            exact ⟨hsmall, h.2.symm, h.1.symm⟩
          · rename_i hsmall
            simp only [Option.some.injEq] at h
            right
            exact ⟨hsmall, h⟩
      · simp at h

/-- The buffer phase, when it returns an array, returns the selected one, with the fields
set by the initialisation kept, reference count 1, and unlinked from the free list. -/
theorem allocBuffer_some {w w' : World} {p q : Nat} {a : NDArray} {dataSize : Int}
    {pData : Option (List Nat)} (h : allocBuffer w p a dataSize pData = (w', some q)) :
    q = p ∧ ∃ a', w'.arrays = w.arrays.set p a' ∧ a'.referenceCount = 1 ∧
      a'.owner = a.owner ∧ a'.dataType = a.dataType ∧ a'.ndims = a.ndims ∧
      a'.dims = a.dims ∧ a'.uniqueId = a.uniqueId ∧ a'.timeStamp = a.timeStamp ∧
      a'.attributeList = a.attributeList ∧
      w'.pool.freeList = w.pool.freeList.erase p ∧
      w'.pool.numFree = w.pool.numFree - 1 ∧
      w'.pool.numBuffers = w.pool.numBuffers ∧
      w'.pool.maxBuffers = w.pool.maxBuffers ∧
      w'.pool.maxMemory = w.pool.maxMemory ∧
      w'.pool.self = w.pool.self := by
  unfold allocBuffer at h
  split at h
  · rename_i buf
    simp only [Prod.mk.injEq, Option.some.injEq] at h
    obtain ⟨rfl, rfl⟩ := h
    exact ⟨rfl, _, rfl, rfl, rfl, rfl, rfl, rfl, rfl, rfl, rfl, rfl, rfl, rfl, rfl, rfl, rfl⟩
  · split at h
    · simp only at h
      split at h
      · simp at h
      · simp only [Prod.mk.injEq, Option.some.injEq] at h
        obtain ⟨rfl, rfl⟩ := h
        exact ⟨rfl, _, rfl, rfl, rfl, rfl, rfl, rfl, rfl, rfl, rfl, rfl, rfl, rfl, rfl, rfl, rfl⟩
    · simp only [Prod.mk.injEq, Option.some.injEq] at h
      obtain ⟨rfl, rfl⟩ := h
      exact ⟨rfl, _, rfl, rfl, rfl, rfl, rfl, rfl, rfl, rfl, rfl, rfl, rfl, rfl, rfl, rfl, rfl⟩

theorem allocDims_length (ndims : Int) (dims : List Int) :
    (allocDims ndims dims).length = ND_ARRAY_MAX_DIMS := by
  simp [allocDims]

theorem allocDims_get (ndims : Int) (dims : List Int) (i : Nat)
    (hi : i < ND_ARRAY_MAX_DIMS) :
    (allocDims ndims dims)[i]? =
      some (if (i : Int) < ndims then
        { size := dims.getD i 0, offset := 0, binning := 1, reverse := 0 }
      else NDDimension.zero) := by
  simp [allocDims, List.getElem?_map, List.getElem?_range hi]

/-! ## Allocation -/

/-- C1. A successful `alloc(ndims, dims, dataType, dataSize, pData)` with
`0 <= ndims <= ND_ARRAY_MAX_DIMS` returns an array with reference count 1, owned by this
pool, of the requested element kind and `ndims`, whose descriptor `i` is
`{size = dims[i], offset = 0, binning = 1, reverse = 0}` for `i < ndims` and all zero for
`ndims <= i < ND_ARRAY_MAX_DIMS`, and which is not on the free list any more.  (The free
list is a linked list: no node is linked twice.) -/
theorem alloc_success_fields (w w' : World) (ndims : Int) (dims : List Int)
    (dataType : NDDataType) (dataSize : Int) (pData : Option (List Nat)) (p : Nat)
    (hlist : w.pool.freeList.Nodup) (h0 : 0 ≤ ndims) (hmax : ndims ≤ ND_ARRAY_MAX_DIMS)
    (h : NDArrayPool.alloc w ndims dims dataType dataSize pData = some (w', some p)) :
    ∃ a, w'.arrays[p]? = some a ∧ a.referenceCount = 1 ∧ a.owner = some w.pool.self ∧
      a.dataType = dataType ∧ a.ndims = ndims ∧ a.dims.length = ND_ARRAY_MAX_DIMS ∧
      (∀ i : Nat, (i : Int) < ndims → ∃ d, dims[i]? = some d ∧
        a.dims[i]? = some { size := d, offset := 0, binning := 1, reverse := 0 }) ∧
      (∀ i : Nat, ndims ≤ (i : Int) → i < ND_ARRAY_MAX_DIMS →
        a.dims[i]? = some NDDimension.zero) ∧
      p ∉ w'.pool.freeList := by
  rcases alloc_cases h with ⟨-, hr⟩ | ⟨w1, q, a0, info, hf, ha0, hlen, -, hcase⟩
  · simp at hr
  · rcases hcase with ⟨-, hr, -⟩ | ⟨-, hb⟩
    · simp at hr
    · obtain ⟨hq, a', harr, hrc, how, hdt, hnd, hdims, -, -, -, hfl, -⟩ := allocBuffer_some hb
      subst hq
      have hplt : p < w1.arrays.length := (List.getElem?_eq_some_iff.mp ha0).1
      refine ⟨a', ?_, hrc, ?_, ?_, ?_, ?_, ?_, ?_, ?_⟩
      · rw [harr]; simp [hplt]
      · rw [how]; simp [allocInit, allocFind_self hf]
      · rw [hdt]; rfl
      · rw [hnd]; rfl
      · rw [hdims]; exact allocDims_length ndims dims
      · intro i hi
        have hiN : i < ND_ARRAY_MAX_DIMS := by omega
        have hil : i < dims.length := by omega
        refine ⟨dims[i], List.getElem?_eq_getElem hil, ?_⟩
        rw [hdims]
        show (allocDims ndims dims)[i]? = _
        rw [allocDims_get ndims dims i hiN, if_pos hi]
        simp [List.getD, List.getElem?_eq_getElem hil]
      · intro i hi hiN
        rw [hdims]
        show (allocDims ndims dims)[i]? = _
        rw [allocDims_get ndims dims i hiN, if_neg (by omega)]
      · rw [hfl]
        exact fun hmem => ((allocFind_nodup hf hlist).mem_erase_iff.mp hmem).1 rfl

/-- Scenario 1 of the spec, a fresh pool allocating a 4 x 3 array of 16-bit integers, as
an instance of C1. -/
theorem alloc_success_fields_witness :
    ∃ a, demoInUse.arrays[0]? = some a ∧ a.referenceCount = 1 ∧
      a.owner = some demoFresh.pool.self ∧
      a.dataType = NDDataType.NDInt16 ∧ a.ndims = 2 ∧ a.dims.length = ND_ARRAY_MAX_DIMS ∧
      (∀ i : Nat, (i : Int) < 2 → ∃ d, [(4 : Int), 3][i]? = some d ∧
        a.dims[i]? = some { size := d, offset := 0, binning := 1, reverse := 0 }) ∧
      (∀ i : Nat, (2 : Int) ≤ (i : Int) → i < ND_ARRAY_MAX_DIMS →
        a.dims[i]? = some NDDimension.zero) ∧
      0 ∉ demoInUse.pool.freeList :=
  alloc_success_fields demoFresh demoInUse 2 [4, 3] NDDataType.NDInt16 0 none 0
    (by decide) (by decide) (by decide) (by rfl)

theorem foldl_mul_size (ds : List NDDimension) (c : Int) :
    ds.foldl (fun acc d => acc * d.size) c = c * (ds.map (fun d => d.size)).prod := by
  induction ds generalizing c with
  | nil => simp
  | cons d ds ih => simp [List.foldl_cons, ih, mul_assoc]

theorem sizeProduct_eq_prod (ds : List NDDimension) :
    sizeProduct ds = (ds.map (fun d => d.size)).prod := by
  simp [sizeProduct, foldl_mul_size]

/-- The first `ndims` descriptors written by `alloc` are the caller's sizes. -/
theorem allocDims_take (ndims : Int) (dims : List Int)
    (hmax : ndims ≤ ND_ARRAY_MAX_DIMS) (hlen : ndims.toNat ≤ dims.length) :
    (allocDims ndims dims).take ndims.toNat =
      (dims.take ndims.toNat).map NDArray.initDimension := by
  apply List.ext_getElem?
  intro i
  by_cases hi : i < ndims.toNat
  · have hiN : i < ND_ARRAY_MAX_DIMS := by omega
    have hil : i < dims.length := by omega
    have hlt : (i : Int) < ndims := by omega
    rw [List.getElem?_take_of_lt hi, allocDims_get ndims dims i hiN, if_pos hlt]
    simp [List.getElem?_map, List.getElem?_take_of_lt hi, List.getD,
      List.getElem?_eq_getElem hil, NDArray.initDimension]
  · have h1 : ((allocDims ndims dims).take ndims.toNat).length ≤ i := by
      simp [List.length_take]; omega
    have h2 : ((dims.take ndims.toNat).map NDArray.initDimension).length ≤ i := by
      simp [List.length_take]; omega
    rw [List.getElem?_eq_none h1, List.getElem?_eq_none h2]

theorem getInfo_allocInit (self : Nat) (a0 : NDArray) (ndims : Int) (dims : List Int)
    (dataType : NDDataType) (bpe : Int) (hbpe : bytesPerElement dataType = some bpe)
    (hmax : ndims ≤ ND_ARRAY_MAX_DIMS) (hlen : ndims.toNat ≤ dims.length) :
    (allocInit self a0 ndims dims dataType).getInfo =
      some { nElements := (dims.take ndims.toNat).prod, bytesPerElement := bpe,
             totalBytes := (dims.take ndims.toNat).prod * bpe } := by
  have hn : ndims.toNat ≤ ND_ARRAY_MAX_DIMS := by omega
  have hp : sizeProduct ((allocDims ndims dims).take ndims.toNat)
      = (dims.take ndims.toNat).prod := by
    rw [allocDims_take ndims dims hmax hlen, sizeProduct_eq_prod, List.map_map]
    have : ((fun d => d.size) ∘ NDArray.initDimension) = id := by
      funext d; rfl
    rw [this, List.map_id]
  simp only [NDArray.getInfo, allocInit, hbpe, allocDims_length, hn, if_true, hp]

theorem bytesPerElement_pos {dataType : NDDataType} {bpe : Int}
    (h : bytesPerElement dataType = some bpe) : 1 ≤ bpe := by
  cases dataType <;> simp [bytesPerElement] at h <;> omega

theorem prod_pos_of_all_pos (l : List Int) (h : ∀ d ∈ l, 1 ≤ d) : 1 ≤ l.prod := by
  induction l with
  | nil => simp
  | cons d l ih =>
    rw [List.prod_cons]
    have hd : 1 ≤ d := h d (List.mem_cons_self d l)
    have hl : 1 ≤ l.prod := ih (fun x hx => h x (List.mem_cons_of_mem d hx))
    nlinarith

theorem toSizeT_le {x : Int} (h : 0 ≤ x) : toSizeT x ≤ x := by
  unfold toSizeT
  by_cases hx : x < 2 ^ 64
  · rw [Int.emod_eq_of_lt h hx]
  · have := Int.emod_lt_of_pos x (show (0 : Int) < 2 ^ 64 by norm_num)
    omega

/-- On a pool whose free list is empty, whose `memorySize` is not negative and whose
buffer and memory caps are not reached, `alloc` with `dataSize = 0` and no external buffer
(dimension sizes at least 1, a byte count that fits an `int`) returns a new array whose
`dataSize` is
`product(dims[i]) * bytes(dataType)`, whose buffer is that many zero bytes, with
reference count 1; `numBuffers` grows by exactly 1 and `memorySize` by exactly that byte
count. -/
theorem alloc_fresh_buffer (w : World) (ndims : Int) (dims : List Int)
    (dataType : NDDataType) (bpe : Int)
    (hfree : w.pool.freeList = [])
    (hbuf : w.pool.maxBuffers ≤ 0 ∨ w.pool.numBuffers < w.pool.maxBuffers)
    (hmem0 : 0 ≤ w.pool.memorySize)
    (hmem : w.pool.maxMemory = 0 ∨
      w.pool.memorySize + (dims.take ndims.toNat).prod * bpe ≤ w.pool.maxMemory)
    (hbpe : bytesPerElement dataType = some bpe)
    (hmax : ndims ≤ ND_ARRAY_MAX_DIMS) (hlen : ndims.toNat ≤ dims.length)
    (hpos : ∀ d ∈ dims.take ndims.toNat, 1 ≤ d)
    (_hint : fitsInt ((dims.take ndims.toNat).prod * bpe) = true) :
    ∃ w' a, NDArrayPool.alloc w ndims dims dataType 0 none = some (w', some w.arrays.length) ∧
      w'.arrays[w.arrays.length]? = some a ∧
      a.dataSize = (dims.take ndims.toNat).prod * bpe ∧
      a.pData = some (List.replicate ((dims.take ndims.toNat).prod * bpe).toNat 0) ∧
      a.referenceCount = 1 ∧
      w'.pool.numBuffers = w.pool.numBuffers + 1 ∧
      w'.pool.memorySize = w.pool.memorySize + (dims.take ndims.toNat).prod * bpe := by
  have hcap : ¬ (0 < w.pool.maxBuffers ∧ w.pool.numBuffers ≥ w.pool.maxBuffers) := by omega
  have hfind : allocFind w =
      ({ arrays := w.arrays ++ [NDArray.new],
         pool := { w.pool with
           numBuffers := w.pool.numBuffers + 1,
           freeList := w.pool.freeList ++ [w.arrays.length],
           numFree := w.pool.numFree + 1 } }, some w.arrays.length) := by
    simp only [allocFind, hfree, List.head?_nil, hcap, if_false]
  have hb1 : 1 ≤ bpe := bytesPerElement_pos hbpe
  have hp1 : 1 ≤ (dims.take ndims.toNat).prod := prod_pos_of_all_pos _ hpos
  have htb : 1 ≤ (dims.take ndims.toNat).prod * bpe := by nlinarith
  have hmin : min ndims.toNat ND_ARRAY_MAX_DIMS ≤ dims.length := by omega
  have hnomem : ¬ (0 < w.pool.maxMemory ∧
      toSizeT (w.pool.memorySize - 0 + (dims.take ndims.toNat).prod * bpe)
        > (w.pool.maxMemory : Int)) := by
    rintro ⟨h1, h2⟩
    rcases hmem with h | h
    · omega
    · have := toSizeT_le (x := w.pool.memorySize - 0 + (dims.take ndims.toNat).prod * bpe)
        (by omega)
      omega
  have hinfo := getInfo_allocInit w.pool.self NDArray.new ndims dims dataType bpe hbpe hmax hlen
  have hds0 : NDArray.new.dataSize = 0 := rfl
  have halloc : NDArrayPool.alloc w ndims dims dataType 0 none =
      some (allocFinish
        { arrays := w.arrays ++ [NDArray.new],
          pool := { w.pool with
            numBuffers := w.pool.numBuffers + 1,
            freeList := w.pool.freeList ++ [w.arrays.length],
            numFree := w.pool.numFree + 1,
            memorySize := w.pool.memorySize - 0 + (dims.take ndims.toNat).prod * bpe } }
        w.arrays.length
        { allocInit w.pool.self NDArray.new ndims dims dataType with
          pData := some (List.replicate ((dims.take ndims.toNat).prod * bpe).toNat 0),
          dataSize := (dims.take ndims.toNat).prod * bpe }, some w.arrays.length) := by
    unfold NDArrayPool.alloc
    rw [hfind]
    simp only [List.getElem?_concat_length, hmin, if_true, hinfo, allocSize, gt_iff_lt,
      lt_irrefl, if_false]
    unfold allocBuffer
    simp only [allocInit, hds0, show (0 : Int) < (dims.take ndims.toNat).prod * bpe by omega,
      if_true, hnomem, if_false]
  refine ⟨_, { allocInit w.pool.self NDArray.new ndims dims dataType with
      pData := some (List.replicate ((dims.take ndims.toNat).prod * bpe).toNat 0),
      dataSize := (dims.take ndims.toNat).prod * bpe,
      referenceCount := 1 }, halloc, ?_, rfl, rfl, rfl, rfl, ?_⟩
  · simp only [allocFinish, List.length_append, List.length_singleton]
    rw [List.getElem?_set_self (by simp)]
  · simp only [allocFinish]
    omega

/-- Scenario 1 of the spec: a fresh pool, `ndims = 2`, `dims = [4,3]`, 16-bit integers:
24 zero bytes, `numBuffers = 1`, `memorySize = 24`, reference count 1. -/
theorem alloc_fresh_buffer_example :
    ∃ w' a, NDArrayPool.alloc demoFresh 2 [4, 3] NDDataType.NDInt16 0 none
        = some (w', some 0) ∧
      w'.arrays[0]? = some a ∧ a.dataSize = 24 ∧ a.pData = some (List.replicate 24 0) ∧
      a.referenceCount = 1 ∧ w'.pool.numBuffers = 1 ∧ w'.pool.memorySize = 24 :=
  alloc_fresh_buffer demoFresh 2 [4, 3] NDDataType.NDInt16 2 (by decide) (by decide)
    (by decide) (by decide) (by decide) (by decide) (by decide) (by decide) (by decide)

/-- C2 (evaluation of the code). On a pool with `maxMemory = 30` and no limit of arrays, a
24-byte array is allocated and released, three calls of `alloc` for 100 bytes fail on the
memory limit, and a call for 2 bytes takes the array from the free list
(`demoStaleOps`).  Each failed call subtracted the 24 bytes of the array from
`memorySize` and left its `dataSize` at 24, so `memorySize` is now -48; the free list is
empty and `memorySize + 24` is below `maxMemory`.  `alloc(2, [4,3], NDInt16, 0, NULL)`
constructs an array (`numBuffers` becomes 2), compares `-48 + 24` with `maxMemory` as a
`size_t`, and returns no array; `memorySize` stays -48 and the new array stays on the
free list without buffer. -/
theorem alloc_fresh_after_limit_failures :
    runWith validUse FloatOps.zero (World.init 7 0 30) demoStaleOps = some demoStale
      ∧ demoStale.pool.freeList = []
      ∧ demoStale.pool.maxBuffers = 0
      ∧ demoStale.pool.numBuffers = 1
      ∧ demoStale.pool.maxMemory = 30
      ∧ demoStale.pool.memorySize = -48
      ∧ demoStale.pool.memorySize + 24 ≤ 30
      ∧ demoStale.arrays.map (fun a => (a.referenceCount, a.dataSize, a.pData))
          = [(1, 24, none)]
      ∧ (NDArrayPool.alloc demoStale 2 [4, 3] NDDataType.NDInt16 0 none).map
          (fun r => (r.2, r.1.pool.numBuffers, r.1.pool.memorySize, r.1.pool.freeList))
        = some (none, 2, -48, [1])
      ∧ ((NDArrayPool.alloc demoStale 2 [4, 3] NDDataType.NDInt16 0 none).bind
          (fun r => r.1.arrays[1]?)).map (fun a => (a.referenceCount, a.dataSize, a.pData))
        = some (0, 0, none) := by
  refine ⟨by decide, by decide, by decide, by decide, by decide, by decide, by decide,
    by decide, by decide, by decide⟩

/-! ## Release and reuse -/

/-- C3. For an array owned by the pool with reference count `n >= 1`, `release` returns
success and leaves the reference count `n - 1` (every other field of the array, its
`dataSize` included, unchanged); when `n = 1` the array is appended at the tail of the
free list and `numFree` grows by 1, when `n > 1` the free list and `numFree` are
unchanged; `numBuffers` and `memorySize` are unchanged in both cases. -/
theorem release_owned (w : World) (p : Nat) (a : NDArray) (n : Int)
    (ha : w.arrays[p]? = some a) (hown : a.owner = some w.pool.self)
    (hn : a.referenceCount = n) (h1 : 1 ≤ n) :
    ∃ w' a', NDArrayPool.release w p = some (w', NDStatus.ND_SUCCESS) ∧
      w'.arrays[p]? = some a' ∧ a' = { a with referenceCount := n - 1 } ∧
      a'.referenceCount = n - 1 ∧ a'.dataSize = a.dataSize ∧
      (n = 1 → w'.pool.freeList = w.pool.freeList ++ [p] ∧
        w'.pool.numFree = w.pool.numFree + 1) ∧
      (1 < n → w'.pool.freeList = w.pool.freeList ∧ w'.pool.numFree = w.pool.numFree) ∧
      w'.pool.numBuffers = w.pool.numBuffers ∧ w'.pool.memorySize = w.pool.memorySize := by
  have hplt : p < w.arrays.length := (List.getElem?_eq_some_iff.mp ha).1
  subst hn
  by_cases hz : a.referenceCount - 1 = 0
  · refine ⟨{ arrays := w.arrays.set p { a with referenceCount := a.referenceCount - 1 },
              pool := { w.pool with
                freeList := w.pool.freeList ++ [p],
                numFree := w.pool.numFree + 1 } }, _, ?_, ?_, rfl, rfl, rfl, ?_, ?_, rfl, rfl⟩
    · simp [NDArrayPool.release, ha, hown, hz]
    · simp [hplt]
    · intro _; exact ⟨rfl, rfl⟩
    · intro h; omega
  · refine ⟨{ w with arrays := w.arrays.set p { a with referenceCount := a.referenceCount - 1 } },
      _, ?_, ?_, rfl, rfl, rfl, ?_, ?_, rfl, rfl⟩
    · simp [NDArrayPool.release, ha, hown, hz]
    · simp [hplt]
    · intro h; omega
    · intro _; exact ⟨rfl, rfl⟩

/-- Scenario 1 of the spec, continued: releasing the 4 x 3 array gives reference count 0,
`numFree = 1`, `memorySize = 24`. -/
theorem release_owned_witness :
    ∃ w' a', NDArrayPool.release demoInUse 0 = some (w', NDStatus.ND_SUCCESS) ∧
      w'.arrays[0]? = some a' ∧ a' = { demoArray with referenceCount := 1 - 1 } ∧
      a'.referenceCount = 1 - 1 ∧ a'.dataSize = demoArray.dataSize ∧
      ((1 : Int) = 1 → w'.pool.freeList = demoInUse.pool.freeList ++ [0] ∧
        w'.pool.numFree = demoInUse.pool.numFree + 1) ∧
      ((1 : Int) < 1 → w'.pool.freeList = demoInUse.pool.freeList ∧
        w'.pool.numFree = demoInUse.pool.numFree) ∧
      w'.pool.numBuffers = demoInUse.pool.numBuffers ∧
      w'.pool.memorySize = demoInUse.pool.memorySize :=
  release_owned demoInUse 0 demoArray 1 (by decide) (by decide) (by decide) (by decide)

/-- The outcomes of the buffer phase of `alloc`. -/
theorem allocBuffer_cases {w w' : World} {p : Nat} {a : NDArray} {dataSize : Int}
    {pData : Option (List Nat)} {r : Option Nat}
    (h : allocBuffer w p a dataSize pData = (w', r)) :
    (∃ buf, pData = some buf ∧ r = some p ∧
      w' = allocFinish w p { a with pData := some buf }) ∨
    (pData = none ∧ a.dataSize < dataSize ∧
      (0 < w.pool.maxMemory ∧
        toSizeT (w.pool.memorySize - a.dataSize + dataSize) > w.pool.maxMemory) ∧
      r = none ∧
      w' = { arrays := w.arrays.set p { a with pData := none },
             pool := { w.pool with memorySize := w.pool.memorySize - a.dataSize } }) ∨
    (pData = none ∧ a.dataSize < dataSize ∧
      ¬ (0 < w.pool.maxMemory ∧
        toSizeT (w.pool.memorySize - a.dataSize + dataSize) > w.pool.maxMemory) ∧
      r = some p ∧
      w' = allocFinish
        { arrays := w.arrays,
          pool := { w.pool with memorySize := w.pool.memorySize - a.dataSize + dataSize } }
        p { a with pData := some (List.replicate dataSize.toNat 0), dataSize := dataSize }) ∨
    (pData = none ∧ ¬ a.dataSize < dataSize ∧ r = some p ∧ w' = allocFinish w p a) := by
  unfold allocBuffer at h
  split at h
  · rename_i buf
    simp only [Prod.mk.injEq] at h
    exact Or.inl ⟨buf, rfl, h.2.symm, h.1.symm⟩
  · split at h
    · rename_i hlt
      simp only at h
      split at h
      · rename_i hcap
        simp only [Prod.mk.injEq] at h
        exact Or.inr (Or.inl ⟨rfl, hlt, hcap, h.2.symm, h.1.symm⟩)
      · rename_i hcap
        simp only [Prod.mk.injEq] at h
        exact Or.inr (Or.inr (Or.inl ⟨rfl, hlt, hcap, h.2.symm, h.1.symm⟩))
    · rename_i hlt
      simp only [Prod.mk.injEq] at h
      exact Or.inr (Or.inr (Or.inr ⟨rfl, hlt, h.2.symm, h.1.symm⟩))

/-- The buffer phase of `alloc` leaves the buffer count and the limits alone. -/
theorem allocBuffer_buffers {w w' : World} {p : Nat} {a : NDArray} {dataSize : Int}
    {pData : Option (List Nat)} {r : Option Nat}
    (h : allocBuffer w p a dataSize pData = (w', r)) :
    w'.pool.numBuffers = w.pool.numBuffers ∧ w'.pool.maxBuffers = w.pool.maxBuffers ∧
      w'.pool.maxMemory = w.pool.maxMemory ∧ w'.pool.self = w.pool.self := by
  rcases allocBuffer_cases h with ⟨buf, -, -, rfl⟩ | ⟨-, -, -, -, rfl⟩ | ⟨-, -, -, -, rfl⟩ |
    ⟨-, -, -, rfl⟩ <;> exact ⟨rfl, rfl, rfl, rfl⟩

/-- A call of `alloc` leaves `maxBuffers` alone, and `numBuffers` either stays or grows by
one, the latter only when the cap on the buffers is not reached. -/
theorem alloc_buffers {w w' : World} {ndims : Int} {dims : List Int} {dataType : NDDataType}
    {dataSize : Int} {pData : Option (List Nat)} {r : Option Nat}
    (h : NDArrayPool.alloc w ndims dims dataType dataSize pData = some (w', r)) :
    w'.pool.maxBuffers = w.pool.maxBuffers ∧
      (w'.pool.numBuffers = w.pool.numBuffers ∨
        (w'.pool.numBuffers = w.pool.numBuffers + 1 ∧
          ¬ (0 < w.pool.maxBuffers ∧ w.pool.numBuffers ≥ w.pool.maxBuffers))) := by
  have key : ∀ w1 p, allocFind w = (w1, some p) →
      w1.pool.maxBuffers = w.pool.maxBuffers ∧
      (w1.pool.numBuffers = w.pool.numBuffers ∨
        (w1.pool.numBuffers = w.pool.numBuffers + 1 ∧
          ¬ (0 < w.pool.maxBuffers ∧ w.pool.numBuffers ≥ w.pool.maxBuffers))) := by
    intro w1 p hf
    rcases allocFind_some hf with ⟨-, rfl⟩ | ⟨-, hcap, -, rfl⟩
    · exact ⟨rfl, Or.inl rfl⟩
    · exact ⟨rfl, Or.inr ⟨rfl, hcap⟩⟩
  rcases alloc_cases h with ⟨hf, -⟩ | ⟨w1, p, a0, info, hf, -, -, -, hcase⟩
  · rw [(allocFind_none hf).1]
    exact ⟨rfl, Or.inl rfl⟩
  · rcases hcase with ⟨-, -, rfl⟩ | ⟨-, hb⟩
    · exact key w1 p hf
    · obtain ⟨h1, h2, -, -⟩ := allocBuffer_buffers hb
      rw [h1, h2]
      exact key w1 p hf

theorem reserve_pool {w w' : World} {p : Nat} {st : NDStatus}
    (h : NDArrayPool.reserve w p = some (w', st)) : w'.pool = w.pool := by
  unfold NDArrayPool.reserve at h
  split at h
  · simp at h
  · split at h <;> simp only [Option.some.injEq, Prod.mk.injEq] at h <;> rw [← h.1]

theorem release_buffers {w w' : World} {p : Nat} {st : NDStatus}
    (h : NDArrayPool.release w p = some (w', st)) :
    w'.pool.numBuffers = w.pool.numBuffers ∧ w'.pool.maxBuffers = w.pool.maxBuffers ∧
      w'.pool.maxMemory = w.pool.maxMemory ∧ w'.pool.memorySize = w.pool.memorySize ∧
      w'.pool.self = w.pool.self := by
  unfold NDArrayPool.release at h
  split at h
  · simp at h
  · split at h
    · simp only [Option.some.injEq, Prod.mk.injEq] at h
      rw [← h.1]
      exact ⟨rfl, rfl, rfl, rfl, rfl⟩
    · simp only at h
      split at h <;> simp only [Option.some.injEq, Prod.mk.injEq] at h <;> rw [← h.1] <;>
        exact ⟨rfl, rfl, rfl, rfl, rfl⟩

theorem copyInto_pool {w w' : World} {pIn q q' : Nat} {copyData : Int}
    (h : copyInto w pIn q copyData = some (w', q')) : w'.pool = w.pool := by
  unfold copyInto at h
  split at h
  · simp only at h
    split at h
    · simp at h
    · split at h
      · simp at h
      · simp only [Option.some.injEq, Prod.mk.injEq] at h
        rw [← h.1]
        rfl
  · simp at h

/-- The pool after `copy` is the pool before it, or the pool after the call of `alloc`
that `copy` makes. -/
theorem copy_pool {w w' : World} {pIn : Nat} {pOut : Option Nat} {copyData : Int} {q : Nat}
    (h : NDArrayPool.copy w pIn pOut copyData = some (w', q)) :
    w'.pool = w.pool ∨
    ∃ ndims dims dataType w1 r,
      NDArrayPool.alloc w ndims dims dataType 0 none = some (w1, r) ∧ w'.pool = w1.pool := by
  unfold NDArrayPool.copy at h
  split at h
  · simp at h
  · split at h
    · exact Or.inl (copyInto_pool h)
    · split at h
      · split at h
        · rename_i w1 q1 ha
          exact Or.inr ⟨_, _, _, w1, some q1, ha, copyInto_pool h⟩
        · simp at h
      · simp at h

theorem convertInto_pool {F : FloatOps} {w w' : World} {pIn q : Nat}
    {dimsOutCopy : List NDDimension} {dimsUnchanged : Bool} {r : Option Nat × NDStatus}
    (h : convertInto F w pIn q dimsOutCopy dimsUnchanged = some (w', r)) :
    w'.pool = w.pool := by
  unfold convertInto at h
  split at h
  · split at h
    · simp at h
    · simp only at h
      split at h
      · simp at h
      · split at h
        · split at h
          · simp at h
          · simp only [Option.some.injEq, Prod.mk.injEq] at h
            rw [← h.1]; rfl
          · split at h
            · simp only [Option.some.injEq, Prod.mk.injEq] at h
              rw [← h.1]; rfl
            · split at h
              · simp at h
              · split at h
                · simp at h
                · simp only [Option.some.injEq, Prod.mk.injEq] at h
                  rw [← h.1]; rfl
        · simp at h
  · simp at h

/-- The pool after `convert` is the pool before it, or the pool after the call of `alloc`
that `convert` makes. -/
theorem convert_pool {F : FloatOps} {w w' : World} {pIn : Nat} {dataTypeOut : NDDataType}
    {dimsOut : List NDDimension} {r : Option Nat × NDStatus}
    (h : NDArrayPool.convert F w pIn dataTypeOut dimsOut = some (w', r)) :
    w'.pool = w.pool ∨
    ∃ ndims dims dataType w1 r1,
      NDArrayPool.alloc w ndims dims dataType 0 none = some (w1, r1) ∧ w'.pool = w1.pool := by
  unfold NDArrayPool.convert at h
  split at h
  · simp at h
  · split at h
    · split at h
      · simp at h
      · simp only [Option.some.injEq, Prod.mk.injEq] at h
        left; rw [← h.1]
      · split at h
        · simp at h
        · rename_i w1 ha
          simp only [Option.some.injEq, Prod.mk.injEq] at h
          right
          exact ⟨_, _, _, w1, none, ha, by rw [← h.1]⟩
        · rename_i w1 q ha
          exact Or.inr ⟨_, _, _, w1, some q, ha, convertInto_pool h⟩
    · simp at h

/-! ## Conservation of buffers -/

/-- Every operation leaves `maxBuffers` alone, and `numBuffers` either stays or grows by
one, the latter only when the cap on the buffers is not reached. -/
theorem apply_buffers {F : FloatOps} {w w' : World} {op : PoolOp}
    (h : op.apply F w = some w') :
    w'.pool.maxBuffers = w.pool.maxBuffers ∧
      (w'.pool.numBuffers = w.pool.numBuffers ∨
        (w'.pool.numBuffers = w.pool.numBuffers + 1 ∧
          ¬ (0 < w.pool.maxBuffers ∧ w.pool.numBuffers ≥ w.pool.maxBuffers))) := by
  cases op with
  | alloc ndims dims dataType dataSize pData =>
    simp only [PoolOp.apply, Option.map_eq_some'] at h
    obtain ⟨⟨w1, r⟩, h1, rfl⟩ := h
    exact alloc_buffers h1
  | reserve p =>
    simp only [PoolOp.apply, Option.map_eq_some'] at h
    obtain ⟨⟨w1, r⟩, h1, rfl⟩ := h
    rw [reserve_pool h1]
    exact ⟨rfl, Or.inl rfl⟩
  | release p =>
    simp only [PoolOp.apply, Option.map_eq_some'] at h
    obtain ⟨⟨w1, r⟩, h1, rfl⟩ := h
    obtain ⟨h2, h3, -⟩ := release_buffers h1
    exact ⟨h3, Or.inl h2⟩
  | copy pIn pOut copyData =>
    simp only [PoolOp.apply, Option.map_eq_some'] at h
    obtain ⟨⟨w1, r⟩, h1, rfl⟩ := h
    rcases copy_pool h1 with hp | ⟨_, _, _, w2, r2, ha, hp⟩
    · show w1.pool.maxBuffers = _ ∧ _
      rw [hp]; exact ⟨rfl, Or.inl rfl⟩
    · show w1.pool.maxBuffers = _ ∧ _
      rw [hp]; exact alloc_buffers ha
  | convert pIn dataTypeOut dimsOut =>
    simp only [PoolOp.apply, Option.map_eq_some'] at h
    obtain ⟨⟨w1, r⟩, h1, rfl⟩ := h
    rcases convert_pool h1 with hp | ⟨_, _, _, w2, r2, ha, hp⟩
    · show w1.pool.maxBuffers = _ ∧ _
      rw [hp]; exact ⟨rfl, Or.inl rfl⟩
    · show w1.pool.maxBuffers = _ ∧ _
      rw [hp]; exact alloc_buffers ha

theorem runWith_cons {ok : World → PoolOp → Bool} {F : FloatOps} {w w' : World}
    {op : PoolOp} {ops : List PoolOp} (h : runWith ok F w (op :: ops) = some w') :
    ok w op = true ∧ ∃ w1, op.apply F w = some w1 ∧ runWith ok F w1 ops = some w' := by
  unfold runWith at h
  split at h
  · rename_i hok
    split at h
    · simp at h
    · rename_i w1 h1
      exact ⟨hok, w1, h1, h⟩
  · simp at h

/-- Along a sequence of operations `maxBuffers` is constant, `numBuffers` does not
decrease, and it stays within a positive `maxBuffers`. -/
theorem run_buffers {F : FloatOps} {ops : List PoolOp} {w w' : World}
    (h : run F w ops = some w') :
    w'.pool.maxBuffers = w.pool.maxBuffers ∧ w.pool.numBuffers ≤ w'.pool.numBuffers ∧
      (0 < w.pool.maxBuffers → w.pool.numBuffers ≤ w.pool.maxBuffers →
        w'.pool.numBuffers ≤ w.pool.maxBuffers) := by
  induction ops generalizing w with
  | nil =>
    simp only [run, runWith, Option.some.injEq] at h
    subst h
    exact ⟨rfl, le_refl _, fun _ hle => hle⟩
  | cons op ops ih =>
    obtain ⟨-, w1, h1, h2⟩ := runWith_cons h
    obtain ⟨hm, hn, hc⟩ := ih h2
    obtain ⟨hm1, hn1⟩ := apply_buffers h1
    refine ⟨by rw [hm, hm1], by omega, ?_⟩
    intro hpos hle
    have : w1.pool.numBuffers ≤ w1.pool.maxBuffers := by omega
    have := hc (by omega) this
    omega

/-- C5. On a pool constructed with a finite `maxBuffers > 0`, after every sequence of
`alloc`, `reserve`, `release`, `copy` and `convert` operations `numBuffers <= maxBuffers`,
and `numBuffers` never decreases afterwards; an `alloc` issued when the free list is
empty and `numBuffers = maxBuffers` returns no array and leaves the whole state, every
pool counter included, unchanged. -/
theorem buffers_conserved (F : FloatOps) (self : Nat) (maxBuffers : Int) (maxMemory : Nat)
    (hmax : 0 < maxBuffers) :
    (∀ ops w, run F (World.init self maxBuffers maxMemory) ops = some w →
      w.pool.numBuffers ≤ maxBuffers ∧
      ∀ ops2 w2, run F w ops2 = some w2 → w.pool.numBuffers ≤ w2.pool.numBuffers) ∧
    (∀ (w : World) ndims dims dataType dataSize pData,
      w.pool.maxBuffers = maxBuffers → w.pool.freeList = [] →
      w.pool.numBuffers = maxBuffers →
      NDArrayPool.alloc w ndims dims dataType dataSize pData = some (w, none)) := by
  constructor
  · intro ops w h
    obtain ⟨-, -, hc⟩ := run_buffers h
    refine ⟨hc hmax (le_of_lt hmax), ?_⟩
    intro ops2 w2 h2
    exact (run_buffers h2).2.1
  · intro w ndims dims dataType dataSize pData hm hf hn
    have hfind : allocFind w = (w, none) := by
      simp only [allocFind, hf, List.head?_nil]
      rw [if_pos]
      constructor <;> omega
    simp only [NDArrayPool.alloc, hfind]

/-- The two-buffer pool after `demoCapOps`: `numBuffers` is within the cap, and a further
`alloc` changes nothing. -/
theorem buffers_conserved_witness :
    demoCapFinal.pool.numBuffers ≤ 2 ∧
      NDArrayPool.alloc demoCapFinal 2 [4, 3] NDDataType.NDInt16 0 none
        = some (demoCapFinal, none) :=
  ⟨((buffers_conserved FloatOps.zero 7 2 0 (by decide)).1 demoCapOps demoCapFinal
      (by decide)).1,
   (buffers_conserved FloatOps.zero 7 2 0 (by decide)).2 demoCapFinal 2 [4, 3]
      NDDataType.NDInt16 0 none (by decide) (by decide) (by decide)⟩

/-! ## The memory cap -/

/-- When `getInfo` succeeds on the array initialised by `alloc`, the element kind is
supported, `ndims` is within `ND_ARRAY_MAX_DIMS` and the byte count is the product of the
caller's sizes times the element size. -/
theorem getInfo_allocInit_some {self : Nat} {a0 : NDArray} {ndims : Int} {dims : List Int}
    {dataType : NDDataType} {info : NDArrayInfo}
    (hlen : min ndims.toNat ND_ARRAY_MAX_DIMS ≤ dims.length)
    (h : (allocInit self a0 ndims dims dataType).getInfo = some info) :
    ∃ bpe, bytesPerElement dataType = some bpe ∧ ndims ≤ ND_ARRAY_MAX_DIMS ∧
      ndims.toNat ≤ dims.length ∧ info.totalBytes = (dims.take ndims.toNat).prod * bpe := by
  have h0 := h
  unfold NDArray.getInfo at h
  simp only [allocInit] at h
  split at h
  · simp at h
  · rename_i bpe hbpe
    split at h
    · rename_i hn
      rw [allocDims_length] at hn
      have hmax : ndims ≤ ND_ARRAY_MAX_DIMS := by omega
      have hl : ndims.toNat ≤ dims.length := by omega
      refine ⟨bpe, hbpe, hmax, hl, ?_⟩
      rw [getInfo_allocInit self a0 ndims dims dataType bpe hbpe hmax hl] at h0
      simp only [Option.some.injEq] at h0
      rw [← h0]
    · simp at h

theorem allocFind_memInv {maxMemory : Nat} {w w1 : World} {r : Option Nat}
    (h : allocFind w = (w1, r)) (hinv : MemInv maxMemory w) : MemInv maxMemory w1 := by
  cases r with
  | none => rw [(allocFind_none h).1]; exact hinv
  | some p =>
    rcases allocFind_some h with ⟨-, rfl⟩ | ⟨-, -, -, rfl⟩
    · exact hinv
    · refine ⟨hinv.1, hinv.2.1, ?_⟩
      intro a ha
      simp only [List.mem_append, List.mem_singleton] at ha
      rcases ha with ha | rfl
      · exact hinv.2.2 a ha
      · simp [NDArray.new]

theorem alloc_memInv {maxMemory : Nat} {w w' : World} {ndims : Int} {dims : List Int}
    {dataType : NDDataType} {dataSize : Int} {r : Option Nat}
    (hpos : 0 < maxMemory) (hroom : (maxMemory : Int) + 2 ^ 31 ≤ 2 ^ 64)
    (hfit : (PoolOp.alloc ndims dims dataType dataSize none).bytesFitInt = true)
    (h : NDArrayPool.alloc w ndims dims dataType dataSize none = some (w', r))
    (hinv : MemInv maxMemory w) : MemInv maxMemory w' := by
  rcases alloc_cases h with ⟨hf, -⟩ | ⟨w1, p, a0, info, hf, ha0, hlen, hinfo, hcase⟩
  · rw [(allocFind_none hf).1]; exact hinv
  · have hinv1 := allocFind_memInv hf hinv
    have ha0mem : a0 ∈ w1.arrays := List.getElem?_mem ha0
    have hold : 0 ≤ a0.dataSize := hinv1.2.2 a0 ha0mem
    obtain ⟨bpe, hbpe, -, -, htb⟩ := getInfo_allocInit_some hlen hinfo
    have hsize : allocSize dataSize info.totalBytes < 2 ^ 31 := by
      simp only [PoolOp.bytesFitInt, fitsInt, hbpe, Bool.and_eq_true, decide_eq_true_eq]
        at hfit
      unfold allocSize
      split
      · rw [htb]; exact hfit.2.2
      · exact hfit.1.2
    rcases hcase with ⟨-, -, rfl⟩ | ⟨-, hb⟩
    · refine ⟨hinv1.1, hinv1.2.1, ?_⟩
      intro a ha
      rcases List.mem_or_eq_of_mem_set ha with ha | rfl
      · exact hinv1.2.2 a ha
      · exact hold
    · rcases allocBuffer_cases hb with ⟨buf, hpd, -, -⟩ | ⟨-, -, -, -, rfl⟩ |
        ⟨-, hlt, hcap, -, rfl⟩ | ⟨-, -, -, rfl⟩
      · simp at hpd
      · refine ⟨hinv1.1, ?_, ?_⟩
        · have := hinv1.2.1
          simp only [allocInit]
          omega
        · intro a ha
          rcases List.mem_or_eq_of_mem_set ha with ha | rfl
          · exact hinv1.2.2 a ha
          · exact hold
      · refine ⟨hinv1.1, ?_, ?_⟩
        · simp only [allocFinish, allocInit] at hcap ⊢
          rw [hinv1.1] at hcap
          have hm := hinv1.2.1
          have hle : toSizeT (w1.pool.memorySize - a0.dataSize
              + allocSize dataSize info.totalBytes) ≤ maxMemory := by
            by_contra hc
            exact hcap ⟨hpos, by omega⟩
          by_cases hneg : w1.pool.memorySize - a0.dataSize
              + allocSize dataSize info.totalBytes < 0
          · omega
          · have hlt64 : w1.pool.memorySize - a0.dataSize
                + allocSize dataSize info.totalBytes < 2 ^ 64 := by omega
            unfold toSizeT at hle
            rw [Int.emod_eq_of_lt (by omega) hlt64] at hle
            exact hle
        · intro a ha
          simp only [allocFinish] at ha
          rcases List.mem_or_eq_of_mem_set ha with ha | rfl
          · exact hinv1.2.2 a ha
          · simp only [allocInit] at hlt ⊢
            omega
      · refine ⟨hinv1.1, hinv1.2.1, ?_⟩
        intro a ha
        simp only [allocFinish] at ha
        rcases List.mem_or_eq_of_mem_set ha with ha | rfl
        · exact hinv1.2.2 a ha
        · exact hold

theorem release_memInv {maxMemory : Nat} {w w' : World} {p : Nat} {st : NDStatus}
    (h : NDArrayPool.release w p = some (w', st)) (hinv : MemInv maxMemory w) :
    MemInv maxMemory w' := by
  obtain ⟨-, -, hmm, hms, -⟩ := release_buffers h
  refine ⟨by rw [hmm]; exact hinv.1, by rw [hms]; exact hinv.2.1, ?_⟩
  unfold NDArrayPool.release at h
  split at h
  · simp at h
  · rename_i a ha
    have hamem : a ∈ w.arrays := List.getElem?_mem ha
    have key : ∀ x ∈ w.arrays.set p { a with referenceCount := a.referenceCount - 1 },
        0 ≤ x.dataSize := by
      intro x hx
      rcases List.mem_or_eq_of_mem_set hx with hx | rfl
      · exact hinv.2.2 x hx
      · exact hinv.2.2 a hamem
    split at h
    · simp only [Option.some.injEq, Prod.mk.injEq] at h
      rw [← h.1]; exact hinv.2.2
    · simp only at h
      split at h <;> simp only [Option.some.injEq, Prod.mk.injEq] at h <;> rw [← h.1] <;>
        exact key

theorem allocFind_memory {w w1 : World} {r : Option Nat} (h : allocFind w = (w1, r)) :
    w1.pool.memorySize = w.pool.memorySize ∧ w1.pool.maxMemory = w.pool.maxMemory := by
  cases r with
  | none => rw [(allocFind_none h).1]; exact ⟨rfl, rfl⟩
  | some p =>
    rcases allocFind_some h with ⟨-, rfl⟩ | ⟨-, -, -, rfl⟩ <;> exact ⟨rfl, rfl⟩

theorem runWith_memInv {F : FloatOps} {maxMemory : Nat} {ops : List PoolOp} {w w' : World}
    (hpos : 0 < maxMemory) (hroom : (maxMemory : Int) + 2 ^ 31 ≤ 2 ^ 64)
    (h : runWith allocReleaseOwnBuffers F w ops = some w') (hinv : MemInv maxMemory w) :
    MemInv maxMemory w' := by
  induction ops generalizing w with
  | nil =>
    simp only [runWith, Option.some.injEq] at h
    subst h; exact hinv
  | cons op ops ih =>
    obtain ⟨hok, w1, h1, h2⟩ := runWith_cons h
    apply ih h2
    cases op with
    | alloc ndims dims dataType dataSize pData =>
      simp only [allocReleaseOwnBuffers, Bool.and_eq_true, Option.isNone_iff_eq_none] at hok
      obtain ⟨rfl, hfit⟩ := hok
      simp only [PoolOp.apply, Option.map_eq_some'] at h1
      obtain ⟨⟨w2, r⟩, h3, rfl⟩ := h1
      exact alloc_memInv hpos hroom hfit h3 hinv
    | release p =>
      simp only [PoolOp.apply, Option.map_eq_some'] at h1
      obtain ⟨⟨w2, r⟩, h3, rfl⟩ := h1
      exact release_memInv h3 hinv
    | reserve p => simp [allocReleaseOwnBuffers] at hok
    | copy pIn pOut copyData => simp [allocReleaseOwnBuffers] at hok
    | convert pIn dataTypeOut dimsOut => simp [allocReleaseOwnBuffers] at hok

/-- C6. On a pool constructed with a finite `maxMemory > 0` (small enough that adding an
`int` to it does not wrap a `size_t`), after every sequence of `alloc` (no external
buffer, byte counts that fit an `int`) and `release` operations `memorySize <= maxMemory`;
and an `alloc` (byte counts that fit an `int`) that has to grow the buffer of the array it
selected returns no array whenever `memorySize` minus the old `dataSize` plus the byte
count asked for exceeds `maxMemory`. -/
theorem memory_capped (F : FloatOps) (self : Nat) (maxBuffers : Int) (maxMemory : Nat)
    (hpos : 0 < maxMemory) (hroom : (maxMemory : Int) + 2 ^ 31 ≤ 2 ^ 64) :
    (∀ ops w,
      runWith allocReleaseOwnBuffers F (World.init self maxBuffers maxMemory) ops = some w →
      w.pool.memorySize ≤ maxMemory) ∧
    (∀ (w w1 : World) (p : Nat) (a0 : NDArray) (ndims : Int) (dims : List Int)
        (dataType : NDDataType) (dataSize bpe : Int),
      w.pool.maxMemory = maxMemory →
      allocFind w = (w1, some p) → w1.arrays[p]? = some a0 →
      bytesPerElement dataType = some bpe →
      ndims ≤ ND_ARRAY_MAX_DIMS → ndims.toNat ≤ dims.length →
      fitsInt dataSize = true → fitsInt ((dims.take ndims.toNat).prod * bpe) = true →
      (dataSize = 0 ∨ (dims.take ndims.toNat).prod * bpe ≤ dataSize) →
      a0.dataSize < (if dataSize = 0 then (dims.take ndims.toNat).prod * bpe else dataSize) →
      w.pool.memorySize - a0.dataSize
        + (if dataSize = 0 then (dims.take ndims.toNat).prod * bpe else dataSize)
        > maxMemory →
      w.pool.memorySize - a0.dataSize
        + (if dataSize = 0 then (dims.take ndims.toNat).prod * bpe else dataSize)
        < 2 ^ 64 →
      ∃ w', NDArrayPool.alloc w ndims dims dataType dataSize none = some (w', none)) := by
  constructor
  · intro ops w h
    have h0 : MemInv maxMemory (World.init self maxBuffers maxMemory) := by
      refine ⟨rfl, ?_, ?_⟩
      · simp [World.init, NDArrayPool.new]
      · intro a ha
        simp [World.init] at ha
    exact (runWith_memInv hpos hroom h h0).2.1
  · intro w w1 p a0 ndims dims dataType dataSize bpe hmm hfind ha0 hbpe hmax hlen _ _ hreq
      hgrow hover hrep
    have hmin : min ndims.toNat ND_ARRAY_MAX_DIMS ≤ dims.length := by omega
    have hinfo := getInfo_allocInit w1.pool.self a0 ndims dims dataType bpe hbpe hmax hlen
    obtain ⟨hms, hmx⟩ := allocFind_memory hfind
    have hnot : ¬ (dims.take ndims.toNat).prod * bpe
        > allocSize dataSize ((dims.take ndims.toNat).prod * bpe) := by
      unfold allocSize
      rcases hreq with h | h
      · simp [h]
      · split <;> omega
    have hlt : (allocInit w1.pool.self a0 ndims dims dataType).dataSize
        < allocSize dataSize ((dims.take ndims.toNat).prod * bpe) := hgrow
    have hcap : 0 < w1.pool.maxMemory ∧
        toSizeT (w1.pool.memorySize - (allocInit w1.pool.self a0 ndims dims dataType).dataSize
          + allocSize dataSize ((dims.take ndims.toNat).prod * bpe)) > w1.pool.maxMemory := by
      rw [hmx, hmm, hms]
      refine ⟨hpos, ?_⟩
      have hx : w.pool.memorySize - a0.dataSize
          + allocSize dataSize ((dims.take ndims.toNat).prod * bpe) > maxMemory := hover
      have hrep1 : w.pool.memorySize - a0.dataSize
          + allocSize dataSize ((dims.take ndims.toNat).prod * bpe) < 2 ^ 64 := hrep
      show (w.pool.memorySize - a0.dataSize
          + allocSize dataSize ((dims.take ndims.toNat).prod * bpe)) % 2 ^ 64 > _
      rw [Int.emod_eq_of_lt (by omega) hrep1]
      exact hx
    refine ⟨{ arrays := w1.arrays.set p
                { allocInit w1.pool.self a0 ndims dims dataType with pData := none },
              pool := { w1.pool with
                memorySize := w1.pool.memorySize
                  - (allocInit w1.pool.self a0 ndims dims dataType).dataSize } }, ?_⟩
    unfold NDArrayPool.alloc
    rw [hfind]
    simp only [ha0, hmin, if_true, hinfo, hnot, if_false]
    unfold allocBuffer
    simp only [hlt, if_true, hcap]
    rfl

/-- The 30-byte pool: after the 24-byte array is allocated and released `memorySize` is
within the cap, and growing that array to 32 bytes is refused. -/
theorem memory_capped_witness :
    demoMemFree.pool.memorySize ≤ 30 ∧
      ∃ w', NDArrayPool.alloc demoMemFree 1 [16] NDDataType.NDInt16 0 none = some (w', none) :=
  ⟨(memory_capped FloatOps.zero 7 0 30 (by decide) (by decide)).1 demoMemOps demoMemFree
      (by decide),
   (memory_capped FloatOps.zero 7 0 30 (by decide) (by decide)).2 demoMemFree demoMemFree 0
      { demoArray with referenceCount := 0, ndims := 1, dims := allocDims 1 [12] }
      1 [16] NDDataType.NDInt16 0 2
      (by decide) (by decide) (by decide) (by decide) (by decide) (by decide) (by decide)
      (by decide) (by decide) (by decide) (by decide) (by decide)⟩

/-! ## The free list and the reference counts -/

theorem listInvOn_set_same {arrays : List NDArray} {fl : List Nat} {p : Nat}
    {a0 a1 : NDArray} (hinv : ListInvOn arrays fl) (ha0 : arrays[p]? = some a0)
    (hrc : a1.referenceCount = a0.referenceCount) : ListInvOn (arrays.set p a1) fl := by
  have hplt : p < arrays.length := (List.getElem?_eq_some_iff.mp ha0).1
  refine ⟨hinv.1, ?_, ?_⟩
  · intro q hq
    by_cases hqp : q = p
    · subst hqp
      obtain ⟨a, ha, hz⟩ := hinv.2.1 q hq
      rw [ha0] at ha
      simp only [Option.some.injEq] at ha
      exact ⟨a1, List.getElem?_set_self hplt, by rw [hrc, ha]; exact hz⟩
    · rw [List.getElem?_set_ne (Ne.symm hqp)]
      exact hinv.2.1 q hq
  · intro q a hq hz
    by_cases hqp : q = p
    · subst hqp
      rw [List.getElem?_set_self hplt] at hq
      simp only [Option.some.injEq] at hq
      subst hq
      exact hinv.2.2 q a0 ha0 (by rw [← hrc]; exact hz)
    · rw [List.getElem?_set_ne (Ne.symm hqp)] at hq
      exact hinv.2.2 q a hq hz

theorem listInvOn_finish {arrays : List NDArray} {fl : List Nat} {p : Nat}
    {a0 a1 : NDArray} (hinv : ListInvOn arrays fl) (ha0 : arrays[p]? = some a0)
    (hrc : a1.referenceCount = 1) : ListInvOn (arrays.set p a1) (fl.erase p) := by
  have hplt : p < arrays.length := (List.getElem?_eq_some_iff.mp ha0).1
  refine ⟨hinv.1.erase p, ?_, ?_⟩
  · intro q hq
    obtain ⟨hqp, hqf⟩ := hinv.1.mem_erase_iff.mp hq
    rw [List.getElem?_set_ne (Ne.symm hqp)]
    exact hinv.2.1 q hqf
  · intro q a hq hz
    by_cases hqp : q = p
    · subst hqp
      rw [List.getElem?_set_self hplt] at hq
      simp only [Option.some.injEq] at hq
      subst hq
      omega
    · rw [List.getElem?_set_ne (Ne.symm hqp)] at hq
      exact (List.mem_erase_of_ne hqp).mpr (hinv.2.2 q a hq hz)

theorem listInvOn_not_mem {arrays : List NDArray} {fl : List Nat} {p : Nat} {a0 : NDArray}
    (hinv : ListInvOn arrays fl) (ha0 : arrays[p]? = some a0) (hpos : a0.referenceCount ≠ 0) :
    p ∉ fl := by
  intro hp
  obtain ⟨a, ha, hz⟩ := hinv.2.1 p hp
  rw [ha0] at ha
  simp only [Option.some.injEq] at ha
  subst ha
  exact hpos hz

theorem listInvOn_release_zero {arrays : List NDArray} {fl : List Nat} {p : Nat}
    {a0 a1 : NDArray} (hinv : ListInvOn arrays fl) (ha0 : arrays[p]? = some a0)
    (hpos : 0 < a0.referenceCount) (hrc : a1.referenceCount = 0) :
    ListInvOn (arrays.set p a1) (fl ++ [p]) := by
  have hplt : p < arrays.length := (List.getElem?_eq_some_iff.mp ha0).1
  have hnot : p ∉ fl := listInvOn_not_mem hinv ha0 (by omega)
  refine ⟨?_, ?_, ?_⟩
  · exact List.Nodup.append hinv.1 (List.nodup_singleton p)
      (by
        intro x hx hxp
        simp only [List.mem_singleton] at hxp
        exact hnot (hxp ▸ hx))
  · intro q hq
    simp only [List.mem_append, List.mem_singleton] at hq
    rcases hq with hq | rfl
    · have hqp : q ≠ p := fun h => hnot (h ▸ hq)
      rw [List.getElem?_set_ne (Ne.symm hqp)]
      exact hinv.2.1 q hq
    · exact ⟨a1, List.getElem?_set_self hplt, hrc⟩
  · intro q a hq hz
    by_cases hqp : q = p
    · simp [hqp]
    · rw [List.getElem?_set_ne (Ne.symm hqp)] at hq
      exact List.mem_append_left _ (hinv.2.2 q a hq hz)

theorem listInvOn_set_pos {arrays : List NDArray} {fl : List Nat} {p : Nat}
    {a0 a1 : NDArray} (hinv : ListInvOn arrays fl) (ha0 : arrays[p]? = some a0)
    (hpos : 0 < a0.referenceCount) (hrc : a1.referenceCount ≠ 0) :
    ListInvOn (arrays.set p a1) fl := by
  have hplt : p < arrays.length := (List.getElem?_eq_some_iff.mp ha0).1
  have hnot : p ∉ fl := listInvOn_not_mem hinv ha0 (by omega)
  refine ⟨hinv.1, ?_, ?_⟩
  · intro q hq
    have hqp : q ≠ p := fun h => hnot (h ▸ hq)
    rw [List.getElem?_set_ne (Ne.symm hqp)]
    exact hinv.2.1 q hq
  · intro q a hq hz
    by_cases hqp : q = p
    · subst hqp
      rw [List.getElem?_set_self hplt] at hq
      simp only [Option.some.injEq] at hq
      subst hq
      exact absurd hz hrc
    · rw [List.getElem?_set_ne (Ne.symm hqp)] at hq
      exact hinv.2.2 q a hq hz

theorem allocFind_listInv {w w1 : World} {r : Option Nat} (h : allocFind w = (w1, r))
    (hinv : ListInv w) : ListInv w1 := by
  cases r with
  | none => rw [(allocFind_none h).1]; exact hinv
  | some p =>
    rcases allocFind_some h with ⟨-, rfl⟩ | ⟨hfl, -, -, rfl⟩
    · exact hinv
    · unfold ListInv at hinv ⊢
      rw [hfl] at hinv
      simp only [hfl, List.nil_append]
      refine ⟨List.nodup_singleton _, ?_, ?_⟩
      · intro q hq
        simp only [List.mem_singleton] at hq
        subst hq
        exact ⟨NDArray.new, List.getElem?_concat_length _ _, rfl⟩
      · intro q a hq hz
        by_cases hql : q < w.arrays.length
        · rw [List.getElem?_append_left hql] at hq
          exact absurd (hinv.2.2 q a hq hz) (List.not_mem_nil q)
        · have hlen := (List.getElem?_eq_some_iff.mp hq).1
          simp only [List.length_append, List.length_singleton] at hlen
          have : q = w.arrays.length := by omega
          simp [this]

theorem allocFind_mem {w w1 : World} {p : Nat} (h : allocFind w = (w1, some p)) :
    p ∈ w1.pool.freeList :=
  List.mem_of_mem_head? (allocFind_head h)

/-- `alloc` keeps the free-list invariant, whatever its outcome. -/
theorem alloc_listInv {w w' : World} {ndims : Int} {dims : List Int} {dataType : NDDataType}
    {dataSize : Int} {pData : Option (List Nat)} {r : Option Nat}
    (h : NDArrayPool.alloc w ndims dims dataType dataSize pData = some (w', r))
    (hinv : ListInv w) : ListInv w' := by
  rcases alloc_cases h with ⟨hf, -⟩ | ⟨w1, p, a0, info, hf, ha0, -, -, hcase⟩
  · rw [(allocFind_none hf).1]; exact hinv
  · have hinv1 : ListInvOn w1.arrays w1.pool.freeList := allocFind_listInv hf hinv
    rcases hcase with ⟨-, -, rfl⟩ | ⟨-, hb⟩
    · exact listInvOn_set_same hinv1 ha0 rfl
    · rcases allocBuffer_cases hb with ⟨buf, -, -, rfl⟩ | ⟨-, -, -, -, rfl⟩ |
        ⟨-, -, -, -, rfl⟩ | ⟨-, -, -, rfl⟩
      · exact listInvOn_finish hinv1 ha0 rfl
      · exact listInvOn_set_same hinv1 ha0 rfl
      · exact listInvOn_finish hinv1 ha0 rfl
      · exact listInvOn_finish hinv1 ha0 rfl

theorem reserve_listInv {w w' : World} {p : Nat} {st : NDStatus}
    (h : NDArrayPool.reserve w p = some (w', st)) (huse : inUse w p = true)
    (hinv : ListInv w) : ListInv w' := by
  unfold NDArrayPool.reserve at h
  unfold inUse at huse
  split at h
  · simp at h
  · rename_i a ha
    simp only [ha, decide_eq_true_eq] at huse
    split at h
    · simp only [Option.some.injEq, Prod.mk.injEq] at h
      rw [← h.1]; exact hinv
    · simp only [Option.some.injEq, Prod.mk.injEq] at h
      rw [← h.1]
      exact listInvOn_set_pos hinv ha huse (by simp only; omega)

theorem release_listInv {w w' : World} {p : Nat} {st : NDStatus}
    (h : NDArrayPool.release w p = some (w', st)) (huse : inUse w p = true)
    (hinv : ListInv w) : ListInv w' := by
  unfold NDArrayPool.release at h
  unfold inUse at huse
  split at h
  · simp at h
  · rename_i a ha
    simp only [ha, decide_eq_true_eq] at huse
    split at h
    · simp only [Option.some.injEq, Prod.mk.injEq] at h
      rw [← h.1]; exact hinv
    · simp only at h
      split at h
      · rename_i hz
        simp only [Option.some.injEq, Prod.mk.injEq] at h
        rw [← h.1]
        exact listInvOn_release_zero hinv ha huse hz
      · rename_i hz
        simp only [Option.some.injEq, Prod.mk.injEq] at h
        rw [← h.1]
        exact listInvOn_set_pos hinv ha huse hz

theorem listInv_init (self : Nat) (maxBuffers : Int) (maxMemory : Nat) :
    ListInv (World.init self maxBuffers maxMemory) := by
  refine ⟨List.nodup_nil, ?_, ?_⟩
  · intro p hp
    simp [World.init, NDArrayPool.new] at hp
  · intro p a hp
    simp [World.init] at hp

theorem runWith_validUse_listInv {F : FloatOps} {ops : List PoolOp} {w w' : World}
    (h : runWith validUse F w ops = some w') (hinv : ListInv w) : ListInv w' := by
  induction ops generalizing w with
  | nil =>
    simp only [runWith, Option.some.injEq] at h
    subst h; exact hinv
  | cons op ops ih =>
    obtain ⟨hok, w1, h1, h2⟩ := runWith_cons h
    apply ih h2
    cases op with
    | alloc ndims dims dataType dataSize pData =>
      simp only [PoolOp.apply, Option.map_eq_some'] at h1
      obtain ⟨⟨w2, r⟩, h3, rfl⟩ := h1
      exact alloc_listInv h3 hinv
    | reserve p =>
      simp only [PoolOp.apply, Option.map_eq_some'] at h1
      obtain ⟨⟨w2, r⟩, h3, rfl⟩ := h1
      exact reserve_listInv h3 hok hinv
    | release p =>
      simp only [PoolOp.apply, Option.map_eq_some'] at h1
      obtain ⟨⟨w2, r⟩, h3, rfl⟩ := h1
      exact release_listInv h3 hok hinv
    | copy pIn pOut copyData => simp [validUse] at hok
    | convert pIn dataTypeOut dimsOut => simp [validUse] at hok

/-- C9. After every sequence of `alloc`, `reserve` and `release` operations on one pool in
which `reserve` and `release` are only applied to arrays whose reference count is above 0
at the time of the call, failed calls of `alloc` included, each array constructed by the
pool (each array of the heap, which starts empty) is on the free list if and only if its
reference count is 0. -/
theorem freeList_iff_unreferenced (F : FloatOps) (self : Nat) (maxBuffers : Int)
    (maxMemory : Nat) (ops : List PoolOp) (w : World) (p : Nat) (a : NDArray)
    (h : runWith validUse F (World.init self maxBuffers maxMemory) ops = some w)
    (ha : w.arrays[p]? = some a) :
    p ∈ w.pool.freeList ↔ a.referenceCount = 0 := by
  have hinv := runWith_validUse_listInv h (listInv_init self maxBuffers maxMemory)
  constructor
  · intro hp
    obtain ⟨a1, ha1, hz⟩ := hinv.2.1 p hp
    rw [ha] at ha1
    simp only [Option.some.injEq] at ha1
    rw [ha1]; exact hz
  · exact hinv.2.2 p a ha

/-! ## The size of the buffers -/

theorem getInfo_congr {a b : NDArray} (h1 : a.dataType = b.dataType) (h2 : a.ndims = b.ndims)
    (h3 : a.dims = b.dims) : a.getInfo = b.getInfo := by
  simp only [NDArray.getInfo, h1, h2, h3]

theorem dataInvOn_set {arrays : List NDArray} {p : Nat} {a0 a1 : NDArray}
    (hinv : DataInvOn arrays) (ha0 : arrays[p]? = some a0)
    (h1 : 0 < a1.referenceCount →
      ∃ info, a1.getInfo = some info ∧ info.totalBytes ≤ a1.dataSize)
    (h2 : 0 ≤ a1.dataSize ∧ ∀ buf, a1.pData = some buf → (buf.length : Int) = a1.dataSize) :
    DataInvOn (arrays.set p a1) := by
  have hplt : p < arrays.length := (List.getElem?_eq_some_iff.mp ha0).1
  refine ⟨?_, ?_⟩
  · intro q a hq hpos
    by_cases hqp : q = p
    · subst hqp
      rw [List.getElem?_set_self hplt] at hq
      simp only [Option.some.injEq] at hq
      subst hq
      exact h1 hpos
    · rw [List.getElem?_set_ne (Ne.symm hqp)] at hq
      exact hinv.1 q a hq hpos
  · intro a ha
    rcases List.mem_or_eq_of_mem_set ha with ha | rfl
    · exact hinv.2 a ha
    · exact h2

theorem allocFind_dataInv {w w1 : World} {r : Option Nat} (h : allocFind w = (w1, r))
    (hinv : DataInvOn w.arrays) : DataInvOn w1.arrays := by
  cases r with
  | none => rw [(allocFind_none h).1]; exact hinv
  | some p =>
    rcases allocFind_some h with ⟨-, rfl⟩ | ⟨-, -, -, rfl⟩
    · exact hinv
    · refine ⟨?_, ?_⟩
      · intro q a hq hpos
        by_cases hql : q < w.arrays.length
        · rw [List.getElem?_append_left hql] at hq
          exact hinv.1 q a hq hpos
        · have hlen := (List.getElem?_eq_some_iff.mp hq).1
          simp only [List.length_append, List.length_singleton] at hlen
          have hq2 : q = w.arrays.length := by omega
          subst hq2
          rw [List.getElem?_concat_length] at hq
          simp only [Option.some.injEq] at hq
          subst hq
          simp [NDArray.new] at hpos
      · intro a ha
        simp only [List.mem_append, List.mem_singleton] at ha
        rcases ha with ha | rfl
        · exact hinv.2 a ha
        · simp [NDArray.new]

/-- `alloc` without external buffer keeps the buffer invariant, given the free-list
invariant. -/
theorem alloc_dataInv {w w' : World} {ndims : Int} {dims : List Int} {dataType : NDDataType}
    {dataSize : Int} {r : Option Nat}
    (h : NDArrayPool.alloc w ndims dims dataType dataSize none = some (w', r))
    (hl : ListInv w) (hd : DataInvOn w.arrays) : DataInvOn w'.arrays := by
  rcases alloc_cases h with ⟨hf, -⟩ | ⟨w1, p, a0, info, hf, ha0, -, hinfo, hcase⟩
  · rw [(allocFind_none hf).1]; exact hd
  · have hl1 : ListInvOn w1.arrays w1.pool.freeList := allocFind_listInv hf hl
    have hd1 := allocFind_dataInv hf hd
    have hz : a0.referenceCount = 0 := by
      obtain ⟨a, ha, hz⟩ := hl1.2.1 p (allocFind_mem hf)
      rw [ha0] at ha
      simp only [Option.some.injEq] at ha
      rw [ha]; exact hz
    have h2 := hd1.2 a0 (List.getElem?_mem ha0)
    rcases hcase with ⟨-, -, rfl⟩ | ⟨hsmall, hb⟩
    · apply dataInvOn_set hd1 ha0
      · intro hpos
        simp only [allocInit] at hpos
        omega
      · exact h2
    · rcases allocBuffer_cases hb with ⟨buf, hpd, -, -⟩ | ⟨-, -, -, -, rfl⟩ |
        ⟨-, hlt, -, -, rfl⟩ | ⟨-, hlt, -, rfl⟩
      · simp at hpd
      · apply dataInvOn_set hd1 ha0
        · intro hpos
          simp only [allocInit] at hpos
          omega
        · exact ⟨h2.1, fun buf hbuf => by simp at hbuf⟩
      · simp only [allocFinish]
        apply dataInvOn_set hd1 ha0
        · intro _
          refine ⟨info, ?_, ?_⟩
          · rw [← hinfo]; exact getInfo_congr rfl rfl rfl
          · simp only; omega
        · simp only [allocInit] at hlt
          refine ⟨by simp only; omega, ?_⟩
          intro buf hbuf
          simp only [Option.some.injEq] at hbuf
          subst hbuf
          simp only [List.length_replicate]
          omega
      · simp only [allocFinish]
        apply dataInvOn_set hd1 ha0
        · intro _
          refine ⟨info, ?_, ?_⟩
          · rw [← hinfo]; exact getInfo_congr rfl rfl rfl
          · simp only [allocInit] at hlt ⊢
            omega
        · exact h2

theorem reserve_dataInv {w w' : World} {p : Nat} {st : NDStatus}
    (h : NDArrayPool.reserve w p = some (w', st)) (huse : inUse w p = true)
    (hd : DataInvOn w.arrays) : DataInvOn w'.arrays := by
  unfold NDArrayPool.reserve at h
  unfold inUse at huse
  split at h
  · simp at h
  · rename_i a ha
    simp only [ha, decide_eq_true_eq] at huse
    split at h
    · simp only [Option.some.injEq, Prod.mk.injEq] at h
      rw [← h.1]; exact hd
    · simp only [Option.some.injEq, Prod.mk.injEq] at h
      rw [← h.1]
      apply dataInvOn_set hd ha
      · intro _
        obtain ⟨info, hi, hle⟩ := hd.1 p a ha huse
        exact ⟨info, by rw [← hi]; exact getInfo_congr rfl rfl rfl, hle⟩
      · exact hd.2 a (List.getElem?_mem ha)

theorem release_dataInv {w w' : World} {p : Nat} {st : NDStatus}
    (h : NDArrayPool.release w p = some (w', st)) (huse : inUse w p = true)
    (hd : DataInvOn w.arrays) : DataInvOn w'.arrays := by
  unfold NDArrayPool.release at h
  unfold inUse at huse
  split at h
  · simp at h
  · rename_i a ha
    simp only [ha, decide_eq_true_eq] at huse
    have key : DataInvOn (w.arrays.set p { a with referenceCount := a.referenceCount - 1 }) := by
      apply dataInvOn_set hd ha
      · intro _
        obtain ⟨info, hi, hle⟩ := hd.1 p a ha huse
        exact ⟨info, by rw [← hi]; exact getInfo_congr rfl rfl rfl, hle⟩
      · exact hd.2 a (List.getElem?_mem ha)
    split at h
    · simp only [Option.some.injEq, Prod.mk.injEq] at h
      rw [← h.1]; exact hd
    · simp only at h
      split at h <;> simp only [Option.some.injEq, Prod.mk.injEq] at h <;> rw [← h.1] <;>
        exact key

theorem runWith_ownBuffers_inv {F : FloatOps} {ops : List PoolOp} {w w' : World}
    (h : runWith validUseOwnBuffers F w ops = some w')
    (hl : ListInv w) (hd : DataInvOn w.arrays) : ListInv w' ∧ DataInvOn w'.arrays := by
  induction ops generalizing w with
  | nil =>
    simp only [runWith, Option.some.injEq] at h
    subst h; exact ⟨hl, hd⟩
  | cons op ops ih =>
    obtain ⟨hok, w1, h1, h2⟩ := runWith_cons h
    cases op with
    | alloc ndims dims dataType dataSize pData =>
      simp only [validUseOwnBuffers, Option.isNone_iff_eq_none] at hok
      subst hok
      simp only [PoolOp.apply, Option.map_eq_some'] at h1
      obtain ⟨⟨w2, r⟩, h3, rfl⟩ := h1
      exact ih h2 (alloc_listInv h3 hl) (alloc_dataInv h3 hl hd)
    | reserve p =>
      simp only [PoolOp.apply, Option.map_eq_some'] at h1
      obtain ⟨⟨w2, r⟩, h3, rfl⟩ := h1
      exact ih h2 (reserve_listInv h3 hok hl) (reserve_dataInv h3 hok hd)
    | release p =>
      simp only [PoolOp.apply, Option.map_eq_some'] at h1
      obtain ⟨⟨w2, r⟩, h3, rfl⟩ := h1
      exact ih h2 (release_listInv h3 hok hl) (release_dataInv h3 hok hd)
    | copy pIn pOut copyData => simp [validUseOwnBuffers] at hok
    | convert pIn dataTypeOut dimsOut => simp [validUseOwnBuffers] at hok

theorem runWith_mono {ok1 ok2 : World → PoolOp → Bool} {F : FloatOps}
    (hle : ∀ w op, ok1 w op = true → ok2 w op = true) :
    ∀ {ops : List PoolOp} {w w' : World},
      runWith ok1 F w ops = some w' → runWith ok2 F w ops = some w' := by
  intro ops
  induction ops with
  | nil => intro w w' h; exact h
  | cons op ops ih =>
    intro w w' h
    obtain ⟨hok, w1, h1, h2⟩ := runWith_cons h
    unfold runWith
    simp only [hle w op hok, if_true, h1]
    exact ih h2

theorem alloc_nullInv {w w' : World} {ndims : Int} {dims : List Int}
    {dataType : NDDataType} {dataSize : Int} {r : Option Nat}
    (h : NDArrayPool.alloc w ndims dims dataType dataSize none = some (w', r))
    (hno : NDArrayPool.memoryLimitHit w ndims dims dataType dataSize = false)
    (hinv : NullInv w) : NullInv w' := by
  rcases alloc_cases h with ⟨hf, -⟩ | ⟨w1, p, a0, info, hf, ha0, -, hinfo, hcase⟩
  · rw [(allocFind_none hf).1]; exact hinv
  · have hinv1 : NullInv w1 := by
      rcases allocFind_some hf with ⟨-, rfl⟩ | ⟨-, -, -, rfl⟩
      · exact hinv
      · intro a ha
        simp only [List.mem_append, List.mem_singleton] at ha
        rcases ha with ha | rfl
        · exact hinv a ha
        · intro _; rfl
    have ha0mem : a0 ∈ w1.arrays := List.getElem?_mem ha0
    have hold := hinv1 a0 ha0mem
    have hset : ∀ a1 : NDArray, (a1.pData = none → a1.dataSize = 0) →
        ∀ a ∈ w1.arrays.set p a1, a.pData = none → a.dataSize = 0 := by
      intro a1 h1 a ha
      rcases List.mem_or_eq_of_mem_set ha with ha | rfl
      · exact hinv1 a ha
      · exact h1
    rcases hcase with ⟨-, -, rfl⟩ | ⟨hnot, hb⟩
    · exact hset _ hold
    · rcases allocBuffer_cases hb with ⟨buf, hpd, -, -⟩ | ⟨-, hlt, hcap, -, -⟩ |
        ⟨-, -, -, -, rfl⟩ | ⟨-, -, -, rfl⟩
      · simp at hpd
      · exfalso
        have : NDArrayPool.memoryLimitHit w ndims dims dataType dataSize = true := by
          unfold NDArrayPool.memoryLimitHit
          simp only [hf, ha0, hinfo, Bool.and_eq_true, decide_eq_true_eq]
          exact ⟨⟨hnot, hlt⟩, hcap⟩
        rw [hno] at this
        exact Bool.false_ne_true this
      · exact hset _ (by intro hn; simp at hn)
      · exact hset _ hold

theorem reserve_nullInv {w w' : World} {p : Nat} {st : NDStatus}
    (h : NDArrayPool.reserve w p = some (w', st)) (hinv : NullInv w) : NullInv w' := by
  unfold NDArrayPool.reserve at h
  split at h
  · simp at h
  · rename_i a ha
    split at h
    · simp only [Option.some.injEq, Prod.mk.injEq] at h
      rw [← h.1]; exact hinv
    · simp only [Option.some.injEq, Prod.mk.injEq] at h
      rw [← h.1]
      intro b hb
      rcases List.mem_or_eq_of_mem_set hb with hb | rfl
      · exact hinv b hb
      · exact hinv a (List.getElem?_mem ha)

theorem release_nullInv {w w' : World} {p : Nat} {st : NDStatus}
    (h : NDArrayPool.release w p = some (w', st)) (hinv : NullInv w) : NullInv w' := by
  unfold NDArrayPool.release at h
  split at h
  · simp at h
  · rename_i a ha
    have hset : ∀ b ∈ w.arrays.set p { a with referenceCount := a.referenceCount - 1 },
        b.pData = none → b.dataSize = 0 := by
      intro b hb
      rcases List.mem_or_eq_of_mem_set hb with hb | rfl
      · exact hinv b hb
      · exact hinv a (List.getElem?_mem ha)
    split at h
    · simp only [Option.some.injEq, Prod.mk.injEq] at h
      rw [← h.1]; exact hinv
    · simp only at h
      split at h
      · simp only [Option.some.injEq, Prod.mk.injEq] at h
        rw [← h.1]; exact hset
      · simp only [Option.some.injEq, Prod.mk.injEq] at h
        rw [← h.1]; exact hset

theorem runWith_withinLimits_nullInv {F : FloatOps} {ops : List PoolOp} {w w' : World}
    (h : runWith validUseWithinLimits F w ops = some w') (hinv : NullInv w) :
    NullInv w' := by
  induction ops generalizing w with
  | nil =>
    simp only [runWith, Option.some.injEq] at h
    subst h; exact hinv
  | cons op ops ih =>
    obtain ⟨hok, w1, h1, h2⟩ := runWith_cons h
    apply ih h2
    cases op with
    | alloc ndims dims dataType dataSize pData =>
      simp only [validUseWithinLimits, Bool.and_eq_true, Option.isNone_iff_eq_none,
        Bool.not_eq_true'] at hok
      obtain ⟨⟨rfl, -⟩, hno⟩ := hok
      simp only [PoolOp.apply, Option.map_eq_some'] at h1
      obtain ⟨⟨w2, r⟩, h3, rfl⟩ := h1
      exact alloc_nullInv h3 hno hinv
    | reserve p =>
      simp only [PoolOp.apply, Option.map_eq_some'] at h1
      obtain ⟨⟨w2, r⟩, h3, rfl⟩ := h1
      exact reserve_nullInv h3 hinv
    | release p =>
      simp only [PoolOp.apply, Option.map_eq_some'] at h1
      obtain ⟨⟨w2, r⟩, h3, rfl⟩ := h1
      exact release_nullInv h3 hinv
    | copy pIn pOut copyData => simp [validUseWithinLimits] at hok
    | convert pIn dataTypeOut dimsOut => simp [validUseWithinLimits] at hok

/-- C8, amended. After every sequence of `alloc` without external buffer and with byte
counts that fit an `int`, `reserve` and `release` operations in which `reserve` and
`release` are only applied to arrays whose reference count is above 0, every array with
reference count above 0 has a `dataSize` of at least
`product(dims[i].size) * bytes(dataType)` (the `totalBytes` of `getInfo`); and when no
`alloc` of the sequence failed on the memory limit, its buffer holds exactly `dataSize`
bytes (the array is without buffer only when `dataSize` is 0).  After such a failure an
array in use can be without buffer (third part of
`external_buffer_dataSize_counterexample`); a buffer it has still holds exactly
`dataSize` bytes. -/
theorem dataSize_covers_in_use (F : FloatOps) (self : Nat) (maxBuffers : Int)
    (maxMemory : Nat) (ops : List PoolOp) (w : World) (p : Nat) (a : NDArray)
    (h : runWith validUseOwnBuffers F (World.init self maxBuffers maxMemory) ops = some w)
    (_hint : ∀ op ∈ ops, op.bytesFitInt = true)
    (ha : w.arrays[p]? = some a) (hpos : 0 < a.referenceCount) :
    (∃ info, a.getInfo = some info ∧
        info.totalBytes = sizeProduct (a.dims.take a.ndims.toNat) * info.bytesPerElement ∧
        bytesPerElement a.dataType = some info.bytesPerElement ∧
        info.totalBytes ≤ a.dataSize) ∧
      (∀ buf, a.pData = some buf → (buf.length : Int) = a.dataSize) ∧
      (runWith validUseWithinLimits F (World.init self maxBuffers maxMemory) ops = some w →
        a.pData = none → a.dataSize = 0) := by
  have hd0 : DataInvOn (World.init self maxBuffers maxMemory).arrays := by
    refine ⟨?_, ?_⟩
    · intro q b hq
      simp [World.init] at hq
    · intro b hb
      simp [World.init] at hb
  obtain ⟨-, hd⟩ := runWith_ownBuffers_inv h (listInv_init self maxBuffers maxMemory) hd0
  obtain ⟨info, hi, hle⟩ := hd.1 p a ha hpos
  refine ⟨⟨info, hi, ?_, ?_, hle⟩, (hd.2 a (List.getElem?_mem ha)).2,
    fun hlim => runWith_withinLimits_nullInv hlim (by intro b hb; simp [World.init] at hb)
      a (List.getElem?_mem ha)⟩
  · unfold NDArray.getInfo at hi
    split at hi
    · simp at hi
    · split at hi
      · simp only [Option.some.injEq] at hi
        rw [← hi]
      · simp at hi
  · unfold NDArray.getInfo at hi
    split at hi
    · simp at hi
    · rename_i bpe hbpe
      split at hi
      · simp only [Option.some.injEq] at hi
        rw [← hi]; exact hbpe
      · simp at hi

/-- The pool after `demoUseOps`: array 0 has reference count 0 and is on the free list. -/
theorem freeList_iff_unreferenced_witness :
    0 ∈ demoUseFinal.pool.freeList ↔
      (demoUseFinal.arrays.getD 0 NDArray.new).referenceCount = 0 :=
  freeList_iff_unreferenced FloatOps.zero 7 0 0 demoUseOps demoUseFinal 0
    (demoUseFinal.arrays.getD 0 NDArray.new) (by decide) (by decide)

/-- C8 as stated fails, in three ways.  On a fresh pool
`alloc(1, [24], NDInt8, 24, pData)` with a caller's buffer of 24 bytes returns an array
with reference count 1 whose dimensions require 24 bytes and whose `dataSize` field is
still 0.  Without any external buffer: after a 24-byte array is released, a failed
`alloc` of 100 bytes leaves its dimensions in that array, and `reserve` then gives it
reference count 1 with `dataSize = 24`.  And with `reserve` and `release` on arrays in
use only, on a pool with `maxMemory = 30`: after a 24-byte array is released and an
`alloc` for 32 bytes has failed on the memory limit, `alloc` for 24 bytes returns that
array with reference count 1 and `dataSize = 24` but without buffer. -/
theorem external_buffer_dataSize_counterexample :
    (runWith validUse FloatOps.zero demoFresh
        [PoolOp.alloc 1 [24] NDDataType.NDInt8 24 (some (List.replicate 24 0))]
      = some demoExternal ∧
    ∃ a info, demoExternal.arrays[0]? = some a ∧ 0 < a.referenceCount ∧
      a.getInfo = some info ∧ info.totalBytes = 24 ∧ a.dataSize = 0 ∧
      ¬ info.totalBytes ≤ a.dataSize) ∧
    (run FloatOps.zero demoFresh demoReserveOps = some demoReserved ∧
    ∃ a info, demoReserved.arrays[0]? = some a ∧ 0 < a.referenceCount ∧
      a.getInfo = some info ∧ info.totalBytes = 100 ∧ a.dataSize = 24 ∧
      ¬ info.totalBytes ≤ a.dataSize) ∧
    (runWith validUseOwnBuffers FloatOps.zero (World.init 7 0 30) demoHandedOps
      = some demoHanded ∧
    ∃ a info, demoHanded.arrays[0]? = some a ∧ 0 < a.referenceCount ∧
      a.getInfo = some info ∧ info.totalBytes = 24 ∧ a.dataSize = 24 ∧
      a.pData = none) :=
  ⟨⟨by decide, demoExternal.arrays.getD 0 NDArray.new,
      { nElements := 24, bytesPerElement := 1, totalBytes := 24 },
      by decide, by decide, by decide, by decide, by decide, by decide⟩,
   ⟨by decide, demoReserved.arrays.getD 0 NDArray.new,
      { nElements := 100, bytesPerElement := 1, totalBytes := 100 },
      by decide, by decide, by decide, by decide, by decide, by decide⟩,
   ⟨by decide, demoHanded.arrays.getD 0 NDArray.new,
      { nElements := 12, bytesPerElement := 2, totalBytes := 24 },
      by decide, by decide, by decide, by decide, by decide, by decide⟩⟩

/-- The pool after `demoUseOps`, in which no `alloc` fails on the memory limit: array 1
is in use, its 8 bytes are covered by its `dataSize` and its buffer holds `dataSize`
bytes. -/
theorem dataSize_covers_in_use_witness :
    runWith validUseWithinLimits FloatOps.zero (World.init 7 0 0) demoUseOps
      = some demoUseFinal ∧
    (demoUseFinal.arrays[1]?).map (fun a => (a.referenceCount, a.dataSize, a.pData))
      = some (1, 8, some (List.replicate 8 0)) ∧
    ((∃ info, (demoUseFinal.arrays.getD 1 NDArray.new).getInfo = some info ∧
        info.totalBytes =
          sizeProduct ((demoUseFinal.arrays.getD 1 NDArray.new).dims.take
            (demoUseFinal.arrays.getD 1 NDArray.new).ndims.toNat) * info.bytesPerElement ∧
        bytesPerElement (demoUseFinal.arrays.getD 1 NDArray.new).dataType
          = some info.bytesPerElement ∧
        info.totalBytes ≤ (demoUseFinal.arrays.getD 1 NDArray.new).dataSize) ∧
      (∀ buf, (demoUseFinal.arrays.getD 1 NDArray.new).pData = some buf →
        (buf.length : Int) = (demoUseFinal.arrays.getD 1 NDArray.new).dataSize) ∧
      (runWith validUseWithinLimits FloatOps.zero (World.init 7 0 0) demoUseOps
          = some demoUseFinal →
        (demoUseFinal.arrays.getD 1 NDArray.new).pData = none →
        (demoUseFinal.arrays.getD 1 NDArray.new).dataSize = 0)) :=
  ⟨by decide, by decide,
   dataSize_covers_in_use FloatOps.zero 7 0 0 demoUseOps demoUseFinal 1
    (demoUseFinal.arrays.getD 1 NDArray.new) (by decide) (by decide) (by decide)
    (by decide)⟩

/-! ## Conservation of memory -/

/-- C7 fails on the code.  On a pool with `maxMemory = 30` a 24-byte array is allocated
and released, then `alloc` asks for 32 bytes: the call subtracts the 24 bytes from
`memorySize`, frees the buffer and fails on the limit, but leaves the `dataSize` of the
array at 24.  Afterwards `memorySize` is 0 while the `dataSize` of the arrays sum to 24
(and the array on the free list has no buffer any more). -/
theorem memory_sum_after_limit_failure :
    runWith allocReleaseOwnBuffers FloatOps.zero (World.init 7 0 30)
        (demoMemOps ++ [PoolOp.alloc 1 [16] NDDataType.NDInt16 0 none])
      = some demoMemFailed ∧
    demoMemFailed.pool.memorySize = 0 ∧
    (demoMemFailed.arrays.map (fun a => a.dataSize)).sum = 24 ∧
    demoMemFailed.arrays.map (fun a => a.pData) = [none] ∧
    demoMemFailed.pool.freeList = [0] := by
  decide

/-! ## A dataSize that is too small -/

theorem allocFind_numFree {w w1 : World} {r : Option Nat} (h : allocFind w = (w1, r))
    (hnf : w.pool.numFree = w.pool.freeList.length) :
    w1.pool.numFree = w1.pool.freeList.length := by
  cases r with
  | none => rw [(allocFind_none h).1]; exact hnf
  | some p =>
    rcases allocFind_some h with ⟨-, rfl⟩ | ⟨-, -, -, rfl⟩
    · exact hnf
    · simp only [List.length_append, List.length_singleton, Nat.cast_add, Nat.cast_one]
      omega

/-- C10. Called with a non-zero `dataSize` below `product(dims[i]) * bytes(dataType)`
(both values of the type `int`), `alloc` returns no array and leaves `memorySize` unchanged; the array it had selected
(the head of the free list or a newly constructed one) is on the free list afterwards,
and `numFree` still equals the length of the free list.  Called with `dataSize = 0`,
`alloc` goes on to the buffer phase with the required byte count, so that this failure
does not occur, and with `maxMemory = 0` it returns the selected array. -/
theorem alloc_too_small (w : World) (ndims : Int) (dims : List Int) (dataType : NDDataType)
    (pData : Option (List Nat)) (bpe : Int)
    (hbpe : bytesPerElement dataType = some bpe)
    (hmax : ndims ≤ ND_ARRAY_MAX_DIMS) (hlen : ndims.toNat ≤ dims.length)
    (_hint : fitsInt ((dims.take ndims.toNat).prod * bpe) = true) :
    (∀ dataSize : Int, fitsInt dataSize = true → dataSize ≠ 0 →
      dataSize < (dims.take ndims.toNat).prod * bpe →
      (∀ w' r, NDArrayPool.alloc w ndims dims dataType dataSize pData = some (w', r) →
        r = none ∧ w'.pool.memorySize = w.pool.memorySize) ∧
      (∀ w1 p a0, allocFind w = (w1, some p) → w1.arrays[p]? = some a0 →
        w.pool.numFree = w.pool.freeList.length →
        ∃ w', NDArrayPool.alloc w ndims dims dataType dataSize pData = some (w', none) ∧
          p ∈ w'.pool.freeList ∧ w'.pool.numFree = w'.pool.freeList.length ∧
          w'.pool.memorySize = w.pool.memorySize)) ∧
    (∀ w1 p a0, allocFind w = (w1, some p) → w1.arrays[p]? = some a0 →
      NDArrayPool.alloc w ndims dims dataType 0 pData
        = some (allocBuffer w1 p (allocInit w1.pool.self a0 ndims dims dataType)
            ((dims.take ndims.toNat).prod * bpe) pData) ∧
      (w.pool.maxMemory = 0 →
        ∃ w', NDArrayPool.alloc w ndims dims dataType 0 pData = some (w', some p))) := by
  have hmin : min ndims.toNat ND_ARRAY_MAX_DIMS ≤ dims.length := by omega
  refine ⟨?_, ?_⟩
  · intro dataSize _ hnz hsmall
    refine ⟨?_, ?_⟩
    · intro w' r h
      rcases alloc_cases h with ⟨hf, hr⟩ | ⟨w1, p, a0, info, hf, ha0, -, hinfo, hcase⟩
      · rw [(allocFind_none hf).1]
        exact ⟨hr, rfl⟩
      · rw [getInfo_allocInit w1.pool.self a0 ndims dims dataType bpe hbpe hmax hlen] at hinfo
        simp only [Option.some.injEq] at hinfo
        subst hinfo
        rcases hcase with ⟨-, hr, rfl⟩ | ⟨hnot, -⟩
        · exact ⟨hr, (allocFind_memory hf).1⟩
        · simp only [allocSize, hnz, if_false] at hnot
          omega
    · intro w1 p a0 hfind ha0 hnf
      have hinfo := getInfo_allocInit w1.pool.self a0 ndims dims dataType bpe hbpe hmax hlen
      have hm : p ∈ w1.pool.freeList := allocFind_mem hfind
      have hn : w1.pool.numFree = w1.pool.freeList.length := allocFind_numFree hfind hnf
      have hs : w1.pool.memorySize = w.pool.memorySize := (allocFind_memory hfind).1
      refine ⟨{ w1 with
        arrays := w1.arrays.set p (allocInit w1.pool.self a0 ndims dims dataType) }, ?_,
        hm, hn, hs⟩
      unfold NDArrayPool.alloc
      rw [hfind]
      simp only [ha0, hmin, if_true, hinfo, allocSize, hnz, if_false, gt_iff_lt, hsmall]
  · intro w1 p a0 hfind ha0
    have hinfo := getInfo_allocInit w1.pool.self a0 ndims dims dataType bpe hbpe hmax hlen
    have hzero : NDArrayPool.alloc w ndims dims dataType 0 pData
        = some (allocBuffer w1 p (allocInit w1.pool.self a0 ndims dims dataType)
            ((dims.take ndims.toNat).prod * bpe) pData) := by
      unfold NDArrayPool.alloc
      rw [hfind]
      simp only [ha0, hmin, if_true, hinfo, allocSize, gt_iff_lt, lt_irrefl, if_false]
    refine ⟨hzero, ?_⟩
    intro hunl
    have hmm : w1.pool.maxMemory = 0 := by rw [(allocFind_memory hfind).2]; exact hunl
    rw [hzero]
    unfold allocBuffer
    cases pData with
    | some buf => exact ⟨_, rfl⟩
    | none =>
      simp only [hmm, lt_irrefl, false_and, if_false]
      split
      · exact ⟨_, rfl⟩
      · exact ⟨_, rfl⟩

/-- On the pool with the freed 24-byte array at the head of the free list:
`alloc(2, [4,3], NDInt16, 10, NULL)` asks for 10 bytes where 24 are required and returns
no array; with `dataSize = 0` the array is returned. -/
theorem alloc_too_small_witness :
    (∃ w', NDArrayPool.alloc demoFree 2 [4, 3] NDDataType.NDInt16 10 none = some (w', none) ∧
        0 ∈ w'.pool.freeList ∧ w'.pool.numFree = w'.pool.freeList.length ∧
        w'.pool.memorySize = demoFree.pool.memorySize) ∧
      ∃ w', NDArrayPool.alloc demoFree 2 [4, 3] NDDataType.NDInt16 0 none = some (w', some 0) :=
  ⟨((alloc_too_small demoFree 2 [4, 3] NDDataType.NDInt16 none 2 (by decide) (by decide)
      (by decide) (by decide)).1 10 (by decide) (by decide) (by decide)).2 demoFree 0
      { demoArray with referenceCount := 0 } (by decide) (by decide) (by decide),
   ((alloc_too_small demoFree 2 [4, 3] NDDataType.NDInt16 none 2 (by decide) (by decide)
      (by decide) (by decide)).2 demoFree 0 { demoArray with referenceCount := 0 }
      (by decide) (by decide)).2 (by decide)⟩

/-! ## Ownership and reference-count underflow -/

/-- C11. For an array whose owner is not the pool it is passed to, `reserve` and `release`
return `ND_ERROR` and leave the whole state (the reference count of the array, the free
list and `numFree` included) unchanged; when the owner is this pool, `reserve` returns
`ND_SUCCESS` and increases the reference count by exactly 1, nothing else changing. -/
theorem not_owner_rejected (w : World) (p : Nat) (a : NDArray)
    (ha : w.arrays[p]? = some a) :
    (a.owner ≠ some w.pool.self →
      NDArrayPool.reserve w p = some (w, NDStatus.ND_ERROR) ∧
      NDArrayPool.release w p = some (w, NDStatus.ND_ERROR)) ∧
    (a.owner = some w.pool.self →
      ∃ w', NDArrayPool.reserve w p = some (w', NDStatus.ND_SUCCESS) ∧
        w'.arrays[p]? = some { a with referenceCount := a.referenceCount + 1 } ∧
        w'.pool = w.pool ∧ ∀ q, q ≠ p → w'.arrays[q]? = w.arrays[q]?) := by
  have hplt : p < w.arrays.length := (List.getElem?_eq_some_iff.mp ha).1
  constructor
  · intro hown
    constructor
    · simp only [NDArrayPool.reserve, ha, hown, ne_eq, not_false_eq_true, if_true]
    · simp only [NDArrayPool.release, ha, hown, ne_eq, not_false_eq_true, if_true]
  · intro hown
    refine ⟨World.setArray w p { a with referenceCount := a.referenceCount + 1 },
      ?_, ?_, rfl, ?_⟩
    · simp only [NDArrayPool.reserve, ha, hown, ne_eq, not_true_eq_false, if_false,
        World.setArray]
    · exact List.getElem?_set_self hplt
    · intro q hq
      exact List.getElem?_set_ne (Ne.symm hq)

/-- An array of another pool is refused by `reserve` and `release`; the 4 x 3 array of
scenario 1 is reserved by its own pool. -/
theorem not_owner_rejected_witness :
    (NDArrayPool.reserve demoForeign 0 = some (demoForeign, NDStatus.ND_ERROR) ∧
      NDArrayPool.release demoForeign 0 = some (demoForeign, NDStatus.ND_ERROR)) ∧
    ∃ w', NDArrayPool.reserve demoInUse 0 = some (w', NDStatus.ND_SUCCESS) ∧
      w'.arrays[0]? = some { demoArray with referenceCount := demoArray.referenceCount + 1 } ∧
      w'.pool = demoInUse.pool ∧ ∀ q, q ≠ 0 → w'.arrays[q]? = demoInUse.arrays[q]? :=
  ⟨(not_owner_rejected demoForeign 0 { NDArray.new with referenceCount := 2, owner := some 3 }
      (by decide)).1 (by decide),
   (not_owner_rejected demoInUse 0 demoArray (by decide)).2 (by decide)⟩

/-- C12. For an array owned by the pool whose reference count is `<= 0`, `release` returns
`ND_SUCCESS`, leaves the reference count negative (one less than before) and does not add
the array to the free list: the pool, with its free list and `numFree`, is unchanged. -/
theorem release_unreferenced (w : World) (p : Nat) (a : NDArray)
    (ha : w.arrays[p]? = some a) (hown : a.owner = some w.pool.self)
    (hn : a.referenceCount ≤ 0) :
    ∃ w' a', NDArrayPool.release w p = some (w', NDStatus.ND_SUCCESS) ∧
      w'.arrays[p]? = some a' ∧ a'.referenceCount = a.referenceCount - 1 ∧
      a'.referenceCount < 0 ∧
      w'.pool.freeList = w.pool.freeList ∧ w'.pool.numFree = w.pool.numFree ∧
      w'.pool = w.pool := by
  have hplt : p < w.arrays.length := (List.getElem?_eq_some_iff.mp ha).1
  have hz : ¬ a.referenceCount - 1 = 0 := by omega
  refine ⟨World.setArray w p { a with referenceCount := a.referenceCount - 1 },
    { a with referenceCount := a.referenceCount - 1 }, ?_, ?_, rfl, ?_, rfl, rfl, rfl⟩
  · simp only [NDArrayPool.release, ha, hown, ne_eq, not_true_eq_false, if_false, hz,
      World.setArray]
  · exact List.getElem?_set_self hplt
  · show a.referenceCount - 1 < 0
    omega

/-- The freed array of scenario 1 released once more: its reference count becomes -1 and
the free list still holds it once. -/
theorem release_unreferenced_witness :
    ∃ w' a', NDArrayPool.release demoFree 0 = some (w', NDStatus.ND_SUCCESS) ∧
      w'.arrays[0]? = some a' ∧ a'.referenceCount = (0 : Int) - 1 ∧
      a'.referenceCount < 0 ∧
      w'.pool.freeList = [0] ∧ w'.pool.numFree = 1 ∧
      w'.pool = demoFree.pool :=
  release_unreferenced demoFree 0 { demoArray with referenceCount := 0 } (by decide)
    (by decide) (by decide)

/-! ## Conversion: the template -/

theorem convertTemplate_invalid (tmpl ins : List NDDimension)
    (hbin : ∀ d ∈ tmpl, 1 ≤ d.binning) (hlen : tmpl.length ≤ ins.length)
    (hbad : ∃ d ∈ tmpl, d.size.tdiv d.binning ≤ 0) :
    convertTemplate tmpl ins = some none := by
  induction tmpl generalizing ins with
  | nil => simp at hbad
  | cons d ds ih =>
    have hb : d.binning ≠ 0 := by
      have := hbin d (List.mem_cons_self d ds)
      omega
    unfold convertTemplate
    simp only [hb, if_false]
    by_cases hs : d.size.tdiv d.binning ≤ 0
    · simp only [hs, if_true]
    · simp only [hs, if_false]
      cases ins with
      | nil => simp at hlen
      | cons x xs =>
        have hrest : ∃ e ∈ ds, e.size.tdiv e.binning ≤ 0 := by
          obtain ⟨e, he, hle⟩ := hbad
          rcases List.mem_cons.mp he with rfl | he
          · exact absurd hle hs
          · exact ⟨e, he, hle⟩
        have := ih xs (fun e he => hbin e (List.mem_cons_of_mem d he))
          (by simpa using hlen) hrest
        simp only [this]

/-- C20. When some axis `i < in.ndims` of the template has `size / binning <= 0` (integer
division, every binning of the template at least 1), `convert` returns `ND_ERROR` with a
`NULL` output pointer and leaves the whole state unchanged: no array is allocated and
`numBuffers`, `memorySize`, `numFree` and the free list are as before.  The template is
only read (the division is made in the local copy `dimsOutCopy`). -/
theorem convert_invalid_dimension (F : FloatOps) (w : World) (pIn : Nat) (a : NDArray)
    (dataTypeOut : NDDataType) (dimsOut : List NDDimension) (i : Nat) (d : NDDimension)
    (ha : w.arrays[pIn]? = some a) (h0 : 0 ≤ a.ndims) (hmax : a.ndims ≤ ND_ARRAY_MAX_DIMS)
    (hlen : a.ndims.toNat ≤ dimsOut.length) (hdims : a.ndims.toNat ≤ a.dims.length)
    (hbin : ∀ e ∈ dimsOut.take a.ndims.toNat, 1 ≤ e.binning)
    (hi : (i : Int) < a.ndims) (hd : dimsOut[i]? = some d)
    (hbad : d.size.tdiv d.binning ≤ 0) :
    NDArrayPool.convert F w pIn dataTypeOut dimsOut = some (w, none, NDStatus.ND_ERROR) := by
  have hmem : d ∈ dimsOut.take a.ndims.toNat := by
    have hget : (dimsOut.take a.ndims.toNat)[i]? = some d := by
      rw [List.getElem?_take_of_lt (by omega)]
      exact hd
    exact List.getElem?_mem hget
  have ht := convertTemplate_invalid (dimsOut.take a.ndims.toNat) a.dims hbin
    (by simp only [List.length_take]; omega) ⟨d, hmem, hbad⟩
  unfold NDArrayPool.convert
  simp only [ha, h0, hmax, hlen, and_self, if_true, ht]

/-- The 4 x 3 array of scenario 1 with a template whose first axis has size 4 and binning
8: `convert` fails and changes nothing. -/
theorem convert_invalid_dimension_witness :
    NDArrayPool.convert FloatOps.zero demoInUse 0 NDDataType.NDInt16
        [{ size := 4, offset := 0, binning := 8, reverse := 0 },
         { size := 3, offset := 0, binning := 1, reverse := 0 }]
      = some (demoInUse, none, NDStatus.ND_ERROR) :=
  convert_invalid_dimension FloatOps.zero demoInUse 0 demoArray NDDataType.NDInt16
    [{ size := 4, offset := 0, binning := 8, reverse := 0 },
     { size := 3, offset := 0, binning := 1, reverse := 0 }] 0
    { size := 4, offset := 0, binning := 8, reverse := 0 }
    (by decide) (by decide) (by decide) (by decide) (by decide) (by decide) (by decide)
    (by decide) (by decide)

/-! ## Conversion: the descriptors and the colour mode of the output -/

/-- C18 (evaluation of the code). Array 1 of `demoRegion` has `dims[0].offset = 2`.  A
conversion of it to its own element kind with the template `{size 4, offset 0, binning 1,
reverse 0}`, which leaves the shape unchanged, succeeds and returns at the plain copy of
the data, before the loop that composes the descriptors: the output has
`dims[0].offset = 0`, not `2 + 0`.  The same template with another element kind reaches
the loop and gives `dims[0].offset = 2`. -/
theorem convert_unchanged_same_type_offset :
    demoRegion.arrays[1]?.map (fun a => (a.dataType, a.dims.take 1))
        = some (NDDataType.NDInt8, [{ size := 4, offset := 2, binning := 1, reverse := 0 }])
      ∧ (NDArrayPool.convert FloatOps.zero demoRegion 1 NDDataType.NDInt8
            [{ size := 4, offset := 0, binning := 1, reverse := 0 }]).map
          (fun r => (r.2, r.1.arrays[2]?.map (fun a => a.dims.take 1)))
        = some ((some 2, NDStatus.ND_SUCCESS),
            some [{ size := 4, offset := 0, binning := 1, reverse := 0 }])
      ∧ (NDArrayPool.convert FloatOps.zero demoRegion 1 NDDataType.NDInt16
            [{ size := 4, offset := 0, binning := 1, reverse := 0 }]).map
          (fun r => (r.2, r.1.arrays[2]?.map (fun a => a.dims.take 1)))
        = some ((some 2, NDStatus.ND_SUCCESS),
            some [{ size := 4, offset := 2, binning := 1, reverse := 0 }]) := by
  decide

/-- C19 (evaluation of the code). The array of `demoColor` has `dims[0].size = 3` and the
`NDAttrInt32` attribute "ColorMode" with value `NDColorModeRGB1`.  Its conversion with a
template of size 1 on axis 0 succeeds, the output has `dims[0].size = 1`, and its
"ColorMode" attribute still has the value `NDColorModeRGB1`, which is not
`NDColorModeMono`: `getValue` returns `ND_SUCCESS`, which is 0, so the body of the `if`
that would write Mono is not entered. -/
theorem convert_colorMode_not_rewritten :
    demoColor.arrays[0]?.map
        (fun a => ((a.dims.take 1).map (fun d => d.size),
          a.attributeList.map (fun t => (t.pName, t.getValue NDAttrDataType.NDAttrInt32 0))))
        = some (([3] : List Int),
            [(colorModeName, NDStatus.ND_SUCCESS, encodeLE 4 NDColorModeRGB1)])
      ∧ demoColorConverted.map (fun r => r.2) = some (some 1, NDStatus.ND_SUCCESS)
      ∧ (demoColorConverted.bind (fun r => r.1.arrays[1]?)).map
          (fun a => ((a.dims.take 1).map (fun d => d.size),
            a.attributeList.map (fun t => (t.pName, t.getValue NDAttrDataType.NDAttrInt32 0))))
        = some (([1] : List Int),
            [(colorModeName, NDStatus.ND_SUCCESS, encodeLE 4 NDColorModeRGB1)])
      ∧ encodeLE 4 NDColorModeRGB1 ≠ encodeLE 4 NDColorModeMono := by
  refine ⟨by decide, by decide, by decide, by decide⟩

/-! ## Auxiliary facts about the output array of `copy` and `convert` -/

/-- What `alloc(ndims, dims, dataType, 0, NULL)` leaves when it returns an array: the
other arrays are untouched, and the returned one has the requested shape and element kind
and a `dataSize` of at least the byte count of that shape. -/
theorem alloc_zero_some {w w' : World} {ndims : Int} {dims : List Int}
    {dataType : NDDataType} {q : Nat}
    (h : NDArrayPool.alloc w ndims dims dataType 0 none = some (w', some q)) :
    (q ∈ w.pool.freeList ∨ q = w.arrays.length) ∧
    (∀ p, p ≠ q → w'.arrays[p]? = w.arrays[p]?) ∧
    ∃ a' info, w'.arrays[q]? = some a' ∧ a'.ndims = ndims ∧
      a'.dims = allocDims ndims dims ∧ a'.dataType = dataType ∧
      a'.getInfo = some info ∧ info.totalBytes ≤ a'.dataSize ∧
      ndims ≤ ND_ARRAY_MAX_DIMS ∧ ndims.toNat ≤ dims.length := by
  rcases alloc_cases h with ⟨-, hr⟩ | ⟨w1, p, a0, info, hf, ha0, hlen, hinfo, hcase⟩
  · simp at hr
  · obtain ⟨bpe, -, hmax, hl, -⟩ := getInfo_allocInit_some hlen hinfo
    have hsize : allocSize 0 info.totalBytes = info.totalBytes := by simp [allocSize]
    have hpl : p < w1.arrays.length := (List.getElem?_eq_some_iff.mp ha0).1
    have hfree : (p ∈ w.pool.freeList ∨ p = w.arrays.length) ∧
        ∀ r, r ≠ p → ∀ x, (w1.arrays.set p x)[r]? = w.arrays[r]? := by
      rcases allocFind_some hf with ⟨h1, rfl⟩ | ⟨-, -, h3, rfl⟩
      · refine ⟨Or.inl (List.mem_of_mem_head? h1), ?_⟩
        intro r hr x
        rw [List.getElem?_set_ne (Ne.symm hr)]
      · refine ⟨Or.inr h3, ?_⟩
        intro r hr x
        rw [List.getElem?_set_ne (Ne.symm hr)]
        by_cases hrl : r < w.arrays.length
        · exact List.getElem?_append_left hrl
        · have h1 : (w.arrays ++ [NDArray.new]).length ≤ r := by
            simp only [List.length_append, List.length_singleton]; omega
          rw [List.getElem?_eq_none h1, List.getElem?_eq_none (by omega)]
    rcases hcase with ⟨-, hr, -⟩ | ⟨-, hb⟩
    · simp at hr
    · rw [hsize] at hb
      rcases allocBuffer_cases hb with ⟨buf, hx, -, -⟩ | ⟨-, -, -, hr, -⟩ |
        ⟨-, -, -, hr, rfl⟩ | ⟨-, hge, hr, rfl⟩
      · simp at hx
      · simp at hr
      · simp only [Option.some.injEq] at hr
        subst hr
        refine ⟨hfree.1, fun r hr => hfree.2 r hr _,
          { allocInit w1.pool.self a0 ndims dims dataType with
            pData := some (List.replicate info.totalBytes.toNat 0),
            dataSize := info.totalBytes, referenceCount := 1 },
          info, ?_, rfl, rfl, rfl, ?_, ?_, hmax, hl⟩
        · simp only [allocFinish]
          exact List.getElem?_set_self hpl
        · rw [← hinfo]
          exact getInfo_congr rfl rfl rfl
        · exact le_refl _
      · simp only [Option.some.injEq] at hr
        subst hr
        refine ⟨hfree.1, fun r hr => hfree.2 r hr _,
          { allocInit w1.pool.self a0 ndims dims dataType with referenceCount := 1 },
          info, ?_, rfl, rfl, rfl, ?_, ?_, hmax, hl⟩
        · simp only [allocFinish]
          exact List.getElem?_set_self hpl
        · rw [← hinfo]
          exact getInfo_congr rfl rfl rfl
        · simp only [allocInit] at hge ⊢
          omega

/-- The method `addAttribute(pName, pDescription, dataType, pValue)` changes the attribute
list of the array only. -/
theorem addAttributeDesc_fields {a a' : NDArray} {pName : List Nat}
    {pDescription : Option (List Nat)} {dataType : NDAttrDataType}
    {pValue : Option (List Nat)} {i : Nat}
    (h : a.addAttributeDesc pName pDescription dataType pValue = some (a', i)) :
    a' = { a with attributeList := a'.attributeList } := by
  unfold NDArray.addAttributeDesc NDArray.addAttribute at h
  split at h
  rename_i a1 j hadd
  have ha1 : a1 = { a with attributeList := a1.attributeList } := by
    split at hadd
    · simp only [Prod.mk.injEq] at hadd
      rw [← hadd.1]
    · simp only [Prod.mk.injEq] at hadd
      rw [← hadd.1]
  split at h
  · simp at h
  · split at h
    · simp at h
    · split at h
      · simp at h
      · simp only [Option.some.injEq, Prod.mk.injEq] at h
        rw [← h.1]
        simp only
        rw [ha1]

/-- The method `copyAttributes` changes the attribute list of the output only. -/
theorem copyAttributes_fields {a out out' : NDArray}
    (h : a.copyAttributes out = some out') :
    out' = { out with attributeList := out'.attributeList } := by
  unfold NDArray.copyAttributes at h
  generalize a.attributeList = l at h
  induction l generalizing out with
  | nil =>
    simp only [List.foldlM_nil, Option.pure_def, Option.some.injEq] at h
    rw [← h]
  | cons t l ih =>
    simp only [List.foldlM_cons, Option.bind_eq_bind] at h
    cases hs : out.addAttributeDesc t.pName t.pDescription t.dataType t.valuePointer with
    | none => simp [hs] at h
    | some r =>
      obtain ⟨o1, i⟩ := r
      simp only [hs, Option.map_some', Option.some_bind] at h
      have h1 := addAttributeDesc_fields hs
      have h2 := ih h
      rw [h2, h1]

theorem cString_append_zero (s : List Nat) (h : 0 ∉ s) : cString (s ++ [0]) = some s := by
  unfold cString
  have hmem : 0 ∈ s ++ [0] := by simp
  rw [if_pos hmem]
  congr 1
  induction s with
  | nil => simp [List.takeWhile]
  | cons x xs ih =>
    have hx : x ≠ 0 := fun hx => h (by simp [hx])
    have hxs : 0 ∉ xs := fun hm => h (List.mem_cons_of_mem x hm)
    simp only [List.cons_append, List.takeWhile_cons, hx, ne_eq, not_false_eq_true,
      decide_True, if_true]
    rw [ih hxs (by simp)]

/-- The attribute that `addAttribute(pName, pDescription, dataType, pValue)` makes of a
newly constructed one, with the arguments `copyAttributes` takes from the attribute `t`,
agrees with `t` in name, description, kind and in what `getValue` returns. -/
theorem setValue_new_same {t b : NDAttribute} {st : NDStatus}
    (hstr : ∀ s, t.pString = some s → 0 ∉ s)
    (h : ({ NDAttribute.new t.pName with pDescription := t.pDescription }).setValue
          t.dataType t.valuePointer = some (b, st)) :
    b.pName = t.pName ∧ b.pDescription = t.pDescription ∧ b.dataType = t.dataType ∧
      ∀ ty n, b.getValue ty n = t.getValue ty n := by
  unfold NDAttribute.setValue NDAttribute.valuePointer at h
  by_cases hk : t.dataType = NDAttrDataType.NDAttrString
  · simp only [hk, if_true] at h
    cases hp : t.pString with
    | none =>
      simp only [hp, Option.map_none', ne_eq, reduceCtorEq, not_false_eq_true, if_true,
        Option.some.injEq, Prod.mk.injEq] at h
      obtain ⟨rfl, -⟩ := h
      refine ⟨rfl, rfl, hk.symm, ?_⟩
      intro ty n
      simp [NDAttribute.getValue, hk, hp, attrSize, NDAttribute.new]
    | some s =>
      have h0 := hstr s hp
      simp only [hp, Option.map_some', cString_append_zero s h0, NDAttribute.new,
        reduceCtorEq, false_and, if_false, Option.some.injEq, Prod.mk.injEq] at h
      obtain ⟨rfl, -⟩ := h
      refine ⟨rfl, rfl, hk.symm, ?_⟩
      intro ty n
      simp [NDAttribute.getValue, hk, hp, attrSize]
  · simp only [hk, if_false] at h
    cases hsz : attrSize t.dataType with
    | none =>
      simp only [hsz] at h
      split at h
      · rename_i hu
        simp only [Option.some.injEq, Prod.mk.injEq] at h
        obtain ⟨rfl, -⟩ := h
        refine ⟨rfl, rfl, rfl, ?_⟩
        intro ty n
        simp [NDAttribute.getValue, hk, hsz]
      · simp only [Option.some.injEq, Prod.mk.injEq] at h
        obtain ⟨rfl, -⟩ := h
        refine ⟨rfl, rfl, rfl, ?_⟩
        intro ty n
        simp [NDAttribute.getValue, hk, hsz]
    | some k =>
      simp only [hsz] at h
      split at h
      · rename_i hlen
        simp only [Option.some.injEq, Prod.mk.injEq] at h
        obtain ⟨rfl, -⟩ := h
        refine ⟨rfl, rfl, rfl, ?_⟩
        intro ty n
        simp only [NDAttribute.getValue, hsz]
        split
        · rfl
        · congr 1
          rw [List.take_append_of_le_length (by simp only [List.length_take]; omega)]
          simp
      · simp at h

theorem forall₂_map_eq {α β γ : Type} {R : α → β → Prop} {f : α → γ} {g : β → γ}
    (hR : ∀ x y, R x y → g y = f x) {l1 : List α} {l2 : List β}
    (h : List.Forall₂ R l1 l2) : l2.map g = l1.map f := by
  induction h with
  | nil => rfl
  | cons hxy _ ih => simp only [List.map_cons, hR _ _ hxy, ih]

/-- The loop of `copyAttributes` over attributes whose names differ from one another and
from those already in the output, which are copies of `done`: the output ends up with a
copy of every attribute, in order. -/
theorem copyAttributes_loop (l : List NDAttribute) :
    ∀ (done : List NDAttribute) (o o' : NDArray),
      List.Forall₂ (fun (s b : NDAttribute) => b.pName = s.pName ∧
        b.pDescription = s.pDescription ∧ b.dataType = s.dataType ∧
        ∀ ty n, b.getValue ty n = s.getValue ty n) done o.attributeList →
      ((done ++ l).map (fun t => t.pName.map toupper)).Nodup →
      (∀ t ∈ l, ∀ s, t.pString = some s → 0 ∉ s) →
      l.foldlM
        (fun o attr =>
          (o.addAttributeDesc attr.pName attr.pDescription attr.dataType
            attr.valuePointer).map Prod.fst) o = some o' →
      List.Forall₂ (fun (s b : NDAttribute) => b.pName = s.pName ∧
        b.pDescription = s.pDescription ∧ b.dataType = s.dataType ∧
        ∀ ty n, b.getValue ty n = s.getValue ty n) (done ++ l) o'.attributeList := by
  induction l with
  | nil =>
    intro done o o' hR _ _ h
    simp only [List.foldlM_nil, Option.pure_def, Option.some.injEq] at h
    rw [← h, List.append_nil]
    exact hR
  | cons t l ih =>
    intro done o o' hR hnd hstr h
    simp only [List.foldlM_cons, Option.bind_eq_bind] at h
    cases hs : o.addAttributeDesc t.pName t.pDescription t.dataType t.valuePointer with
    | none => simp [hs] at h
    | some r =>
      obtain ⟨o1, i⟩ := r
      simp only [hs, Option.map_some', Option.some_bind] at h
      have hnames : o.attributeList.map (fun b => b.pName.map toupper)
          = done.map (fun s => s.pName.map toupper) :=
        forall₂_map_eq (fun x y hxy => by rw [hxy.1]) hR
      have hfind : o.findAttribute t.pName = none := by
        unfold NDArray.findAttribute
        rw [List.findIdx?_eq_none_iff]
        intro b hb
        have hb1 : b.pName.map toupper ∈ done.map (fun s => s.pName.map toupper) := by
          rw [← hnames]
          exact List.mem_map_of_mem (fun b => b.pName.map toupper) hb
        have hnot : t.pName.map toupper ∉ done.map (fun s => s.pName.map toupper) := by
          rw [List.map_append, List.map_cons] at hnd
          have := (List.nodup_append.mp hnd).2.2
          intro hm
          exact this hm (List.mem_cons_self _ _)
        simp only [epicsStrCaseEq, beq_eq_false_iff_ne, ne_eq]
        intro heq
        exact hnot (heq ▸ hb1)
      unfold NDArray.addAttributeDesc NDArray.addAttribute at hs
      simp only [hfind, List.getElem?_concat_length, NDAttribute.setDescription,
        NDAttribute.new] at hs
      split at hs
      · simp at hs
      · rename_i b st hv
        simp only [Option.some.injEq, Prod.mk.injEq] at hs
        have hb : b.pName = t.pName ∧ b.pDescription = t.pDescription ∧
            b.dataType = t.dataType ∧ ∀ ty n, b.getValue ty n = t.getValue ty n :=
          setValue_new_same (fun s hp => hstr t (List.mem_cons_self t l) s hp) hv
        have hlist : o1.attributeList = o.attributeList ++ [b] := by
          rw [← hs.1]
          show (o.attributeList ++ [_]).set o.attributeList.length b = o.attributeList ++ [b]
          rw [List.set_append_right _ _ (le_refl _)]
          simp
        have hR1 : List.Forall₂ (fun (s b : NDAttribute) => b.pName = s.pName ∧
            b.pDescription = s.pDescription ∧ b.dataType = s.dataType ∧
            ∀ ty n, b.getValue ty n = s.getValue ty n) (done ++ [t]) o1.attributeList := by
          rw [hlist]
          exact List.rel_append hR (List.Forall₂.cons hb List.Forall₂.nil)
        have := ih (done ++ [t]) o1 o' hR1 (by simpa using hnd)
          (fun x hx => hstr x (List.mem_cons_of_mem t hx)) h
        simpa using this

/-- The result of `getInfo` depends on the element kind and on the sizes of the first
`ndims` descriptors only. -/
theorem getInfo_of_sizes {a b : NDArray} (h1 : a.dataType = b.dataType)
    (h3 : (a.dims.take a.ndims.toNat).map (fun d => d.size)
      = (b.dims.take b.ndims.toNat).map (fun d => d.size))
    (h4 : a.ndims.toNat ≤ a.dims.length) (h5 : b.ndims.toNat ≤ b.dims.length) :
    a.getInfo = b.getInfo := by
  simp only [NDArray.getInfo, sizeProduct_eq_prod, h1, h3, h4, h5, if_true]

/-! ## Copy -/

/-- What `copy(A, NULL, 1)` leaves when it returns.  For an array `A` in use (not on the
free list) whose attribute names differ from one another under the case-insensitive
comparison the attribute list uses, and whose string values are C strings, when
`copy(A, NULL, 1)` returns, its output `B` is another
array with the same `uniqueId`, `timeStamp`, `ndims`, dimension descriptors and
`dataType` as `A`; the first `totalBytes(A)` bytes of the data of `B` are those of `A`;
and the attribute list of `B` has the length of that of `A`, its i-th attribute being
equal to the i-th attribute of `A` in name, description, kind and in the value `getValue`
returns.  `A` itself is left as it was. -/
theorem copy_round_trip (w w' : World) (pIn q : Nat) (a : NDArray)
    (ha : w.arrays[pIn]? = some a) (hlive : pIn ∉ w.pool.freeList)
    (hnames : (a.attributeList.map (fun t => t.pName.map toupper)).Nodup)
    (hstr : ∀ t ∈ a.attributeList, 0 ∉ t.pString.getD [])
    (h : NDArrayPool.copy w pIn none 1 = some (w', q)) :
    ∃ b info, w'.arrays[q]? = some b ∧ w'.arrays[pIn]? = some a ∧ q ≠ pIn ∧
      b.uniqueId = a.uniqueId ∧ b.timeStamp = a.timeStamp ∧ b.ndims = a.ndims ∧
      b.dims = a.dims ∧ b.dataType = a.dataType ∧
      a.getInfo = some info ∧ 0 ≤ info.totalBytes ∧
      info.totalBytes.toNat ≤ (b.pData.getD []).length ∧
      (b.pData.getD []).take info.totalBytes.toNat
        = (a.pData.getD []).take info.totalBytes.toNat ∧
      b.attributeList.length = a.attributeList.length ∧
      ∀ (i : Nat) (s : NDAttribute), a.attributeList[i]? = some s →
        ∃ t : NDAttribute, b.attributeList[i]? = some t ∧ t.pName = s.pName ∧
          t.pDescription = s.pDescription ∧ t.dataType = s.dataType ∧
          ∀ ty n, t.getValue ty n = s.getValue ty n := by
  unfold NDArrayPool.copy at h
  simp only [ha] at h
  split at h
  · rename_i hmax
    split at h
    · rename_i w1 q1 hal
      obtain ⟨hq, hother, a', info, hq', hnd, hdims, hdt, hinfo', hsize, -, hlen⟩ :=
        alloc_zero_some hal
      have hpl : pIn < w.arrays.length := (List.getElem?_eq_some_iff.mp ha).1
      have hne : q1 ≠ pIn := by
        rcases hq with hq | hq
        · intro e
          exact hlive (e ▸ hq)
        · omega
      have ha1 : w1.arrays[pIn]? = some a := by
        rw [hother pIn (Ne.symm hne)]
        exact ha
      have hlen' : a.ndims.toNat ≤ a.dims.length := by
        simp only [List.length_map, List.length_take] at hlen
        omega
      have hinfo : a.getInfo = some info := by
        rw [← hinfo']
        apply getInfo_of_sizes hdt.symm
        · have hL : ((a.dims.take a.ndims.toNat).map (fun d => d.size)).take a.ndims.toNat
              = (a.dims.take a.ndims.toNat).map (fun d => d.size) :=
            List.take_of_length_le
              (by simp only [List.length_map, List.length_take]; omega)
          rw [hnd, hdims, allocDims_take _ _ hmax hlen, hL, List.map_map]
          simp [Function.comp_def, NDArray.initDimension]
        · exact hlen'
        · rw [hnd, hdims, allocDims_length]
          have : a.ndims ≤ 10 := hmax
          simp only [ND_ARRAY_MAX_DIMS]
          omega
      unfold copyInto at h
      simp only [ha1, hq', hinfo] at h
      have hnum : (if a'.dataSize < info.totalBytes then a'.dataSize else info.totalBytes)
          = info.totalBytes := if_neg (by omega)
      simp only [hnum, ne_eq, one_ne_zero, not_false_eq_true, if_true, hne, if_false] at h
      split at h
      · simp at h
      · rename_i aOut2 hcop
        split at h
        · simp at h
        · rename_i aOut4 hattr
          simp only [Option.some.injEq, Prod.mk.injEq] at h
          obtain ⟨rfl, rfl⟩ := h
          have hf := copyAttributes_fields hattr
          unfold NDArray.copyAttributes at hattr
          have hloop := copyAttributes_loop a.attributeList [] aOut2.clearAttributes aOut4
            List.Forall₂.nil (by simpa using hnames)
            (fun t ht s hs => by
              have := hstr t ht
              rw [hs] at this
              exact this) hattr
          rw [List.nil_append] at hloop
          have hq1l : q1 < w1.arrays.length := (List.getElem?_eq_some_iff.mp hq').1
          have hdata : aOut2.uniqueId = a.uniqueId ∧ aOut2.timeStamp = a.timeStamp ∧
              aOut2.ndims = a.ndims ∧ aOut2.dims = a.dims ∧ aOut2.dataType = a.dataType ∧
              0 ≤ info.totalBytes ∧
              info.totalBytes.toNat ≤ (aOut2.pData.getD []).length ∧
              (aOut2.pData.getD []).take info.totalBytes.toNat
                = (a.pData.getD []).take info.totalBytes.toNat := by
            split at hcop
            · rename_i dest src hd hs
              unfold memcpy at hcop
              split at hcop
              · rename_i hg
                simp only [Option.map_some', Option.some.injEq] at hcop
                subst hcop
                refine ⟨rfl, rfl, rfl, rfl, rfl, hg.1, ?_, ?_⟩
                · simp only [Option.getD_some, List.length_append, List.length_take,
                    List.length_drop]
                  omega
                · simp only [Option.getD_some]
                  rw [List.take_append_of_le_length
                    (by simp only [List.length_take]; omega)]
                  rw [hs, List.take_take, Nat.min_self, Option.getD_some]
              · simp at hcop
            · split at hcop
              · rename_i h0
                simp only [Option.some.injEq] at hcop
                subst hcop
                rw [h0]
                simp
              · simp at hcop
          obtain ⟨h1, h2, h3, h4, h5, h6, h7, h8⟩ := hdata
          refine ⟨aOut4, info, ?_, ?_, hne, ?_, ?_, ?_, ?_, ?_, hinfo, h6, ?_, ?_,
            hloop.length_eq.symm, ?_⟩
          · simp only [World.setArray]
            exact List.getElem?_set_self hq1l
          · simp only [World.setArray]
            rw [List.getElem?_set_ne hne]
            exact ha1
          · rw [hf]; exact h1
          · rw [hf]; exact h2
          · rw [hf]; exact h3
          · rw [hf]; exact h4
          · rw [hf]; exact h5
          · rw [hf]; exact h7
          · rw [hf]; exact h8
          · intro i s hs
            have hi : i < a.attributeList.length := (List.getElem?_eq_some_iff.mp hs).1
            have hi2 : i < aOut4.attributeList.length := by
              rw [← hloop.length_eq]; exact hi
            refine ⟨aOut4.attributeList[i], List.getElem?_eq_getElem hi2, ?_⟩
            have hget := List.Forall₂.get hloop hi hi2
            have hsi : a.attributeList[i] = s := by
              have := List.getElem?_eq_getElem hi
              rw [this] at hs
              exact Option.some.inj hs
            rw [← hsi]
            exact hget
    · simp at h
  · simp at h

/-- The copy of the array of `demoCopySrc`, a 4 x 3 array with the bytes
`0, 10, 20, 30, 1, 11, 21, 31, 2, 12, 22, 32` and the attribute "Gain": the copy is
array 1, with the same bytes and the same attribute. -/
theorem copy_round_trip_example :
    (∃ b info, demoCopied.arrays[1]? = some b ∧
      demoCopied.arrays[0]? = some demoCopyArray ∧ 1 ≠ 0 ∧
      b.uniqueId = demoCopyArray.uniqueId ∧ b.timeStamp = demoCopyArray.timeStamp ∧
      b.ndims = demoCopyArray.ndims ∧ b.dims = demoCopyArray.dims ∧
      b.dataType = demoCopyArray.dataType ∧
      demoCopyArray.getInfo = some info ∧ 0 ≤ info.totalBytes ∧
      info.totalBytes.toNat ≤ (b.pData.getD []).length ∧
      (b.pData.getD []).take info.totalBytes.toNat
        = (demoCopyArray.pData.getD []).take info.totalBytes.toNat ∧
      b.attributeList.length = demoCopyArray.attributeList.length ∧
      ∀ (i : Nat) (s : NDAttribute), demoCopyArray.attributeList[i]? = some s →
        ∃ t : NDAttribute, b.attributeList[i]? = some t ∧ t.pName = s.pName ∧
          t.pDescription = s.pDescription ∧ t.dataType = s.dataType ∧
          ∀ ty n, t.getValue ty n = s.getValue ty n) ∧
    (demoCopied.arrays[1]?).bind (fun b => b.pData)
      = some [0, 10, 20, 30, 1, 11, 21, 31, 2, 12, 22, 32] ∧
    (demoCopied.arrays[1]?).map (fun b => b.attributeList.map (fun t => t.pName))
      = some [gainName] :=
  ⟨copy_round_trip demoCopySrc demoCopied 0 1 demoCopyArray (by decide) (by decide)
    (by decide) (by decide) (by decide), by decide, by decide⟩

/-- C13 (evaluation of the code). On a pool with `maxMemory = 30`, an array `A` of 4 bytes
and an array of 24 bytes are allocated, the second is released, and `alloc` for 32 bytes
fails on the memory limit (`demoNullOps`): the released array is on the free list with
`dataSize = 24` and without buffer.  In `copy(A, NULL, 1)` the allocation succeeds:
`alloc(1, [4], NDInt8, 0, NULL)` returns that array, its `dataSize` of 24 being enough,
with reference count 1 and still without buffer.  `copy` then copies 4 bytes to the
null buffer: the call has no defined behaviour. -/
theorem copy_null_buffer :
    runWith validUse FloatOps.zero (World.init 7 0 30) demoNullOps = some demoNull
      ∧ demoNull.pool.freeList = [1]
      ∧ demoNull.arrays.map (fun a => (a.referenceCount, a.dataSize, a.pData))
          = [(1, 4, some [0, 0, 0, 0]), (0, 24, none)]
      ∧ (demoNull.arrays[0]?).map (fun a => (a.ndims, a.dataType, a.attributeList.length))
          = some (1, NDDataType.NDInt8, 0)
      ∧ (NDArrayPool.alloc demoNull 1 [4] NDDataType.NDInt8 0 none).map
          (fun r => (r.2, (r.1.arrays[1]?).map
            (fun b => (b.referenceCount, b.dataSize, b.pData))))
        = some (some 1, some (1, 24, none))
      ∧ (NDArrayPool.copy demoNull 0 none 1).isNone = true := by
  refine ⟨by decide, by decide, by decide, by decide, by decide, by decide⟩

/-! ## Conversion with the descriptors of the input as template -/

theorem getInfo_some {a : NDArray} {info : NDArrayInfo} (h : a.getInfo = some info) :
    ∃ bpe, bytesPerElement a.dataType = some bpe ∧ 1 ≤ bpe ∧
      a.ndims.toNat ≤ a.dims.length ∧
      info.nElements = sizeProduct (a.dims.take a.ndims.toNat) ∧
      info.totalBytes = info.nElements * bpe := by
  unfold NDArray.getInfo at h
  split at h
  · simp at h
  · rename_i bpe hbpe
    split at h
    · rename_i hlen
      simp only [Option.some.injEq] at h
      subst h
      exact ⟨bpe, hbpe, bytesPerElement_pos hbpe, hlen, rfl, rfl⟩
    · simp at h

/-- An element that lies within the first `n` bytes of a buffer is read from those bytes
only. -/
theorem readElem_take_append (t : NDDataType) (src rest : List Nat) (n : Nat) (i : Int)
    (bpe : Int) (hb : bytesPerElement t = some bpe) (hi : 0 ≤ i)
    (hin : (i.toNat + 1) * bpe.toNat ≤ n) (hn : n ≤ src.length) :
    readElem t (src.take n ++ rest) i = readElem t src i ∧ (readElem t src i).isSome := by
  have hk : i.toNat * bpe.toNat + bpe.toNat ≤ n := by
    have : (i.toNat + 1) * bpe.toNat = i.toNat * bpe.toNat + bpe.toNat := by ring
    omega
  have h1 : (i.toNat + 1) * bpe.toNat ≤ (src.take n ++ rest).length := by
    simp only [List.length_append, List.length_take]
    omega
  have h2 : (i.toNat + 1) * bpe.toNat ≤ src.length := by omega
  have hraw : ((src.take n ++ rest).drop (i.toNat * bpe.toNat)).take bpe.toNat
      = (src.drop (i.toNat * bpe.toNat)).take bpe.toNat := by
    rw [List.take_drop, List.take_drop,
      List.take_append_of_le_length (by simp only [List.length_take]; omega),
      List.take_take, Nat.min_eq_left hk]
  unfold readElem
  simp only [hb, hi, h1, h2, and_self, if_true, hraw, true_and]
  cases intKind t with
  | none => simp
  | some r => simp

/-- The first loop of `convert` on a template that is the list of the leading descriptors
of the input, all with offset 0, binning 1 and no reversal: an error for a size that is
not positive, and otherwise the template itself, found unchanged. -/
theorem convertTemplate_default (ds rest : List NDDimension)
    (hdef : ∀ d ∈ ds, d.offset = 0 ∧ d.binning = 1 ∧ d.reverse = 0) :
    convertTemplate ds (ds ++ rest) = some none ∨
      convertTemplate ds (ds ++ rest) = some (some (ds, true)) := by
  induction ds with
  | nil => right; rfl
  | cons d ds ih =>
    obtain ⟨ho, hb, hr⟩ := hdef d (List.mem_cons_self d ds)
    have hrec := ih (fun e he => hdef e (List.mem_cons_of_mem d he))
    unfold convertTemplate
    simp only [hb, one_ne_zero, if_false, Int.tdiv_one, List.cons_append, ho, hr]
    by_cases hs : d.size ≤ 0
    · left
      simp only [hs, if_true]
    · simp only [hs, if_false]
      rcases hrec with hrec | hrec
      · left
        simp only [hrec]
      · right
        simp only [hrec, ne_eq, not_true_eq_false, decide_False, Bool.or_self, Bool.not_false,
          Bool.and_self, Option.some.injEq, Prod.mk.injEq, List.cons.injEq, and_true]
        cases d
        simp_all

/-- What the first loop of `convert` computed when it went through: every template
descriptor with its size divided by its binning, all binnings non-zero and all quotients
positive, no more template descriptors than input descriptors; and the dimensions are
reported unchanged only when every quotient is the input size and every offset is 0,
every binning 1 and every reverse flag 0. -/
theorem convertTemplate_some {tmpl ins ds : List NDDimension} {unch : Bool}
    (h : convertTemplate tmpl ins = some (some (ds, unch))) :
    ds = tmpl.map (fun t => { t with size := t.size.tdiv t.binning }) ∧
    tmpl.length ≤ ins.length ∧
    (∀ t ∈ tmpl, t.binning ≠ 0 ∧ 0 < t.size.tdiv t.binning) ∧
    (unch = true → ∀ (i : Nat) (t x : NDDimension), tmpl[i]? = some t → ins[i]? = some x →
      x.size = t.size.tdiv t.binning ∧ t.offset = 0 ∧ t.binning = 1 ∧ t.reverse = 0) := by
  induction tmpl generalizing ins ds unch with
  | nil =>
    unfold convertTemplate at h
    simp only [Option.some.injEq, Prod.mk.injEq] at h
    obtain ⟨rfl, rfl⟩ := h
    refine ⟨rfl, by simp, by simp, ?_⟩
    intro _ i t x ht
    simp at ht
  | cons d tl ih =>
    unfold convertTemplate at h
    split at h
    · simp at h
    · rename_i hb
      simp only at h
      split at h
      · simp at h
      · rename_i hs
        split at h
        · simp at h
        · rename_i x xs
          split at h
          · simp at h
          · simp at h
          · rename_i rest u hrec
            simp only [Option.some.injEq, Prod.mk.injEq] at h
            obtain ⟨rfl, rfl⟩ := h
            obtain ⟨h1, h2, h3, h4⟩ := ih hrec
            refine ⟨?_, ?_, ?_, ?_⟩
            · rw [h1]; rfl
            · simp only [List.length_cons]; omega
            · intro t ht
              rcases List.mem_cons.mp ht with rfl | ht
              · exact ⟨hb, by omega⟩
              · exact h3 t ht
            · intro hu i t y ht hy
              simp only [Bool.and_eq_true, Bool.not_eq_true', Bool.or_eq_false_iff,
                decide_eq_false_iff_not, ne_eq, not_not] at hu
              cases i with
              | zero =>
                simp only [List.getElem?_cons_zero, Option.some.injEq] at ht hy
                subst ht hy
                exact ⟨hu.2.1.1.1, hu.2.1.1.2, hu.2.1.2, hu.2.2⟩
              | succ i =>
                simp only [List.getElem?_cons_succ] at ht hy
                exact h4 hu.1 i t y ht hy

/-- What a call of `convert` that returns `ND_SUCCESS` went through: the template gave the
descriptors `dimsOutCopy`, `alloc` returned an array other than the input, the input was
left alone, and the data phase ran on the buffers of the input and of the output array
`aOut` as it stood after the attributes were copied; the output ends with the buffer the
data phase produced and with descriptors of the same sizes. -/
theorem convert_some {F : FloatOps} {w w' : World} {pIn : Nat} {a : NDArray}
    {dataTypeOut : NDDataType} {dimsOut : List NDDimension} {r : Option Nat}
    (ha : w.arrays[pIn]? = some a)
    (h : NDArrayPool.convert F w pIn dataTypeOut dimsOut = some (w', r, NDStatus.ND_SUCCESS)) :
    ∃ q dimsOutCopy unchanged aOut info src dest early buf out,
      r = some q ∧ q ≠ pIn ∧ 0 ≤ a.ndims ∧ a.ndims ≤ ND_ARRAY_MAX_DIMS ∧
      a.ndims.toNat ≤ dimsOut.length ∧ a.ndims.toNat ≤ a.dims.length ∧
      convertTemplate (dimsOut.take a.ndims.toNat) a.dims
        = some (some (dimsOutCopy, unchanged)) ∧
      w'.arrays[pIn]? = some a ∧ a.pData = some src ∧
      aOut.ndims = a.ndims ∧ aOut.dataType = dataTypeOut ∧
      aOut.dims = dimsOutCopy
        ++ (allocDims a.ndims (dimsOutCopy.map (fun d => d.size))).drop a.ndims.toNat ∧
      aOut.pData = some dest ∧ aOut.getInfo = some info ∧
      convertData F a aOut unchanged info src dest = some (early, buf) ∧
      w'.arrays[q]? = some out ∧ out.pData = some buf ∧ out.ndims = a.ndims ∧
      out.dataType = dataTypeOut ∧
      out.dims = (if early then aOut.dims
        else composeDims aOut.dims (a.dims.take a.ndims.toNat) dimsOutCopy) ∧
      out.uniqueId = a.uniqueId ∧ out.timeStamp = a.timeStamp := by
  unfold NDArrayPool.convert at h
  simp only [ha] at h
  split at h
  · rename_i hcond
    obtain ⟨h0, hmax, hlenT⟩ := hcond
    split at h
    · simp at h
    · simp at h
    · rename_i dimsOutCopy unchanged htmpl
      split at h
      · simp at h
      · simp at h
      · rename_i w1 q hal
        obtain ⟨hq, hother, a', info', hq', hnd, hdims, hdt, hinfo', hsize, -, hlen⟩ :=
          alloc_zero_some hal
        have hq1l : q < w1.arrays.length := (List.getElem?_eq_some_iff.mp hq').1
        unfold convertInto at h
        simp only [hq'] at h
        split at h
        · rename_i aIn aOut0 hin hout
          simp only [Option.some.injEq] at hout
          subst hout
          split at h
          · simp at h
          · rename_i hne
            have hin0 : w.arrays[pIn]? = some aIn := by
              rw [← hother pIn (Ne.symm hne)]
              exact hin
            rw [ha] at hin0
            simp only [Option.some.injEq] at hin0
            subst hin0
            split at h
            · simp at h
            · rename_i aOut2 hattr
              have hf := copyAttributes_fields hattr
              split at h
              · rename_i info src dest hinfo hsrc hdest
                have hlenA : a.ndims.toNat ≤ a.dims.length := by
                  have h2 := (convertTemplate_some htmpl).2.1
                  simp only [List.length_take] at h2
                  omega
                split at h
                · simp at h
                · rename_i b hcd
                  simp only [Option.some.injEq, Prod.mk.injEq, and_true] at h
                  obtain ⟨rfl, rfl⟩ := h
                  refine ⟨q, dimsOutCopy, unchanged, aOut2, info, src, dest, true, b,
                    { aOut2 with pData := some b }, rfl, hne, h0, hmax, hlenT, hlenA, htmpl,
                    ?_, hsrc, ?_, ?_, ?_, hdest, hinfo, hcd, ?_, rfl, ?_, ?_, rfl, ?_, ?_⟩
                  · simp only [World.setArray]
                    rw [List.getElem?_set_ne hne]
                    exact hin
                  · rw [hf]; exact hnd
                  · rw [hf]; exact hdt
                  · rw [hf]
                    show dimsOutCopy ++ List.drop a.ndims.toNat a'.dims = _
                    rw [hdims]
                  · simp only [World.setArray]
                    exact List.getElem?_set_self hq1l
                  · show aOut2.ndims = a.ndims
                    rw [hf]; exact hnd
                  · show aOut2.dataType = dataTypeOut
                    rw [hf]; exact hdt
                  · show aOut2.uniqueId = a.uniqueId
                    rw [hf]
                  · show aOut2.timeStamp = a.timeStamp
                    rw [hf]
                · rename_i b hcd
                  have hfin : w' = w1.setArray q
                      { aOut2 with
                        pData := some b,
                        dims := composeDims aOut2.dims (a.dims.take a.ndims.toNat)
                          dimsOutCopy } ∧ r = some q := by
                    split at h
                    · simp only [Option.some.injEq, Prod.mk.injEq, and_true] at h
                      exact ⟨h.1.symm, h.2.symm⟩
                    · split at h
                      · simp at h
                      · split at h
                        · simp at h
                        · simp only [Option.some.injEq, Prod.mk.injEq, and_true] at h
                          exact ⟨h.1.symm, h.2.symm⟩
                  obtain ⟨rfl, rfl⟩ := hfin
                  refine ⟨q, dimsOutCopy, unchanged, aOut2, info, src, dest, false, b,
                    { aOut2 with
                        pData := some b,
                        dims := composeDims aOut2.dims (a.dims.take a.ndims.toNat)
                          dimsOutCopy },
                    rfl, hne, h0, hmax, hlenT, hlenA, htmpl,
                    ?_, hsrc, ?_, ?_, ?_, hdest, hinfo, hcd, ?_, rfl, ?_, ?_, ?_, ?_, ?_⟩
                  · simp only [World.setArray]
                    rw [List.getElem?_set_ne hne]
                    exact hin
                  · rw [hf]; exact hnd
                  · rw [hf]; exact hdt
                  · rw [hf]
                    show dimsOutCopy ++ List.drop a.ndims.toNat a'.dims = _
                    rw [hdims]
                  · simp only [World.setArray]
                    exact List.getElem?_set_self hq1l
                  · show aOut2.ndims = a.ndims
                    rw [hf]; exact hnd
                  · show aOut2.dataType = dataTypeOut
                    rw [hf]; exact hdt
                  · simp
                  · show aOut2.uniqueId = a.uniqueId
                    rw [hf]
                  · show aOut2.timeStamp = a.timeStamp
                    rw [hf]
              · simp at h
        · simp at h
  · simp at h

/-- C14. For an array `A` whose first `ndims` dimension descriptors all have offset 0,
binning 1 and reverse 0, when `convert(A, &out, A.dataType, A.dims)` returns
`ND_SUCCESS`, the output is an array with the `ndims`, the element kind and the leading
descriptors (so the sizes) of `A`; the first `totalBytes` bytes of its data are those of
`A`, and every element with index below `nElements` reads the same in both. -/
theorem convert_identity (F : FloatOps) (w w' : World) (pIn : Nat) (a : NDArray)
    (r : Option Nat) (ha : w.arrays[pIn]? = some a)
    (hdef : ∀ d ∈ a.dims.take a.ndims.toNat, d.offset = 0 ∧ d.binning = 1 ∧ d.reverse = 0)
    (h : NDArrayPool.convert F w pIn a.dataType a.dims
      = some (w', r, NDStatus.ND_SUCCESS)) :
    ∃ q b info src dst, r = some q ∧ w'.arrays[q]? = some b ∧ b.ndims = a.ndims ∧
      b.dataType = a.dataType ∧
      b.dims.take a.ndims.toNat = a.dims.take a.ndims.toNat ∧
      a.getInfo = some info ∧ b.getInfo = some info ∧
      a.pData = some src ∧ b.pData = some dst ∧
      dst.take info.totalBytes.toNat = src.take info.totalBytes.toNat ∧
      ∀ i : Int, 0 ≤ i → i < info.nElements →
        readElem a.dataType dst i = readElem a.dataType src i ∧
          (readElem a.dataType src i).isSome := by
  obtain ⟨q, dimsOutCopy, unchanged, aOut, info, src, dest, early, buf, out, hr, -, h0, hmax,
    -, hlenA, htmpl, -, hsrc, hnd, hdt, hdims, hdest, hinfo, hcd, hout, hpd, hnd2, hdt2,
    hdims2, -, -⟩ := convert_some ha h
  have htake : (a.dims.take a.ndims.toNat).take a.ndims.toNat = a.dims.take a.ndims.toNat := by
    rw [List.take_take, Nat.min_self]
  have hsplit : a.dims.take a.ndims.toNat ++ a.dims.drop a.ndims.toNat = a.dims :=
    List.take_append_drop _ _
  have hT : dimsOutCopy = a.dims.take a.ndims.toNat ∧ unchanged = true := by
    rcases convertTemplate_default (a.dims.take a.ndims.toNat) (a.dims.drop a.ndims.toNat)
      hdef with hc | hc
    · rw [hsplit, htmpl] at hc
      simp at hc
    · rw [hsplit, htmpl] at hc
      simp only [Option.some.injEq, Prod.mk.injEq] at hc
      exact hc
  obtain ⟨rfl, rfl⟩ := hT
  have hlenT : (a.dims.take a.ndims.toNat).length = a.ndims.toNat := by
    simp only [List.length_take]; omega
  have hdimsT : aOut.dims.take a.ndims.toNat = a.dims.take a.ndims.toNat := by
    rw [hdims, List.take_append_of_le_length (by omega), htake]
  have hinfoA : a.getInfo = some info := by
    rw [← hinfo]
    apply getInfo_of_sizes hdt.symm
    · rw [hnd, hdimsT]
    · exact hlenA
    · rw [hnd, hdims]
      simp only [List.length_append, hlenT]
      omega
  obtain ⟨bpe, hbpe, hbpe1, -, -, htot⟩ := getInfo_some hinfoA
  unfold convertData at hcd
  simp only [if_true, hdt, memcpy] at hcd
  split at hcd
  · rename_i hg
    simp only [Option.map_some', Option.some.injEq, Prod.mk.injEq] at hcd
    obtain ⟨rfl, rfl⟩ := hcd
    refine ⟨q, out, info, src, _, hr, hout, hnd2, hdt2, ?_, hinfoA, ?_, hsrc, hpd, ?_, ?_⟩
    · rw [hdims2]
      simp only [if_true]
      exact hdimsT
    · rw [← hinfo]
      apply getInfo_of_sizes (by rw [hdt2, hdt])
      · simp only [hnd2, hnd, hdims2, if_true]
      · rw [hnd2, hdims2, hdims]
        simp only [if_true, List.length_append, hlenT]
        omega
      · rw [hnd, hdims]
        simp only [List.length_append, hlenT]
        omega
    · rw [List.take_append_of_le_length (by simp only [List.length_take]; omega),
        List.take_take, Nat.min_self]
    · intro i hi hin
      have hb0 : 0 ≤ bpe := by omega
      have hcast : (((i.toNat + 1) * bpe.toNat : Nat) : Int) = (i + 1) * bpe := by
        push_cast
        rw [Int.toNat_of_nonneg hi, Int.toNat_of_nonneg hb0]
      have hle : (i + 1) * bpe ≤ info.nElements * bpe :=
        mul_le_mul_of_nonneg_right (by omega) hb0
      have hbound : (i.toNat + 1) * bpe.toNat ≤ info.totalBytes.toNat := by
        have : (((i.toNat + 1) * bpe.toNat : Nat) : Int) ≤ info.totalBytes := by
          rw [hcast, htot]
          exact hle
        omega
      exact readElem_take_append a.dataType src _ _ i bpe hbpe hi hbound hg.2.1
  · simp at hcd

/-- C14 on the 4 x 3 array of `demoBinIn`, whose bytes are
`0, 10, 20, 30, 1, 11, 21, 31, 2, 12, 22, 32`: the output is array 1, a newly allocated
array whose buffer was zero before the call and holds these 12 bytes after it. -/
theorem convert_identity_witness :
    (∃ q b info src dst, some 1 = some q ∧ demoIdentityData.arrays[q]? = some b ∧
      b.ndims = demoBinArray.ndims ∧ b.dataType = demoBinArray.dataType ∧
      b.dims.take demoBinArray.ndims.toNat
        = demoBinArray.dims.take demoBinArray.ndims.toNat ∧
      demoBinArray.getInfo = some info ∧ b.getInfo = some info ∧
      demoBinArray.pData = some src ∧ b.pData = some dst ∧
      dst.take info.totalBytes.toNat = src.take info.totalBytes.toNat ∧
      ∀ i : Int, 0 ≤ i → i < info.nElements →
        readElem demoBinArray.dataType dst i = readElem demoBinArray.dataType src i ∧
          (readElem demoBinArray.dataType src i).isSome) ∧
    demoBinArray.pData = some [0, 10, 20, 30, 1, 11, 21, 31, 2, 12, 22, 32] ∧
    (demoIdentityData.arrays[1]?).bind (fun b => b.pData)
      = some [0, 10, 20, 30, 1, 11, 21, 31, 2, 12, 22, 32] :=
  ⟨convert_identity FloatOps.zero demoBinIn demoIdentityData 0 demoBinArray (some 1)
    (by decide) (by decide) (by decide), by decide, by decide⟩

/-! ## Typed access to buffers: reading back what was written -/

theorem encodeLE_length (k v : Nat) : (encodeLE k v).length = k := by
  simp [encodeLE]

theorem encodeLE_succ (k v : Nat) :
    encodeLE (k + 1) v = (v % 256) :: encodeLE k (v / 256) := by
  unfold encodeLE
  rw [List.range_succ_eq_map, List.map_cons, List.map_map]
  simp only [pow_zero, Nat.div_one, List.cons.injEq, true_and]
  apply List.map_congr_left
  intro i _
  simp only [Function.comp_apply, pow_succ, Nat.div_div_eq_div_mul]
  rw [Nat.mul_comm]

theorem decodeLE_encodeLE (k v : Nat) : decodeLE (encodeLE k v) = v % 256 ^ k := by
  induction k generalizing v with
  | zero => simp [encodeLE, decodeLE, Nat.mod_one]
  | succ k ih =>
    rw [encodeLE_succ]
    have : decodeLE (v % 256 :: encodeLE k (v / 256))
        = v % 256 + 256 * decodeLE (encodeLE k (v / 256)) := rfl
    rw [this, ih, pow_succ, Nat.mul_comm (256 ^ k) 256, Nat.mod_mul]

theorem decodeLE_replicate_zero (k : Nat) : decodeLE (List.replicate k 0) = 0 := by
  induction k with
  | zero => rfl
  | succ k ih =>
    have : decodeLE (List.replicate (k + 1) 0) = 0 + 256 * decodeLE (List.replicate k 0) := rfl
    rw [this, ih]

/-- The width of an integer kind is 8 times its size in bytes. -/
theorem intKind_bits {t : NDDataType} {bits : Nat} {signed : Bool} {bpe : Int}
    (hk : intKind t = some (bits, signed)) (hb : bytesPerElement t = some bpe) :
    bits = 8 * bpe.toNat ∧ 1 ≤ bits := by
  cases t <;> simp [intKind, bytesPerElement] at hk hb <;>
    (obtain ⟨rfl, -⟩ := hk; subst hb; exact ⟨by decide, by decide⟩)

theorem intKind_bytes {t : NDDataType} {bits : Nat} {signed : Bool}
    (hk : intKind t = some (bits, signed)) :
    ∃ bpe, bytesPerElement t = some bpe ∧ 1 ≤ bpe := by
  cases t <;> simp [intKind, bytesPerElement] at hk ⊢

/-- The value `wrapInt` gives depends on its argument modulo `2^bits` only. -/
theorem wrapInt_congr (bits : Nat) (signed : Bool) {u v : Int}
    (h : u % 2 ^ bits = v % 2 ^ bits) : wrapInt bits signed u = wrapInt bits signed v := by
  unfold wrapInt
  simp only [h]

theorem wrapInt_emod (bits : Nat) (signed : Bool) (v : Int) :
    wrapInt bits signed v % 2 ^ bits = v % 2 ^ bits := by
  unfold wrapInt
  simp only
  split
  · rw [Int.sub_emod, Int.emod_self, sub_zero, Int.emod_emod, Int.emod_emod]
  · rw [Int.emod_emod]

theorem wrapInt_idem (bits : Nat) (signed : Bool) (v : Int) :
    wrapInt bits signed (wrapInt bits signed v) = wrapInt bits signed v :=
  wrapInt_congr bits signed (wrapInt_emod bits signed v)

theorem wrapInt_add_left (bits : Nat) (signed : Bool) (y x : Int) :
    wrapInt bits signed (wrapInt bits signed y + x) = wrapInt bits signed (y + x) := by
  apply wrapInt_congr
  rw [Int.add_emod, wrapInt_emod, ← Int.add_emod]

theorem wrapInt_add_right (bits : Nat) (signed : Bool) (y x : Int) :
    wrapInt bits signed (y + wrapInt bits signed x) = wrapInt bits signed (y + x) := by
  apply wrapInt_congr
  rw [Int.add_emod, wrapInt_emod, ← Int.add_emod]

theorem writeElem_some {t : NDDataType} {buf out : List Nat} {i v : Int}
    (h : writeElem t buf i v = some out) :
    ∃ bpe, bytesPerElement t = some bpe ∧ 0 ≤ i ∧
      (i.toNat + 1) * bpe.toNat ≤ buf.length ∧
      out = buf.take (i.toNat * bpe.toNat)
        ++ encodeLE bpe.toNat (v % 2 ^ (8 * bpe.toNat)).toNat
        ++ buf.drop ((i.toNat + 1) * bpe.toNat) := by
  unfold writeElem at h
  split at h
  · simp at h
  · rename_i bpe hb
    split at h
    · rename_i hg
      simp only [Option.some.injEq] at h
      exact ⟨bpe, hb, hg.1, hg.2, h.symm⟩
    · simp at h

/-- The bytes of a buffer after `k` bytes were written at position `a`. -/
theorem getElem?_written (buf enc : List Nat) (a : Nat) (ha : a + enc.length ≤ buf.length)
    (p : Nat) :
    (buf.take a ++ enc ++ buf.drop (a + enc.length))[p]?
      = if p < a then buf[p]? else if p < a + enc.length then enc[p - a]? else buf[p]? := by
  have hla : (buf.take a).length = a := by
    simp only [List.length_take]; omega
  by_cases h1 : p < a
  · rw [if_pos h1, List.append_assoc, List.getElem?_append_left (by omega),
      List.getElem?_take_of_lt h1]
  · rw [if_neg h1, List.append_assoc, List.getElem?_append_right (by omega), hla]
    by_cases h2 : p < a + enc.length
    · rw [if_pos h2, List.getElem?_append_left (by omega)]
    · rw [if_neg h2, List.getElem?_append_right (by omega), List.getElem?_drop]
      congr 1
      omega

theorem slice_congr (l1 l2 : List Nat) (a m : Nat)
    (h : ∀ t, t < m → l1[a + t]? = l2[a + t]?) :
    (l1.drop a).take m = (l2.drop a).take m := by
  apply List.ext_getElem?
  intro t
  by_cases ht : t < m
  · rw [List.getElem?_take_of_lt ht, List.getElem?_take_of_lt ht, List.getElem?_drop,
      List.getElem?_drop]
    exact h t ht
  · rw [List.getElem?_take_eq_none (by omega), List.getElem?_take_eq_none (by omega)]

theorem writeElem_length {t : NDDataType} {buf out : List Nat} {i v : Int}
    (h : writeElem t buf i v = some out) : out.length = buf.length := by
  obtain ⟨bpe, -, -, hlen, rfl⟩ := writeElem_some h
  have : (i.toNat + 1) * bpe.toNat = i.toNat * bpe.toNat + bpe.toNat := by ring
  simp only [List.length_append, List.length_take, List.length_drop, encodeLE_length]
  omega

/-- Writing element `i` leaves every other element as it was. -/
theorem readElem_writeElem_other {t : NDDataType} {buf out : List Nat} {i v : Int}
    (h : writeElem t buf i v = some out) (j : Int) (hj : j ≠ i) :
    readElem t out j = readElem t buf j := by
  have hlen := writeElem_length h
  obtain ⟨bpe, hb, hi, hbound, rfl⟩ := writeElem_some h
  unfold readElem
  simp only [hb, hlen]
  by_cases hg : 0 ≤ j ∧ (j.toNat + 1) * bpe.toNat ≤ buf.length
  · simp only [hg, and_self, if_true]
    have hne : j.toNat ≠ i.toNat := by omega
    have hexp : (i.toNat + 1) * bpe.toNat = i.toNat * bpe.toNat + bpe.toNat := by ring
    have hsl : ((buf.take (i.toNat * bpe.toNat)
          ++ encodeLE bpe.toNat (v % 2 ^ (8 * bpe.toNat)).toNat
          ++ buf.drop ((i.toNat + 1) * bpe.toNat)).drop (j.toNat * bpe.toNat)).take bpe.toNat
        = (buf.drop (j.toNat * bpe.toNat)).take bpe.toNat := by
      apply slice_congr
      intro s hs
      have hw := getElem?_written buf (encodeLE bpe.toNat (v % 2 ^ (8 * bpe.toNat)).toNat)
        (i.toNat * bpe.toNat) (by rw [encodeLE_length]; omega) (j.toNat * bpe.toNat + s)
      rw [encodeLE_length, ← hexp] at hw
      rw [hw]
      rcases Nat.lt_or_gt_of_ne hne with hlt | hgt
      · have : (j.toNat + 1) * bpe.toNat ≤ i.toNat * bpe.toNat :=
          Nat.mul_le_mul_right _ (by omega)
        have h2 : (j.toNat + 1) * bpe.toNat = j.toNat * bpe.toNat + bpe.toNat := by ring
        rw [if_pos (by omega)]
      · have : (i.toNat + 1) * bpe.toNat ≤ j.toNat * bpe.toNat :=
          Nat.mul_le_mul_right _ (by omega)
        rw [if_neg (by omega), if_neg (by omega)]
    rw [hsl]
  · simp only [hg, if_false]

/-- An element of an integer kind reads back as the value written, reduced to the kind. -/
theorem readElem_writeElem_same {t : NDDataType} {bits : Nat} {signed : Bool}
    {buf out : List Nat} {i v : Int} (hk : intKind t = some (bits, signed))
    (h : writeElem t buf i v = some out) :
    readElem t out i = some (wrapInt bits signed v) := by
  have hlen := writeElem_length h
  obtain ⟨bpe, hb, hi, hbound, rfl⟩ := writeElem_some h
  obtain ⟨hbits, -⟩ := intKind_bits hk hb
  have hexp : (i.toNat + 1) * bpe.toNat = i.toNat * bpe.toNat + bpe.toNat := by ring
  unfold readElem
  simp only [hb, hlen, hi, hbound, and_self, if_true, hk]
  have hsl : ((buf.take (i.toNat * bpe.toNat)
        ++ encodeLE bpe.toNat (v % 2 ^ (8 * bpe.toNat)).toNat
        ++ buf.drop ((i.toNat + 1) * bpe.toNat)).drop (i.toNat * bpe.toNat)).take bpe.toNat
      = encodeLE bpe.toNat (v % 2 ^ (8 * bpe.toNat)).toNat := by
    have hla : (buf.take (i.toNat * bpe.toNat)).length = i.toNat * bpe.toNat := by
      simp only [List.length_take]; omega
    rw [List.append_assoc, List.drop_append_of_le_length (by omega),
      List.drop_of_length_le (by omega), List.nil_append,
      List.take_append_of_le_length (by rw [encodeLE_length]),
      List.take_of_length_le (by rw [encodeLE_length])]
  rw [hsl, decodeLE_encodeLE]
  congr 1
  apply wrapInt_congr
  have hpow : (256 : Nat) ^ bpe.toNat = 2 ^ (8 * bpe.toNat) := by
    rw [show (256 : Nat) = 2 ^ 8 by norm_num, ← pow_mul]
  have hpos : (0 : Int) < 2 ^ (8 * bpe.toNat) := by positivity
  have hnn : 0 ≤ v % 2 ^ (8 * bpe.toNat) := Int.emod_nonneg _ (by omega)
  have hlt : v % 2 ^ (8 * bpe.toNat) < 2 ^ (8 * bpe.toNat) := Int.emod_lt_of_pos _ hpos
  rw [hpow, hbits]
  have hcast : (((v % 2 ^ (8 * bpe.toNat)).toNat % 2 ^ (8 * bpe.toNat) : Nat) : Int)
      = v % 2 ^ (8 * bpe.toNat) := by
    push_cast
    rw [Int.toNat_of_nonneg hnn, Int.emod_emod]
  rw [hcast, Int.emod_emod]

/-- The value read from an element of an integer kind is in the range of the kind. -/
theorem readElem_wrapped {t : NDDataType} {bits : Nat} {signed : Bool} {buf : List Nat}
    {i y : Int} (hk : intKind t = some (bits, signed)) (h : readElem t buf i = some y) :
    wrapInt bits signed y = y := by
  unfold readElem at h
  split at h
  · simp at h
  · split at h
    · simp only [hk, Option.some.injEq] at h
      rw [← h, wrapInt_idem]
    · simp at h

/-- An element that lies within the leading zero bytes of a buffer reads as 0. -/
theorem readElem_zero {t : NDDataType} {bits : Nat} {signed : Bool} {bpe : Int}
    (hk : intKind t = some (bits, signed)) (hb : bytesPerElement t = some bpe)
    (n : Nat) (rest : List Nat) (i : Int) (hi : 0 ≤ i)
    (hin : (i.toNat + 1) * bpe.toNat ≤ n) :
    readElem t (List.replicate n 0 ++ rest) i = some 0 := by
  have hexp : (i.toNat + 1) * bpe.toNat = i.toNat * bpe.toNat + bpe.toNat := by ring
  have hsl : ((List.replicate n 0 ++ rest).drop (i.toNat * bpe.toNat)).take bpe.toNat
      = List.replicate bpe.toNat 0 := by
    rw [List.drop_append_of_le_length (by rw [List.length_replicate]; omega),
      List.take_append_of_le_length
        (by rw [List.length_drop, List.length_replicate]; omega),
      List.drop_replicate, List.take_replicate]
    congr 1
    omega
  unfold readElem
  have hlen : (i.toNat + 1) * bpe.toNat ≤ (List.replicate n 0 ++ rest).length := by
    rw [List.length_append, List.length_replicate]; omega
  simp only [hb, hi, hlen, and_self, if_true, hsl, decodeLE_replicate_zero, hk]
  simp [wrapInt]

/-! ## The conversion kernel on integer kinds -/

theorem stepOf_zero (dims : List NDDimension) : stepOf dims 0 = 1 := by
  simp [stepOf, sizeProduct]

theorem stepOf_succ {dims : List NDDimension} {m : Nat} {d : NDDimension}
    (h : dims[m]? = some d) : stepOf dims (m + 1) = stepOf dims m * d.size := by
  have hm : m < dims.length := (List.getElem?_eq_some_iff.mp h).1
  have hd : dims[m] = d := (List.getElem?_eq_some_iff.mp h).2
  unfold stepOf
  rw [sizeProduct_eq_prod, sizeProduct_eq_prod, List.take_succ, h]
  simp [List.prod_append]

/-- The statement `*pDOut += (dataTypeOut)*pDIn` is the level of `convertDim` over no
dimension. -/
theorem accumulate_spec (F : FloatOps) {tin tout : NDDataType} {bitsIn bits : Nat}
    {signedIn signed : Bool} (hkin : intKind tin = some (bitsIn, signedIn))
    (hk : intKind tout = some (bits, signed)) (inDims outDims : List NDDimension)
    (inBuf : List Nat) :
    LevelSpec tin tout inDims outDims inBuf bits signed 0 (accumulate F tin tout inBuf) := by
  intro pDIn pDOut buf out h
  unfold accumulate at h
  split at h
  · rename_i x y hx hy
    constructor
    · intro J hJ
      rw [stepOf_zero] at hJ
      exact readElem_writeElem_other h J (by omega)
    · intro idx _ y' hy'
      simp only [flatIndex, add_zero] at hy' ⊢
      rw [hy] at hy'
      simp only [Option.some.injEq] at hy'
      subst hy'
      refine ⟨x, hx, ?_⟩
      rw [readElem_writeElem_same hk h]
      simp only [addElem, castElem, hk, hkin]
      rw [wrapInt_idem, wrapInt_add_right]
  · simp at h

/-- The element index of a multi-index within the sizes lies within the block of the
first `m` dimensions. -/
theorem flatIndex_range {dims : List NDDimension} {idx : Nat → Int} {m : Nat}
    (h : validIndex dims idx m) :
    0 ≤ flatIndex dims idx m ∧ flatIndex dims idx m < stepOf dims m := by
  induction m with
  | zero => simp [flatIndex, stepOf_zero]
  | succ m ih =>
    obtain ⟨d, hd, h0, h1⟩ := h m (Nat.lt_succ_self m)
    obtain ⟨ih0, ih1⟩ := ih (fun e he => h e (Nat.lt_succ_of_lt he))
    rw [stepOf_succ hd]
    simp only [flatIndex]
    constructor
    · have := mul_nonneg h0 (by omega : 0 ≤ stepOf dims m)
      omega
    · have h2 : (idx m + 1) * stepOf dims m ≤ d.size * stepOf dims m :=
        mul_le_mul_of_nonneg_right (by omega) (by omega)
      have h3 : (idx m + 1) * stepOf dims m = idx m * stepOf dims m + stepOf dims m := by ring
      have h4 : stepOf dims m * d.size = d.size * stepOf dims m := by ring
      omega

/-- The inner loop of `convertDim` around a level over `m` dimensions. -/
theorem binLoop_spec {tin tout : NDDataType} {inDims outDims : List NDDimension}
    {inBuf : List Nat} {bits : Nat} {signed : Bool} {m : Nat}
    {body : Int → Int → List Nat → Option (List Nat)}
    (hk : intKind tout = some (bits, signed))
    (hbody : LevelSpec tin tout inDims outDims inBuf bits signed m body)
    (inc pDOut : Int) :
    ∀ (n : Nat) (pDIn : Int) (buf out : List Nat) (pEnd : Int),
      binLoop body inc pDOut n pDIn buf = some (pEnd, out) →
      pEnd = pDIn + n * inc ∧
      (∀ J : Int, (J < pDOut ∨ pDOut + stepOf outDims m ≤ J) →
        readElem tout out J = readElem tout buf J) ∧
      (∀ idx : Nat → Int, validIndex outDims idx m →
        ∀ y, readElem tout buf (pDOut + flatIndex outDims idx m) = some y →
          ∃ g, sumLoop (gather tin inDims outDims inBuf idx m) inc n pDIn = some g ∧
            readElem tout out (pDOut + flatIndex outDims idx m)
              = some (wrapInt bits signed (y + g))) := by
  intro n
  induction n with
  | zero =>
    intro pDIn buf out pEnd h
    unfold binLoop at h
    simp only [Option.some.injEq, Prod.mk.injEq] at h
    obtain ⟨rfl, rfl⟩ := h
    refine ⟨by simp, fun _ _ => rfl, ?_⟩
    intro idx _ y hy
    refine ⟨0, rfl, ?_⟩
    rw [hy, add_zero, readElem_wrapped hk hy]
  | succ n ih =>
    intro pDIn buf out pEnd h
    unfold binLoop at h
    split at h
    · simp at h
    · rename_i buf1 hb1
      obtain ⟨hf1, hv1⟩ := hbody pDIn pDOut buf buf1 hb1
      obtain ⟨he, hf2, hv2⟩ := ih (pDIn + inc) buf1 out pEnd h
      refine ⟨?_, ?_, ?_⟩
      · rw [he]; push_cast; ring
      · intro J hJ
        rw [hf2 J hJ, hf1 J hJ]
      · intro idx hidx y hy
        obtain ⟨g1, hg1, hr1⟩ := hv1 idx hidx y hy
        obtain ⟨g2, hg2, hr2⟩ := hv2 idx hidx _ hr1
        refine ⟨g1 + g2, ?_, ?_⟩
        · unfold sumLoop
          simp only [hg1, hg2]
        · rw [hr2, wrapInt_add_left, add_assoc]

/-- The outer loop of `convertDim` around a level over `m` dimensions. -/
theorem outLoop_spec {tin tout : NDDataType} {inDims outDims : List NDDimension}
    {inBuf : List Nat} {bits : Nat} {signed : Bool} {m : Nat}
    {body : Int → Int → List Nat → Option (List Nat)}
    (hk : intKind tout = some (bits, signed))
    (hbody : LevelSpec tin tout inDims outDims inBuf bits signed m body)
    (hW : 0 ≤ stepOf outDims m) (inc : Int) (b : Nat) :
    ∀ (n : Nat) (pDIn pDOut : Int) (buf out : List Nat),
      outLoop body inc (stepOf outDims m) b n pDIn pDOut buf = some out →
      (∀ J : Int, (J < pDOut ∨ pDOut + n * stepOf outDims m ≤ J) →
        readElem tout out J = readElem tout buf J) ∧
      (∀ j : Nat, j < n → ∀ idx : Nat → Int, validIndex outDims idx m →
        ∀ y, readElem tout buf (pDOut + j * stepOf outDims m + flatIndex outDims idx m)
            = some y →
          ∃ g, sumLoop (gather tin inDims outDims inBuf idx m) inc b (pDIn + j * b * inc)
              = some g ∧
            readElem tout out (pDOut + j * stepOf outDims m + flatIndex outDims idx m)
              = some (wrapInt bits signed (y + g))) := by
  intro n
  induction n with
  | zero =>
    intro pDIn pDOut buf out h
    unfold outLoop at h
    simp only [Option.some.injEq] at h
    subst h
    exact ⟨fun _ _ => rfl, fun j hj => absurd hj (Nat.not_lt_zero j)⟩
  | succ n ih =>
    intro pDIn pDOut buf out h
    unfold outLoop at h
    split at h
    · simp at h
    · rename_i pDIn1 buf1 hb1
      obtain ⟨he, hf1, hv1⟩ := binLoop_spec hk hbody inc pDOut b pDIn buf buf1 pDIn1 hb1
      obtain ⟨hf2, hv2⟩ := ih pDIn1 (pDOut + stepOf outDims m) buf1 out h
      have hnW : (0 : Int) ≤ n * stepOf outDims m := mul_nonneg (by omega) hW
      constructor
      · intro J hJ
        have hexp : ((n + 1 : Nat) : Int) * stepOf outDims m
            = n * stepOf outDims m + stepOf outDims m := by push_cast; ring
        rw [hexp] at hJ
        rw [hf2 J (by omega), hf1 J (by omega)]
      · intro j hj idx hidx y hy
        obtain ⟨hr0, hr1⟩ := flatIndex_range hidx
        cases j with
        | zero =>
          simp only [Nat.cast_zero, zero_mul, add_zero] at hy ⊢
          obtain ⟨g, hg, hr⟩ := hv1 idx hidx y hy
          refine ⟨g, hg, ?_⟩
          rw [hf2 _ (by omega)]
          exact hr
        | succ j =>
          have hjW : (0 : Int) ≤ j * stepOf outDims m := mul_nonneg (by omega) hW
          have hidxeq : pDOut + ((j + 1 : Nat) : Int) * stepOf outDims m
                + flatIndex outDims idx m
              = pDOut + stepOf outDims m + j * stepOf outDims m
                + flatIndex outDims idx m := by push_cast; ring
          rw [hidxeq] at hy ⊢
          have hy1 : readElem tout buf1
              (pDOut + stepOf outDims m + j * stepOf outDims m + flatIndex outDims idx m)
              = some y := by
            rw [hf1 _ (by omega)]
            exact hy
          obtain ⟨g, hg, hr⟩ := hv2 j (by omega) idx hidx y hy1
          refine ⟨g, ?_, hr⟩
          rw [← hg, he]
          congr 1
          push_cast
          ring

/-- One level of `convertDim` on top of a level over `m` dimensions is a level over
`m + 1` dimensions. -/
theorem convertLevel_spec {tin tout : NDDataType} {inDims outDims : List NDDimension}
    {inBuf : List Nat} {bits : Nat} {signed : Bool} {m : Nat} {od : NDDimension}
    {body : Int → Int → List Nat → Option (List Nat)}
    (hk : intKind tout = some (bits, signed)) (hod : outDims[m]? = some od)
    (hsize : 0 ≤ od.size) (hW : 0 ≤ stepOf outDims m)
    (hbody : LevelSpec tin tout inDims outDims inBuf bits signed m body) :
    LevelSpec tin tout inDims outDims inBuf bits signed (m + 1)
      (convertLevel inDims outDims m body) := by
  intro pDIn pDOut buf out h
  unfold convertLevel at h
  simp only [hod] at h
  obtain ⟨hf, hv⟩ := outLoop_spec hk hbody hW _ _ _ _ _ _ _ h
  have hn : ((od.size.toNat : Nat) : Int) = od.size := Int.toNat_of_nonneg hsize
  constructor
  · intro J hJ
    apply hf J
    rw [stepOf_succ hod] at hJ
    rw [hn]
    have : od.size * stepOf outDims m = stepOf outDims m * od.size := by ring
    omega
  · intro idx hidx y hy
    obtain ⟨d, hd, h0, h1⟩ := hidx m (Nat.lt_succ_self m)
    rw [hod] at hd
    simp only [Option.some.injEq] at hd
    subst hd
    have hidx' : validIndex outDims idx m := fun e he => hidx e (Nat.lt_succ_of_lt he)
    have hj : ((idx m).toNat : Int) = idx m := Int.toNat_of_nonneg h0
    have hflat : pDOut + flatIndex outDims idx (m + 1)
        = pDOut + ((idx m).toNat : Int) * stepOf outDims m + flatIndex outDims idx m := by
      simp only [flatIndex, hj]; ring
    rw [hflat] at hy ⊢
    obtain ⟨g, hg, hr⟩ := hv (idx m).toNat (by omega) idx hidx' y hy
    refine ⟨g, ?_, hr⟩
    rw [← hg]
    simp only [gather, hod, hj]

/-- The template `convertDim` started at dimension `d` is a level over `d + 1`
dimensions. -/
theorem convertDim_spec (F : FloatOps) {tin tout : NDDataType} {bitsIn bits : Nat}
    {signedIn signed : Bool} (hkin : intKind tin = some (bitsIn, signedIn))
    (hk : intKind tout = some (bits, signed)) (inDims outDims : List NDDimension)
    (inBuf : List Nat) (d : Nat)
    (hpos : ∀ e, e ≤ d → ∃ od, outDims[e]? = some od ∧ 0 < od.size) :
    LevelSpec tin tout inDims outDims inBuf bits signed (d + 1)
      (convertDim F tin tout inDims outDims inBuf d) := by
  have hstep : ∀ m, m ≤ d + 1 → 0 < stepOf outDims m := by
    intro m
    induction m with
    | zero => intro _; rw [stepOf_zero]; exact Int.one_pos
    | succ m ih =>
      intro hm
      obtain ⟨od, hod, hs⟩ := hpos m (by omega)
      rw [stepOf_succ hod]
      exact mul_pos (ih (by omega)) hs
  induction d with
  | zero =>
    obtain ⟨od, hod, hs⟩ := hpos 0 (le_refl 0)
    have h := convertLevel_spec hk hod (le_of_lt hs) (le_of_lt (hstep 0 (by omega)))
      (accumulate_spec F hkin hk inDims outDims inBuf)
    intro pDIn pDOut buf out hc
    unfold convertDim at hc
    exact h pDIn pDOut buf out hc
  | succ d ih =>
    obtain ⟨od, hod, hs⟩ := hpos (d + 1) (le_refl _)
    have hprev := ih (fun e he => hpos e (by omega)) (fun m hm => hstep m (by omega))
    have h := convertLevel_spec hk hod (le_of_lt hs) (le_of_lt (hstep (d + 1) (by omega)))
      hprev
    intro pDIn pDOut buf out hc
    unfold convertDim at hc
    exact h pDIn pDOut buf out hc

/-! ## The sums `convertDim` forms on particular templates -/

theorem composeDims_size (os xs cs : List NDDimension) :
    (composeDims os xs cs).map (fun d => d.size) = os.map (fun d => d.size) := by
  induction os generalizing xs cs with
  | nil => simp [composeDims]
  | cons o os ih =>
    cases xs with
    | nil => simp [composeDims]
    | cons x xs =>
      cases cs with
      | nil => simp [composeDims]
      | cons c cs =>
        simp only [composeDims, List.map_cons, ih]

theorem stepOf_congr {d1 d2 : List NDDimension} {n : Nat}
    (h : (d1.take n).map (fun d => d.size) = (d2.take n).map (fun d => d.size))
    {m : Nat} (hm : m ≤ n) : stepOf d1 m = stepOf d2 m := by
  have key : ∀ d : List NDDimension,
      stepOf d m = (((d.take n).map (fun d => d.size)).take m).prod := by
    intro d
    unfold stepOf
    rw [sizeProduct_eq_prod, ← List.map_take, List.take_take, Nat.min_eq_left hm]
  rw [key d1, key d2, h]

theorem flatMap_singleton_cast (l : List Nat) :
    (l.flatMap fun a => [(a : Int)]) = List.map (fun (a : Nat) => (a : Int)) l := by
  induction l with
  | nil => rfl
  | cons x xs ih => simp [List.flatMap_cons, ih]

theorem range_cast (k : Nat) :
    ((List.range k : List Nat) : List Int)
      = List.map (fun (a : Nat) => (a : Int)) (List.range k : List Nat) := by
  show ((List.range k).flatMap fun a => [(a : Int)]) = _
  exact flatMap_singleton_cast _

/-- The template `convertType` on integer kinds: every element of the output below
`nElements` is the element of the input at the same index, reduced to the output kind. -/
theorem convertType_spec (F : FloatOps) {tin tout : NDDataType} {bitsIn bits : Nat}
    {signedIn signed : Bool} (hkin : intKind tin = some (bitsIn, signedIn))
    (hk : intKind tout = some (bits, signed)) (inBuf outBuf out : List Nat)
    (nElements : Int)
    (h : convertType F tin tout inBuf outBuf nElements = some out) :
    ∀ i : Nat, i < nElements.toNat →
      ∃ v, readElem tin inBuf i = some v ∧
        readElem tout out i = some (wrapInt bits signed v) := by
  unfold convertType at h
  rw [range_cast, List.foldlM_map] at h
  generalize nElements.toNat = k at h
  induction k generalizing out with
  | zero => intro i hi; exact absurd hi (Nat.not_lt_zero i)
  | succ k ih =>
    rw [List.range_succ, List.foldlM_append] at h
    cases hprev : (List.range k).foldlM
        (fun out (i : Nat) =>
          match readElem tin inBuf (i : Int) with
          | none => none
          | some v => writeElem tout out (i : Int) (castElem F tin tout v)) outBuf with
    | none => simp [hprev] at h
    | some mid =>
      simp only [hprev, Option.bind_eq_bind, Option.some_bind, List.foldlM_cons,
        List.foldlM_nil] at h
      cases hr : readElem tin inBuf (k : Int) with
      | none => simp [hr] at h
      | some v =>
        simp only [hr, Option.pure_def, Option.bind_some] at h
        intro i hi
        by_cases hik : i = k
        · subst hik
          refine ⟨v, hr, ?_⟩
          rw [readElem_writeElem_same hk h]
          simp only [castElem, hkin, hk, wrapInt_idem]
        · obtain ⟨u, hu1, hu2⟩ := ih mid hprev i (by omega)
          refine ⟨u, hu1, ?_⟩
          rw [readElem_writeElem_other h (i : Int) (by omega)]
          exact hu2

/-! ## The data phase of `convert` on integer kinds -/

/-- The data phase of `convert` for integer kinds, with the switches on the element kinds
resolved. -/
theorem convertData_int (F : FloatOps) (aIn aOut : NDArray) (dimsUnchanged : Bool)
    (arrayInfo : NDArrayInfo) (src dest : List Nat) {bitsIn bits : Nat}
    {signedIn signed : Bool} (hkin : intKind aIn.dataType = some (bitsIn, signedIn))
    (hk : intKind aOut.dataType = some (bits, signed)) :
    convertData F aIn aOut dimsUnchanged arrayInfo src dest =
      if dimsUnchanged then
        if aIn.dataType = aOut.dataType then
          (memcpy dest src arrayInfo.totalBytes).map (fun b => (true, b))
        else
          (convertType F aIn.dataType aOut.dataType src dest arrayInfo.nElements).map
            (fun b => (false, b))
      else
        match memsetZero dest arrayInfo.totalBytes with
        | none => none
        | some zeroed =>
          if 0 ≤ aIn.ndims - 1 then
            (convertDim F aIn.dataType aOut.dataType aIn.dims aOut.dims src
              (aIn.ndims - 1).toNat 0 0 zeroed).map (fun b => (false, b))
          else none := by
  unfold convertData convertDimension convertDimensionSwitch convertTypeSwitch
  generalize aIn.dataType = tin at hkin ⊢
  generalize aOut.dataType = tout at hk ⊢
  cases tin <;> simp only [intKind, reduceCtorEq] at hkin <;>
    cases tout <;> simp only [intKind, reduceCtorEq] at hk <;>
    (cases dimsUnchanged <;> simp only [Bool.false_eq_true, if_false, if_true,
      reduceCtorEq] <;>
      first
      | rfl
      | (cases memsetZero dest arrayInfo.totalBytes <;> simp only [] <;>
          split <;> simp [Option.map_map, Function.comp_def])
      | simp [Option.map_map, Function.comp_def])

/-- What a call of `convert` between integer kinds that returns `ND_SUCCESS` leaves in
the output array.  The descriptors `ods` that `convertDim` works with are those of the
template with each size divided by the binning, and the output has their sizes.  Either
the template left the dimensions unchanged and every element of the output is the element
of the input at the same index, reduced to the output kind; or every element of the
output is the sum `gather` describes, reduced to the output kind. -/
theorem convert_kernel {F : FloatOps} {w w' : World} {pIn : Nat} {a : NDArray}
    {dataTypeOut : NDDataType} {dimsOut : List NDDimension} {r : Option Nat}
    {bitsIn bits : Nat} {signedIn signed : Bool}
    (ha : w.arrays[pIn]? = some a)
    (hkin : intKind a.dataType = some (bitsIn, signedIn))
    (hk : intKind dataTypeOut = some (bits, signed))
    (h : NDArrayPool.convert F w pIn dataTypeOut dimsOut
      = some (w', r, NDStatus.ND_SUCCESS)) :
    ∃ q out src dst ods,
      r = some q ∧ w'.arrays[q]? = some out ∧ a.pData = some src ∧ out.pData = some dst ∧
      out.ndims = a.ndims ∧ out.dataType = dataTypeOut ∧ 0 ≤ a.ndims ∧
      a.ndims.toNat ≤ dimsOut.length ∧ a.ndims.toNat ≤ a.dims.length ∧
      (∀ e, e < a.ndims.toNat → ∀ t, dimsOut[e]? = some t →
        ods[e]? = some { t with size := t.size.tdiv t.binning } ∧ t.binning ≠ 0 ∧
          0 < t.size.tdiv t.binning) ∧
      (out.dims.take a.ndims.toNat).map (fun d => d.size)
        = (ods.take a.ndims.toNat).map (fun d => d.size) ∧
      (((∀ (e : Nat) (t x : NDDimension), e < a.ndims.toNat → dimsOut[e]? = some t →
            a.dims[e]? = some x →
            x.size = t.size.tdiv t.binning ∧ t.offset = 0 ∧ t.binning = 1 ∧ t.reverse = 0) ∧
          ∀ J : Nat, (J : Int) < stepOf ods a.ndims.toNat →
            ∃ v, readElem a.dataType src J = some v ∧
              readElem dataTypeOut dst J = some (wrapInt bits signed v)) ∨
        (1 ≤ a.ndims ∧
          (∃ dc, convertTemplate (dimsOut.take a.ndims.toNat) a.dims
            = some (some (dc, false))) ∧
          ∀ idx : Nat → Int, validIndex ods idx a.ndims.toNat →
            ∃ g, gather a.dataType a.dims ods src idx a.ndims.toNat 0 = some g ∧
              readElem dataTypeOut dst (flatIndex ods idx a.ndims.toNat)
                = some (wrapInt bits signed g))) := by
  obtain ⟨q, dimsOutCopy, unchanged, aOut, info, src, dest, early, buf, out, hr, -, h0, hmax,
    hlenT, hlenA, htmpl, -, hsrc, hnd, hdt, hdims, hdest, hinfo, hcd, hout, hpd, hnd2, hdt2,
    hdims2, -, -⟩ := convert_some ha h
  obtain ⟨hds, -, hposT, hunch⟩ := convertTemplate_some htmpl
  have hlenC : dimsOutCopy.length = a.ndims.toNat := by
    rw [hds, List.length_map, List.length_take]
    omega
  have htakeOut : aOut.dims.take a.ndims.toNat = dimsOutCopy := by
    rw [hdims, List.take_append_of_le_length (by omega), List.take_of_length_le (by omega)]
  have hget : ∀ e, e < a.ndims.toNat → ∀ t, dimsOut[e]? = some t →
      aOut.dims[e]? = some { t with size := t.size.tdiv t.binning } ∧ t.binning ≠ 0 ∧
        0 < t.size.tdiv t.binning := by
    intro e he t ht
    have ht' : (dimsOut.take a.ndims.toNat)[e]? = some t := by
      rw [List.getElem?_take_of_lt he]; exact ht
    have hmem := hposT t (List.getElem?_mem ht')
    refine ⟨?_, hmem.1, hmem.2⟩
    rw [hdims, List.getElem?_append_left (by omega), hds, List.getElem?_map, ht']
    rfl
  have hsizes : (out.dims.take a.ndims.toNat).map (fun d => d.size)
      = (aOut.dims.take a.ndims.toNat).map (fun d => d.size) := by
    rw [hdims2]
    cases early with
    | true => simp only [if_true]
    | false =>
      simp only [Bool.false_eq_true, if_false]
      rw [List.map_take, List.map_take, composeDims_size]
  have hk' : intKind aOut.dataType = some (bits, signed) := by rw [hdt]; exact hk
  obtain ⟨bpe, hbpe, hbpe1, -, hnel, htot⟩ := getInfo_some hinfo
  rw [hnd] at hnel
  have hnel' : info.nElements = stepOf aOut.dims a.ndims.toNat := hnel
  have hb0 : 0 ≤ bpe := by omega
  have hbound : ∀ i : Int, 0 ≤ i → i < info.nElements →
      (i.toNat + 1) * bpe.toNat ≤ info.totalBytes.toNat := by
    intro i hi hin
    have hcast : (((i.toNat + 1) * bpe.toNat : Nat) : Int) = (i + 1) * bpe := by
      push_cast
      rw [Int.toNat_of_nonneg hi, Int.toNat_of_nonneg hb0]
    have hle : (i + 1) * bpe ≤ info.nElements * bpe :=
      mul_le_mul_of_nonneg_right (by omega) hb0
    have : (((i.toNat + 1) * bpe.toNat : Nat) : Int) ≤ info.totalBytes := by
      rw [hcast, htot]
      exact hle
    omega
  rw [convertData_int F a aOut unchanged info src dest hkin hk'] at hcd
  refine ⟨q, out, src, buf, aOut.dims, hr, hout, hsrc, hpd, hnd2, hdt2, h0, hlenT, hlenA,
    hget, hsizes, ?_⟩
  cases unchanged with
  | true =>
    left
    refine ⟨?_, ?_⟩
    · intro e t x he ht hx
      exact hunch rfl e t x (by rw [List.getElem?_take_of_lt he]; exact ht) hx
    · intro J hJ
      rw [← hnel'] at hJ
      simp only [if_true] at hcd
      by_cases hty : a.dataType = aOut.dataType
      · simp only [hty, if_true, memcpy] at hcd
        split at hcd
        · rename_i hg
          simp only [Option.map_some', Option.some.injEq, Prod.mk.injEq] at hcd
          obtain ⟨-, rfl⟩ := hcd
          have hrd := readElem_take_append aOut.dataType src (dest.drop info.totalBytes.toNat)
            info.totalBytes.toNat (J : Int) bpe hbpe (by omega)
            (hbound (J : Int) (by omega) hJ) hg.2.1
          obtain ⟨hr1, hr2⟩ := hrd
          obtain ⟨v, hv⟩ := Option.isSome_iff_exists.mp hr2
          refine ⟨v, by rw [hty]; exact hv, ?_⟩
          rw [← hdt, hr1, hv, readElem_wrapped hk' hv]
        · simp at hcd
      · simp only [hty, if_false] at hcd
        cases hct : convertType F a.dataType aOut.dataType src dest info.nElements with
        | none => simp [hct] at hcd
        | some b =>
          simp only [hct, Option.map_some', Option.some.injEq, Prod.mk.injEq] at hcd
          obtain ⟨-, rfl⟩ := hcd
          have := convertType_spec F hkin hk' src dest b info.nElements hct J (by omega)
          rw [hdt] at this
          exact this
  | false =>
    right
    simp only [Bool.false_eq_true, if_false] at hcd
    split at hcd
    · simp at hcd
    · rename_i zeroed hz
      split at hcd
      · rename_i hn1
        rw [Option.map_eq_some'] at hcd
        obtain ⟨b, hcv, hb⟩ := hcd
        simp only [Prod.mk.injEq] at hb
        obtain ⟨-, rfl⟩ := hb
        · have hd1 : (a.ndims - 1).toNat + 1 = a.ndims.toNat := by omega
          have hpos : ∀ e, e ≤ (a.ndims - 1).toNat →
              ∃ od, aOut.dims[e]? = some od ∧ 0 < od.size := by
            intro e he
            have he' : e < a.ndims.toNat := by omega
            have hlt : e < dimsOut.length := by omega
            obtain ⟨h1, -, h3⟩ := hget e he' dimsOut[e] (List.getElem?_eq_getElem hlt)
            exact ⟨_, h1, h3⟩
          have hspec := convertDim_spec F hkin hk' a.dims aOut.dims src (a.ndims - 1).toNat
            hpos 0 0 zeroed b hcv
          rw [hd1] at hspec
          refine ⟨by omega, ⟨dimsOutCopy, htmpl⟩, ?_⟩
          intro idx hidx
          obtain ⟨hr0, hr1⟩ := flatIndex_range hidx
          unfold memsetZero at hz
          split at hz
          · rename_i hg
            simp only [Option.some.injEq] at hz
            subst hz
            have hzero := readElem_zero hk' hbpe info.totalBytes.toNat
              (dest.drop info.totalBytes.toNat) (flatIndex aOut.dims idx a.ndims.toNat) hr0
              (hbound _ hr0 (by rw [hnel']; exact hr1))
            have hv := hspec.2 idx hidx 0 (by rw [zero_add]; exact hzero)
            obtain ⟨g, hg1, hg2⟩ := hv
            refine ⟨g, hg1, ?_⟩
            rw [zero_add, zero_add] at hg2
            rw [← hdt]
            exact hg2
          · simp at hz
      · simp at hcd

/-! ## Binning, reversal and offset -/

theorem flatIndex_ext (dims : List NDDimension) {f g : Nat → Int} :
    ∀ n : Nat, (∀ e, e < n → f e = g e) → flatIndex dims f n = flatIndex dims g n := by
  intro n
  induction n with
  | zero => intro _; rfl
  | succ n ih =>
    intro h
    simp only [flatIndex]
    rw [ih (fun e he => h e (Nat.lt_succ_of_lt he)), h n (Nat.lt_succ_self n)]

/-- C21 (evaluation of the code). In `demoRecycle` array 0, in use, carries the attribute
"Gain", and array 1 waits on the free list with the attribute "Stale" of its previous
use.  A conversion of array 0, with the shape unchanged or changed, succeeds and returns
array 1, recycled, whose attributes are "Stale" followed by the copy of "Gain": neither
`alloc` nor `convert` clears the list.  `copy` on the same state clears it first and
leaves "Gain" alone. -/
theorem convert_recycled_keeps_attributes :
    demoRecycle.pool.freeList = [1]
      ∧ demoRecycle.attributeNames 0 = some [gainName]
      ∧ demoRecycle.attributeNames 1 = some [staleName]
      ∧ (NDArrayPool.convert FloatOps.zero demoRecycle 0 NDDataType.NDInt8
            [{ size := 4, offset := 0, binning := 1, reverse := 0 }]).map
          (fun r => (r.2, r.1.attributeNames 1))
        = some ((some 1, NDStatus.ND_SUCCESS), some [staleName, gainName])
      ∧ (NDArrayPool.convert FloatOps.zero demoRecycle 0 NDDataType.NDInt16
            [{ size := 2, offset := 0, binning := 1, reverse := 0 }]).map
          (fun r => (r.2, r.1.attributeNames 1))
        = some ((some 1, NDStatus.ND_SUCCESS), some [staleName, gainName])
      ∧ (NDArrayPool.copy demoRecycle 0 none 1).map (fun r => (r.2, r.1.attributeNames 1))
        = some (1, some [gainName]) := by
  refine ⟨by decide, by decide, by decide, by decide, by decide, by decide⟩

/-- C23 (evaluation of the code). The array of `demoUnsupported` has an element kind that
is none of the 8 kinds.  Its conversion to signed 8-bit integers with its own descriptors
as template (a conversion of the kind) and its conversion with a template of another
shape both return `ND_SUCCESS` with an output array whose data was never written: the
`ND_ERROR` of the `default:` branches of `convertTypeSwitch` and
`convertDimensionSwitch` is dropped and `convert` ends with `return ND_SUCCESS`. -/
theorem convert_unsupported_kind_succeeds :
    demoUnsupported.arrays[0]?.map (fun a => (a.dataType, bytesPerElement a.dataType))
        = some (NDDataType.other 99, none)
      ∧ convertTypeSwitch FloatOps.zero (NDDataType.other 99) NDDataType.NDInt8 [] [] 0
        = some (NDStatus.ND_ERROR, [])
      ∧ (NDArrayPool.convert FloatOps.zero demoUnsupported 0 NDDataType.NDInt8
            demoArray.dims).map (fun r => (r.2, r.1.arrays[1]?.bind (fun a => a.pData)))
        = some ((some 1, NDStatus.ND_SUCCESS), some (List.replicate 12 0))
      ∧ (NDArrayPool.convert FloatOps.zero demoUnsupported 0 NDDataType.NDInt8
            [{ size := 2, offset := 0, binning := 1, reverse := 0 },
             { size := 3, offset := 0, binning := 1, reverse := 0 }]).map
          (fun r => (r.2, r.1.arrays[1]?.bind (fun a => a.pData)))
        = some ((some 1, NDStatus.ND_SUCCESS), some (List.replicate 6 0)) := by
  refine ⟨by decide, by decide, by decide, by decide⟩

/-! ## Attribute values -/

/-- C26 (evaluation of the code). The attribute `demoString` holds the string "abcd", of
length 4.  `getValue(NDAttrString, out, n)` writes the `n` bytes `strncpy` writes: for
`n = 2` and `n = 4` these are bytes of the string only, without a 0 terminator; for
`n = 6` the string and two 0 bytes; for `n = 0` the string and its terminator. -/
theorem getValue_string_not_terminated :
    demoString.pString = some [97, 98, 99, 100]
      ∧ demoString.getValue NDAttrDataType.NDAttrString 2
        = (NDStatus.ND_SUCCESS, [97, 98])
      ∧ (0 : Nat) ∉ (demoString.getValue NDAttrDataType.NDAttrString 2).2
      ∧ demoString.getValue NDAttrDataType.NDAttrString 4
        = (NDStatus.ND_SUCCESS, [97, 98, 99, 100])
      ∧ (0 : Nat) ∉ (demoString.getValue NDAttrDataType.NDAttrString 4).2
      ∧ demoString.getValue NDAttrDataType.NDAttrString 6
        = (NDStatus.ND_SUCCESS, [97, 98, 99, 100, 0, 0])
      ∧ demoString.getValue NDAttrDataType.NDAttrString 0
        = (NDStatus.ND_SUCCESS, [97, 98, 99, 100, 0]) := by
  refine ⟨by decide, by decide, by decide, by decide, by decide, by decide, by decide⟩

/-! ## Conversion of the element kind alone -/

/-- The first loop of `convert` on a template whose descriptors have the sizes of the
input, offset 0, binning 1 and no reversal: an error for a size that is not positive,
and otherwise the template itself, found unchanged. -/
theorem convertTemplate_unchanged (tmpl ins : List NDDimension)
    (h : ∀ (i : Nat) (t : NDDimension), tmpl[i]? = some t →
      ∃ x, ins[i]? = some x ∧ x.size = t.size ∧ t.offset = 0 ∧ t.binning = 1 ∧
        t.reverse = 0) :
    convertTemplate tmpl ins = some none ∨
      convertTemplate tmpl ins = some (some (tmpl, true)) := by
  induction tmpl generalizing ins with
  | nil => right; rfl
  | cons d ds ih =>
    obtain ⟨x, hx, hsz, ho, hb, hr⟩ := h 0 d (by simp)
    cases ins with
    | nil => simp at hx
    | cons y ys =>
      simp only [List.getElem?_cons_zero, Option.some.injEq] at hx
      subst hx
      have hrec := ih ys (fun i t ht => by
        have := h (i + 1) t (by simpa using ht)
        simpa using this)
      unfold convertTemplate
      simp only [hb, one_ne_zero, if_false, Int.tdiv_one, ho, hr, hsz]
      by_cases hs : d.size ≤ 0
      · left
        simp only [hs, if_true]
      · simp only [hs, if_false]
        rcases hrec with hrec | hrec
        · left
          simp only [hrec]
        · right
          simp only [hrec, ne_eq, not_true_eq_false, decide_False, Bool.or_self,
            Bool.not_false, Bool.and_self, Option.some.injEq, Prod.mk.injEq, List.cons.injEq,
            and_true]
          cases d
          simp_all

/-- C22. For a call of `convert` that returns `ND_SUCCESS`, from an integer kind to
another integer kind, with a template that leaves the shape unchanged (the sizes of the
input, offset 0, binning 1, reverse 0 on the first `ndims` axes): for every flat index
`i < nElements` the output element is the input element reduced modulo `2^bits` of the
output kind and read in its signedness (`wrapInt`), without saturation or rounding.  This
holds whether or not the two kinds differ. -/
theorem convert_type_only (F : FloatOps) (w w' : World) (pIn : Nat) (a : NDArray)
    (dataTypeOut : NDDataType) (dimsOut : List NDDimension) (r : Option Nat)
    (bitsIn bits : Nat) (signedIn signed : Bool)
    (ha : w.arrays[pIn]? = some a)
    (hkin : intKind a.dataType = some (bitsIn, signedIn))
    (hk : intKind dataTypeOut = some (bits, signed))
    (hshape : ∀ e, e < a.ndims.toNat →
      (dimsOut.getD e NDDimension.zero).size = (a.dims.getD e NDDimension.zero).size ∧
      (dimsOut.getD e NDDimension.zero).offset = 0 ∧
      (dimsOut.getD e NDDimension.zero).binning = 1 ∧
      (dimsOut.getD e NDDimension.zero).reverse = 0)
    (h : NDArrayPool.convert F w pIn dataTypeOut dimsOut
      = some (w', r, NDStatus.ND_SUCCESS)) :
    ∃ q out info src dst, r = some q ∧ w'.arrays[q]? = some out ∧
      out.dataType = dataTypeOut ∧ a.getInfo = some info ∧
      a.pData = some src ∧ out.pData = some dst ∧
      ∀ i : Nat, (i : Int) < info.nElements →
        ∃ v, readElem a.dataType src i = some v ∧
          readElem dataTypeOut dst i = some (wrapInt bits signed v) := by
  obtain ⟨q, out, src, dst, ods, hr, hout, hsrc, hpd, -, hdt, h0, hlenT, hlenA, hget, -,
    hcase⟩ := convert_kernel ha hkin hk h
  obtain ⟨bpe, hbpe, -⟩ := intKind_bytes hkin
  have hinfo : a.getInfo = some
      { nElements := stepOf a.dims a.ndims.toNat, bytesPerElement := bpe,
        totalBytes := stepOf a.dims a.ndims.toNat * bpe } := by
    simp only [NDArray.getInfo, hbpe, hlenA, if_true, stepOf]
  have hgd : ∀ e, e < a.ndims.toNat →
      dimsOut[e]? = some (dimsOut.getD e NDDimension.zero) ∧
      a.dims[e]? = some (a.dims.getD e NDDimension.zero) := by
    intro e he
    have h1 : e < dimsOut.length := by omega
    have h2 : e < a.dims.length := by omega
    simp [List.getD, List.getElem?_eq_getElem h1, List.getElem?_eq_getElem h2]
  have htm := convertTemplate_unchanged (dimsOut.take a.ndims.toNat) a.dims (by
    intro i t ht
    have hi : i < a.ndims.toNat := by
      have := (List.getElem?_eq_some_iff.mp ht).1
      simp only [List.length_take] at this
      omega
    rw [List.getElem?_take_of_lt hi, (hgd i hi).1] at ht
    simp only [Option.some.injEq] at ht
    subst ht
    obtain ⟨h1, h2, h3, h4⟩ := hshape i hi
    exact ⟨_, (hgd i hi).2, h1.symm, h2, h3, h4⟩)
  refine ⟨q, out, _, src, dst, hr, hout, hdt, hinfo, hsrc, hpd, ?_⟩
  rcases hcase with ⟨-, hcopy⟩ | ⟨-, ⟨dc, hdc⟩, -⟩
  · intro i hi
    apply hcopy i
    have hsz : (ods.take a.ndims.toNat).map (fun d => d.size)
        = (a.dims.take a.ndims.toNat).map (fun d => d.size) := by
      apply List.ext_getElem?
      intro e
      by_cases he : e < a.ndims.toNat
      · obtain ⟨h1, -, h3, -⟩ := hshape e he
        have ho := (hget e he _ (hgd e he).1).1
        rw [List.getElem?_map, List.getElem?_map, List.getElem?_take_of_lt he,
          List.getElem?_take_of_lt he, ho, (hgd e he).2]
        simp only [Option.map_some', h3, Int.tdiv_one, h1]
      · rw [List.getElem?_eq_none (by simp only [List.length_map, List.length_take]; omega),
          List.getElem?_eq_none (by simp only [List.length_map, List.length_take]; omega)]
    rw [stepOf_congr hsz (le_refl _)]
    exact hi
  · rcases htm with htm | htm
    · rw [htm] at hdc
      simp at hdc
    · rw [htm] at hdc
      simp at hdc

/-- C22 on the array `[300, -1, 5]` of 16-bit integers of `demoCastIn`, converted to
unsigned 8-bit integers: the output holds `[44, 255, 5]`. -/
theorem convert_type_only_witness :
    (∃ q out info src dst, some 1 = some q ∧ demoCast.arrays[q]? = some out ∧
      out.dataType = NDDataType.NDUInt8 ∧ demoCastArray.getInfo = some info ∧
      demoCastArray.pData = some src ∧ out.pData = some dst ∧
      ∀ i : Nat, (i : Int) < info.nElements →
        ∃ v, readElem demoCastArray.dataType src i = some v ∧
          readElem NDDataType.NDUInt8 dst i = some (wrapInt 8 false v)) ∧
      (demoCast.arrays[1]?).bind (fun b => b.pData) = some [44, 255, 5] ∧
      (demoCastArray.pData.bind
        (fun src => [0, 1, 2].mapM (fun i => readElem NDDataType.NDInt16 src i)))
        = some [300, -1, 5] :=
  ⟨convert_type_only FloatOps.zero demoCastIn demoCast 0 demoCastArray NDDataType.NDUInt8
    demoCastArray.dims (some 1) 16 8 true false (by decide) (by decide) (by decide)
    (by decide) (by decide), by decide, by decide⟩

/-! ## Attributes: `setValue` and `getValue` -/

/-- The method `setValue` with a numeric kind and a readable value. -/
theorem setValue_numeric (attr : NDAttribute) {k : NDAttrDataType} {sz : Nat}
    {mem : List Nat} (hsz : attrSize k = some sz) (hlen : sz ≤ mem.length) :
    attr.setValue k (some mem)
      = some ({ attr with dataType := k, pString := none,
                          value := mem.take sz ++ attr.value.drop sz },
              NDStatus.ND_SUCCESS) := by
  have hk : k ≠ NDAttrDataType.NDAttrString := by
    intro h
    rw [h] at hsz
    simp [attrSize] at hsz
  simp only [NDAttribute.setValue, hk, if_false, hsz, hlen, if_true]

/-- The method `setValue` changes neither the name nor the description. -/
theorem setValue_names {attr attr' : NDAttribute} {k : NDAttrDataType}
    {v : Option (List Nat)} {st : NDStatus} (h : attr.setValue k v = some (attr', st)) :
    attr'.pName = attr.pName ∧ attr'.pDescription = attr.pDescription := by
  unfold NDAttribute.setValue at h
  simp only at h
  repeat' split at h
  all_goals first
    | (simp at h; done)
    | (simp only [Option.some.injEq, Prod.mk.injEq] at h; rw [← h.1]; exact ⟨rfl, rfl⟩)

/-- The method `setValue` stores the kind it is given, whatever it returns. -/
theorem setValue_dataType {attr attr' : NDAttribute} {k : NDAttrDataType}
    {v : Option (List Nat)} {st : NDStatus} (h : attr.setValue k v = some (attr', st)) :
    attr'.dataType = k := by
  unfold NDAttribute.setValue at h
  simp only at h
  repeat' split at h
  all_goals first
    | (simp at h; done)
    | (simp only [Option.some.injEq, Prod.mk.injEq] at h; rw [← h.1])

/-- C24. For every attribute, every numeric kind `k` and every value of that kind (the
`sz` bytes found at the value pointer): `setValue(k, v)` returns `ND_SUCCESS`, and
afterwards `getValue(k)` returns `ND_SUCCESS` and exactly those bytes, while `getValue(k')`
for any other kind `k'` returns `ND_ERROR` and writes nothing.  `getValue` is a function
of the attribute and gives none back: it leaves the attribute as it is. -/
theorem setValue_getValue (attr : NDAttribute) (k : NDAttrDataType) (sz : Nat)
    (mem : List Nat) (n : Nat) (hsz : attrSize k = some sz) (hlen : sz ≤ mem.length) :
    ∃ attr', attr.setValue k (some mem) = some (attr', NDStatus.ND_SUCCESS) ∧
      attr'.getValue k n = (NDStatus.ND_SUCCESS, mem.take sz) ∧
      ∀ k', k' ≠ k → attr'.getValue k' n = (NDStatus.ND_ERROR, []) := by
  refine ⟨_, setValue_numeric attr hsz hlen, ?_, ?_⟩
  · simp only [NDAttribute.getValue, ne_eq, not_true_eq_false, if_false, hsz]
    rw [List.take_append_of_le_length (by simp only [List.length_take]; omega),
      List.take_take, Nat.min_self]
  · intro k' hk'
    simp only [NDAttribute.getValue, ne_eq, hk', not_false_eq_true, if_true]

/-- C24 on a new attribute given the 32-bit value 7: it is read back as `NDAttrInt32`
and refused as any other kind. -/
theorem setValue_getValue_witness :
    ∃ attr', demoAttr.setValue NDAttrDataType.NDAttrInt32 (some [7, 0, 0, 0])
        = some (attr', NDStatus.ND_SUCCESS) ∧
      attr'.getValue NDAttrDataType.NDAttrInt32 0
        = (NDStatus.ND_SUCCESS, [7, 0, 0, 0].take 4) ∧
      ∀ k', k' ≠ NDAttrDataType.NDAttrInt32 →
        attr'.getValue k' 0 = (NDStatus.ND_ERROR, []) :=
  setValue_getValue demoAttr NDAttrDataType.NDAttrInt32 4 [7, 0, 0, 0] 0 (by decide)
    (by decide)

/-- C25. For every attribute and every kind `k`: `setValue(k, NULL)` returns `ND_ERROR`
when `k` is not `NDAttrUndefined` and `ND_SUCCESS` when it is; `setValue(k, v)` with a
readable value returns `ND_SUCCESS` when `k` is one of the 8 numeric kinds, and
`setValue(NDAttrString, v)` with a terminated string returns `ND_SUCCESS`. -/
theorem setValue_status (attr : NDAttribute) (k : NDAttrDataType) :
    (k ≠ NDAttrDataType.NDAttrUndefined →
      ∃ attr', attr.setValue k none = some (attr', NDStatus.ND_ERROR)) ∧
    (∃ attr', attr.setValue NDAttrDataType.NDAttrUndefined none
      = some (attr', NDStatus.ND_SUCCESS)) ∧
    (∀ (sz : Nat) (mem : List Nat), attrSize k = some sz → sz ≤ mem.length →
      ∃ attr', attr.setValue k (some mem) = some (attr', NDStatus.ND_SUCCESS)) ∧
    (∀ mem : List Nat, 0 ∈ mem →
      ∃ attr', attr.setValue NDAttrDataType.NDAttrString (some mem)
        = some (attr', NDStatus.ND_SUCCESS)) := by
  refine ⟨?_, ?_, ?_, ?_⟩
  · intro hk
    exact ⟨{ attr with dataType := k },
      by simp only [NDAttribute.setValue, ne_eq, hk, not_false_eq_true, if_true]⟩
  · exact ⟨{ attr with dataType := NDAttrDataType.NDAttrUndefined, pString := none },
      by simp only [NDAttribute.setValue, ne_eq, not_true_eq_false, if_false]⟩
  · intro sz mem hsz hlen
    exact ⟨_, setValue_numeric attr hsz hlen⟩
  · intro mem hmem
    simp only [NDAttribute.setValue, if_true, cString, hmem]
    split
    · exact ⟨_, rfl⟩
    · exact ⟨_, rfl⟩

/-- C25 on a new attribute: a `NULL` value of kind `NDAttrInt32` is refused, a `NULL`
value of the undefined kind is accepted, and so are the 32-bit value 7 and the string
"abcd". -/
theorem setValue_status_witness :
    (∃ attr', demoAttr.setValue NDAttrDataType.NDAttrInt32 none
      = some (attr', NDStatus.ND_ERROR)) ∧
    (∃ attr', demoAttr.setValue NDAttrDataType.NDAttrUndefined none
      = some (attr', NDStatus.ND_SUCCESS)) ∧
    (∃ attr', demoAttr.setValue NDAttrDataType.NDAttrInt32 (some [7, 0, 0, 0])
      = some (attr', NDStatus.ND_SUCCESS)) ∧
    (∃ attr', demoAttr.setValue NDAttrDataType.NDAttrString (some [97, 98, 99, 100, 0])
      = some (attr', NDStatus.ND_SUCCESS)) :=
  ⟨(setValue_status demoAttr NDAttrDataType.NDAttrInt32).1 (by decide),
   (setValue_status demoAttr NDAttrDataType.NDAttrInt32).2.1,
   (setValue_status demoAttr NDAttrDataType.NDAttrInt32).2.2.1 4 [7, 0, 0, 0] (by decide)
     (by decide),
   (setValue_status demoAttr NDAttrDataType.NDAttrInt32).2.2.2 [97, 98, 99, 100, 0]
     (by decide)⟩

/-! ## The attribute list: lookup -/

theorem findIdx?_map_comp {α β : Type} (f : α → β) (q : β → Bool) (l : List α) :
    (l.map f).findIdx? q = l.findIdx? (fun x => q (f x)) := by
  induction l with
  | nil => rfl
  | cons x xs ih =>
    simp only [List.map_cons, List.findIdx?_cons, Nat.zero_add, List.findIdx?_succ, ih]

/-- The comparison of two names looks at their upper-case forms only. -/
theorem epicsStrCaseEq_iff (x y : List Nat) :
    epicsStrCaseEq x y = true ↔ x.map toupper = y.map toupper := by
  simp [epicsStrCaseEq]

/-- The method `findAttribute` looks at the upper-case forms of the stored names and of
the name it is given only. -/
theorem findAttribute_eq (a : NDArray) (name : List Nat) :
    a.findAttribute name
      = (a.attributeList.map (fun t => t.pName.map toupper)).findIdx?
          (fun x => x == name.map toupper) := by
  rw [findIdx?_map_comp]
  rfl

/-- What `findAttribute` returns when it finds an attribute: the position of the first
attribute whose name matches. -/
theorem findAttribute_some {a : NDArray} {name : List Nat} {i : Nat}
    (h : a.findAttribute name = some i) :
    ∃ t, a.attributeList[i]? = some t ∧ epicsStrCaseEq t.pName name = true ∧
      ∀ (j : Nat) (u : NDAttribute), j < i → a.attributeList[j]? = some u →
        epicsStrCaseEq u.pName name = false := by
  unfold NDArray.findAttribute at h
  rw [List.findIdx?_eq_some_iff_getElem] at h
  obtain ⟨hi, hp, hbefore⟩ := h
  refine ⟨a.attributeList[i], List.getElem?_eq_getElem hi, hp, ?_⟩
  intro j u hj hu
  have hjl : j < a.attributeList.length := by omega
  have := hbefore j hj
  rw [List.getElem?_eq_getElem hjl] at hu
  simp only [Option.some.injEq] at hu
  rw [hu] at this
  simpa using this

/-- The method `findAttribute` finds nothing exactly when no stored name matches. -/
theorem findAttribute_none {a : NDArray} {name : List Nat} :
    a.findAttribute name = none ↔
      ∀ t ∈ a.attributeList, epicsStrCaseEq t.pName name = false := by
  unfold NDArray.findAttribute
  rw [List.findIdx?_eq_none_iff]

/-! ## The attribute list: `addAttribute` -/

/-- The method `addAttribute(pName, dataType, pValue)` on an array that holds an attribute
of that name: `setValue` on that attribute, in place. -/
theorem addAttributeValue_found {a : NDArray} {name : List Nat} {i : Nat} {t : NDAttribute}
    (hfind : a.findAttribute name = some i) (ht : a.attributeList[i]? = some t)
    (kind : NDAttrDataType) (v : Option (List Nat)) :
    a.addAttributeValue name kind v
      = (t.setValue kind v).map
          (fun r => ({ a with attributeList := a.attributeList.set i r.1 }, i)) := by
  simp only [NDArray.addAttributeValue, NDArray.addAttribute, hfind, ht]
  cases t.setValue kind v with
  | none => rfl
  | some r => rfl

/-- The method `addAttribute(pName, dataType, pValue)` on an array that holds no attribute
of that name: `setValue` on a new attribute, appended. -/
theorem addAttributeValue_new {a : NDArray} {name : List Nat}
    (hfind : a.findAttribute name = none) (kind : NDAttrDataType) (v : Option (List Nat)) :
    a.addAttributeValue name kind v
      = ((NDAttribute.new name).setValue kind v).map
          (fun r => ({ a with attributeList := a.attributeList ++ [r.1] },
            a.attributeList.length)) := by
  simp only [NDArray.addAttributeValue, NDArray.addAttribute, hfind,
    List.getElem?_concat_length]
  cases (NDAttribute.new name).setValue kind v with
  | none => rfl
  | some r =>
    simp only [Option.map_some']
    rw [List.set_append_right _ _ (le_refl _)]
    simp

/-- C28. On an array that holds an attribute `t` of the given case-insensitive name, at
position `i`: `addAttribute(name)` returns it and leaves the array as it is;
`addAttribute(name, kind, value)` puts in its place what `setValue(kind, value)` makes of
it, which has the name and the description of `t` and the kind given, and leaves the
number of attributes, the position and every other attribute as they are.  On an array
that holds no such attribute, both append the new attribute at the end of the list. -/
theorem addAttribute_frame (a : NDArray) (name : List Nat) :
    (∀ i, a.findAttribute name = some i →
      ∃ t, a.attributeList[i]? = some t ∧ epicsStrCaseEq t.pName name = true ∧
        a.addAttribute name = (a, i) ∧
        ∀ kind v a' j, a.addAttributeValue name kind v = some (a', j) →
          j = i ∧ a'.numAttributes = a.numAttributes ∧
          (∀ m, m ≠ i → a'.attributeList[m]? = a.attributeList[m]?) ∧
          ∃ t' st, a'.attributeList[i]? = some t' ∧ t.setValue kind v = some (t', st) ∧
            t'.pName = t.pName ∧ t'.pDescription = t.pDescription ∧ t'.dataType = kind) ∧
    (a.findAttribute name = none →
      a.addAttribute name
        = ({ a with attributeList := a.attributeList ++ [NDAttribute.new name] },
           a.attributeList.length) ∧
      ∀ kind v a' j, a.addAttributeValue name kind v = some (a', j) →
        j = a.attributeList.length ∧
        ∃ t', a'.attributeList = a.attributeList ++ [t'] ∧ t'.pName = name ∧
          t'.pDescription = none ∧ t'.dataType = kind) := by
  constructor
  · intro i hfind
    obtain ⟨t, ht, hmatch, -⟩ := findAttribute_some hfind
    have hil : i < a.attributeList.length := (List.getElem?_eq_some_iff.mp ht).1
    refine ⟨t, ht, hmatch, by simp only [NDArray.addAttribute, hfind], ?_⟩
    intro kind v a' j h
    rw [addAttributeValue_found hfind ht, Option.map_eq_some'] at h
    obtain ⟨⟨t', st⟩, hset, hr⟩ := h
    simp only [Prod.mk.injEq] at hr
    obtain ⟨rfl, rfl⟩ := hr
    obtain ⟨hn, hd⟩ := setValue_names hset
    refine ⟨rfl, by simp [NDArray.numAttributes], ?_, t', st, ?_, hset, hn, hd,
      setValue_dataType hset⟩
    · intro m hm
      exact List.getElem?_set_ne (Ne.symm hm)
    · exact List.getElem?_set_self hil
  · intro hfind
    refine ⟨by simp only [NDArray.addAttribute, hfind], ?_⟩
    intro kind v a' j h
    rw [addAttributeValue_new hfind, Option.map_eq_some'] at h
    obtain ⟨⟨t', st⟩, hset, hr⟩ := h
    simp only [Prod.mk.injEq] at hr
    obtain ⟨rfl, rfl⟩ := hr
    obtain ⟨hn, hd⟩ := setValue_names hset
    exact ⟨rfl, t', rfl, hn, hd, setValue_dataType hset⟩

/-- C28 on `demoNamed`, whose attributes are "Bar" and "foo": "FOO" is the attribute at
position 1, and "Gain" is appended at position 2. -/
theorem addAttribute_frame_witness :
    (∃ t, demoNamed.attributeList[1]? = some t ∧ epicsStrCaseEq t.pName fooUpper = true ∧
        demoNamed.addAttribute fooUpper = (demoNamed, 1) ∧
        ∀ kind v a' j, demoNamed.addAttributeValue fooUpper kind v = some (a', j) →
          j = 1 ∧ a'.numAttributes = demoNamed.numAttributes ∧
          (∀ m, m ≠ 1 → a'.attributeList[m]? = demoNamed.attributeList[m]?) ∧
          ∃ t' st, a'.attributeList[1]? = some t' ∧ t.setValue kind v = some (t', st) ∧
            t'.pName = t.pName ∧ t'.pDescription = t.pDescription ∧ t'.dataType = kind) ∧
    (demoNamed.addAttribute gainName
        = ({ demoNamed with
              attributeList := demoNamed.attributeList ++ [NDAttribute.new gainName] },
           demoNamed.attributeList.length) ∧
      ∀ kind v a' j, demoNamed.addAttributeValue gainName kind v = some (a', j) →
        j = demoNamed.attributeList.length ∧
        ∃ t', a'.attributeList = demoNamed.attributeList ++ [t'] ∧ t'.pName = gainName ∧
          t'.pDescription = none ∧ t'.dataType = kind) :=
  ⟨(addAttribute_frame demoNamed fooUpper).1 1 (by decide),
   (addAttribute_frame demoNamed gainName).2 (by decide)⟩

/-- C29. For two names that are equal up to the case of ASCII letters, `findAttribute`
returns the same result, the same position or not-found for both; and a position it
returns is that of the first attribute, in the order of the list, whose name matches
case-insensitively. -/
theorem findAttribute_case_insensitive (a : NDArray) (name name' : List Nat)
    (hcase : name'.map toupper = name.map toupper) :
    a.findAttribute name' = a.findAttribute name ∧
    ∀ i, a.findAttribute name = some i →
      ∃ t, a.attributeList[i]? = some t ∧ epicsStrCaseEq t.pName name = true ∧
        ∀ (j : Nat) (u : NDAttribute), j < i → a.attributeList[j]? = some u →
          epicsStrCaseEq u.pName name = false := by
  constructor
  · rw [findAttribute_eq, findAttribute_eq, hcase]
  · intro i h
    exact findAttribute_some h

/-- C29 on `demoNamed`: "Foo", "foo" and "FOO" all find the attribute at position 1, the
first whose name matches. -/
theorem findAttribute_case_insensitive_witness :
    (demoNamed.findAttribute fooMixed = demoNamed.findAttribute fooLower ∧
      ∀ i, demoNamed.findAttribute fooLower = some i →
        ∃ t, demoNamed.attributeList[i]? = some t ∧ epicsStrCaseEq t.pName fooLower = true ∧
          ∀ (j : Nat) (u : NDAttribute), j < i → demoNamed.attributeList[j]? = some u →
            epicsStrCaseEq u.pName fooLower = false) ∧
    demoNamed.findAttribute fooMixed = some 1 ∧
    demoNamed.findAttribute fooLower = some 1 ∧
    demoNamed.findAttribute fooUpper = some 1 ∧
    demoNamed.findAttribute gainName = none :=
  ⟨findAttribute_case_insensitive demoNamed fooLower fooMixed (by decide), by decide,
    by decide, by decide, by decide⟩

/-! ## The attribute list: one attribute per name -/

theorem nodup_index_unique {α : Type} {l : List α} (h : l.Nodup) {i j : Nat} {x : α}
    (hi : l[i]? = some x) (hj : l[j]? = some x) : i = j := by
  have hil : i < l.length := (List.getElem?_eq_some_iff.mp hi).1
  have hjl : j < l.length := (List.getElem?_eq_some_iff.mp hj).1
  rw [List.nodup_iff_getElem?_ne_getElem?] at h
  rcases Nat.lt_trichotomy i j with hlt | heq | hgt
  · exact absurd (hi.trans hj.symm) (h i j hlt hjl)
  · exact heq
  · exact absurd (hj.trans hi.symm) (h j i hgt hil)

/-- What the value of an attribute is after `setValue` returned: for a numeric kind the
bytes at the value pointer, for the string kind the string at the value pointer. -/
theorem setValue_holds {t t' : NDAttribute} {kind : NDAttrDataType}
    {v : Option (List Nat)} {st : NDStatus} (h : t.setValue kind v = some (t', st)) :
    (∀ (k : Nat) (mem : List Nat), attrSize kind = some k → v = some mem →
      k ≤ mem.length ∧ st = NDStatus.ND_SUCCESS ∧
        ∀ n, t'.getValue kind n = (NDStatus.ND_SUCCESS, mem.take k)) ∧
    (∀ mem : List Nat, kind = NDAttrDataType.NDAttrString → v = some mem →
      ∃ s, cString mem = some s ∧ st = NDStatus.ND_SUCCESS ∧
        t'.getValue kind 0 = (NDStatus.ND_SUCCESS, s ++ [0])) := by
  constructor
  · intro k mem hsz hv
    subst hv
    have hlen : k ≤ mem.length := by
      by_contra hcon
      have hk : kind ≠ NDAttrDataType.NDAttrString := by
        intro hs
        rw [hs] at hsz
        simp [attrSize] at hsz
      simp [NDAttribute.setValue, hk, hsz, hcon] at h
    rw [setValue_numeric t hsz hlen] at h
    simp only [Option.some.injEq, Prod.mk.injEq] at h
    obtain ⟨rfl, rfl⟩ := h
    refine ⟨hlen, rfl, ?_⟩
    intro n
    simp only [NDAttribute.getValue, ne_eq, not_true_eq_false, if_false, hsz]
    rw [List.take_append_of_le_length (by simp only [List.length_take]; omega),
      List.take_take, Nat.min_self]
  · intro mem hk hv
    subst hk hv
    simp only [NDAttribute.setValue, if_true] at h
    cases hc : cString mem with
    | none => simp [hc] at h
    | some s =>
      simp only [hc] at h
      have hval : t'.dataType = NDAttrDataType.NDAttrString ∧ t'.pString = some s ∧
          st = NDStatus.ND_SUCCESS := by
        split at h
        · rename_i hsame
          simp only [Option.some.injEq, Prod.mk.injEq] at h
          obtain ⟨rfl, rfl⟩ := h
          exact ⟨rfl, hsame.2, rfl⟩
        · simp only [Option.some.injEq, Prod.mk.injEq] at h
          obtain ⟨rfl, rfl⟩ := h
          exact ⟨rfl, rfl, rfl⟩
      obtain ⟨h1, h2, h3⟩ := hval
      refine ⟨s, rfl, h3, ?_⟩
      simp only [NDAttribute.getValue, h1, ne_eq, not_true_eq_false, if_false, attrSize, h2,
        if_true, strncpy]
      congr 1
      have : s.length + 1 - s.length = 1 := by omega
      rw [this]
      exact List.take_of_length_le (by simp)

/-- The upper-case names of an attribute list in which an attribute was replaced by one of
the same name. -/
theorem names_set {l : List NDAttribute} {i : Nat} {t t' : NDAttribute}
    (ht : l[i]? = some t) (hn : t'.pName = t.pName) :
    (l.set i t').map (fun u => u.pName.map toupper) = l.map (fun u => u.pName.map toupper) := by
  apply List.ext_getElem?
  intro m
  by_cases hm : m = i
  · subst hm
    have hil : m < l.length := (List.getElem?_eq_some_iff.mp ht).1
    rw [List.getElem?_map, List.getElem?_map, List.getElem?_set_self hil, ht]
    simp only [Option.map_some', hn]
  · rw [List.getElem?_map, List.getElem?_map, List.getElem?_set_ne (Ne.symm hm)]

/-- The first of two calls of `addAttribute(name, kind, value)`: the attribute of that
name is now at position `i`, where it was or at the end of the list; it is what
`findAttribute` finds; the names are still distinct; the other attributes are where they
were. -/
theorem addAttributeValue_first {a a1 : NDArray} {name : List Nat} {kind : NDAttrDataType}
    {v : Option (List Nat)} {i : Nat}
    (hnd : (a.attributeList.map (fun t => t.pName.map toupper)).Nodup)
    (h : a.addAttributeValue name kind v = some (a1, i)) :
    (a.findAttribute name = some i ∨
      (a.findAttribute name = none ∧ i = a.attributeList.length)) ∧
    a1.findAttribute name = some i ∧
    (a1.attributeList.map (fun t => t.pName.map toupper)).Nodup ∧
    a.attributeList.length ≤ a1.attributeList.length ∧
    a1.attributeList.length ≤ a.attributeList.length + 1 ∧
    (∀ m, m ≠ i → m < a.attributeList.length →
      a1.attributeList[m]? = a.attributeList[m]?) ∧
    ∃ t1 st, a1.attributeList[i]? = some t1 ∧ t1.dataType = kind ∧
      (∀ t0 : NDAttribute, a.findAttribute name = some i → a.attributeList[i]? = some t0 →
        t0.setValue kind v = some (t1, st)) ∧
      (a.findAttribute name = none → (NDAttribute.new name).setValue kind v = some (t1, st))
      := by
  cases hfind : a.findAttribute name with
  | some i0 =>
    obtain ⟨t, ht, -, -⟩ := findAttribute_some hfind
    have hil : i0 < a.attributeList.length := (List.getElem?_eq_some_iff.mp ht).1
    rw [addAttributeValue_found hfind ht, Option.map_eq_some'] at h
    obtain ⟨⟨t1, st⟩, hset, hr⟩ := h
    simp only [Prod.mk.injEq] at hr
    obtain ⟨rfl, rfl⟩ := hr
    have hnames := @names_set _ _ _ t1 ht (setValue_names hset).1
    refine ⟨Or.inl rfl, ?_, ?_, by simp, by simp, ?_, t1, st, ?_,
      setValue_dataType hset, ?_, ?_⟩
    · rw [findAttribute_eq]
      simp only [hnames]
      rw [← findAttribute_eq]
      exact hfind
    · simp only [hnames]
      exact hnd
    · intro m hm _
      exact List.getElem?_set_ne (Ne.symm hm)
    · exact List.getElem?_set_self hil
    · intro t0 _ ht0
      rw [ht] at ht0
      simp only [Option.some.injEq] at ht0
      rw [← ht0]
      exact hset
    · intro hcon
      simp at hcon
  | none =>
    rw [addAttributeValue_new hfind, Option.map_eq_some'] at h
    obtain ⟨⟨t1, st⟩, hset, hr⟩ := h
    simp only [Prod.mk.injEq] at hr
    obtain ⟨rfl, rfl⟩ := hr
    have hn1 : t1.pName = name := (setValue_names hset).1
    have hnone := hfind
    rw [findAttribute_eq, List.findIdx?_eq_none_iff] at hnone
    have hnotin : name.map toupper ∉ a.attributeList.map (fun t => t.pName.map toupper) := by
      intro hmem
      have := hnone _ hmem
      simp at this
    refine ⟨Or.inr ⟨rfl, rfl⟩, ?_, ?_, by simp, by simp, ?_, t1, st, ?_,
      setValue_dataType hset, ?_, ?_⟩
    · rw [findAttribute_eq]
      simp only [List.map_append, List.map_cons, List.map_nil, List.findIdx?_append, hn1]
      rw [← findAttribute_eq, hfind]
      simp [List.findIdx?_cons]
    · simp only [List.map_append, List.map_cons, List.map_nil, hn1]
      rw [List.nodup_append]
      refine ⟨hnd, by simp, ?_⟩
      intro x hx hx'
      simp only [List.mem_singleton] at hx'
      exact hnotin (hx' ▸ hx)
    · intro m _ hm
      exact List.getElem?_append_left hm
    · exact List.getElem?_concat_length _ _
    · intro t0 hcon
      simp at hcon
    · intro _
      exact hset

/-- C27. On an array whose attribute names are distinct case-insensitively, for two calls
`addAttribute(name, kind, v1)` and `addAttribute(name', kind, v2)` that return, with
`name'` equal to `name` up to letter case: both return the same position, that of the
attribute of that name before the calls or the end of the list when there was none; the
number of attributes grows by at most 1 and only in the first call; every other attribute
is where it was; the attribute at that position has the name, the kind given and the
value `v2` (the bytes of a numeric kind, the string of the string kind); and it is the
only attribute whose name matches. -/
theorem addAttribute_twice (a a1 a2 : NDArray) (name name' : List Nat)
    (kind : NDAttrDataType) (v1 v2 : Option (List Nat)) (i1 i2 : Nat)
    (hcase : name'.map toupper = name.map toupper)
    (hnd : (a.attributeList.map (fun t => t.pName.map toupper)).Nodup)
    (h1 : a.addAttributeValue name kind v1 = some (a1, i1))
    (h2 : a1.addAttributeValue name' kind v2 = some (a2, i2)) :
    i2 = i1 ∧
    (a.findAttribute name = some i1 ∨
      (a.findAttribute name = none ∧ i1 = a.attributeList.length)) ∧
    a2.numAttributes = a1.numAttributes ∧ a.numAttributes ≤ a2.numAttributes ∧
    a2.numAttributes ≤ a.numAttributes + 1 ∧
    (∀ m, m ≠ i1 → m < a.attributeList.length →
      a2.attributeList[m]? = a.attributeList[m]?) ∧
    (∃ t, a2.attributeList[i1]? = some t ∧ epicsStrCaseEq t.pName name = true ∧
      t.dataType = kind ∧
      (∀ (k : Nat) (mem : List Nat), attrSize kind = some k → v2 = some mem →
        ∀ n, t.getValue kind n = (NDStatus.ND_SUCCESS, mem.take k)) ∧
      (∀ mem : List Nat, kind = NDAttrDataType.NDAttrString → v2 = some mem →
        ∃ s, cString mem = some s ∧ t.getValue kind 0 = (NDStatus.ND_SUCCESS, s ++ [0]))) ∧
    ∀ (m : Nat) (u : NDAttribute), a2.attributeList[m]? = some u →
      epicsStrCaseEq u.pName name = true → m = i1 := by
  obtain ⟨hpos, hfind1, hnd1, hle1, hle2, hother1, t1, st1, ht1, -, -, -⟩ :=
    addAttributeValue_first hnd h1
  have hfind1' : a1.findAttribute name' = some i1 := by
    rw [findAttribute_eq, hcase, ← findAttribute_eq]
    exact hfind1
  have hil : i1 < a1.attributeList.length := (List.getElem?_eq_some_iff.mp ht1).1
  obtain ⟨-, hmatch1, -⟩ := findAttribute_some hfind1
  rw [addAttributeValue_found hfind1' ht1, Option.map_eq_some'] at h2
  obtain ⟨⟨t2, st2⟩, hset, hr⟩ := h2
  simp only [Prod.mk.injEq] at hr
  obtain ⟨rfl, rfl⟩ := hr
  have hn2 : t2.pName = t1.pName := (setValue_names hset).1
  have hnames := @names_set _ _ _ t2 ht1 hn2
  have ht2 : (a1.attributeList.set i1 t2)[i1]? = some t2 := List.getElem?_set_self hil
  have hm1 : epicsStrCaseEq t1.pName name = true := by
    obtain ⟨t, ht, hmt, -⟩ := findAttribute_some hfind1
    rw [ht1] at ht
    simp only [Option.some.injEq] at ht
    rw [ht]
    exact hmt
  have hm2 : epicsStrCaseEq t2.pName name = true := by rw [hn2]; exact hm1
  obtain ⟨hnum, hstr⟩ := setValue_holds hset
  refine ⟨rfl, hpos, by simp [NDArray.numAttributes],
    by simp only [NDArray.numAttributes, List.length_set]; exact hle1,
    by simp only [NDArray.numAttributes, List.length_set]; exact hle2, ?_, ?_, ?_⟩
  · intro m hm hml
    show (a1.attributeList.set i1 t2)[m]? = _
    rw [List.getElem?_set_ne (Ne.symm hm)]
    exact hother1 m hm hml
  · refine ⟨t2, ht2, hm2, setValue_dataType hset, ?_, ?_⟩
    · intro k mem hsz hv
      exact (hnum k mem hsz hv).2.2
    · intro mem hk hv
      obtain ⟨s, hs, -, hg⟩ := hstr mem hk hv
      exact ⟨s, hs, hg⟩
  · intro m u hu hmu
    have hnd2 : ((a1.attributeList.set i1 t2).map (fun t => t.pName.map toupper)).Nodup := by
      rw [hnames]
      exact hnd1
    have e1 : ((a1.attributeList.set i1 t2).map (fun t => t.pName.map toupper))[m]?
        = some (name.map toupper) := by
      rw [List.getElem?_map]
      show Option.map _ (a1.attributeList.set i1 t2)[m]? = _
      have hu' : (a1.attributeList.set i1 t2)[m]? = some u := hu
      rw [hu']
      simp only [Option.map_some', (epicsStrCaseEq_iff _ _).mp hmu]
    have e2 : ((a1.attributeList.set i1 t2).map (fun t => t.pName.map toupper))[i1]?
        = some (name.map toupper) := by
      rw [List.getElem?_map, ht2]
      simp only [Option.map_some', (epicsStrCaseEq_iff _ _).mp hm2]
    exact nodup_index_unique hnd2 e1 e2

/-- C27 on `demoNamed`, whose attributes are "Bar" and "foo": after
`addAttribute("Foo", NDAttrInt32, &5)` and `addAttribute("FOO", NDAttrInt32, &9)` the
attributes are "Bar" with the value 1 and "foo" with the value 9. -/
theorem addAttribute_twice_witness :
    (1 = 1 ∧
    (demoNamed.findAttribute fooMixed = some 1 ∨
      (demoNamed.findAttribute fooMixed = none ∧ 1 = demoNamed.attributeList.length)) ∧
    demoTwice2.numAttributes = demoTwice1.numAttributes ∧
    demoNamed.numAttributes ≤ demoTwice2.numAttributes ∧
    demoTwice2.numAttributes ≤ demoNamed.numAttributes + 1 ∧
    (∀ m, m ≠ 1 → m < demoNamed.attributeList.length →
      demoTwice2.attributeList[m]? = demoNamed.attributeList[m]?) ∧
    (∃ t, demoTwice2.attributeList[1]? = some t ∧ epicsStrCaseEq t.pName fooMixed = true ∧
      t.dataType = NDAttrDataType.NDAttrInt32 ∧
      (∀ (k : Nat) (mem : List Nat), attrSize NDAttrDataType.NDAttrInt32 = some k →
        some [9, 0, 0, 0] = some mem →
        ∀ n, t.getValue NDAttrDataType.NDAttrInt32 n = (NDStatus.ND_SUCCESS, mem.take k)) ∧
      (∀ mem : List Nat, NDAttrDataType.NDAttrInt32 = NDAttrDataType.NDAttrString →
        some [9, 0, 0, 0] = some mem →
        ∃ s, cString mem = some s ∧
          t.getValue NDAttrDataType.NDAttrInt32 0 = (NDStatus.ND_SUCCESS, s ++ [0]))) ∧
    ∀ (m : Nat) (u : NDAttribute), demoTwice2.attributeList[m]? = some u →
      epicsStrCaseEq u.pName fooMixed = true → m = 1) ∧
    demoTwice2.attributeList.map
        (fun t => (t.pName, t.getValue NDAttrDataType.NDAttrInt32 0))
      = [(barName, NDStatus.ND_SUCCESS, [1, 0, 0, 0]),
         (fooLower, NDStatus.ND_SUCCESS, [9, 0, 0, 0])] :=
  ⟨addAttribute_twice demoNamed demoTwice1 demoTwice2 fooMixed fooUpper
    NDAttrDataType.NDAttrInt32 (some [5, 0, 0, 0]) (some [9, 0, 0, 0]) 1 1 (by decide)
    (by decide) (by decide) (by decide), by decide⟩

/-! ## The attribute list: names stay distinct -/

/-- The method `setDescription` does not change the name. -/
theorem setDescription_name {attr attr' : NDAttribute} {d : Option (List Nat)}
    {st : NDStatus} (h : attr.setDescription d = some (attr', st)) :
    attr'.pName = attr.pName := by
  unfold NDAttribute.setDescription at h
  repeat' split at h
  all_goals first
    | (simp at h; done)
    | (simp only [Option.some.injEq, Prod.mk.injEq] at h; rw [← h.1])

/-- The method `addAttribute(pName)` keeps the names distinct and returns a position of
the list. -/
theorem addAttribute_nodup (a : NDArray) (name : List Nat)
    (hnd : (a.attributeList.map (fun t => t.pName.map toupper)).Nodup) :
    ((a.addAttribute name).1.attributeList.map (fun t => t.pName.map toupper)).Nodup := by
  unfold NDArray.addAttribute
  cases hfind : a.findAttribute name with
  | some i => exact hnd
  | none =>
    have hnone := hfind
    rw [findAttribute_eq, List.findIdx?_eq_none_iff] at hnone
    simp only [List.map_append, List.map_cons, List.map_nil, NDAttribute.new]
    rw [List.nodup_append]
    refine ⟨hnd, by simp, ?_⟩
    intro x hx hx'
    simp only [List.mem_singleton] at hx'
    have := hnone x hx
    rw [hx'] at this
    simp at this

/-- The method `addAttribute(pName, pDescription, dataType, pValue)` keeps the names
distinct. -/
theorem addAttributeDesc_nodup {a a' : NDArray} {name : List Nat}
    {d : Option (List Nat)} {kind : NDAttrDataType} {v : Option (List Nat)} {i : Nat}
    (hnd : (a.attributeList.map (fun t => t.pName.map toupper)).Nodup)
    (h : a.addAttributeDesc name d kind v = some (a', i)) :
    (a'.attributeList.map (fun t => t.pName.map toupper)).Nodup := by
  have hadd := addAttribute_nodup a name hnd
  unfold NDArray.addAttributeDesc at h
  split at h
  rename_i a1 j hj
  rw [hj] at hadd
  split at h
  · simp at h
  · rename_i attr hattr
    split at h
    · simp at h
    · rename_i attr1 st1 hd
      split at h
      · simp at h
      · rename_i attr2 st2 hv
        simp only [Option.some.injEq, Prod.mk.injEq] at h
        rw [← h.1]
        have hn : attr2.pName = attr.pName := by
          rw [(setValue_names hv).1, setDescription_name hd]
        simp only [names_set hattr hn]
        exact hadd

/-- The method `addAttribute(pName, dataType, pValue)` keeps the names distinct. -/
theorem addAttributeValue_nodup {a a' : NDArray} {name : List Nat}
    {kind : NDAttrDataType} {v : Option (List Nat)} {i : Nat}
    (hnd : (a.attributeList.map (fun t => t.pName.map toupper)).Nodup)
    (h : a.addAttributeValue name kind v = some (a', i)) :
    (a'.attributeList.map (fun t => t.pName.map toupper)).Nodup :=
  (addAttributeValue_first hnd h).2.2.1

/-- The method `deleteAttribute` keeps the names distinct. -/
theorem deleteAttribute_nodup (a : NDArray) (name : List Nat)
    (hnd : (a.attributeList.map (fun t => t.pName.map toupper)).Nodup) :
    ((a.deleteAttribute name).1.attributeList.map (fun t => t.pName.map toupper)).Nodup := by
  unfold NDArray.deleteAttribute
  cases a.findAttribute name with
  | none => exact hnd
  | some i =>
    exact List.Nodup.sublist
      (List.Sublist.map _ (List.eraseIdx_sublist a.attributeList i)) hnd

/-- The method `copyAttributes` keeps the names of the output distinct, whatever the
attributes of the array it is called on. -/
theorem copyAttributes_nodup {src out out' : NDArray}
    (hnd : (out.attributeList.map (fun t => t.pName.map toupper)).Nodup)
    (h : src.copyAttributes out = some out') :
    (out'.attributeList.map (fun t => t.pName.map toupper)).Nodup := by
  unfold NDArray.copyAttributes at h
  generalize src.attributeList = l at h
  induction l generalizing out with
  | nil =>
    simp only [List.foldlM_nil, Option.pure_def, Option.some.injEq] at h
    rw [← h]
    exact hnd
  | cons t l ih =>
    simp only [List.foldlM_cons, Option.bind_eq_bind] at h
    cases hs : out.addAttributeDesc t.pName t.pDescription t.dataType t.valuePointer with
    | none => simp [hs] at h
    | some r =>
      obtain ⟨o1, i⟩ := r
      simp only [hs, Option.map_some', Option.some_bind] at h
      exact ih (addAttributeDesc_nodup hnd hs) h

/-- Every call of `AttrOp` keeps the names distinct. -/
theorem attrOp_nodup {a a' : NDArray} {op : AttrOp}
    (hnd : (a.attributeList.map (fun t => t.pName.map toupper)).Nodup)
    (h : op.apply a = some a') :
    (a'.attributeList.map (fun t => t.pName.map toupper)).Nodup := by
  cases op with
  | add pName =>
    simp only [AttrOp.apply, Option.some.injEq] at h
    rw [← h]
    exact addAttribute_nodup a pName hnd
  | addValue pName dataType pValue =>
    simp only [AttrOp.apply, Option.map_eq_some'] at h
    obtain ⟨⟨a1, i⟩, h1, rfl⟩ := h
    exact addAttributeValue_nodup hnd h1
  | addDesc pName pDescription dataType pValue =>
    simp only [AttrOp.apply, Option.map_eq_some'] at h
    obtain ⟨⟨a1, i⟩, h1, rfl⟩ := h
    exact addAttributeDesc_nodup hnd h1
  | addFrom pIn =>
    simp only [AttrOp.apply, NDArray.addAttributeFrom, Option.map_eq_some'] at h
    obtain ⟨⟨a1, i⟩, h1, rfl⟩ := h
    exact addAttributeDesc_nodup hnd h1
  | delete pName =>
    simp only [AttrOp.apply, Option.some.injEq] at h
    rw [← h]
    exact deleteAttribute_nodup a pName hnd
  | clear =>
    simp only [AttrOp.apply, Option.some.injEq] at h
    rw [← h]
    simp [NDArray.clearAttributes]
  | copyFrom src =>
    simp only [AttrOp.apply] at h
    exact copyAttributes_nodup hnd h

theorem runAttr_nodup (ops : List AttrOp) :
    ∀ (a a' : NDArray), (a.attributeList.map (fun t => t.pName.map toupper)).Nodup →
      runAttr a ops = some a' →
      (a'.attributeList.map (fun t => t.pName.map toupper)).Nodup := by
  induction ops with
  | nil =>
    intro a a' hnd h
    simp only [runAttr, Option.some.injEq] at h
    rw [← h]
    exact hnd
  | cons op ops ih =>
    intro a a' hnd h
    unfold runAttr at h
    split at h
    · simp at h
    · rename_i a1 h1
      exact ih a1 a' (attrOp_nodup hnd h1) h

/-- C30. For every sequence of calls of the four overloads of `addAttribute`, of
`deleteAttribute`, `clearAttributes` and `copyAttributes` (with the array as output) on an
array that starts without attributes, after every call of the sequence the attribute list
holds no two attributes whose names are equal case-insensitively: two positions whose
names match are the same position. -/
theorem attribute_names_distinct (a0 : NDArray) (ops : List AttrOp)
    (h0 : a0.attributeList = []) :
    ∀ (k : Nat) (a : NDArray), runAttr a0 (ops.take k) = some a →
      (a.attributeList.map (fun t => t.pName.map toupper)).Nodup ∧
      ∀ (i j : Nat) (s t : NDAttribute), a.attributeList[i]? = some s →
        a.attributeList[j]? = some t → epicsStrCaseEq s.pName t.pName = true → i = j := by
  intro k a h
  have hnd := runAttr_nodup (ops.take k) a0 a (by rw [h0]; exact List.nodup_nil) h
  refine ⟨hnd, ?_⟩
  intro i j s t hs ht hst
  have e1 : (a.attributeList.map (fun t => t.pName.map toupper))[i]?
      = some (s.pName.map toupper) := by
    rw [List.getElem?_map, hs]
    rfl
  have e2 : (a.attributeList.map (fun t => t.pName.map toupper))[j]?
      = some (s.pName.map toupper) := by
    rw [List.getElem?_map, ht]
    simp only [Option.map_some', (epicsStrCaseEq_iff _ _).mp hst]
  exact nodup_index_unique hnd e1 e2

/-- C30 on `demoAttrOps`: after each of its calls the names are distinct; at the end the
attributes are "foo" and "Bar". -/
theorem attribute_names_distinct_witness :
    (∀ (k : Nat) (a : NDArray), runAttr NDArray.new (demoAttrOps.take k) = some a →
      (a.attributeList.map (fun t => t.pName.map toupper)).Nodup ∧
      ∀ (i j : Nat) (s t : NDAttribute), a.attributeList[i]? = some s →
        a.attributeList[j]? = some t → epicsStrCaseEq s.pName t.pName = true → i = j) ∧
    runAttr NDArray.new demoAttrOps = some demoAttrFinal ∧
    demoAttrFinal.attributeList.map (fun t => t.pName) = [fooLower, barName] :=
  ⟨attribute_names_distinct NDArray.new demoAttrOps (by decide), by decide, by decide⟩

/-! ## A failing `setValue` -/

/-- C36 as stated fails. The attribute `demoString` has kind `NDAttrString` and
holds the string "abcd".  `setValue(NDAttrInt32, NULL)` returns `ND_ERROR` and leaves the
attribute with kind `NDAttrInt32`: `getValue(NDAttrString, ..)`, which succeeded before
the call, now fails, and `getValue(NDAttrInt32, ..)` succeeds with the 4 bytes of the
integer 7 that the attribute held before the string.  `setValue(kind, pValue)` with a kind outside the enumeration and a readable
`pValue` returns `ND_ERROR` and leaves the attribute with that kind and without its
string.  The bytes of the numeric value are the same in both cases. -/
theorem setValue_error_counterexample :
    demoString.dataType = NDAttrDataType.NDAttrString
      ∧ demoString.pString = some [97, 98, 99, 100]
      ∧ demoString.getValue NDAttrDataType.NDAttrString 0
          = (NDStatus.ND_SUCCESS, [97, 98, 99, 100, 0])
      ∧ (demoString.setValue NDAttrDataType.NDAttrInt32 none).map (fun r => r.2)
          = some NDStatus.ND_ERROR
      ∧ (demoString.setValue NDAttrDataType.NDAttrInt32 none).map (fun r => r.1.dataType)
          = some NDAttrDataType.NDAttrInt32
      ∧ (demoString.setValue NDAttrDataType.NDAttrInt32 none).map
          (fun r => r.1.getValue NDAttrDataType.NDAttrString 0)
          = some (NDStatus.ND_ERROR, [])
      ∧ (demoString.setValue NDAttrDataType.NDAttrInt32 none).map
          (fun r => r.1.getValue NDAttrDataType.NDAttrInt32 4)
          = some (NDStatus.ND_SUCCESS, [7, 0, 0, 0])
      ∧ (demoString.setValue NDAttrDataType.NDAttrInt32 none).map (fun r => r.1.value)
          = some demoString.value
      ∧ (demoString.setValue (NDAttrDataType.other 42) (some [1, 0, 0, 0])).map
          (fun r => r.2) = some NDStatus.ND_ERROR
      ∧ (demoString.setValue (NDAttrDataType.other 42) (some [1, 0, 0, 0])).map
          (fun r => r.1.dataType) = some (NDAttrDataType.other 42)
      ∧ (demoString.setValue (NDAttrDataType.other 42) (some [1, 0, 0, 0])).map
          (fun r => r.1.pString) = some none
      ∧ (demoString.setValue (NDAttrDataType.other 42) (some [1, 0, 0, 0])).map
          (fun r => r.1.value) = some demoString.value := by
  refine ⟨by decide, by decide, by decide, by decide, by decide, by decide, by decide,
    by decide, by decide, by decide, by decide, by decide⟩

/-- C36 as amended. A call `setValue(kind, value)` that returns `ND_ERROR` leaves the
name, the description and the bytes of the numeric value as they were and stores the kind
passed; the call had a null value and a kind other than undefined, and then the string is
kept, or it had a value and a kind outside the known set, and then the attribute has no
string afterwards. -/
theorem setValue_error_state (attr attr' : NDAttribute) (k : NDAttrDataType)
    (v : Option (List Nat)) (h : attr.setValue k v = some (attr', NDStatus.ND_ERROR)) :
    attr'.pName = attr.pName ∧ attr'.pDescription = attr.pDescription ∧
      attr'.value = attr.value ∧ attr'.dataType = k ∧
      ((v = none ∧ k ≠ NDAttrDataType.NDAttrUndefined ∧ attr'.pString = attr.pString) ∨
       (v ≠ none ∧ attrSize k = none ∧ k ≠ NDAttrDataType.NDAttrString ∧
          k ≠ NDAttrDataType.NDAttrUndefined ∧ attr'.pString = none)) := by
  unfold NDAttribute.setValue at h
  simp only at h
  repeat' split at h
  all_goals first
    | (simp at h; done)
    | (simp only [Option.some.injEq, Prod.mk.injEq, and_true] at h
       subst h
       simp_all)

/-- The attribute `demoString` after the failing `setValue(NDAttrInt32, NULL)`: kind
`NDAttrInt32`, the string "abcd" still stored. -/
theorem setValue_error_state_witness :
    demoString.setValue NDAttrDataType.NDAttrInt32 none
        = some ({ demoString with dataType := NDAttrDataType.NDAttrInt32 },
            NDStatus.ND_ERROR) ∧
    ({ demoString with dataType := NDAttrDataType.NDAttrInt32 }).pString
        = some [97, 98, 99, 100] ∧
    ({ demoString with dataType := NDAttrDataType.NDAttrInt32 } : NDAttribute).pName
        = demoString.pName ∧
    ({ demoString with dataType := NDAttrDataType.NDAttrInt32 } : NDAttribute).value
        = demoString.value :=
  ⟨by decide, by decide,
   (setValue_error_state demoString { demoString with dataType := NDAttrDataType.NDAttrInt32 }
     NDAttrDataType.NDAttrInt32 none (by decide)).1,
   (setValue_error_state demoString { demoString with dataType := NDAttrDataType.NDAttrInt32 }
     NDAttrDataType.NDAttrInt32 none (by decide)).2.2.1⟩

/-! ## The counters of the free list -/

theorem allocFind_countInv {w w1 : World} {r : Option Nat} (h : allocFind w = (w1, r))
    (hinv : CountInv w) : CountInv w1 := by
  cases r with
  | none => rw [(allocFind_none h).1]; exact hinv
  | some p =>
    rcases allocFind_some h with ⟨-, rfl⟩ | ⟨-, -, -, rfl⟩
    · exact hinv
    · obtain ⟨h1, h2⟩ := hinv
      refine ⟨?_, ?_⟩
      · simp only [List.length_append, List.length_singleton, Nat.cast_add, Nat.cast_one]
        omega
      · simp only [List.length_append, List.length_singleton, Nat.cast_add, Nat.cast_one]
        omega

theorem countInv_finish {w : World} {p : Nat} (a : NDArray) (hinv : CountInv w)
    (hp : p ∈ w.pool.freeList) : CountInv (allocFinish w p a) := by
  obtain ⟨h1, h2⟩ := hinv
  have hpos : 0 < w.pool.freeList.length := List.length_pos_of_mem hp
  refine ⟨?_, ?_⟩
  · simp only [allocFinish, List.length_erase_of_mem hp]
    omega
  · simp only [allocFinish, List.length_set]
    exact h2

/-- `alloc` keeps the counter invariant, whatever its outcome. -/
theorem alloc_countInv {w w' : World} {ndims : Int} {dims : List Int} {dataType : NDDataType}
    {dataSize : Int} {pData : Option (List Nat)} {r : Option Nat}
    (h : NDArrayPool.alloc w ndims dims dataType dataSize pData = some (w', r))
    (hinv : CountInv w) : CountInv w' := by
  rcases alloc_cases h with ⟨hf, -⟩ | ⟨w1, p, a0, info, hf, ha0, -, -, hcase⟩
  · rw [(allocFind_none hf).1]; exact hinv
  · have hinv1 : CountInv w1 := allocFind_countInv hf hinv
    have hp : p ∈ w1.pool.freeList := allocFind_mem hf
    have hset : ∀ a : NDArray, CountInv { w1 with arrays := w1.arrays.set p a } := by
      intro a
      refine ⟨hinv1.1, ?_⟩
      simp only [List.length_set]
      exact hinv1.2
    rcases hcase with ⟨-, -, rfl⟩ | ⟨-, hb⟩
    · exact hset _
    · rcases allocBuffer_cases hb with ⟨buf, -, -, rfl⟩ | ⟨-, -, -, -, rfl⟩ |
        ⟨-, -, -, -, rfl⟩ | ⟨-, -, -, rfl⟩
      · exact countInv_finish _ hinv1 hp
      · refine ⟨hinv1.1, ?_⟩
        simp only [List.length_set]
        exact hinv1.2
      · exact countInv_finish _ ⟨hinv1.1, hinv1.2⟩ hp
      · exact countInv_finish _ hinv1 hp

theorem reserve_countInv {w w' : World} {p : Nat} {st : NDStatus}
    (h : NDArrayPool.reserve w p = some (w', st)) (hinv : CountInv w) : CountInv w' := by
  unfold NDArrayPool.reserve at h
  split at h
  · simp at h
  · split at h
    · simp only [Option.some.injEq, Prod.mk.injEq] at h
      rw [← h.1]; exact hinv
    · simp only [Option.some.injEq, Prod.mk.injEq] at h
      rw [← h.1]
      refine ⟨hinv.1, ?_⟩
      simp only [List.length_set]
      exact hinv.2

theorem release_countInv {w w' : World} {p : Nat} {st : NDStatus}
    (h : NDArrayPool.release w p = some (w', st)) (hinv : CountInv w) : CountInv w' := by
  unfold NDArrayPool.release at h
  split at h
  · simp at h
  · split at h
    · simp only [Option.some.injEq, Prod.mk.injEq] at h
      rw [← h.1]; exact hinv
    · simp only at h
      obtain ⟨h1, h2⟩ := hinv
      split at h
      · simp only [Option.some.injEq, Prod.mk.injEq] at h
        rw [← h.1]
        refine ⟨?_, ?_⟩
        · simp only [List.length_append, List.length_singleton, Nat.cast_add, Nat.cast_one]
          omega
        · simp only [List.length_set]
          exact h2
      · simp only [Option.some.injEq, Prod.mk.injEq] at h
        rw [← h.1]
        refine ⟨h1, ?_⟩
        simp only [List.length_set]
        exact h2

theorem runWith_validUse_countInv {F : FloatOps} {ops : List PoolOp} {w w' : World}
    (h : runWith validUse F w ops = some w') (hinv : CountInv w) : CountInv w' := by
  induction ops generalizing w with
  | nil =>
    simp only [runWith, Option.some.injEq] at h
    subst h; exact hinv
  | cons op ops ih =>
    obtain ⟨hok, w1, h1, h2⟩ := runWith_cons h
    apply ih h2
    cases op with
    | alloc ndims dims dataType dataSize pData =>
      simp only [PoolOp.apply, Option.map_eq_some'] at h1
      obtain ⟨⟨w2, r⟩, h3, rfl⟩ := h1
      exact alloc_countInv h3 hinv
    | reserve p =>
      simp only [PoolOp.apply, Option.map_eq_some'] at h1
      obtain ⟨⟨w2, r⟩, h3, rfl⟩ := h1
      exact reserve_countInv h3 hinv
    | release p =>
      simp only [PoolOp.apply, Option.map_eq_some'] at h1
      obtain ⟨⟨w2, r⟩, h3, rfl⟩ := h1
      exact release_countInv h3 hinv
    | copy pIn pOut copyData => simp [validUse] at hok
    | convert pIn dataTypeOut dimsOut => simp [validUse] at hok

/-- A list of distinct indices into a list is no longer than that list. -/
theorem nodup_indices_length {α : Type} (arrays : List α) (l : List Nat) (hn : l.Nodup)
    (hlt : ∀ p ∈ l, p < arrays.length) : l.length ≤ arrays.length := by
  have hsub : l ⊆ List.range arrays.length := by
    intro p hp
    exact List.mem_range.mpr (hlt p hp)
  have := (List.subperm_of_subset hn hsub).length_le
  simpa using this

/-- C35. After every sequence of `alloc`, `reserve` and `release` operations on a new
pool in which `reserve` and `release` are only applied to arrays whose reference count is
above 0 at the time of the call, whatever the outcome of each `alloc` (an array, or no
array because of the limit of arrays, a `dataSize` that is too small or the memory
limit), `numFree` is the number of arrays on the free list and `numFree ≤ numBuffers`.
Every prefix of such a sequence is such a sequence, so this holds after every
operation. -/
theorem numFree_counts_freeList (F : FloatOps) (self : Nat) (maxBuffers : Int)
    (maxMemory : Nat) (ops : List PoolOp) (w : World)
    (h : runWith validUse F (World.init self maxBuffers maxMemory) ops = some w) :
    w.pool.numFree = (w.pool.freeList.length : Int) ∧
      w.pool.numFree ≤ w.pool.numBuffers := by
  have hc : CountInv w :=
    runWith_validUse_countInv h (by simp [CountInv, World.init, NDArrayPool.new])
  have hl : ListInv w := runWith_validUse_listInv h (listInv_init self maxBuffers maxMemory)
  refine ⟨hc.1, ?_⟩
  have hlen : w.pool.freeList.length ≤ w.arrays.length := by
    apply nodup_indices_length w.arrays w.pool.freeList hl.1
    intro p hp
    obtain ⟨a, ha, -⟩ := hl.2.1 p hp
    exact (List.getElem?_eq_some_iff.mp ha).1
  rw [hc.1, hc.2]
  exact_mod_cast hlen

/-- After `demoCountOps` on a pool limited to 2 arrays and 30 bytes, array 1 is on the
free list: `numFree = 1` and `numBuffers = 2`. -/
theorem numFree_counts_freeList_witness :
    runWith validUse FloatOps.zero (World.init 7 2 30) demoCountOps = some demoCountFinal ∧
    (demoCountFinal.pool.numFree = (demoCountFinal.pool.freeList.length : Int) ∧
      demoCountFinal.pool.numFree ≤ demoCountFinal.pool.numBuffers) ∧
    demoCountFinal.pool.freeList = [1] ∧ demoCountFinal.pool.numBuffers = 2 :=
  ⟨by decide,
   numFree_counts_freeList FloatOps.zero 7 2 30 demoCountOps demoCountFinal (by decide),
   by decide, by decide⟩

/-! ## The accesses of `convertDim` -/

theorem binLoop_accesses {body : Int → Int → List Nat → Option (List Nat)}
    {vb : Int → Int → List (Int × Int)} {step : List Nat → Int × Int → Option (List Nat)}
    (hb : ∀ pDIn pDOut buf, body pDIn pDOut buf = (vb pDIn pDOut).foldlM step buf)
    (inc pDOut : Int) :
    ∀ (n : Nat) (pDIn : Int) (buf : List Nat),
      binLoop body inc pDOut n pDIn buf
        = ((binAccesses vb inc pDOut n pDIn).foldlM step buf).map
            (fun b => (pDIn + n * inc, b)) := by
  intro n
  induction n with
  | zero =>
    intro pDIn buf
    simp [binLoop, binAccesses]
  | succ n ih =>
    intro pDIn buf
    simp only [binLoop, binAccesses, List.foldlM_append, hb]
    cases h : (vb pDIn pDOut).foldlM step buf with
    | none => simp
    | some b1 =>
      simp only [Option.some_bind, Option.bind_eq_bind]
      rw [ih]
      have : pDIn + inc + (n : Int) * inc = pDIn + ((n + 1 : Nat) : Int) * inc := by
        push_cast; ring
      rw [this]

theorem outLoop_accesses {body : Int → Int → List Nat → Option (List Nat)}
    {vb : Int → Int → List (Int × Int)} {step : List Nat → Int × Int → Option (List Nat)}
    (hb : ∀ pDIn pDOut buf, body pDIn pDOut buf = (vb pDIn pDOut).foldlM step buf)
    (inc outStep : Int) (b : Nat) :
    ∀ (n : Nat) (pDIn pDOut : Int) (buf : List Nat),
      outLoop body inc outStep b n pDIn pDOut buf
        = (outAccesses vb inc outStep b n pDIn pDOut).foldlM step buf := by
  intro n
  induction n with
  | zero =>
    intro pDIn pDOut buf
    simp [outLoop, outAccesses]
  | succ n ih =>
    intro pDIn pDOut buf
    simp only [outLoop, outAccesses, List.foldlM_append, binLoop_accesses hb]
    cases h : (binAccesses vb inc pDOut b pDIn).foldlM step buf with
    | none => simp
    | some b1 =>
      simp only [Option.map_some', Option.some_bind, Option.bind_eq_bind]
      rw [ih]

theorem convertLevel_accesses {inDims outDims : List NDDimension} {dim : Nat}
    {od : NDDimension} (hod : outDims[dim]? = some od)
    {body : Int → Int → List Nat → Option (List Nat)}
    {vb : Int → Int → List (Int × Int)} {step : List Nat → Int × Int → Option (List Nat)}
    (hb : ∀ pDIn pDOut buf, body pDIn pDOut buf = (vb pDIn pDOut).foldlM step buf)
    (pDIn pDOut : Int) (buf : List Nat) :
    convertLevel inDims outDims dim body pDIn pDOut buf
      = (levelAccesses inDims outDims dim vb pDIn pDOut).foldlM step buf := by
  simp only [convertLevel, levelAccesses, hod]
  exact outLoop_accesses hb _ _ _ _ _ _ _

/-- The function `convertDim` executes `*pDOut += (dataTypeOut)*pDIn` at the positions of
`convertDimAccesses`, in that order. -/
theorem convertDim_accesses (F : FloatOps) (tin tout : NDDataType)
    (inDims outDims : List NDDimension) (inBuf : List Nat) :
    ∀ (d : Nat), (∀ e, e ≤ d → ∃ od, outDims[e]? = some od) →
      ∀ (pDIn pDOut : Int) (buf : List Nat),
        convertDim F tin tout inDims outDims inBuf d pDIn pDOut buf
          = (convertDimAccesses inDims outDims d pDIn pDOut).foldlM
              (fun b v => accumulate F tin tout inBuf v.1 v.2 b) buf := by
  intro d
  induction d with
  | zero =>
    intro h pDIn pDOut buf
    obtain ⟨od, hod⟩ := h 0 (le_refl 0)
    simp only [convertDim, convertDimAccesses]
    apply convertLevel_accesses hod
    intro i o b
    simp [List.foldlM]
  | succ d ih =>
    intro h pDIn pDOut buf
    obtain ⟨od, hod⟩ := h (d + 1) (le_refl _)
    simp only [convertDim, convertDimAccesses]
    apply convertLevel_accesses hod
    exact ih (fun e he => h e (by omega))

theorem binAccesses_mem {vb : Int → Int → List (Int × Int)} {inc pDOut : Int}
    {v : Int × Int} :
    ∀ (n : Nat) (pDIn : Int), v ∈ binAccesses vb inc pDOut n pDIn →
      ∃ c : Nat, c < n ∧ v ∈ vb (pDIn + c * inc) pDOut := by
  intro n
  induction n with
  | zero => intro pDIn h; simp [binAccesses] at h
  | succ n ih =>
    intro pDIn h
    simp only [binAccesses, List.mem_append] at h
    rcases h with h | h
    · exact ⟨0, by omega, by simpa using h⟩
    · obtain ⟨c, hc, hv⟩ := ih _ h
      refine ⟨c + 1, by omega, ?_⟩
      have : pDIn + ((c + 1 : Nat) : Int) * inc = pDIn + inc + (c : Int) * inc := by
        push_cast; ring
      rw [this]; exact hv

theorem outAccesses_mem {vb : Int → Int → List (Int × Int)} {inc outStep : Int} {b : Nat}
    {v : Int × Int} :
    ∀ (n : Nat) (pDIn pDOut : Int), v ∈ outAccesses vb inc outStep b n pDIn pDOut →
      ∃ j c : Nat, j < n ∧ c < b ∧
        v ∈ vb (pDIn + ((j : Int) * b + c) * inc) (pDOut + j * outStep) := by
  intro n
  induction n with
  | zero => intro pDIn pDOut h; simp [outAccesses] at h
  | succ n ih =>
    intro pDIn pDOut h
    simp only [outAccesses, List.mem_append] at h
    rcases h with h | h
    · obtain ⟨c, hc, hv⟩ := binAccesses_mem _ _ h
      refine ⟨0, c, by omega, hc, ?_⟩
      simpa using hv
    · obtain ⟨j, c, hj, hc, hv⟩ := ih _ _ h
      refine ⟨j + 1, c, by omega, hc, ?_⟩
      have h1 : pDIn + (((j + 1 : Nat) : Int) * b + c) * inc
          = pDIn + (b : Int) * inc + ((j : Int) * b + c) * inc := by
        push_cast; ring
      have h2 : pDOut + ((j + 1 : Nat) : Int) * outStep
          = pDOut + outStep + (j : Int) * outStep := by
        push_cast; ring
      rw [h1, h2]; exact hv

/-- One level keeps the accesses within the block of the input and the block of the
output it was started on, when the region of the axis lies within the input axis. -/
theorem levelAccesses_range {inDims outDims : List NDDimension} {m : Nat}
    {xd od : NDDimension} (hid : inDims[m]? = some xd) (hod : outDims[m]? = some od)
    (hoff : 0 ≤ od.offset) (hbin : 0 ≤ od.binning)
    (hfit : od.offset + od.size * od.binning ≤ xd.size)
    {vb : Int → Int → List (Int × Int)}
    (hb : ∀ (pDIn pDOut : Int) (v : Int × Int), v ∈ vb pDIn pDOut →
      pDIn ≤ v.1 ∧ v.1 < pDIn + stepOf inDims m ∧
      pDOut ≤ v.2 ∧ v.2 < pDOut + stepOf outDims m)
    (pDIn pDOut : Int) (v : Int × Int)
    (hv : v ∈ levelAccesses inDims outDims m vb pDIn pDOut) :
    pDIn ≤ v.1 ∧ v.1 < pDIn + stepOf inDims (m + 1) ∧
      pDOut ≤ v.2 ∧ v.2 < pDOut + stepOf outDims (m + 1) := by
  simp only [levelAccesses, hod] at hv
  obtain ⟨j, c, hj, hc, hv⟩ := outAccesses_mem _ _ _ hv
  obtain ⟨h1, h2, h3, h4⟩ := hb _ _ v hv
  rw [stepOf_succ hid, stepOf_succ hod]
  generalize stepOf inDims m = sI at h1 h2 hv ⊢
  generalize stepOf outDims m = sO at h3 h4 hv ⊢
  have hsI : 0 < sI := by omega
  have hsO : 0 < sO := by omega
  have hB : ((od.binning.toNat : Nat) : Int) = od.binning := Int.toNat_of_nonneg hbin
  have hjS : (j : Int) < od.size := by omega
  have hcB : (c : Int) < od.binning := by omega
  have hj0 : (0 : Int) ≤ j := Int.ofNat_nonneg j
  have hc0 : (0 : Int) ≤ c := Int.ofNat_nonneg c
  rw [hB] at h1 h2
  have ht0 : 0 ≤ (j : Int) * od.binning + c := by
    have := mul_nonneg hj0 hbin
    omega
  have ht1 : (j : Int) * od.binning + c ≤ od.size * od.binning - 1 := by
    have h5 : (j : Int) * od.binning ≤ (od.size - 1) * od.binning :=
      mul_le_mul_of_nonneg_right (by omega) hbin
    have h6 : (od.size - 1) * od.binning = od.size * od.binning - od.binning := by ring
    omega
  generalize (j : Int) * od.binning + c = t at h1 h2 ht0 ht1
  have hjO : (j : Int) * sO + sO ≤ od.size * sO := by
    have h5 : ((j : Int) + 1) * sO ≤ od.size * sO :=
      mul_le_mul_of_nonneg_right (by omega) (le_of_lt hsO)
    have h6 : ((j : Int) + 1) * sO = (j : Int) * sO + sO := by ring
    omega
  have hjO0 : 0 ≤ (j : Int) * sO := mul_nonneg hj0 (le_of_lt hsO)
  have hout : pDOut ≤ v.2 ∧ v.2 < pDOut + sO * od.size := by
    have : sO * od.size = od.size * sO := by ring
    omega
  refine ⟨?_, ?_, hout.1, hout.2⟩
  · by_cases hr : od.reverse ≠ 0
    · simp only [hr, if_true, ne_eq, not_false_eq_true] at h1
      have hx : 0 ≤ (od.offset + (od.size * od.binning - 1) - t) * sI :=
        mul_nonneg (by omega) (le_of_lt hsI)
      have he : pDIn + (od.offset + (od.size * od.binning - 1)) * sI + t * (-1 * sI)
          = pDIn + (od.offset + (od.size * od.binning - 1) - t) * sI := by ring
      rw [he] at h1
      omega
    · simp only [hr, if_false] at h1
      have hx : 0 ≤ (od.offset + t) * sI := mul_nonneg (by omega) (le_of_lt hsI)
      have he : pDIn + od.offset * sI + t * (1 * sI) = pDIn + (od.offset + t) * sI := by
        ring
      rw [he] at h1
      omega
  · by_cases hr : od.reverse ≠ 0
    · simp only [hr, if_true, ne_eq, not_false_eq_true] at h2
      have hx : (od.offset + (od.size * od.binning - 1) - t + 1) * sI ≤ xd.size * sI :=
        mul_le_mul_of_nonneg_right (by omega) (le_of_lt hsI)
      have he : pDIn + (od.offset + (od.size * od.binning - 1)) * sI + t * (-1 * sI) + sI
          = pDIn + (od.offset + (od.size * od.binning - 1) - t + 1) * sI := by ring
      rw [he] at h2
      have : sI * xd.size = xd.size * sI := by ring
      omega
    · simp only [hr, if_false] at h2
      have hx : (od.offset + t + 1) * sI ≤ xd.size * sI :=
        mul_le_mul_of_nonneg_right (by omega) (le_of_lt hsI)
      have he : pDIn + od.offset * sI + t * (1 * sI) + sI
          = pDIn + (od.offset + t + 1) * sI := by ring
      rw [he] at h2
      have : sI * xd.size = xd.size * sI := by ring
      omega

/-- The accesses of `convertDim` over the dimensions `0..d` stay within the block of the
input and the block of the output it was started on, when on each of these axes the
offset and the binning are not negative and `offset + size * binning` is within the size
of the input axis. -/
theorem convertDimAccesses_range (inDims outDims : List NDDimension) :
    ∀ (d : Nat),
      (∀ e, e ≤ d → ∃ xd od, inDims[e]? = some xd ∧ outDims[e]? = some od ∧
        0 ≤ od.offset ∧ 0 ≤ od.binning ∧ od.offset + od.size * od.binning ≤ xd.size) →
      ∀ (pDIn pDOut : Int) (v : Int × Int),
        v ∈ convertDimAccesses inDims outDims d pDIn pDOut →
        pDIn ≤ v.1 ∧ v.1 < pDIn + stepOf inDims (d + 1) ∧
          pDOut ≤ v.2 ∧ v.2 < pDOut + stepOf outDims (d + 1) := by
  intro d
  induction d with
  | zero =>
    intro h pDIn pDOut v hv
    obtain ⟨xd, od, hid, hod, hoff, hbin, hfit⟩ := h 0 (le_refl 0)
    simp only [convertDimAccesses] at hv
    refine levelAccesses_range hid hod hoff hbin hfit ?_ pDIn pDOut v hv
    intro i o u hu
    simp only [List.mem_singleton] at hu
    subst hu
    simp only [stepOf_zero]
    omega
  | succ d ih =>
    intro h pDIn pDOut v hv
    obtain ⟨xd, od, hid, hod, hoff, hbin, hfit⟩ := h (d + 1) (le_refl _)
    simp only [convertDimAccesses] at hv
    exact levelAccesses_range hid hod hoff hbin hfit
      (ih (fun e he => h e (by omega))) pDIn pDOut v hv

theorem dividedDims_get (tmpl : List NDDimension) (d : Nat) :
    (dividedDims tmpl)[d]? = tmpl[d]?.map (fun t => { t with size := t.size.tdiv t.binning }) := by
  simp [dividedDims]

/-- C34. For input descriptors and a template that on every axis `d < n` has
`binning ≥ 1`, `offset ≥ 0` and `offset + (size / binning) * binning` within the size of
the input axis, with `convertDim` working on the descriptors `convert` computes from the
template (each size divided by the binning): `convertDim` started at dimension `n - 1`
and the element indices 0 executes `*pDOut += *pDIn` exactly at the pairs of
`convertDimAccesses`, and each pair has its input index in `[0, number of input elements)`
and its output index in `[0, number of output elements)`.  The first loop of `convert`
compares no offset with a size: with the template `demoBeyondTemplate` (4 elements from
offset 2) on an axis of 4 elements the pairs are `(2,0), (3,1), (4,2), (5,3)`, so the
input indices 4 and 5 are read; on an input buffer of 4 bytes the call has no defined
behaviour, and on a caller's buffer of 6 bytes it returns `ND_SUCCESS` with the two bytes
behind the array in the output. -/
theorem convertDim_accesses_in_range (inDims tmpl : List NDDimension) (n : Nat)
    (hn : 0 < n)
    (hb : ∀ d, d < n → d < inDims.length ∧ d < tmpl.length ∧
      1 ≤ (tmpl.getD d NDDimension.zero).binning ∧
      0 ≤ (tmpl.getD d NDDimension.zero).offset ∧
      (tmpl.getD d NDDimension.zero).offset
        + ((tmpl.getD d NDDimension.zero).size.tdiv (tmpl.getD d NDDimension.zero).binning)
          * (tmpl.getD d NDDimension.zero).binning
        ≤ (inDims.getD d NDDimension.zero).size) :
    (∀ (F : FloatOps) (tin tout : NDDataType) (inBuf outBuf : List Nat),
      convertDim F tin tout inDims (dividedDims tmpl) inBuf (n - 1) 0 0 outBuf
        = (convertDimAccesses inDims (dividedDims tmpl) (n - 1) 0 0).foldlM
            (fun b v => accumulate F tin tout inBuf v.1 v.2 b) outBuf) ∧
    (∀ v ∈ convertDimAccesses inDims (dividedDims tmpl) (n - 1) 0 0,
      0 ≤ v.1 ∧ v.1 < stepOf inDims n ∧ 0 ≤ v.2 ∧ v.2 < stepOf (dividedDims tmpl) n) ∧
    (convertDimAccesses demoWideArray.dims (dividedDims demoBeyondTemplate) 0 0 0
        = [(2, 0), (3, 1), (4, 2), (5, 3)]
      ∧ stepOf demoWideArray.dims 1 = 4
      ∧ NDArrayPool.convert FloatOps.zero demoNarrowIn 0 NDDataType.NDInt8
          demoBeyondTemplate = none
      ∧ (NDArrayPool.convert FloatOps.zero demoWideIn 0 NDDataType.NDInt8
          demoBeyondTemplate).map (fun r => (r.2, r.1.arrays[1]?.bind (fun a => a.pData)))
        = some ((some 1, NDStatus.ND_SUCCESS), some [3, 4, 99, 98])) := by
  have hdims : ∀ e, e ≤ n - 1 → ∃ xd od, inDims[e]? = some xd ∧
      (dividedDims tmpl)[e]? = some od ∧ 0 ≤ od.offset ∧ 0 ≤ od.binning ∧
      od.offset + od.size * od.binning ≤ xd.size := by
    intro e he
    obtain ⟨h1, h2, h3, h4, h5⟩ := hb e (by omega)
    have hx : inDims[e]? = some (inDims.getD e NDDimension.zero) := by
      simp [List.getD_eq_getElem?_getD, List.getElem?_eq_getElem h1]
    have ht : tmpl[e]? = some (tmpl.getD e NDDimension.zero) := by
      simp [List.getD_eq_getElem?_getD, List.getElem?_eq_getElem h2]
    refine ⟨_, { tmpl.getD e NDDimension.zero with
      size := (tmpl.getD e NDDimension.zero).size.tdiv
        (tmpl.getD e NDDimension.zero).binning }, hx, ?_, ?_, ?_, ?_⟩
    · rw [dividedDims_get, ht]; rfl
    · exact h4
    · simp only; omega
    · exact h5
  have hn1 : n - 1 + 1 = n := by omega
  refine ⟨?_, ?_, ?_⟩
  · intro F tin tout inBuf outBuf
    apply convertDim_accesses
    intro e he
    obtain ⟨_, od, -, hod, -⟩ := hdims e he
    exact ⟨od, hod⟩
  · intro v hv
    have := convertDimAccesses_range inDims (dividedDims tmpl) (n - 1) hdims 0 0 v hv
    rw [hn1] at this
    omega
  · refine ⟨by decide, by decide, by decide, by decide⟩

/-- C34 on the 4 x 3 array of `demoBinIn` and the template that bins axis 0 by 2: the
conversion makes 12 accesses, and their indices lie below 12 in the input and below 6 in
the output. -/
theorem convertDim_accesses_in_range_witness :
    (convertDimAccesses demoBinArray.dims (dividedDims demoBinTemplate) 1 0 0).length = 12 ∧
    stepOf demoBinArray.dims 2 = 12 ∧ stepOf (dividedDims demoBinTemplate) 2 = 6 ∧
    ∀ v ∈ convertDimAccesses demoBinArray.dims (dividedDims demoBinTemplate) (2 - 1) 0 0,
      0 ≤ v.1 ∧ v.1 < stepOf demoBinArray.dims 2 ∧
        0 ≤ v.2 ∧ v.2 < stepOf (dividedDims demoBinTemplate) 2 :=
  ⟨by decide, by decide, by decide,
   (convertDim_accesses_in_range demoBinArray.dims demoBinTemplate 2 (by decide)
    (by decide)).2.1⟩

/-! ## The sum over the bins -/

theorem sumLoop_reindex (f : Int → Option Int) (inc q : Int) :
    ∀ (k : Nat) (c0 : Int),
      sumLoop f inc k (q + c0 * inc) = sumLoop (fun c => f (q + c * inc)) 1 k c0 := by
  intro k
  induction k with
  | zero => intro c0; rfl
  | succ k ih =>
    intro c0
    simp only [sumLoop]
    have h : q + c0 * inc + inc = q + (c0 + 1) * inc := by ring
    rw [h, ih]

theorem flatIndex_update (dims : List NDDimension) (x : Nat → Int) (k : Nat) (v : Int) :
    ∀ n : Nat, k < n →
      flatIndex dims (Function.update x k v) n
        = flatIndex dims x n + (v - x k) * stepOf dims k := by
  intro n
  induction n with
  | zero => intro h; omega
  | succ n ih =>
    intro h
    simp only [flatIndex]
    by_cases hk : k = n
    · subst hk
      have h1 : flatIndex dims (Function.update x k v) k = flatIndex dims x k := by
        apply flatIndex_ext
        intro e he
        exact Function.update_noteq (by omega) _ _
      rw [h1, Function.update_same]
      ring
    · rw [ih (by omega), Function.update_noteq (Ne.symm hk)]
      ring

/-- The sum `gather` describes, which follows the pointers of `convertDim`, is the sum
over the bins of the input elements at the multi-indices of `specBinPosition`. -/
theorem gather_eq_specBinnedSum (tin : NDDataType) (inDims outDims : List NDDimension)
    (inBuf : List Nat) (n : Nat) (j : Nat → Int) :
    ∀ (m : Nat), m ≤ n → ∀ x : Nat → Int,
      gather tin inDims outDims inBuf j m (flatIndex inDims x n - flatIndex inDims x m)
        = specBinnedSum tin inDims outDims inBuf n j m x := by
  intro m
  induction m with
  | zero =>
    intro _ x
    simp [gather, specBinnedSum, flatIndex]
  | succ m ih =>
    intro hm x
    simp only [gather, specBinnedSum]
    cases hod : outDims[m]? with
    | none => rfl
    | some od =>
      simp only
      by_cases hz : od.binning.toNat = 0
      · rw [hz]; rfl
      · have hB : ((od.binning.toNat : Nat) : Int) = od.binning :=
          Int.toNat_of_nonneg (by omega)
        have hstart : ∀ q : Int, q = q + 0 * ((if od.reverse ≠ 0 then -1 else 1)
            * stepOf inDims m) := by intro q; ring
        rw [hstart (flatIndex inDims x n - flatIndex inDims x (m + 1) + _ + _),
          sumLoop_reindex]
        congr 1
        funext c
        rw [← ih (by omega) (Function.update x m (specBinPosition od (j m) c))]
        congr 1
        have h1 : flatIndex inDims (Function.update x m (specBinPosition od (j m) c)) m
            = flatIndex inDims x m := by
          apply flatIndex_ext
          intro e he
          exact Function.update_noteq (by omega) _ _
        rw [h1, flatIndex_update inDims x m _ n (by omega), hB]
        simp only [flatIndex, specBinPosition]
        by_cases hr : od.reverse ≠ 0
        · simp only [hr, if_true, ne_eq, not_false_eq_true]; ring
        · simp only [hr, if_false]; ring

theorem elem_in_buffer {bpe N i : Int} {len : Nat} (hbpe : 0 ≤ bpe) (h0 : 0 ≤ i)
    (h1 : i < N) (hlen : N * bpe ≤ len) : (i.toNat + 1) * bpe.toNat ≤ len := by
  have h2 : (i + 1) * bpe ≤ N * bpe := mul_le_mul_of_nonneg_right (by omega) hbpe
  have h3 : (((i.toNat + 1) * bpe.toNat : Nat) : Int) = (i + 1) * bpe := by
    push_cast
    rw [Int.toNat_of_nonneg h0, Int.toNat_of_nonneg hbpe]
  have h4 : (((i.toNat + 1) * bpe.toNat : Nat) : Int) ≤ (len : Int) := by
    rw [h3]; omega
  exact_mod_cast h4

theorem accumulate_total (F : FloatOps) {tin tout : NDDataType} {bi bo : Int}
    (hbi : bytesPerElement tin = some bi) (hbo : bytesPerElement tout = some bo)
    (inBuf buf : List Nat) (i o : Int)
    (hi : 0 ≤ i ∧ (i.toNat + 1) * bi.toNat ≤ inBuf.length)
    (ho : 0 ≤ o ∧ (o.toNat + 1) * bo.toNat ≤ buf.length) :
    ∃ out, accumulate F tin tout inBuf i o buf = some out ∧ out.length = buf.length := by
  have hx : ∃ x, readElem tin inBuf i = some x := by
    unfold readElem
    simp only [hbi, hi.1, hi.2, and_self, if_true]
    split <;> exact ⟨_, rfl⟩
  have hy : ∃ y, readElem tout buf o = some y := by
    unfold readElem
    simp only [hbo, ho.1, ho.2, and_self, if_true]
    split <;> exact ⟨_, rfl⟩
  obtain ⟨x, hx⟩ := hx
  obtain ⟨y, hy⟩ := hy
  have hw : ∃ out, writeElem tout buf o (addElem F tout y (castElem F tin tout x))
      = some out := by
    unfold writeElem
    simp only [hbo, ho.1, ho.2, and_self, if_true]
    exact ⟨_, rfl⟩
  obtain ⟨out, hw⟩ := hw
  refine ⟨out, ?_, writeElem_length hw⟩
  simp only [accumulate, hx, hy, hw]

/-- Accesses within the elements of the two buffers are all executed. -/
theorem accesses_total (F : FloatOps) {tin tout : NDDataType} {bi bo : Int}
    (hbi : bytesPerElement tin = some bi) (hbo : bytesPerElement tout = some bo)
    (hbi0 : 0 ≤ bi) (hbo0 : 0 ≤ bo) (inBuf : List Nat) (nIn nOut : Int)
    (hin : nIn * bi ≤ inBuf.length) :
    ∀ (vs : List (Int × Int)) (buf : List Nat),
      (∀ v ∈ vs, 0 ≤ v.1 ∧ v.1 < nIn ∧ 0 ≤ v.2 ∧ v.2 < nOut) →
      nOut * bo ≤ buf.length →
      ∃ out, vs.foldlM (fun b v => accumulate F tin tout inBuf v.1 v.2 b) buf = some out ∧
        out.length = buf.length := by
  intro vs
  induction vs with
  | nil => intro buf _ _; exact ⟨buf, rfl, rfl⟩
  | cons v vs ih =>
    intro buf hv hout
    obtain ⟨h1, h2, h3, h4⟩ := hv v (List.mem_cons_self _ _)
    obtain ⟨b1, hb1, hl1⟩ := accumulate_total F hbi hbo inBuf buf v.1 v.2
      ⟨h1, elem_in_buffer hbi0 h1 h2 hin⟩ ⟨h3, elem_in_buffer hbo0 h3 h4 hout⟩
    obtain ⟨out, ho, hl⟩ := ih b1 (fun u hu => hv u (List.mem_cons_of_mem _ hu))
      (by rw [hl1]; exact hout)
    refine ⟨out, ?_, by rw [hl, hl1]⟩
    simp only [List.foldlM_cons, hb1, Option.some_bind, Option.bind_eq_bind]
    exact ho

theorem convertDimension_int (F : FloatOps) {tin tout : NDDataType} {bitsIn bits : Nat}
    {signedIn signed : Bool} (hkin : intKind tin = some (bitsIn, signedIn))
    (hk : intKind tout = some (bits, signed)) (inDims outDims : List NDDimension)
    (inBuf outBuf : List Nat) (pDataIn pDataOut dim : Int) (hdim : 0 ≤ dim) :
    convertDimension F tin tout inDims outDims inBuf outBuf pDataIn pDataOut dim
      = (convertDim F tin tout inDims outDims inBuf dim.toNat pDataIn pDataOut outBuf).map
          (fun b => (NDStatus.ND_SUCCESS, b)) := by
  unfold convertDimension convertDimensionSwitch
  cases tin <;> simp only [intKind, reduceCtorEq] at hkin <;>
    cases tout <;> simp only [intKind, reduceCtorEq] at hk <;>
    simp [hdim, Option.map_map, Function.comp_def]

/-- C33. For integer kinds, descriptors of `n ≥ 1` dimensions with, on every axis,
`binning ≥ 1`, `offset ≥ 0` and `offset + size * binning` within the size of the input
axis (`size` being the size of the output axis), an input buffer that holds the elements
of the input and an output buffer of zero bytes that holds the elements of the output:
`convertDimension` started at dimension `n - 1` returns `ND_SUCCESS`, and the output
element at every multi-index `j` within the output sizes is the sum `specBinnedSum`, over all
bins `c` with `0 ≤ c d < binning d`, of the input element at the multi-index `x` with
`x d = offset + j d * binning + c d` without reversal and
`x d = offset + size * binning - 1 - (j d * binning + c d)` with reversal, reduced to the
output kind; the elements are located by `flatIndex`, with the products of the sizes of
the lower axes as strides. -/
theorem convertDimension_binned_sum (F : FloatOps) (tin tout : NDDataType)
    (bitsIn bits : Nat) (signedIn signed : Bool) (bpeIn bpeOut : Int)
    (hkin : intKind tin = some (bitsIn, signedIn))
    (hk : intKind tout = some (bits, signed))
    (hbi : bytesPerElement tin = some bpeIn) (hbo : bytesPerElement tout = some bpeOut)
    (inDims outDims : List NDDimension) (inBuf : List Nat) (k n : Nat) (hn : 0 < n)
    (hd : ∀ d, d < n → d < inDims.length ∧ d < outDims.length ∧
      1 ≤ (outDims.getD d NDDimension.zero).binning ∧
      0 ≤ (outDims.getD d NDDimension.zero).offset ∧
      (outDims.getD d NDDimension.zero).offset
        + (outDims.getD d NDDimension.zero).size * (outDims.getD d NDDimension.zero).binning
        ≤ (inDims.getD d NDDimension.zero).size)
    (hin : stepOf inDims n * bpeIn ≤ inBuf.length)
    (hout : stepOf outDims n * bpeOut ≤ k) :
    ∃ out,
      convertDimension F tin tout inDims outDims inBuf (List.replicate k 0) 0 0
          ((n : Int) - 1) = some (NDStatus.ND_SUCCESS, out) ∧
      ∀ j : Nat → Int, validIndex outDims j n →
        ∃ g, specBinnedSum tin inDims outDims inBuf n j n (fun _ => 0) = some g ∧
          readElem tout out (flatIndex outDims j n) = some (wrapInt bits signed g) := by
  have hn1 : n - 1 + 1 = n := by omega
  have hdims : ∀ e, e ≤ n - 1 → ∃ xd od, inDims[e]? = some xd ∧
      outDims[e]? = some od ∧ 0 ≤ od.offset ∧ 0 ≤ od.binning ∧
      od.offset + od.size * od.binning ≤ xd.size := by
    intro e he
    obtain ⟨h1, h2, h3, h4, h5⟩ := hd e (by omega)
    have hx : inDims[e]? = some (inDims.getD e NDDimension.zero) := by
      simp [List.getD_eq_getElem?_getD, List.getElem?_eq_getElem h1]
    have ht : outDims[e]? = some (outDims.getD e NDDimension.zero) := by
      simp [List.getD_eq_getElem?_getD, List.getElem?_eq_getElem h2]
    exact ⟨_, _, hx, ht, h4, by omega, h5⟩
  obtain ⟨bi, hbi1, hbi2⟩ := intKind_bytes hkin
  obtain ⟨bo, hbo1, hbo2⟩ := intKind_bytes hk
  rw [hbi] at hbi1
  rw [hbo] at hbo1
  simp only [Option.some.injEq] at hbi1 hbo1
  subst hbi1 hbo1
  have hrange := convertDimAccesses_range inDims outDims (n - 1) hdims 0 0
  rw [hn1] at hrange
  obtain ⟨out, hfold, hlen⟩ := accesses_total F hbi hbo (by omega) (by omega) inBuf
    (stepOf inDims n) (stepOf outDims n) hin
    (convertDimAccesses inDims outDims (n - 1) 0 0) (List.replicate k 0)
    (fun v hv => by have := hrange v hv; omega)
    (by simpa using hout)
  have hcd : convertDim F tin tout inDims outDims inBuf (n - 1) 0 0 (List.replicate k 0)
      = some out := by
    rw [convertDim_accesses F tin tout inDims outDims inBuf (n - 1)
      (fun e he => by obtain ⟨_, od, -, hod, -⟩ := hdims e he; exact ⟨od, hod⟩)]
    exact hfold
  have hnat : ((n : Int) - 1).toNat = n - 1 := by omega
  refine ⟨out, ?_, ?_⟩
  · rw [convertDimension_int F hkin hk _ _ _ _ _ _ _ (by omega), hnat, hcd]
    rfl
  · intro j hj
    have hpos : ∀ e, e ≤ n - 1 → ∃ od, outDims[e]? = some od ∧ 0 < od.size := by
      intro e he
      obtain ⟨od, hod, h0, h1⟩ := hj e (by omega)
      exact ⟨od, hod, by omega⟩
    have hspec := convertDim_spec F hkin hk inDims outDims inBuf (n - 1) hpos
    rw [hn1] at hspec
    obtain ⟨-, hsum⟩ := hspec 0 0 (List.replicate k 0) out hcd
    obtain ⟨hf0, hf1⟩ := flatIndex_range hj
    have hzero : readElem tout (List.replicate k 0) (0 + flatIndex outDims j n) = some 0 := by
      have := readElem_zero hk hbo k [] (0 + flatIndex outDims j n) (by omega)
        (elem_in_buffer (by omega) (by omega) (by omega : 0 + flatIndex outDims j n
          < stepOf outDims n) hout)
      simpa using this
    obtain ⟨g, hg, hr⟩ := hsum j hj 0 hzero
    refine ⟨g, ?_, ?_⟩
    · rw [← gather_eq_specBinnedSum tin inDims outDims inBuf n j n (le_refl n) (fun _ => 0)]
      simpa using hg
    · simpa using hr

/-- C33 on the 4 x 3 array of `demoBinIn` (element `(i0, i1)` is `10 * i0 + i1`), binned
by 2 along axis 0 into unsigned 16-bit integers: the output holds `10, 50` for `i1 = 0`,
`12, 52` for `i1 = 1` and `14, 54` for `i1 = 2`. -/
theorem convertDimension_binned_sum_witness :
    (∃ out,
      convertDimension FloatOps.zero NDDataType.NDUInt8 NDDataType.NDUInt16
          demoBinArray.dims (dividedDims demoBinTemplate)
          [0, 10, 20, 30, 1, 11, 21, 31, 2, 12, 22, 32] (List.replicate 12 0) 0 0
          (((2 : Nat) : Int) - 1) = some (NDStatus.ND_SUCCESS, out) ∧
      ∀ j : Nat → Int, validIndex (dividedDims demoBinTemplate) j 2 →
        ∃ g, specBinnedSum NDDataType.NDUInt8 demoBinArray.dims (dividedDims demoBinTemplate)
              [0, 10, 20, 30, 1, 11, 21, 31, 2, 12, 22, 32] 2 j 2 (fun _ => 0) = some g ∧
          readElem NDDataType.NDUInt16 out (flatIndex (dividedDims demoBinTemplate) j 2)
            = some (wrapInt 16 false g)) ∧
    convertDimension FloatOps.zero NDDataType.NDUInt8 NDDataType.NDUInt16
        demoBinArray.dims (dividedDims demoBinTemplate)
        [0, 10, 20, 30, 1, 11, 21, 31, 2, 12, 22, 32] (List.replicate 12 0) 0 0 1
      = some (NDStatus.ND_SUCCESS, [10, 0, 50, 0, 12, 0, 52, 0, 14, 0, 54, 0]) ∧
    specBinnedSum NDDataType.NDUInt8 demoBinArray.dims (dividedDims demoBinTemplate)
        [0, 10, 20, 30, 1, 11, 21, 31, 2, 12, 22, 32] 2
        (fun e => if e = 0 then 1 else 2) 2 (fun _ => 0) = some 54 :=
  ⟨convertDimension_binned_sum FloatOps.zero NDDataType.NDUInt8 NDDataType.NDUInt16 8 16
    false false 1 2 (by decide) (by decide) (by decide) (by decide) demoBinArray.dims
    (dividedDims demoBinTemplate) [0, 10, 20, 30, 1, 11, 21, 31, 2, 12, 22, 32] 12 2
    (by decide) (by decide) (by decide) (by decide), by decide, by decide⟩

/-! ## `copyAttributes` onto an array that has attributes -/

/-- The method `setDescription`, when it returns, stores the description it is given and
keeps the name. -/
theorem setDescription_stores {attr attr' : NDAttribute} {d : Option (List Nat)}
    {st : NDStatus} (h : attr.setDescription d = some (attr', st)) :
    attr'.pName = attr.pName ∧ attr'.pDescription = d := by
  unfold NDAttribute.setDescription at h
  repeat' split at h
  all_goals first
    | (simp at h; done)
    | (simp only [Option.some.injEq, Prod.mk.injEq] at h
       obtain ⟨rfl, -⟩ := h
       simp_all)

/-- The value `copyAttributes` hands to `setValue` on an attribute of the destination:
afterwards the attribute reads as the source attribute does, when a source attribute of
the string kind holds a string. -/
theorem setValue_copy_same {t t1 b : NDAttribute} {st : NDStatus}
    (hstr : ∀ s, t.pString = some s → 0 ∉ s)
    (hhas : t.dataType = NDAttrDataType.NDAttrString → t.pString ≠ none)
    (h : t1.setValue t.dataType t.valuePointer = some (b, st)) :
    b.pName = t1.pName ∧ b.pDescription = t1.pDescription ∧ b.dataType = t.dataType ∧
      ∀ ty n, b.getValue ty n = t.getValue ty n := by
  refine ⟨(setValue_names h).1, (setValue_names h).2, setValue_dataType h, ?_⟩
  unfold NDAttribute.setValue NDAttribute.valuePointer at h
  by_cases hk : t.dataType = NDAttrDataType.NDAttrString
  · simp only [hk, if_true] at h
    cases hp : t.pString with
    | none => exact absurd hp (hhas hk)
    | some s =>
      have h0 := hstr s hp
      simp only [hp, Option.map_some', cString_append_zero s h0] at h
      intro ty n
      split at h
      · rename_i hsame
        simp only [Option.some.injEq, Prod.mk.injEq] at h
        obtain ⟨rfl, -⟩ := h
        simp [NDAttribute.getValue, hk, hp, attrSize, hsame.2]
      · simp only [Option.some.injEq, Prod.mk.injEq] at h
        obtain ⟨rfl, -⟩ := h
        simp [NDAttribute.getValue, hk, hp, attrSize]
  · simp only [hk, if_false] at h
    cases hsz : attrSize t.dataType with
    | none =>
      simp only [hsz] at h
      intro ty n
      split at h
      · simp only [Option.some.injEq, Prod.mk.injEq] at h
        obtain ⟨rfl, -⟩ := h
        simp [NDAttribute.getValue, hk, hsz]
      · simp only [Option.some.injEq, Prod.mk.injEq] at h
        obtain ⟨rfl, -⟩ := h
        simp [NDAttribute.getValue, hk, hsz]
    | some k =>
      simp only [hsz] at h
      intro ty n
      split at h
      · rename_i hlen
        simp only [Option.some.injEq, Prod.mk.injEq] at h
        obtain ⟨rfl, -⟩ := h
        simp only [NDAttribute.getValue, hsz]
        split
        · rfl
        · congr 1
          rw [List.take_append_of_le_length (by simp only [List.length_take]; omega)]
          simp
      · simp at h

/-- One step of `copyAttributes`: the attribute of the destination with the name of the
source attribute `s`, found at its position or appended, reads as `s` afterwards; a found
attribute keeps its name and its position. -/
theorem addAttributeDesc_step {o o1 : NDArray} {s : NDAttribute} {i : Nat}
    (hstr : ∀ x, s.pString = some x → 0 ∉ x)
    (hhas : s.dataType = NDAttrDataType.NDAttrString → s.pString ≠ none)
    (h : o.addAttributeDesc s.pName s.pDescription s.dataType s.valuePointer
      = some (o1, i)) :
    ∃ b, sameContent s b ∧
      ((o.findAttribute s.pName = some i ∧ i < o.attributeList.length ∧
          (∃ t0, o.attributeList[i]? = some t0 ∧ b.pName = t0.pName ∧
            epicsStrCaseEq t0.pName s.pName = true) ∧
          o1.attributeList = o.attributeList.set i b) ∨
       (o.findAttribute s.pName = none ∧ i = o.attributeList.length ∧
          b.pName = s.pName ∧ o1.attributeList = o.attributeList ++ [b])) := by
  unfold NDArray.addAttributeDesc NDArray.addAttribute at h
  cases hfind : o.findAttribute s.pName with
  | some i0 =>
    obtain ⟨t0, ht0, hmatch, -⟩ := findAttribute_some hfind
    have hil : i0 < o.attributeList.length := (List.getElem?_eq_some_iff.mp ht0).1
    simp only [hfind, ht0] at h
    split at h
    · simp at h
    · rename_i t1 st1 hd
      split at h
      · simp at h
      · rename_i b st2 hv
        simp only [Option.some.injEq, Prod.mk.injEq] at h
        obtain ⟨rfl, rfl⟩ := h
        obtain ⟨hn1, hd1⟩ := setDescription_stores hd
        obtain ⟨hn2, hd2, hk2, hv2⟩ := setValue_copy_same hstr hhas hv
        refine ⟨b, ⟨by rw [hd2, hd1], hk2, hv2⟩, Or.inl ⟨rfl, hil, ⟨t0, ht0, ?_, hmatch⟩, rfl⟩⟩
        rw [hn2, hn1]
  | none =>
    simp only [hfind, List.getElem?_concat_length] at h
    split at h
    · simp at h
    · rename_i t1 st1 hd
      split at h
      · simp at h
      · rename_i b st2 hv
        simp only [Option.some.injEq, Prod.mk.injEq] at h
        obtain ⟨rfl, rfl⟩ := h
        obtain ⟨hn1, hd1⟩ := setDescription_stores hd
        obtain ⟨hn2, hd2, hk2, hv2⟩ := setValue_copy_same hstr hhas hv
        refine ⟨b, ⟨by rw [hd2, hd1], hk2, hv2⟩, Or.inr ⟨rfl, rfl, ?_, ?_⟩⟩
        · rw [hn2, hn1]; rfl
        · show (o.attributeList ++ [_]).set o.attributeList.length b = o.attributeList ++ [b]
          rw [List.set_append_right _ _ (le_refl _)]
          simp

theorem map_set_same {α β : Type} (f : α → β) {l : List α} {i : Nat} {t t' : α}
    (ht : l[i]? = some t) (hf : f t' = f t) : (l.set i t').map f = l.map f := by
  apply List.ext_getElem?
  intro m
  by_cases hm : m = i
  · subst hm
    have hil : m < l.length := (List.getElem?_eq_some_iff.mp ht).1
    rw [List.getElem?_map, List.getElem?_map, List.getElem?_set_self hil, ht]
    simp only [Option.map_some', hf]
  · rw [List.getElem?_map, List.getElem?_map, List.getElem?_set_ne (Ne.symm hm)]

theorem findAttribute_none_iff (a : NDArray) (name : List Nat) :
    a.findAttribute name = none ↔
      name.map toupper ∉ a.attributeList.map (fun t => t.pName.map toupper) := by
  rw [findAttribute_eq, List.findIdx?_eq_none_iff]
  constructor
  · intro h hmem
    have := h _ hmem
    simp at this
  · intro h x hx
    simp only [beq_eq_false_iff_ne, ne_eq]
    intro heq
    exact h (heq ▸ hx)

/-- The loop of `copyAttributes` over source attributes `l` whose names differ from one
another and from those of the attributes `done` already copied, on a destination that
started as `D`. -/
theorem copyAttributes_appends_loop (D : NDArray) (l : List NDAttribute) :
    ∀ (done : List NDAttribute) (o o' : NDArray),
      o.attributeList.map (fun t => t.pName)
        = D.attributeList.map (fun t => t.pName)
          ++ (done.filter (fun s => (D.findAttribute s.pName).isNone)).map
              (fun t => t.pName) →
      (∀ (i : Nat) (t : NDAttribute), D.attributeList[i]? = some t →
        (∀ s ∈ done, epicsStrCaseEq s.pName t.pName = false) →
        o.attributeList[i]? = some t) →
      (∀ s ∈ done, ∃ i b, o.findAttribute s.pName = some i ∧
        o.attributeList[i]? = some b ∧ sameContent s b) →
      ((done ++ l).map (fun t => t.pName.map toupper)).Nodup →
      (∀ t ∈ l, ∀ x, t.pString = some x → 0 ∉ x) →
      (∀ t ∈ l, t.dataType = NDAttrDataType.NDAttrString → t.pString ≠ none) →
      l.foldlM
        (fun o attr =>
          (o.addAttributeDesc attr.pName attr.pDescription attr.dataType
            attr.valuePointer).map Prod.fst) o = some o' →
      o'.attributeList.map (fun t => t.pName)
        = D.attributeList.map (fun t => t.pName)
          ++ ((done ++ l).filter (fun s => (D.findAttribute s.pName).isNone)).map
              (fun t => t.pName) ∧
      (∀ (i : Nat) (t : NDAttribute), D.attributeList[i]? = some t →
        (∀ s ∈ done ++ l, epicsStrCaseEq s.pName t.pName = false) →
        o'.attributeList[i]? = some t) ∧
      (∀ s ∈ done ++ l, ∃ i b, o'.findAttribute s.pName = some i ∧
        o'.attributeList[i]? = some b ∧ sameContent s b) := by
  induction l with
  | nil =>
    intro done o o' hN hF hI _ _ _ h
    simp only [List.foldlM_nil, Option.pure_def, Option.some.injEq] at h
    subst h
    simp only [List.append_nil]
    exact ⟨hN, hF, hI⟩
  | cons s l ih =>
    intro done o o' hN hF hI hnd hstr hhas h
    simp only [List.foldlM_cons, Option.bind_eq_bind] at h
    cases hs : o.addAttributeDesc s.pName s.pDescription s.dataType s.valuePointer with
    | none => simp [hs] at h
    | some r =>
      obtain ⟨o1, i⟩ := r
      simp only [hs, Option.map_some', Option.some_bind] at h
      obtain ⟨b, hb, hcase⟩ := addAttributeDesc_step
        (fun x hx => hstr s (List.mem_cons_self s l) x hx)
        (hhas s (List.mem_cons_self s l)) hs
      -- the name of `s` differs from the names already copied
      have hnew : ∀ s' ∈ done, s'.pName.map toupper ≠ s.pName.map toupper := by
        intro s' hs' heq
        rw [List.map_append, List.map_cons] at hnd
        have hdis := (List.nodup_append.mp hnd).2.2
        exact hdis (List.mem_map_of_mem (fun t => t.pName.map toupper) hs')
          (heq ▸ List.mem_cons_self _ _) 
      have hU : o.attributeList.map (fun t => t.pName.map toupper)
          = D.attributeList.map (fun t => t.pName.map toupper)
            ++ (done.filter (fun s => (D.findAttribute s.pName).isNone)).map
                (fun t => t.pName.map toupper) := by
        have := congrArg (List.map (fun (n : List Nat) => n.map toupper)) hN
        simpa [List.map_map, Function.comp_def] using this
      have hiff : o.findAttribute s.pName = none ↔ D.findAttribute s.pName = none := by
        rw [findAttribute_none_iff, findAttribute_none_iff, hU, List.mem_append]
        constructor
        · intro hn hm
          exact hn (Or.inl hm)
        · intro hn hm
          rcases hm with hm | hm
          · exact hn hm
          · obtain ⟨s', hs', heq⟩ := List.mem_map.mp hm
            exact hnew s' (List.mem_filter.mp hs').1 heq
      have hinv1 :
          o1.attributeList.map (fun t => t.pName)
            = D.attributeList.map (fun t => t.pName)
              ++ ((done ++ [s]).filter (fun s => (D.findAttribute s.pName).isNone)).map
                  (fun t => t.pName) ∧
          (∀ (j : Nat) (t : NDAttribute), D.attributeList[j]? = some t →
            (∀ s' ∈ done ++ [s], epicsStrCaseEq s'.pName t.pName = false) →
            o1.attributeList[j]? = some t) ∧
          (∀ s' ∈ done ++ [s], ∃ j b', o1.findAttribute s'.pName = some j ∧
            o1.attributeList[j]? = some b' ∧ sameContent s' b') := by
        rcases hcase with ⟨hfind, hil, ⟨t0, ht0, hbn, hmatch⟩, hlist⟩ |
          ⟨hfind, hi, hbn, hlist⟩
        · -- the attribute was found at position `i`
          have hDsome : (D.findAttribute s.pName).isNone = false := by
            cases hD : D.findAttribute s.pName with
            | none => rw [hiff.mpr hD] at hfind; simp at hfind
            | some _ => rfl
          have hU1 : o1.attributeList.map (fun t => t.pName.map toupper)
              = o.attributeList.map (fun t => t.pName.map toupper) := by
            rw [hlist]
            exact map_set_same _ ht0 (by simp only [hbn])
          have hfind1 : ∀ name, o1.findAttribute name = o.findAttribute name := by
            intro name
            rw [findAttribute_eq, findAttribute_eq, hU1]
          refine ⟨?_, ?_, ?_⟩
          · rw [hlist, map_set_same _ ht0 hbn, hN, List.filter_append]
            simp [List.filter_cons, hDsome]
          · intro j t hj hno
            have hoj := hF j t hj (fun s' hs' => hno s' (List.mem_append_left _ hs'))
            have hne : i ≠ j := by
              intro hij
              subst hij
              rw [ht0] at hoj
              simp only [Option.some.injEq] at hoj
              subst hoj
              have h1 := hno s (List.mem_append_right _ (List.mem_singleton.mpr rfl))
              have h2 := (epicsStrCaseEq_iff _ _).mp hmatch
              have h3 : epicsStrCaseEq s.pName t0.pName = true :=
                (epicsStrCaseEq_iff _ _).mpr h2.symm
              rw [h1] at h3
              exact Bool.false_ne_true h3
            rw [hlist, List.getElem?_set_ne hne]
            exact hoj
          · intro s' hs'
            rcases List.mem_append.mp hs' with hs' | hs'
            · obtain ⟨j, b', hj1, hj2, hj3⟩ := hI s' hs'
              refine ⟨j, b', by rw [hfind1]; exact hj1, ?_, hj3⟩
              have hne : i ≠ j := by
                intro hij
                subst hij
                obtain ⟨t, ht, hm', -⟩ := findAttribute_some hj1
                rw [ht0] at ht
                simp only [Option.some.injEq] at ht
                subst ht
                have h2 := (epicsStrCaseEq_iff _ _).mp hmatch
                have h3 := (epicsStrCaseEq_iff _ _).mp hm'
                exact hnew s' hs' (h3.symm.trans h2)
              rw [hlist, List.getElem?_set_ne hne]
              exact hj2
            · rw [List.mem_singleton.mp hs']
              refine ⟨i, b, by rw [hfind1]; exact hfind, ?_, hb⟩
              rw [hlist]
              exact List.getElem?_set_self hil
        · -- the attribute is new and was appended
          have hDnone : (D.findAttribute s.pName).isNone = true := by
            rw [hiff.mp hfind]; rfl
          refine ⟨?_, ?_, ?_⟩
          · rw [hlist, List.map_append, hN, List.filter_append, List.map_append,
              List.append_assoc]
            simp [List.filter_cons, hDnone, hbn]
          · intro j t hj hno
            have hoj := hF j t hj (fun s' hs' => hno s' (List.mem_append_left _ hs'))
            rw [hlist, List.getElem?_append_left (List.getElem?_eq_some_iff.mp hoj).1]
            exact hoj
          · intro s' hs'
            rcases List.mem_append.mp hs' with hs' | hs'
            · obtain ⟨j, b', hj1, hj2, hj3⟩ := hI s' hs'
              refine ⟨j, b', ?_, ?_, hj3⟩
              · unfold NDArray.findAttribute at hj1 ⊢
                rw [hlist, List.findIdx?_append, hj1]
                rfl
              · rw [hlist, List.getElem?_append_left (List.getElem?_eq_some_iff.mp hj2).1]
                exact hj2
            · rw [List.mem_singleton.mp hs']
              refine ⟨i, b, ?_, ?_, hb⟩
              · unfold NDArray.findAttribute at hfind ⊢
                rw [hlist, List.findIdx?_append, hfind, hi]
                simp [List.findIdx?_cons, hbn, epicsStrCaseEq]
              · rw [hlist, hi]
                exact List.getElem?_concat_length _ _
      have := ih (done ++ [s]) o1 o' hinv1.1 hinv1.2.1 hinv1.2.2 (by simpa using hnd)
        (fun x hx => hstr x (List.mem_cons_of_mem s hx))
        (fun x hx => hhas x (List.mem_cons_of_mem s hx)) h
      simpa using this

/-- What `copyAttributes` does to a destination `D` that has attributes, when the call
has defined behaviour (no source attribute without description meets a destination
attribute with one), the names of the source are distinct and its attributes of the
string kind hold a string: the names of `D'` are those of `D` followed by those of the
source attributes that were not found in `D`, in the order of the source; an attribute of
`D` whose name matches no source attribute is at its position, unchanged; and every
source attribute is found in `D'` with the description, the kind and the value of the
source. -/
theorem copyAttributes_appends (S D D' : NDArray)
    (hnd : (S.attributeList.map (fun t => t.pName.map toupper)).Nodup)
    (hstr : ∀ t ∈ S.attributeList, ∀ x, t.pString = some x → 0 ∉ x)
    (hhas : ∀ t ∈ S.attributeList,
      t.dataType = NDAttrDataType.NDAttrString → t.pString ≠ none)
    (h : S.copyAttributes D = some D') :
    D' = { D with attributeList := D'.attributeList } ∧
    D'.attributeList.map (fun t => t.pName)
      = D.attributeList.map (fun t => t.pName)
        ++ (S.attributeList.filter (fun s => (D.findAttribute s.pName).isNone)).map
            (fun t => t.pName) ∧
    (∀ (i : Nat) (t : NDAttribute), D.attributeList[i]? = some t →
      (∀ s ∈ S.attributeList, epicsStrCaseEq s.pName t.pName = false) →
      D'.attributeList[i]? = some t) ∧
    (∀ s ∈ S.attributeList, ∃ i b, D'.findAttribute s.pName = some i ∧
      D'.attributeList[i]? = some b ∧ sameContent s b) := by
  refine ⟨copyAttributes_fields h, ?_⟩
  have := copyAttributes_appends_loop D S.attributeList [] D D' (by simp)
    (fun i t hi _ => hi) (fun s hs => by simp at hs) (by simpa using hnd) hstr hhas h
  simpa using this

/-- The attributes of `demoNamed` ("Bar" = 1, "foo" = 2) copied to `demoDest`
("Foo" = 5, "Gain" = 3): "Foo" keeps its name and position and has the value 2, "Gain" is
unchanged, "Bar" is appended. -/
theorem copyAttributes_appends_example :
    demoNamed.copyAttributes demoDest = some demoDestCopied ∧
    demoDestCopied.attributeList.map
        (fun t => (t.pName, t.getValue NDAttrDataType.NDAttrInt32 0))
      = [(fooMixed, (NDStatus.ND_SUCCESS, [2, 0, 0, 0])),
         (gainName, (NDStatus.ND_SUCCESS, [3, 0, 0, 0])),
         (barName, (NDStatus.ND_SUCCESS, [1, 0, 0, 0]))] ∧
    demoDestCopied.attributeList.map (fun t => t.pName)
      = demoDest.attributeList.map (fun t => t.pName)
        ++ (demoNamed.attributeList.filter
            (fun s => (demoDest.findAttribute s.pName).isNone)).map (fun t => t.pName) :=
  ⟨by decide, by decide,
   (copyAttributes_appends demoNamed demoDest demoDestCopied (by decide) (by decide)
    (by decide) (by decide)).2.1⟩

/-- C31 (evaluation of the code). The array `demoDescribed` has the attribute "Gain" with
the description "Bar"; the array `demoPlain` has the attribute "Gain" without description.
`demoPlain.copyAttributes(demoDescribed)` finds "Gain" in the destination and calls
`setDescription(NULL)` on it, which hands `NULL` to `strcmp` because a description is
stored: the call has no defined behaviour.  In the other direction the description is
copied: `demoDescribed.copyAttributes(demoPlain)` leaves "Gain" in `demoPlain` with the
description "Bar" and the value 3.  What the calls with defined behaviour do is stated by
`copyAttributes_appends`. -/
theorem copyAttributes_null_description :
    demoDescribed.attributeList.map (fun t => (t.pName, t.pDescription, t.dataType))
        = [(gainName, some barName, NDAttrDataType.NDAttrInt32)]
      ∧ demoPlain.attributeList.map (fun t => (t.pName, t.pDescription, t.dataType))
        = [(gainName, none, NDAttrDataType.NDAttrInt32)]
      ∧ (demoPlain.copyAttributes demoDescribed).isNone = true
      ∧ (demoDescribed.attributeList.map
          (fun t => (t.setDescription none).isNone)) = [true]
      ∧ (demoDescribed.copyAttributes demoPlain).map
          (fun o => o.attributeList.map
            (fun t => (t.pName, t.pDescription, t.getValue NDAttrDataType.NDAttrInt32 0)))
        = some [(gainName, some barName, (NDStatus.ND_SUCCESS, [3, 0, 0, 0]))] := by
  refine ⟨by decide, by decide, by decide, by decide, by decide⟩

/-! ## Two threads on one pool -/

theorem alloc_pool_self {w w' : World} {ndims : Int} {dims : List Int}
    {dataType : NDDataType} {dataSize : Int} {pData : Option (List Nat)} {r : Option Nat}
    (h : NDArrayPool.alloc w ndims dims dataType dataSize pData = some (w', r)) :
    w'.pool.self = w.pool.self := by
  rcases alloc_cases h with ⟨hf, -⟩ | ⟨w1, p, a0, info, hf, -, -, -, hcase⟩
  · exact allocFind_self hf
  · have hself : w1.pool.self = w.pool.self := allocFind_self hf
    rcases hcase with ⟨-, -, rfl⟩ | ⟨-, hb⟩
    · exact hself
    · rw [(allocBuffer_buffers hb).2.2.2]; exact hself

/-- The heap after a call of `alloc`: untouched when no array could be selected;
otherwise the selected array, the head of the free list or a newly constructed array at
the end of the heap, is replaced, keeping its reference count when no array is returned
and having reference count 1 and this pool as owner when it is returned. -/
theorem alloc_arrays {w w' : World} {ndims : Int} {dims : List Int}
    {dataType : NDDataType} {dataSize : Int} {pData : Option (List Nat)} {r : Option Nat}
    (h : NDArrayPool.alloc w ndims dims dataType dataSize pData = some (w', r)) :
    (r = none ∧ w'.arrays = w.arrays) ∨
    ∃ (p : Nat) (a0 a1 : NDArray) (base : List NDArray),
      base[p]? = some a0 ∧ w'.arrays = base.set p a1 ∧
      ((w.pool.freeList.head? = some p ∧ base = w.arrays) ∨
        (p = w.arrays.length ∧ base = w.arrays ++ [NDArray.new])) ∧
      ((r = none ∧ a1.referenceCount = a0.referenceCount) ∨
        (r = some p ∧ a1.referenceCount = 1 ∧ a1.owner = some w.pool.self)) := by
  rcases alloc_cases h with ⟨hf, hr⟩ | ⟨w1, p, a0, info, hf, ha0, -, -, hcase⟩
  · left
    rw [(allocFind_none hf).1]
    exact ⟨hr, rfl⟩
  · right
    have hself : w1.pool.self = w.pool.self := allocFind_self hf
    have hbase : (w.pool.freeList.head? = some p ∧ w1.arrays = w.arrays) ∨
        (p = w.arrays.length ∧ w1.arrays = w.arrays ++ [NDArray.new]) := by
      rcases allocFind_some hf with ⟨h1, rfl⟩ | ⟨-, -, h3, rfl⟩
      · exact Or.inl ⟨h1, rfl⟩
      · exact Or.inr ⟨h3, rfl⟩
    have hb2 : ∀ base, w1.arrays = base →
        ((w.pool.freeList.head? = some p ∧ w1.arrays = w.arrays) ∨
          (p = w.arrays.length ∧ w1.arrays = w.arrays ++ [NDArray.new])) →
        ((w.pool.freeList.head? = some p ∧ base = w.arrays) ∨
          (p = w.arrays.length ∧ base = w.arrays ++ [NDArray.new])) := by
      intro base hb hx
      rw [← hb]; exact hx
    rcases hcase with ⟨-, hr, rfl⟩ | ⟨-, hb⟩
    · exact ⟨p, a0, _, w1.arrays, ha0, rfl, hb2 _ rfl hbase, Or.inl ⟨hr, rfl⟩⟩
    · rcases allocBuffer_cases hb with ⟨buf, -, hr, rfl⟩ | ⟨-, -, -, hr, rfl⟩ |
        ⟨-, -, -, hr, rfl⟩ | ⟨-, -, hr, rfl⟩
      · exact ⟨p, a0, _, w1.arrays, ha0, rfl, hb2 _ rfl hbase,
          Or.inr ⟨hr, rfl, by simp only [allocInit, hself]⟩⟩
      · exact ⟨p, a0, _, w1.arrays, ha0, rfl, hb2 _ rfl hbase, Or.inl ⟨hr, rfl⟩⟩
      · exact ⟨p, a0, _, w1.arrays, ha0, rfl, hb2 _ rfl hbase,
          Or.inr ⟨hr, rfl, by simp only [allocInit, hself]⟩⟩
      · exact ⟨p, a0, _, w1.arrays, ha0, rfl, hb2 _ rfl hbase,
          Or.inr ⟨hr, rfl, by simp only [allocInit, hself]⟩⟩

theorem alloc_total {w : World} (req : AllocRequest) (hv : req.valid = true)
    (hl : ListInv w) :
    ∃ w' r, NDArrayPool.alloc w req.ndims req.dims req.dataType req.dataSize req.pData
      = some (w', r) := by
  simp only [AllocRequest.valid, Bool.and_eq_true, decide_eq_true_eq,
    Option.isSome_iff_exists] at hv
  obtain ⟨⟨⟨⟨bpe, hbpe⟩, hmax⟩, hlen⟩, -⟩ := hv
  have hmin : min req.ndims.toNat ND_ARRAY_MAX_DIMS ≤ req.dims.length := by omega
  unfold NDArrayPool.alloc
  cases hfind : allocFind w with
  | mk w1 r =>
    cases r with
    | none => exact ⟨_, _, rfl⟩
    | some p =>
      have hinv1 : ListInvOn w1.arrays w1.pool.freeList := allocFind_listInv hfind hl
      obtain ⟨a0, ha0, -⟩ := hinv1.2.1 p (allocFind_mem hfind)
      have hinfo := getInfo_allocInit w1.pool.self a0 req.ndims req.dims req.dataType bpe
        hbpe hmax hlen
      simp only [ha0, hmin, if_true, hinfo]
      split
      · exact ⟨_, _, rfl⟩
      · exact ⟨_, _, rfl⟩

theorem release_arrays {w w' : World} {p : Nat} {st : NDStatus} {x0 : NDArray}
    (h : NDArrayPool.release w p = some (w', st)) (hx : w.arrays[p]? = some x0)
    (hown : x0.owner = some w.pool.self) :
    w'.arrays = w.arrays.set p { x0 with referenceCount := x0.referenceCount - 1 } := by
  unfold NDArrayPool.release at h
  simp only [hx] at h
  split at h
  · rename_i hne
    exact absurd hown hne
  · split at h
    · simp only [Option.some.injEq, Prod.mk.injEq] at h
      rw [← h.1]
    · simp only [Option.some.injEq, Prod.mk.injEq] at h
      rw [← h.1]

theorem thread_step_total {w : World} {x : Thread} (hl : ListInv w) (hX : HeldOk w x)
    (hv : ∀ r ∈ x.todo, r.valid = true) : ∃ w1 x1, x.step w = some (w1, x1) := by
  unfold Thread.step
  cases hh : x.held with
  | some p =>
    obtain ⟨x0, hx0, -, -⟩ := hX p hh
    have : ∃ r, NDArrayPool.release w p = some r := by
      unfold NDArrayPool.release
      simp only [hx0]
      split
      · exact ⟨_, rfl⟩
      · split
        · exact ⟨_, rfl⟩
        · exact ⟨_, rfl⟩
    obtain ⟨r, hr⟩ := this
    exact ⟨r.1, { x with held := none }, by simp only [hr, Option.map_some']⟩
  | none =>
    cases ht : x.todo with
    | nil => exact ⟨_, _, rfl⟩
    | cons req rest =>
      obtain ⟨w', r, ha⟩ :=
        alloc_total req (hv req (by rw [ht]; exact List.mem_cons_self _ _)) hl
      exact ⟨w', { held := r, todo := rest }, by simp only [ha, Option.map_some']⟩

/-- One call of a thread keeps the invariant of the run, seen from that thread `x` and the
other thread `y`, and uses up one of the calls the thread has left. -/
theorem thread_step_inv {M : Int} {w w1 : World} {x x1 y : Thread}
    (hL : ListInv w) (hC : CountInv w) (hmb : w.pool.maxBuffers = M) (hpos : 0 < M)
    (hnb : w.pool.numBuffers ≤ M) (hX : HeldOk w x) (hY : HeldOk w y)
    (h3 : ∀ (p : Nat) (z : NDArray), w.arrays[p]? = some z →
      z.referenceCount = 0 ∨ x.held = some p ∨ y.held = some p)
    (h4 : ∀ p, x.held = some p → y.held ≠ some p)
    (hstep : x.step w = some (w1, x1)) :
    ListInv w1 ∧ CountInv w1 ∧ w1.pool.maxBuffers = M ∧ w1.pool.numBuffers ≤ M ∧
      (∀ r ∈ x1.todo, r ∈ x.todo) ∧ HeldOk w1 x1 ∧ HeldOk w1 y ∧
      (∀ (p : Nat) (z : NDArray), w1.arrays[p]? = some z →
        z.referenceCount = 0 ∨ x1.held = some p ∨ y.held = some p) ∧
      (∀ p, x1.held = some p → y.held ≠ some p) ∧
      x1.callsLeft ≤ x.callsLeft - 1 := by
  unfold Thread.step at hstep
  cases hh : x.held with
  | some p =>
    simp only [hh, Option.map_eq_some', Prod.mk.injEq] at hstep
    obtain ⟨⟨w2, st⟩, hrel, rfl, rfl⟩ := hstep
    obtain ⟨x0, hx0, hrc, hown⟩ := hX p hh
    have hplt : p < w.arrays.length := (List.getElem?_eq_some_iff.mp hx0).1
    have huse : inUse w p = true := by
      unfold inUse
      simp only [hx0, decide_eq_true_eq]
      omega
    have harr := release_arrays hrel hx0 hown
    obtain ⟨hb1, hb2, -, -, hself⟩ := release_buffers hrel
    refine ⟨release_listInv hrel huse hL, release_countInv hrel hC, by rw [hb2]; exact hmb,
      by rw [hb1]; exact hnb, fun r hr => hr, ?_, ?_, ?_, ?_, ?_⟩
    · intro q hq
      simp at hq
    · intro q hq
      obtain ⟨yq, hyq, hyrc, hyown⟩ := hY q hq
      have hne : p ≠ q := by
        intro hpq
        subst hpq
        exact h4 p hh hq
      refine ⟨yq, ?_, hyrc, by rw [hself]; exact hyown⟩
      rw [harr, List.getElem?_set_ne hne]
      exact hyq
    · intro q z hz
      by_cases hqp : q = p
      · subst hqp
        rw [harr, List.getElem?_set_self hplt] at hz
        simp only [Option.some.injEq] at hz
        left
        rw [← hz]
        simp only
        omega
      · rw [harr, List.getElem?_set_ne (Ne.symm hqp)] at hz
        rcases h3 q z hz with h | h | h
        · exact Or.inl h
        · rw [hh] at h
          simp only [Option.some.injEq] at h
          exact absurd h.symm hqp
        · exact Or.inr (Or.inr h)
    · intro q hq
      simp at hq
    · simp only [Thread.callsLeft, hh, Option.isSome_some, if_true, Option.isSome_none,
        Bool.false_eq_true, if_false]
      omega
  | none =>
    simp only [hh] at hstep
    have h3n : ∀ (p : Nat) (z : NDArray), w.arrays[p]? = some z →
        z.referenceCount = 0 ∨ y.held = some p := by
      intro p z hz
      rcases h3 p z hz with h | h | h
      · exact Or.inl h
      · rw [hh] at h; simp at h
      · exact Or.inr h
    cases ht : x.todo with
    | nil =>
      simp only [ht, Option.some.injEq, Prod.mk.injEq] at hstep
      obtain ⟨rfl, rfl⟩ := hstep
      refine ⟨hL, hC, hmb, hnb, fun r hr => by rw [ht] at hr; exact hr, hX, hY, h3, h4, ?_⟩
      simp only [Thread.callsLeft, ht, hh]
      simp
    | cons req rest =>
      simp only [ht, Option.map_eq_some', Prod.mk.injEq] at hstep
      obtain ⟨⟨w2, r⟩, hal, rfl, rfl⟩ := hstep
      have hself := alloc_pool_self hal
      obtain ⟨hmb2, hnum⟩ := alloc_buffers hal
      have hnb2 : w2.pool.numBuffers ≤ M := by
        rcases hnum with h | ⟨h, hcap⟩
        · rw [h]; exact hnb
        · rw [h]
          have : ¬ w.pool.numBuffers ≥ w.pool.maxBuffers := by
            intro hge
            exact hcap ⟨by rw [hmb]; exact hpos, hge⟩
          omega
      have hcalls : (Thread.mk r rest).callsLeft ≤ x.callsLeft - 1 := by
        simp only [Thread.callsLeft, ht, hh, List.length_cons]
        split <;> simp <;> omega
      refine ⟨alloc_listInv hal hL, alloc_countInv hal hC, by rw [hmb2]; exact hmb, hnb2,
        fun q hq => List.mem_cons_of_mem _ hq, ?_, ?_, ?_, ?_, hcalls⟩
      all_goals rcases alloc_arrays hal with ⟨hr, harr⟩ |
        ⟨p, a0, a1, base, hb0, harr, hbase, hres⟩
      · intro q hq
        rw [hr] at hq
        simp at hq
      · -- the held array of the thread that called `alloc`
        have hplt : p < base.length := (List.getElem?_eq_some_iff.mp hb0).1
        intro q hq
        rcases hres with ⟨hr, -⟩ | ⟨hr, hrc, hown⟩
        · rw [hr] at hq
          simp at hq
        · rw [hr] at hq
          simp only [Option.some.injEq] at hq
          subst hq
          refine ⟨a1, ?_, hrc, by rw [hself]; exact hown⟩
          rw [harr]
          exact List.getElem?_set_self hplt
      · intro q hq
        obtain ⟨yq, hyq, hyrc, hyown⟩ := hY q hq
        exact ⟨yq, by rw [harr]; exact hyq, hyrc, by rw [hself]; exact hyown⟩
      · -- the held array of the other thread
        intro q hq
        obtain ⟨yq, hyq, hyrc, hyown⟩ := hY q hq
        have hqlt : q < w.arrays.length := (List.getElem?_eq_some_iff.mp hyq).1
        have hne : p ≠ q := by
          intro hpq
          subst hpq
          rcases hbase with ⟨hhead, hb⟩ | ⟨hp, -⟩
          · obtain ⟨a, ha, harc⟩ := hL.2.1 p (List.mem_of_mem_head? hhead)
            rw [hyq] at ha
            simp only [Option.some.injEq] at ha
            rw [← ha] at harc
            omega
          · omega
        refine ⟨yq, ?_, hyrc, by rw [hself]; exact hyown⟩
        rw [harr, List.getElem?_set_ne hne]
        rcases hbase with ⟨-, hb⟩ | ⟨-, hb⟩
        · rw [hb]; exact hyq
        · rw [hb, List.getElem?_append_left hqlt]; exact hyq
      · intro q z hz
        rw [harr] at hz
        rcases h3n q z hz with h | h
        · exact Or.inl h
        · exact Or.inr (Or.inr h)
      · intro q z hz
        have hplt : p < base.length := (List.getElem?_eq_some_iff.mp hb0).1
        have ha0rc : a0.referenceCount = 0 := by
          rcases hbase with ⟨hhead, hb⟩ | ⟨hp, hb⟩
          · obtain ⟨a, ha, harc⟩ := hL.2.1 p (List.mem_of_mem_head? hhead)
            rw [hb, ha] at hb0
            simp only [Option.some.injEq] at hb0
            rw [← hb0]; exact harc
          · rw [hb, hp, List.getElem?_concat_length] at hb0
            simp only [Option.some.injEq] at hb0
            rw [← hb0]; rfl
        by_cases hqp : q = p
        · subst hqp
          rw [harr, List.getElem?_set_self hplt] at hz
          simp only [Option.some.injEq] at hz
          subst hz
          rcases hres with ⟨-, hrc⟩ | ⟨hr, -, -⟩
          · left; rw [hrc]; exact ha0rc
          · right; left; exact hr
        · rw [harr, List.getElem?_set_ne (Ne.symm hqp)] at hz
          rcases hbase with ⟨-, hb⟩ | ⟨hp, hb⟩
          · rw [hb] at hz
            rcases h3n q z hz with h | h
            · exact Or.inl h
            · exact Or.inr (Or.inr h)
          · rw [hb] at hz
            have hqlt : q < w.arrays.length := by
              have := (List.getElem?_eq_some_iff.mp hz).1
              simp only [List.length_append, List.length_singleton] at this
              omega
            rw [List.getElem?_append_left hqlt] at hz
            rcases h3n q z hz with h | h
            · exact Or.inl h
            · exact Or.inr (Or.inr h)
      · intro q hq
        rw [hr] at hq
        simp at hq
      · intro q hq hyq
        obtain ⟨yq, hyq1, hyrc, -⟩ := hY q hyq
        have hqlt : q < w.arrays.length := (List.getElem?_eq_some_iff.mp hyq1).1
        rcases hres with ⟨hr, -⟩ | ⟨hr, -, -⟩
        · rw [hr] at hq
          simp at hq
        · rw [hr] at hq
          simp only [Option.some.injEq] at hq
          subst hq
          rcases hbase with ⟨hhead, hb⟩ | ⟨hp, -⟩
          · obtain ⟨a, ha, harc⟩ := hL.2.1 p (List.mem_of_mem_head? hhead)
            rw [hyq1] at ha
            simp only [Option.some.injEq] at ha
            rw [← ha] at harc
            omega
          · omega

/-- Every schedule of two threads runs to its end, keeps the invariant, and uses up the
calls of the threads it schedules. -/
theorem runThreads_inv {M : Int} (hpos : 0 < M) :
    ∀ (sched : List Bool) (w : World) (a b : Thread), ThreadsInv M w a b →
      ∃ w' a' b', runThreads w a b sched = some (w', a', b') ∧ ThreadsInv M w' a' b' ∧
        a'.callsLeft ≤ a.callsLeft - sched.count false ∧
        b'.callsLeft ≤ b.callsLeft - sched.count true := by
  intro sched
  induction sched with
  | nil =>
    intro w a b hinv
    exact ⟨w, a, b, rfl, hinv, by simp, by simp⟩
  | cons t s ih =>
    intro w a b hinv
    obtain ⟨hL, hC, hmb, hnb, hva, hvb, hA, hB, h3, h4⟩ := hinv
    cases t with
    | false =>
      obtain ⟨w1, a1, hstep⟩ := thread_step_total hL hA hva
      obtain ⟨hL1, hC1, hmb1, hnb1, htodo, hA1, hB1, h31, h41, hcalls⟩ :=
        thread_step_inv hL hC hmb hpos hnb hA hB h3 h4 hstep
      obtain ⟨w', a', b', hrun, hinv', hca, hcb⟩ := ih w1 a1 b
        ⟨hL1, hC1, hmb1, hnb1, fun r hr => hva r (htodo r hr), hvb, hA1, hB1, h31, h41⟩
      refine ⟨w', a', b', ?_, hinv', ?_, ?_⟩
      · simp only [runThreads, hstep]
        exact hrun
      · simp only [List.count_cons_self]
        omega
      · simp only [List.count_cons, beq_iff_eq, Bool.false_eq_true, if_false, Nat.add_zero]
        exact hcb
    | true =>
      obtain ⟨w1, b1, hstep⟩ := thread_step_total hL hB hvb
      obtain ⟨hL1, hC1, hmb1, hnb1, htodo, hB1, hA1, h31, h41, hcalls⟩ :=
        thread_step_inv hL hC hmb hpos hnb hB hA
          (fun p z hz => by
            rcases h3 p z hz with h | h | h
            · exact Or.inl h
            · exact Or.inr (Or.inr h)
            · exact Or.inr (Or.inl h))
          (fun p hb ha => h4 p ha hb) hstep
      obtain ⟨w', a', b', hrun, hinv', hca, hcb⟩ := ih w1 a b1
        ⟨hL1, hC1, hmb1, hnb1, hva, fun r hr => hvb r (htodo r hr), hA1, hB1,
          (fun p z hz => by
            rcases h31 p z hz with h | h | h
            · exact Or.inl h
            · exact Or.inr (Or.inr h)
            · exact Or.inr (Or.inl h)),
          (fun p ha hb => h41 p hb ha)⟩
      refine ⟨w', a', b', ?_, hinv', ?_, ?_⟩
      · simp only [runThreads, hstep]
        exact hrun
      · simp only [List.count_cons, beq_iff_eq, Bool.true_eq_false, if_false, Nat.add_zero]
        exact hca
      · simp only [List.count_cons_self]
        omega

theorem thread_finished_of_callsLeft {t : Thread} (h : t.callsLeft = 0) :
    t.finished = true := by
  unfold Thread.callsLeft at h
  unfold Thread.finished
  cases hh : t.held with
  | some p => simp [hh] at h
  | none =>
    cases ht : t.todo with
    | nil => rfl
    | cons r rest => simp [ht] at h

/-- C32. Two threads run the loop `pArray = alloc(...); if (pArray) release(pArray);`
on one new pool with `maxBuffers = M > 0` (8 in the claim), each with its own list of
requests; `alloc` and `release` hold the mutex of the pool for their whole body, so a
concurrent execution is an interleaving of whole calls, given by a schedule.  For every
schedule the run has defined behaviour, and in the state it reaches (so in every state a
thread can observe, every prefix of a schedule being a schedule) `numBuffers ≤ M` and
`numBuffers` is the number of arrays the pool has constructed; once both threads have left
their loops, no array is twice on the free list and the arrays on the free list are
exactly the arrays the pool has constructed; and a thread has left its loop once the
schedule has given it two calls for each of its iterations. -/
theorem threads_within_maxBuffers (self : Nat) (maxMemory : Nat) (M : Int) (hM : 0 < M)
    (reqsA reqsB : List AllocRequest)
    (hA : ∀ r ∈ reqsA, r.valid = true) (hB : ∀ r ∈ reqsB, r.valid = true)
    (sched : List Bool) :
    ∃ w a b,
      runThreads (World.init self M maxMemory) { held := none, todo := reqsA }
        { held := none, todo := reqsB } sched = some (w, a, b) ∧
      w.pool.numBuffers ≤ M ∧ w.pool.numBuffers = (w.arrays.length : Int) ∧
      (a.finished = true → b.finished = true →
        w.pool.freeList.Nodup ∧ (∀ p, p ∈ w.pool.freeList ↔ p < w.arrays.length) ∧
          w.pool.numFree = w.pool.numBuffers) ∧
      (2 * reqsA.length ≤ sched.count false → a.finished = true) ∧
      (2 * reqsB.length ≤ sched.count true → b.finished = true) := by
  have h0 : ThreadsInv M (World.init self M maxMemory) { held := none, todo := reqsA }
      { held := none, todo := reqsB } := by
    refine ⟨listInv_init self M maxMemory, by simp [CountInv, World.init, NDArrayPool.new],
      rfl, ?_, hA, hB, ?_, ?_, ?_, ?_⟩
    · simp only [World.init, NDArrayPool.new]
      omega
    · intro p hp
      simp at hp
    · intro p hp
      simp at hp
    · intro p x hx
      simp [World.init] at hx
    · intro p hp
      simp at hp
  obtain ⟨w, a, b, hrun, hinv, hca, hcb⟩ := runThreads_inv hM sched _ _ _ h0
  obtain ⟨hL, hC, -, hnb, -, -, -, -, h3, -⟩ := hinv
  refine ⟨w, a, b, hrun, hnb, hC.2, ?_, ?_, ?_⟩
  · intro hfa hfb
    have han : a.held = none := by
      simp only [Thread.finished, Bool.and_eq_true, Option.isNone_iff_eq_none] at hfa
      exact hfa.1
    have hbn : b.held = none := by
      simp only [Thread.finished, Bool.and_eq_true, Option.isNone_iff_eq_none] at hfb
      exact hfb.1
    refine ⟨hL.1, ?_, ?_⟩
    · intro p
      constructor
      · intro hp
        obtain ⟨x, hx, -⟩ := hL.2.1 p hp
        exact (List.getElem?_eq_some_iff.mp hx).1
      · intro hp
        have hx : w.arrays[p]? = some (w.arrays.get ⟨p, hp⟩) := by
          simp [List.getElem?_eq_getElem hp]
        rcases h3 p _ hx with h | h | h
        · exact hL.2.2 p _ hx h
        · rw [han] at h; simp at h
        · rw [hbn] at h; simp at h
    · have hlen : w.pool.freeList.length = w.arrays.length := by
        apply Nat.le_antisymm
        · apply nodup_indices_length w.arrays w.pool.freeList hL.1
          intro p hp
          obtain ⟨x, hx, -⟩ := hL.2.1 p hp
          exact (List.getElem?_eq_some_iff.mp hx).1
        · have hsub : List.range w.arrays.length ⊆ w.pool.freeList := by
            intro p hp
            have hplt : p < w.arrays.length := List.mem_range.mp hp
            have hx : w.arrays[p]? = some (w.arrays.get ⟨p, hplt⟩) := by
              simp [List.getElem?_eq_getElem hplt]
            rcases h3 p _ hx with h | h | h
            · exact hL.2.2 p _ hx h
            · rw [han] at h; simp at h
            · rw [hbn] at h; simp at h
          have := (List.subperm_of_subset (List.nodup_range _) hsub).length_le
          simpa using this
      rw [hC.1, hC.2, hlen]
  · intro hcount
    apply thread_finished_of_callsLeft
    have hk : ({ held := none, todo := reqsA } : Thread).callsLeft = 2 * reqsA.length := by
      simp [Thread.callsLeft]
    rw [hk] at hca
    omega
  · intro hcount
    apply thread_finished_of_callsLeft
    have hk : ({ held := none, todo := reqsB } : Thread).callsLeft = 2 * reqsB.length := by
      simp [Thread.callsLeft]
    rw [hk] at hcb
    omega

/-- C32 on a pool with `maxBuffers = 8`: two threads of 3 iterations each under
`demoSchedule`, in which both hold an array at the same time; at the end both have left
their loops, the pool has constructed 2 arrays and both are on the free list. -/
theorem threads_within_maxBuffers_witness :
    (∃ w a b,
      runThreads (World.init 7 8 0)
        { held := none, todo := [demoRequest, demoBigRequest, demoRequest] }
        { held := none, todo := [demoBigRequest, demoRequest, demoRequest] } demoSchedule
        = some (w, a, b) ∧
      w.pool.numBuffers ≤ 8 ∧ w.pool.numBuffers = (w.arrays.length : Int) ∧
      (a.finished = true → b.finished = true →
        w.pool.freeList.Nodup ∧ (∀ p, p ∈ w.pool.freeList ↔ p < w.arrays.length) ∧
          w.pool.numFree = w.pool.numBuffers) ∧
      (2 * [demoRequest, demoBigRequest, demoRequest].length ≤ demoSchedule.count false →
        a.finished = true) ∧
      (2 * [demoBigRequest, demoRequest, demoRequest].length ≤ demoSchedule.count true →
        b.finished = true)) ∧
    runThreads (World.init 7 8 0)
        { held := none, todo := [demoRequest, demoBigRequest, demoRequest] }
        { held := none, todo := [demoBigRequest, demoRequest, demoRequest] } demoSchedule
      = some demoThreadsFinal ∧
    demoThreadsFinal.2.1.finished = true ∧ demoThreadsFinal.2.2.finished = true ∧
    demoThreadsFinal.1.pool.numBuffers = 2 ∧
    demoThreadsFinal.1.pool.freeList.length = 2 :=
  ⟨threads_within_maxBuffers 7 0 8 (by decide)
    [demoRequest, demoBigRequest, demoRequest] [demoBigRequest, demoRequest, demoRequest]
    (by decide) (by decide) demoSchedule, by decide, by decide, by decide, by decide,
    by decide⟩

end ADCore
